import Mathlib

/-! The sprite scene graph of ds_cinder and its diff serialization.

A shallow embedding of `src/src/ds/ui/sprite/sprite.cpp` and of the sprite registry of
`src/src/ds/app/engine/engine.cpp`.

* Sprites live on a heap: a `Sprite*` is an address (`Addr`), `nullptr` is `none`, and the
  heap is a total map from addresses to sprite records.
* `float` values are elements of an exact ordered commutative ring `F` (rounding, NaN and
  infinities are outside the model); `int` bit fields are the natural number of their 32 bit
  pattern; `char` and `sprite_id_t` values are integers.
* Loops and recursion over the heap take a `fuel` argument and return `none` when it runs out;
  reading a buffer returns `none` when the value at the front has another type than the one
  asked for; every other function is total.
-/

set_option autoImplicit false

namespace DsCinder

/-! ## Part 1: definitions -/

/-- Heap address of a sprite object; a nullable `Sprite*` is an `Option Addr`. -/
abbrev Addr := Nat

/-- The identifier type `ds::sprite_id_t`. -/
abbrev sprite_id_t := Int

/-- Modelled from the spec: the constant `ds::EMPTY_SPRITE_ID` is declared outside `src/`; the
spec says "an identifier value of zero ... denotes not yet registered", and `~Sprite` resets the
identifier with `setSpriteId(0)`. -/
def EMPTY_SPRITE_ID : sprite_id_t := 0

/-- Modelled from the spec: the constant `ds::TERMINATOR_CHAR` is declared outside `src/`; the
spec only says that a terminator marker of one byte ends a block. It is the zero byte here,
different from every attribute tag. -/
def TERMINATOR_CHAR : Int := 0

/-- The marker `SPRITE_ID_ATTRIBUTE` (sprite.cpp line 47). -/
def SPRITE_ID_ATTRIBUTE : Int := 1

/-- Attribute tag `PARENT_ATT`. -/
def PARENT_ATT : Int := 2
/-- Attribute tag `SIZE_ATT`. -/
def SIZE_ATT : Int := 3
/-- Attribute tag `FLAGS_ATT`. -/
def FLAGS_ATT : Int := 4
/-- Attribute tag `POSITION_ATT`. -/
def POSITION_ATT : Int := 5
/-- Attribute tag `SCALE_ATT`. -/
def SCALE_ATT : Int := 6
/-- Attribute tag `COLOR_ATT`. -/
def COLOR_ATT : Int := 7
/-- Attribute tag `OPACITY_ATT`. -/
def OPACITY_ATT : Int := 8

/-- Flag bit `VISIBLE_F = (1<<0)`. -/
def VISIBLE_F : Nat := 1
/-- Flag bit `TRANSPARENT_F = (1<<1)`. -/
def TRANSPARENT_F : Nat := 2
/-- Flag bit `ENABLED_F = (1<<2)`. -/
def ENABLED_F : Nat := 4
/-- Flag bit `DRAW_SORTED_F = (1<<3)`. -/
def DRAW_SORTED_F : Nat := 8

/-- The bit pattern of `~bit` for a 32 bit `int`. -/
def complement32 (bit : Nat) : Nat := 4294967295 ^^^ bit

/-- Modelled from the spec: the class `ds::ui::DirtyState` is declared outside `src/`; the spec
describes "a fixed-width set of boolean flags identified by position" with union, membership
test and an "any bit set" query. The set is the natural number `mValue` of its bits. -/
structure DirtyState where
  /-- The bits of the set. -/
  mValue : Nat
deriving DecidableEq

namespace DirtyState

/-- The test `isEmpty()`: no bit is set. -/
def isEmpty (d : DirtyState) : Bool := d.mValue == 0

/-- The test `has(o)`, also written `operator&`: some bit of `o` is set in `d`. -/
def has (d o : DirtyState) : Bool := (d.mValue &&& o.mValue) != 0

/-- The update `operator|=`: union. -/
def or (d o : DirtyState) : DirtyState := ⟨d.mValue ||| o.mValue⟩

/-- The update `clear()`. -/
def clear (_d : DirtyState) : DirtyState := ⟨0⟩

end DirtyState

/-- Modelled from the spec: `newUniqueDirtyState()` is defined outside `src/`; the spec says each
category "owns one globally-unique bit, allocated once at startup and never reused". The nine
calls of sprite.cpp lines 52 to 60 receive the bits 0 to 8 in that order. -/
def ID_DIRTY : DirtyState := ⟨1⟩
/-- Second unique dirty bit, see `ID_DIRTY`. -/
def PARENT_DIRTY : DirtyState := ⟨2⟩
/-- Third unique dirty bit, see `ID_DIRTY`. -/
def CHILD_DIRTY : DirtyState := ⟨4⟩
/-- Fourth unique dirty bit, see `ID_DIRTY`. -/
def FLAGS_DIRTY : DirtyState := ⟨8⟩
/-- Fifth unique dirty bit, see `ID_DIRTY`. -/
def SIZE_DIRTY : DirtyState := ⟨16⟩
/-- Sixth unique dirty bit, see `ID_DIRTY`. -/
def POSITION_DIRTY : DirtyState := ⟨32⟩
/-- Seventh unique dirty bit, see `ID_DIRTY`. -/
def SCALE_DIRTY : DirtyState := ⟨64⟩
/-- Eighth unique dirty bit, see `ID_DIRTY`. -/
def COLOR_DIRTY : DirtyState := ⟨128⟩
/-- Ninth unique dirty bit, see `ID_DIRTY`. -/
def OPACITY_DIRTY : DirtyState := ⟨256⟩

/-- The vector type `ci::Vec3f`. -/
structure Vec3 (F : Type) where
  /-- First coordinate. -/
  x : F
  /-- Second coordinate. -/
  y : F
  /-- Third coordinate. -/
  z : F
deriving DecidableEq

/-- The colour type `ci::Color`. -/
structure Color (F : Type) where
  /-- Red. -/
  r : F
  /-- Green. -/
  g : F
  /-- Blue. -/
  b : F
deriving DecidableEq

/-- The matrix type `ci::Matrix44f`; it acts on column vectors. -/
abbrev Matrix44 (F : Type) := Matrix (Fin 4) (Fin 4) F

/-- One typed value of a `ds::DataBuffer`. -/
inductive Item (F : Type) where
  /-- A `char`. -/
  | char (c : Int)
  /-- A `sprite_id_t`. -/
  | spriteId (i : sprite_id_t)
  /-- An `int`, as its bit pattern. -/
  | int (i : Nat)
  /-- A `float`. -/
  | float (f : F)
deriving DecidableEq

/-- Modelled from the spec: the class `ds::DataBuffer` is declared outside `src/`; the spec
describes "a length-prefixed, typed read/write cursor over a byte buffer". The buffer is the
queue of the typed values written and not yet read: `add` appends at the end, `read<T>` takes
the value at the front. -/
abbrev DataBuffer (F : Type) := List (Item F)

namespace DataBuffer

variable {F : Type}

/-- The call `buf.add(x)`. -/
def add (buf : DataBuffer F) (x : Item F) : DataBuffer F := buf ++ [x]

/-- The test `buf.canRead<char>()`. -/
def canRead (buf : DataBuffer F) : Bool := !buf.isEmpty

/-- The call `buf.read<char>()`; `none` when the front value is no `char`. -/
def readChar : DataBuffer F → Option (Int × DataBuffer F)
  | Item.char c :: rest => some (c, rest)
  | _ => none

/-- The call `buf.read<sprite_id_t>()`. -/
def readSpriteId : DataBuffer F → Option (sprite_id_t × DataBuffer F)
  | Item.spriteId i :: rest => some (i, rest)
  | _ => none

/-- The call `buf.read<int>()`. -/
def readInt : DataBuffer F → Option (Nat × DataBuffer F)
  | Item.int i :: rest => some (i, rest)
  | _ => none

/-- The call `buf.read<float>()`. -/
def readFloat : DataBuffer F → Option (F × DataBuffer F)
  | Item.float f :: rest => some (f, rest)
  | _ => none

end DataBuffer

/-- The fields of `ds::ui::Sprite` that sprite.cpp reads and writes in the functions embedded
below. The inverse matrices, the callbacks and the shader state are left out. -/
structure Sprite (F : Type) where
  /-- Field `mId`. -/
  mId : sprite_id_t
  /-- Field `mBlobType`. -/
  mBlobType : Int
  /-- Field `mParent`. -/
  mParent : Option Addr
  /-- Field `mChildren`, a `std::list<Sprite*>`. -/
  mChildren : List Addr
  /-- Field `mDirty`. -/
  mDirty : DirtyState
  /-- Field `mWidth`. -/
  mWidth : F
  /-- Field `mHeight`. -/
  mHeight : F
  /-- Field `mDepth`. -/
  mDepth : F
  /-- Field `mPosition`. -/
  mPosition : Vec3 F
  /-- Field `mScale`. -/
  mScale : Vec3 F
  /-- Field `mCenter`. -/
  mCenter : Vec3 F
  /-- Field `mRotation`. -/
  mRotation : Vec3 F
  /-- Field `mZLevel`. -/
  mZLevel : F
  /-- Field `mColor`. -/
  mColor : Color F
  /-- Field `mOpacity`. -/
  mOpacity : F
  /-- Field `mSpriteFlags`. -/
  mSpriteFlags : Nat
  /-- Field `mUpdateTransform`. -/
  mUpdateTransform : Bool
  /-- Field `mBoundsNeedChecking`. -/
  mBoundsNeedChecking : Bool
  /-- Field `mCheckBounds`. -/
  mCheckBounds : Bool
  /-- Field `mInBounds`. -/
  mInBounds : Bool
  /-- Field `mMultiTouchEnabled`. -/
  mMultiTouchEnabled : Bool
  /-- Field `mTransformation`. -/
  mTransformation : Matrix44 F
  /-- Field `mGlobalTransform`. -/
  mGlobalTransform : Matrix44 F

/-- The process state: the heap of sprites and the registry `Engine::mSprites`. -/
structure World (F : Type) where
  /-- The heap. -/
  sprites : Addr → Sprite F
  /-- The map `Engine::mSprites` from identifier to sprite, as an association list. -/
  mSprites : List (sprite_id_t × Addr)

/-- Modelled from the spec: the helpers `math::isEqual` and `math::DEGREE2RADIAN` and the cinder
function `Matrix44f::createRotation` are declared outside `src/`; the spec speaks of
"epsilon-aware equality for rotation" and of rotations about the X, Y and Z axes. They are
parameters of the embedding. -/
structure MathEnv (F : Type) where
  /-- The comparison `math::isEqual`. -/
  isEqual : F → F → Bool
  /-- The constant `math::DEGREE2RADIAN`. -/
  DEGREE2RADIAN : F
  /-- The matrix of the rotation about an axis by an angle in radians. -/
  createRotation : Vec3 F → F → Matrix44 F

section Embedding

variable {F : Type} [LinearOrderedCommRing F]

/-- The replacement of the sprite at address `a` by `f` of it. -/
def World.modify (w : World F) (a : Addr) (f : Sprite F → Sprite F) : World F :=
  { w with sprites := Function.update w.sprites a (f (w.sprites a)) }

/-- A sprite object before `Sprite::init` has run: the member initializers of the constructor
(`mId(ds::EMPTY_SPRITE_ID)`) and the default constructors of the members. -/
def Sprite.uninit : Sprite F :=
  { mId := EMPTY_SPRITE_ID, mBlobType := 0, mParent := none, mChildren := [], mDirty := ⟨0⟩,
    mWidth := 0, mHeight := 0, mDepth := 0,
    mPosition := ⟨0, 0, 0⟩, mScale := ⟨0, 0, 0⟩, mCenter := ⟨0, 0, 0⟩, mRotation := ⟨0, 0, 0⟩,
    mZLevel := 0, mColor := ⟨0, 0, 0⟩, mOpacity := 0, mSpriteFlags := 0,
    mUpdateTransform := false, mBoundsNeedChecking := false, mCheckBounds := false,
    mInBounds := false, mMultiTouchEnabled := false, mTransformation := 1,
    mGlobalTransform := 1 }

/-- A process with no sprite registered. -/
def World.empty : World F := { sprites := fun _ => Sprite.uninit, mSprites := [] }

/-! ### The registry (engine.cpp lines 496 to 521) -/

/-- The function `Engine::findSprite`. -/
def findSprite (w : World F) (id : sprite_id_t) : Option Addr :=
  if w.mSprites.isEmpty then none
  else match w.mSprites.find? (fun e => e.1 == id) with
    | none => none
    | some e => some e.2

/-- The function `Engine::registerSprite`: `mSprites[s.getId()] = &s`. -/
def registerSprite (a : Addr) (w : World F) : World F :=
  if (w.sprites a).mId = EMPTY_SPRITE_ID then w
  else { w with mSprites :=
    ((w.sprites a).mId, a) :: w.mSprites.filter (fun e => !(e.1 == (w.sprites a).mId)) }

/-- The function `Engine::unregisterSprite`. -/
def unregisterSprite (a : Addr) (w : World F) : World F :=
  if w.mSprites.isEmpty then w
  else if (w.sprites a).mId = EMPTY_SPRITE_ID then w
  else { w with mSprites := w.mSprites.filter (fun e => !(e.1 == (w.sprites a).mId)) }

/-! ### Dirty marking (sprite.cpp lines 1138 to 1147) -/

/-- The loop of `Sprite::markAsDirty` over the ancestors, started at `p`. -/
def markAsDirtyLoop : Nat → Option Addr → World F → Option (World F)
  | _, none, w => some w
  | 0, some _, _ => none
  | fuel + 1, some p, w =>
    if (w.sprites p).mDirty.has CHILD_DIRTY = true then some w
    else
      let w1 := w.modify p (fun s => { s with mDirty := s.mDirty.or CHILD_DIRTY })
      markAsDirtyLoop fuel (w1.sprites p).mParent w1

/-- The function `Sprite::markAsDirty`. -/
def markAsDirty (fuel : Nat) (a : Addr) (dirty : DirtyState) (w : World F) : Option (World F) :=
  let w1 := w.modify a (fun s => { s with mDirty := s.mDirty.or dirty })
  markAsDirtyLoop fuel (w1.sprites a).mParent w1

/-- The function `Sprite::isDirty`. -/
def isDirty (a : Addr) (w : World F) : Bool := !(w.sprites a).mDirty.isEmpty

/-! ### Attribute setters -/

/-- The function `Sprite::setPosition(const Vec3f&)`. -/
def setPosition (fuel : Nat) (a : Addr) (pos : Vec3 F) (w : World F) : Option (World F) :=
  if (w.sprites a).mPosition = pos then some w
  else
    markAsDirty fuel a POSITION_DIRTY
      (w.modify a (fun s =>
        { s with mPosition := pos, mUpdateTransform := true, mBoundsNeedChecking := true }))

/-- The function `Sprite::setScale(const Vec3f&)`. -/
def setScale (fuel : Nat) (a : Addr) (scale : Vec3 F) (w : World F) : Option (World F) :=
  if (w.sprites a).mScale = scale then some w
  else
    markAsDirty fuel a SCALE_DIRTY
      (w.modify a (fun s =>
        { s with mScale := scale, mUpdateTransform := true, mBoundsNeedChecking := true }))

/-- The function `Sprite::setCenter`, both overloads. -/
def setCenter (a : Addr) (center : Vec3 F) (w : World F) : World F :=
  w.modify a (fun s =>
    { s with mCenter := center, mUpdateTransform := true, mBoundsNeedChecking := true })

/-- The function `Sprite::setRotation(float rotZ)`. -/
def setRotationZ (env : MathEnv F) (a : Addr) (rotZ : F) (w : World F) : World F :=
  if env.isEqual (w.sprites a).mRotation.z rotZ = true then w
  else
    w.modify a (fun s =>
      { s with mRotation := { s.mRotation with z := rotZ },
               mUpdateTransform := true, mBoundsNeedChecking := true })

/-- The function `Sprite::setRotation(const Vec3f&)`. -/
def setRotation (env : MathEnv F) (a : Addr) (rot : Vec3 F) (w : World F) : World F :=
  if (env.isEqual (w.sprites a).mRotation.x rot.x && env.isEqual (w.sprites a).mRotation.y rot.y
      && env.isEqual (w.sprites a).mRotation.z rot.z) = true then w
  else
    w.modify a (fun s =>
      { s with mRotation := rot, mUpdateTransform := true, mBoundsNeedChecking := true })

/-- The function `Sprite::setZLevel`. -/
def setZLevel (a : Addr) (zlevel : F) (w : World F) : World F :=
  w.modify a (fun s => { s with mZLevel := zlevel })

/-- The function `Sprite::move`, both overloads. -/
def move (a : Addr) (delta : Vec3 F) (w : World F) : World F :=
  w.modify a (fun s =>
    { s with mPosition := ⟨s.mPosition.x + delta.x, s.mPosition.y + delta.y,
                           s.mPosition.z + delta.z⟩,
             mUpdateTransform := true, mBoundsNeedChecking := true })

/-- The function `Sprite::setSize(float, float, float)`. -/
def setSize (fuel : Nat) (a : Addr) (width height depth : F) (w : World F) : Option (World F) :=
  if (w.sprites a).mWidth = width ∧ (w.sprites a).mHeight = height
      ∧ (w.sprites a).mDepth = depth then some w
  else
    markAsDirty fuel a SIZE_DIRTY
      (w.modify a (fun s => { s with mWidth := width, mHeight := height, mDepth := depth }))

/-- The function `Sprite::setSize(float, float)`. -/
def setSize2 (fuel : Nat) (a : Addr) (width height : F) (w : World F) : Option (World F) :=
  setSize fuel a width height (w.sprites a).mDepth w

/-- The function `Sprite::setColor`. -/
def setColor (fuel : Nat) (a : Addr) (color : Color F) (w : World F) : Option (World F) :=
  if (w.sprites a).mColor = color then some w
  else markAsDirty fuel a COLOR_DIRTY (w.modify a (fun s => { s with mColor := color }))

/-- The function `Sprite::setOpacity`. -/
def setOpacity (fuel : Nat) (a : Addr) (opacity : F) (w : World F) : Option (World F) :=
  if (w.sprites a).mOpacity = opacity then some w
  else markAsDirty fuel a OPACITY_DIRTY (w.modify a (fun s => { s with mOpacity := opacity }))

/-- The function `Sprite::getFlag`. -/
def getFlag (bit flags : Nat) : Bool := (flags &&& bit) != 0

/-- The function `Sprite::setFlag`, applied to the field `mSpriteFlags`. -/
def setFlag (fuel : Nat) (a : Addr) (newBit : Nat) (isOn : Bool) (dirty : DirtyState)
    (w : World F) : Option (World F) :=
  let oldFlags := (w.sprites a).mSpriteFlags
  let newFlags := if isOn then oldFlags ||| newBit else oldFlags &&& complement32 newBit
  if newFlags = oldFlags then some w
  else markAsDirty fuel a dirty (w.modify a (fun s => { s with mSpriteFlags := newFlags }))

/-- The function `Sprite::setDrawSorted`. -/
def setDrawSorted (fuel : Nat) (a : Addr) (drawSorted : Bool) (w : World F) : Option (World F) :=
  setFlag fuel a DRAW_SORTED_F drawSorted FLAGS_DIRTY w

/-- The function `Sprite::getDrawSorted`. -/
def getDrawSorted (a : Addr) (w : World F) : Bool := getFlag DRAW_SORTED_F (w.sprites a).mSpriteFlags

/-- The function `Sprite::setTransparent`. -/
def setTransparent (fuel : Nat) (a : Addr) (transparent : Bool) (w : World F) :
    Option (World F) :=
  setFlag fuel a TRANSPARENT_F transparent FLAGS_DIRTY w

/-- The function `Sprite::getTransparent`. -/
def getTransparent (a : Addr) (w : World F) : Bool :=
  getFlag TRANSPARENT_F (w.sprites a).mSpriteFlags

/-- The function `Sprite::show` (the name `show` is reserved). -/
def showSprite (fuel : Nat) (a : Addr) (w : World F) : Option (World F) :=
  setFlag fuel a VISIBLE_F true FLAGS_DIRTY w

/-- The function `Sprite::hide`. -/
def hide (fuel : Nat) (a : Addr) (w : World F) : Option (World F) :=
  setFlag fuel a VISIBLE_F false FLAGS_DIRTY w

/-- The function `Sprite::visible`. -/
def visible (a : Addr) (w : World F) : Bool := getFlag VISIBLE_F (w.sprites a).mSpriteFlags

/-- The function `Sprite::enable`. -/
def enable (fuel : Nat) (a : Addr) (flag : Bool) (w : World F) : Option (World F) :=
  setFlag fuel a ENABLED_F flag FLAGS_DIRTY w

/-- The function `Sprite::isEnabled`. -/
def isEnabled (a : Addr) (w : World F) : Bool := getFlag ENABLED_F (w.sprites a).mSpriteFlags

/-! ### The local transform (sprite.cpp lines 476 to 501) -/

/-- The cinder matrix `Matrix44f::createTranslation(v)`. -/
def createTranslation (v : Vec3 F) : Matrix44 F :=
  !![1, 0, 0, v.x; 0, 1, 0, v.y; 0, 0, 1, v.z; 0, 0, 0, 1]

/-- The cinder matrix `Matrix44f::createScale(v)`. -/
def createScale (v : Vec3 F) : Matrix44 F :=
  !![v.x, 0, 0, 0; 0, v.y, 0, 0; 0, 0, v.z, 0; 0, 0, 0, 1]

/-- The matrix that `Sprite::buildTransform` computes from the fields of a sprite: identity,
then `translate`, three times `rotate`, `scale` and `translate`, each of which multiplies the
matrix on the right. -/
def localTransform (env : MathEnv F) (s : Sprite F) : Matrix44 F :=
  (1 : Matrix44 F)
    * createTranslation ⟨s.mPosition.x, s.mPosition.y, s.mPosition.z⟩
    * env.createRotation ⟨1, 0, 0⟩ (s.mRotation.x * env.DEGREE2RADIAN)
    * env.createRotation ⟨0, 1, 0⟩ (s.mRotation.y * env.DEGREE2RADIAN)
    * env.createRotation ⟨0, 0, 1⟩ (s.mRotation.z * env.DEGREE2RADIAN)
    * createScale ⟨s.mScale.x, s.mScale.y, s.mScale.z⟩
    * createTranslation ⟨-s.mCenter.x * s.mWidth, -s.mCenter.y * s.mHeight,
        -s.mCenter.z * s.mDepth⟩

/-- The function `Sprite::buildTransform`. -/
def buildTransform (env : MathEnv F) (a : Addr) (w : World F) : World F :=
  if (w.sprites a).mUpdateTransform = false then w
  else
    w.modify a (fun s =>
      { s with mUpdateTransform := false, mTransformation := localTransform env s })

/-- The function `Sprite::getTransform`: the new state and the matrix returned. -/
def getTransform (env : MathEnv F) (a : Addr) (w : World F) : World F × Matrix44 F :=
  let w1 := buildTransform env a w
  (w1, (w1.sprites a).mTransformation)

/-! ### The global transform (sprite.cpp lines 626 to 650) -/

mutual

/-- The function `Sprite::buildGlobalTransform`. -/
def buildGlobalTransform (env : MathEnv F) : Nat → Addr → World F → Option (World F)
  | 0, _, _ => none
  | fuel + 1, a, w =>
    let w1 := buildTransform env a w
    let w2 := w1.modify a (fun s => { s with mGlobalTransform := s.mTransformation })
    buildGlobalTransformLoop env fuel a (w2.sprites a).mParent w2
  termination_by structural fuel => fuel

/-- The loop of `Sprite::buildGlobalTransform` over the ancestors, at ancestor `parent`. -/
def buildGlobalTransformLoop (env : MathEnv F) :
    Nat → Addr → Option Addr → World F → Option (World F)
  | _, _, none, w => some w
  | 0, _, some _, _ => none
  | fuel + 1, a, some parent, w =>
    match buildGlobalTransform env fuel parent w with
    | none => none
    | some w1 =>
      let w2 := w1.modify a (fun s =>
        { s with mGlobalTransform := (w1.sprites parent).mGlobalTransform * s.mGlobalTransform })
      buildGlobalTransformLoop env fuel a (w2.sprites parent).mParent w2
  termination_by structural fuel => fuel

end

/-- The function `Sprite::getGlobalTransform`: the new state and the matrix returned. -/
def getGlobalTransform (env : MathEnv F) (fuel : Nat) (a : Addr) (w : World F) :
    Option (World F × Matrix44 F) :=
  match buildGlobalTransform env fuel a w with
  | none => none
  | some w1 => some (w1, (w1.sprites a).mGlobalTransform)

/-! ### Tree mutation (sprite.cpp lines 415 to 459) -/

/-- The function `Sprite::containsChild`. -/
def containsChild (p child : Addr) (w : World F) : Bool :=
  decide (child ∈ (w.sprites p).mChildren)

/-- The function `Sprite::getParent`. -/
def getParent (a : Addr) (w : World F) : Option Addr := (w.sprites a).mParent

mutual

/-- The function `Sprite::addChild`, called on `p` with the child `child`. -/
def addChild : Nat → Addr → Addr → World F → Option (World F)
  | 0, _, _, _ => none
  | fuel + 1, p, child, w =>
    if containsChild p child w = true then some w
    else
      setParent fuel child (some p)
        (w.modify p (fun s => { s with mChildren := s.mChildren ++ [child] }))
  termination_by structural fuel => fuel

/-- The function `Sprite::removeChild`, called on `p` with the child `child`. -/
def removeChild : Nat → Addr → Addr → World F → Option (World F)
  | 0, _, _, _ => none
  | fuel + 1, p, child, w =>
    if containsChild p child w = false then some w
    else
      setParent fuel child none
        (w.modify p (fun s => { s with mChildren := s.mChildren.filter (fun c => c != child) }))
  termination_by structural fuel => fuel

/-- The function `Sprite::setParent`, called on `a`. -/
def setParent : Nat → Addr → Option Addr → World F → Option (World F)
  | 0, _, _, _ => none
  | fuel + 1, a, parent, w =>
    match removeParent fuel a w with
    | none => none
    | some w1 =>
      let w2 := w1.modify a (fun s => { s with mParent := parent })
      match (w2.sprites a).mParent with
      | some p =>
        match addChild fuel p a w2 with
        | none => none
        | some w3 => markAsDirty fuel a PARENT_DIRTY w3
      | none => markAsDirty fuel a PARENT_DIRTY w2
  termination_by structural fuel => fuel

/-- The function `Sprite::removeParent`, called on `a`. -/
def removeParent : Nat → Addr → World F → Option (World F)
  | 0, _, _ => none
  | fuel + 1, a, w =>
    match (w.sprites a).mParent with
    | some p =>
      match removeChild fuel p a w with
      | none => none
      | some w1 =>
        markAsDirty fuel a PARENT_DIRTY (w1.modify a (fun s => { s with mParent := none }))
    | none => some w
  termination_by structural fuel => fuel

end

/-! ### Identifier and construction (sprite.cpp lines 109 to 145 and 1112 to 1120) -/

/-- The function `Sprite::setSpriteId`. -/
def setSpriteId (fuel : Nat) (a : Addr) (id : sprite_id_t) (w : World F) : Option (World F) :=
  if (w.sprites a).mId = id then some w
  else
    let w1 := if (w.sprites a).mId ≠ EMPTY_SPRITE_ID then unregisterSprite a w else w
    let w2 := w1.modify a (fun s => { s with mId := id })
    let w3 := if (w2.sprites a).mId ≠ EMPTY_SPRITE_ID then registerSprite a w2 else w2
    markAsDirty fuel a ID_DIRTY w3

/-- The function `Sprite::init`; `blobType` is the value of the global `BLOB_TYPE`. -/
def init (fuel : Nat) (blobType : Int) (a : Addr) (id : sprite_id_t) (w : World F) :
    Option (World F) :=
  setSpriteId fuel a id
    (w.modify a (fun s =>
      { s with mSpriteFlags := VISIBLE_F ||| TRANSPARENT_F, mWidth := 0, mHeight := 0,
               mCenter := ⟨0, 0, 0⟩, mRotation := ⟨0, 0, 0⟩, mZLevel := 0,
               mScale := ⟨1, 1, 1⟩, mUpdateTransform := true, mParent := none,
               mOpacity := 1, mColor := ⟨1, 1, 1⟩, mMultiTouchEnabled := false,
               mCheckBounds := false, mBoundsNeedChecking := true, mInBounds := true,
               mDepth := 1, mBlobType := blobType }))

/-- The constructor `Sprite::Sprite(SpriteEngine&, const ds::sprite_id_t)`, building the object
at the address `a`. -/
def newSprite (fuel : Nat) (blobType : Int) (a : Addr) (id : sprite_id_t) (w : World F) :
    Option (World F) :=
  init fuel blobType a id (w.modify a (fun _ => Sprite.uninit))

/-! ### Diff serialization (sprite.cpp lines 996 to 1110) -/

/-- The function `Sprite::writeAttributesTo`. -/
def writeAttributesTo (a : Addr) (w : World F) (buf : DataBuffer F) : DataBuffer F :=
  let s := w.sprites a
  let buf := if s.mDirty.has PARENT_DIRTY = true then
      (buf.add (Item.char PARENT_ATT)).add
        (match s.mParent with
          | some p => Item.spriteId (w.sprites p).mId
          | none => Item.spriteId EMPTY_SPRITE_ID)
    else buf
  let buf := if s.mDirty.has SIZE_DIRTY = true then
      (((buf.add (Item.char SIZE_ATT)).add (Item.float s.mWidth)).add
        (Item.float s.mHeight)).add (Item.float s.mDepth)
    else buf
  let buf := if s.mDirty.has FLAGS_DIRTY = true then
      (buf.add (Item.char FLAGS_ATT)).add (Item.int s.mSpriteFlags)
    else buf
  let buf := if s.mDirty.has POSITION_DIRTY = true then
      (((buf.add (Item.char POSITION_ATT)).add (Item.float s.mPosition.x)).add
        (Item.float s.mPosition.y)).add (Item.float s.mPosition.z)
    else buf
  let buf := if s.mDirty.has SCALE_DIRTY = true then
      (((buf.add (Item.char SCALE_ATT)).add (Item.float s.mScale.x)).add
        (Item.float s.mScale.y)).add (Item.float s.mScale.z)
    else buf
  let buf := if s.mDirty.has COLOR_DIRTY = true then
      (((buf.add (Item.char COLOR_ATT)).add (Item.float s.mColor.r)).add
        (Item.float s.mColor.g)).add (Item.float s.mColor.b)
    else buf
  let buf := if s.mDirty.has OPACITY_DIRTY = true then
      (buf.add (Item.char OPACITY_ATT)).add (Item.float s.mOpacity)
    else buf
  buf

/-- The function `Sprite::writeTo`; the loop over the children is the fold. -/
def writeTo : Nat → Addr → World F → DataBuffer F → Option (World F × DataBuffer F)
  | 0, _, _, _ => none
  | fuel + 1, a, w, buf =>
    if (w.sprites a).mDirty.isEmpty = true then some (w, buf)
    else if (w.sprites a).mId = EMPTY_SPRITE_ID then some (w, buf)
    else
      let buf1 := ((buf.add (Item.char (w.sprites a).mBlobType)).add
        (Item.char SPRITE_ID_ATTRIBUTE)).add (Item.spriteId (w.sprites a).mId)
      let buf2 := writeAttributesTo a w buf1
      let buf3 := buf2.add (Item.char TERMINATOR_CHAR)
      let w1 := w.modify a (fun s => { s with mDirty := s.mDirty.clear })
      (w1.sprites a).mChildren.foldlM (fun st c => writeTo fuel c st.1 st.2) (w1, buf3)

/-- The function `Sprite::readAttributeFrom` of the base class: it reads nothing. -/
def readAttributeFrom (_attributeId : Int) (_a : Addr) (w : World F) (buf : DataBuffer F) :
    World F × DataBuffer F := (w, buf)

/-- The loop of `Sprite::readAttributesFrom`; the third component is `transformChanged`. -/
def readAttributesFromLoop :
    Nat → Addr → World F → DataBuffer F → Bool → Option (World F × DataBuffer F × Bool)
  | 0, _, _, _, _ => none
  | fuel + 1, a, w, buf, transformChanged =>
    if buf.canRead = false then some (w, buf, transformChanged)
    else
      match buf.readChar with
      | none => none
      | some (id, buf) =>
        if id = TERMINATOR_CHAR then some (w, buf, transformChanged)
        else if id = PARENT_ATT then
          match buf.readSpriteId with
          | none => none
          | some (parentId, buf) =>
            match findSprite w parentId with
            | some parent =>
              match addChild fuel parent a w with
              | none => none
              | some w1 => readAttributesFromLoop fuel a w1 buf transformChanged
            | none => readAttributesFromLoop fuel a w buf transformChanged
        else if id = SIZE_ATT then
          match buf.readFloat with
          | none => none
          | some (width, buf) =>
          match buf.readFloat with
          | none => none
          | some (height, buf) =>
          match buf.readFloat with
          | none => none
          | some (depth, buf) =>
            readAttributesFromLoop fuel a
              (w.modify a (fun s =>
                { s with mWidth := width, mHeight := height, mDepth := depth }))
              buf transformChanged
        else if id = FLAGS_ATT then
          match buf.readInt with
          | none => none
          | some (flags, buf) =>
            readAttributesFromLoop fuel a
              (w.modify a (fun s => { s with mSpriteFlags := flags })) buf transformChanged
        else if id = POSITION_ATT then
          match buf.readFloat with
          | none => none
          | some (x, buf) =>
          match buf.readFloat with
          | none => none
          | some (y, buf) =>
          match buf.readFloat with
          | none => none
          | some (z, buf) =>
            readAttributesFromLoop fuel a
              (w.modify a (fun s => { s with mPosition := ⟨x, y, z⟩ })) buf true
        else if id = SCALE_ATT then
          match buf.readFloat with
          | none => none
          | some (x, buf) =>
          match buf.readFloat with
          | none => none
          | some (y, buf) =>
          match buf.readFloat with
          | none => none
          | some (z, buf) =>
            readAttributesFromLoop fuel a
              (w.modify a (fun s => { s with mScale := ⟨x, y, z⟩ })) buf true
        else if id = COLOR_ATT then
          match buf.readFloat with
          | none => none
          | some (r, buf) =>
          match buf.readFloat with
          | none => none
          | some (g, buf) =>
          match buf.readFloat with
          | none => none
          | some (b, buf) =>
            readAttributesFromLoop fuel a
              (w.modify a (fun s => { s with mColor := ⟨r, g, b⟩ })) buf transformChanged
        else if id = OPACITY_ATT then
          match buf.readFloat with
          | none => none
          | some (opacity, buf) =>
            readAttributesFromLoop fuel a
              (w.modify a (fun s => { s with mOpacity := opacity })) buf transformChanged
        else
          let r := readAttributeFrom id a w buf
          readAttributesFromLoop fuel a r.1 r.2 transformChanged

/-- The function `Sprite::readAttributesFrom`. -/
def readAttributesFrom (fuel : Nat) (a : Addr) (w : World F) (buf : DataBuffer F) :
    Option (World F × DataBuffer F) :=
  match readAttributesFromLoop fuel a w buf false with
  | none => none
  | some (w1, buf1, transformChanged) =>
    if transformChanged = true then
      some (w1.modify a (fun s =>
        { s with mUpdateTransform := true, mBoundsNeedChecking := true }), buf1)
    else some (w1, buf1)

/-- The function `Sprite::handleBlobFromClient`, on the buffer behind the type tag. -/
def handleBlobFromClient (fuel : Nat) (w : World F) (buf : DataBuffer F) :
    Option (World F × DataBuffer F) :=
  match buf.readChar with
  | none => none
  | some (c, buf1) =>
    if c ≠ SPRITE_ID_ATTRIBUTE then some (w, buf1)
    else
      match buf1.readSpriteId with
      | none => none
      | some (id, buf2) =>
        match findSprite w id with
        | some s => readAttributesFrom fuel s w buf2
        | none => some (w, buf2)

/-! ### Hit testing (sprite.cpp lines 667 to 731) -/

/-- The function `Sprite::getZLevel`. -/
def getZLevel (a : Addr) (w : World F) : F := (w.sprites a).mZLevel

/-- The function `Sprite::contains`: the new state (the transform caches are rebuilt) and the
answer. A `Vec4f` is a vector indexed by `Fin 4`, its `dot` is the sum over the four
coordinates. -/
def contains (env : MathEnv F) (fuel : Nat) (a : Addr) (point : Vec3 F) (w : World F) :
    Option (World F × Bool) :=
  match buildGlobalTransform env fuel a w with
  | none => none
  | some w1 =>
    let s := w1.sprites a
    let pR : Fin 4 → F := ![point.x, point.y, point.z, 1]
    let cA : Fin 4 → F := s.mGlobalTransform.mulVec ![0, 0, 0, 1]
    let cB : Fin 4 → F := s.mGlobalTransform.mulVec ![s.mWidth, 0, 0, 1]
    let cC : Fin 4 → F := s.mGlobalTransform.mulVec ![s.mWidth, s.mHeight, 0, 1]
    let v1 := cA - cB
    let v2 := cC - cB
    let v := pR - cB
    let dot1 := Matrix.dotProduct v v1
    let dot2 := Matrix.dotProduct v v2
    let dot3 := Matrix.dotProduct v1 v1
    let dot4 := Matrix.dotProduct v2 v2
    some (w1, decide (0 ≤ dot1) && decide (0 ≤ dot2) && decide (dot1 ≤ dot3)
      && decide (dot2 ≤ dot4))

/-- A loop that tests the sprites of a list in order and stops at the first hit. -/
def firstHit (test : Addr → World F → Option (World F × Option Addr)) :
    List Addr → World F → Option (World F × Option Addr)
  | [], w => some (w, none)
  | c :: cs, w =>
    match test c w with
    | none => none
    | some (w1, some h) => some (w1, some h)
    | some (w1, none) => firstHit test cs w1

/-- The body of the two loops of `Sprite::getHit` for the child `child`: the child is the hit
when it is enabled and contains the point, otherwise the hit is what `child->getHit(point)`
(the argument `recur`) returns. -/
def hitChild (env : MathEnv F) (fuel : Nat) (point : Vec3 F)
    (recur : Addr → World F → Option (World F × Option Addr)) (child : Addr) (w : World F) :
    Option (World F × Option Addr) :=
  if isEnabled child w = true then
    match contains env fuel child point w with
    | none => none
    | some (w1, true) => some (w1, some child)
    | some (w1, false) => recur child w1
  else recur child w

/-- The order in which `Sprite::getHit` tests the children of `a`: the reverse of the child
list, or, when the sprite draws sorted, the copy of the child list sorted by `getZLevel` with
`i->getZLevel() < j->getZLevel()`. The sort of `std::list` is stable; the insertion sort
along `≤` gives the same list. -/
def hitOrder (a : Addr) (w : World F) : List Addr :=
  if getFlag DRAW_SORTED_F (w.sprites a).mSpriteFlags = false then (w.sprites a).mChildren.reverse
  else (w.sprites a).mChildren.insertionSort (fun i j => getZLevel i w ≤ getZLevel j w)

/-- The function `Sprite::getHit`: the new state and the sprite hit, if any. -/
def getHit (env : MathEnv F) : Nat → Addr → Vec3 F → World F → Option (World F × Option Addr)
  | 0, _, _, _ => none
  | fuel + 1, a, point, w =>
    match firstHit (hitChild env fuel point (fun c w0 => getHit env fuel c point w0))
        (hitOrder a w) w with
    | none => none
    | some (w1, some h) => some (w1, some h)
    | some (w1, none) =>
      if isEnabled a w1 = true then
        match contains env fuel a point w1 with
        | none => none
        | some (w2, true) => some (w2, some a)
        | some (w2, false) => some (w2, none)
      else some (w1, none)
  termination_by structural fuel => fuel

/-- The test of one child in the loops of `getHit` when `getHit` runs with fuel `fuel + 1`. -/
def getHitChild (env : MathEnv F) (fuel : Nat) (point : Vec3 F) (child : Addr) (w : World F) :
    Option (World F × Option Addr) :=
  hitChild env fuel point (fun c w0 => getHit env fuel c point w0) child w

/-! ### The identifier allocator (engine.cpp lines 488 to 494) -/

/-- Modelled from the spec: the type `ds::sprite_id_t` is declared outside `src/`; the spec
speaks of "a process-unique integer identifier" and the comment "Skip negative values" in
`nextSpriteId` shows that it is signed. It is taken to be a 32 bit two's complement integer:
this is its largest value. -/
def SPRITE_ID_MAX : sprite_id_t := 2 ^ 31 - 1

/-- The smallest value of `ds::sprite_id_t`. -/
def SPRITE_ID_MIN : sprite_id_t := -(2 ^ 31)

/-- The statement `++ID` on a `sprite_id_t`: the successor, and the smallest value after the
largest one. -/
def incrementId (id : sprite_id_t) : sprite_id_t :=
  if id = SPRITE_ID_MAX then SPRITE_ID_MIN else id + 1

/-- The function `Engine::nextSpriteId`, on the value of its static variable `ID`: the new
value of `ID` and the identifier returned. -/
def nextSpriteId (ID : sprite_id_t) : sprite_id_t × sprite_id_t :=
  let ID1 := incrementId ID
  let ID2 := if ID1 ≤ EMPTY_SPRITE_ID then EMPTY_SPRITE_ID + 1 else ID1
  (ID2, ID2)

/-- The identifiers returned by `n` successive calls of `nextSpriteId`, the first call made
with the static variable at `ID`. -/
def nextSpriteIds : Nat → sprite_id_t → List sprite_id_t
  | 0, _ => []
  | n + 1, ID => (nextSpriteId ID).2 :: nextSpriteIds n (nextSpriteId ID).1

/-! ### Bounds checking (sprite.cpp lines 844 to 958) -/

/-- The rectangle type `ci::Rectf` with its corner coordinates `getX1()`, `getY1()`,
`getX2()`, `getY2()`. -/
structure Rectf (F : Type) where
  /-- Left. -/
  x1 : F
  /-- Top. -/
  y1 : F
  /-- Right. -/
  x2 : F
  /-- Bottom. -/
  y2 : F

/-- The four values `spriteMinX`, `spriteMinY`, `spriteMaxX`, `spriteMaxY` of
`Sprite::checkBounds`. -/
structure Bounds (F : Type) where
  /-- The value `spriteMinX`. -/
  minX : F
  /-- The value `spriteMinY`. -/
  minY : F
  /-- The value `spriteMaxX`. -/
  maxX : F
  /-- The value `spriteMaxY`. -/
  maxY : F

/-- The expression `(mGlobalTransform * Vec4f(x, y, 0.0f, 1.0f)).xyz()`. -/
def transformPoint (m : Matrix44 F) (x y : F) : Vec3 F :=
  let v : Fin 4 → F := m.mulVec ![x, y, 0, 1]
  ⟨v 0, v 1, v 2⟩

/-- The array `positions` of `Sprite::checkBounds`, for a sprite whose global transform has
been built. -/
def boundsPositions (s : Sprite F) : List (Vec3 F) :=
  [transformPoint s.mGlobalTransform 0 0,
   transformPoint s.mGlobalTransform (s.mWidth - 1) 0,
   transformPoint s.mGlobalTransform 0 (s.mHeight - 1),
   transformPoint s.mGlobalTransform (s.mWidth - 1) (s.mHeight - 1)]

/-- One round of the loop of `Sprite::checkBounds` that widens the bounds to a position. -/
def boundsStep (b : Bounds F) (p : Vec3 F) : Bounds F :=
  let b1 := if p.x < b.minX then { b with minX := p.x } else b
  let b2 := if p.y < b1.minY then { b1 with minY := p.y } else b1
  let b3 := if p.x > b2.maxX then { b2 with maxX := p.x } else b2
  if p.y > b3.maxY then { b3 with maxY := p.y } else b3

/-- The bounds after the loop: started at `positions[0]`, widened to the other positions. -/
def spriteBounds : List (Vec3 F) → Bounds F
  | [] => ⟨0, 0, 0, 0⟩
  | p0 :: ps => ps.foldl boundsStep ⟨p0.x, p0.y, p0.x, p0.y⟩

/-- The function `Sprite::checkBounds`: the new state and the value returned. The helper
`math::intersect2D` is declared outside `src/` and is the parameter `intersect2D`; the
rectangle `mEngine.getScreenRect()` is the parameter `screenRect`. -/
def checkBounds (env : MathEnv F) (intersect2D : Vec3 F → Vec3 F → Vec3 F → Vec3 F → Bool)
    (screenRect : Rectf F) (fuel : Nat) (a : Addr) (w : World F) : Option (World F × Bool) :=
  if (w.sprites a).mCheckBounds = false then some (w, true)
  else
    let w1 := w.modify a (fun s => { s with mBoundsNeedChecking := false, mInBounds := false })
    let screenMinX := screenRect.x1
    let screenMaxX := screenRect.x2
    let screenMinY := screenRect.y1
    let screenMaxY := screenRect.y2
    match buildGlobalTransform env fuel a w1 with
    | none => none
    | some w2 =>
      let positions := boundsPositions (w2.sprites a)
      let b := spriteBounds positions
      let inBounds := w2.modify a (fun s => { s with mInBounds := true })
      if b.minX = b.maxX ∨ b.minY = b.maxY then some (w2, false)
      else if b.minX > screenMaxX then some (w2, false)
      else if b.maxX < screenMinX then some (w2, false)
      else if b.minY > screenMaxY then some (w2, false)
      else if b.maxY < screenMinY then some (w2, false)
      else if positions.any (fun p => decide (p.x ≥ screenMinX ∧ p.x ≤ screenMaxX
          ∧ p.y ≥ screenMinY ∧ p.y ≤ screenMaxY)) = true then some (inBounds, true)
      else
        let screenpos : List (Vec3 F) :=
          [⟨screenMinX, screenMinY, 0⟩, ⟨screenMaxX, screenMinY, 0⟩,
           ⟨screenMinX, screenMaxY, 0⟩, ⟨screenMaxX, screenMaxY, 0⟩]
        if screenpos.any (fun p => decide (p.x ≥ b.minX ∧ p.x ≤ b.maxX
            ∧ p.y ≥ b.minY ∧ p.y ≤ b.maxY)) = true then some (inBounds, true)
        else if (List.range 4).any (fun i => (List.range 4).any (fun _ =>
            intersect2D (screenpos.getD (i % 4) ⟨0, 0, 0⟩) (screenpos.getD ((i + 1) % 4) ⟨0, 0, 0⟩)
              (positions.getD (i % 4) ⟨0, 0, 0⟩) (positions.getD ((i + 1) % 4) ⟨0, 0, 0⟩)))
            = true then some (inBounds, true)
        else some (inBounds, true)

/-- The function `Sprite::updateCheckBounds`. -/
def updateCheckBounds (env : MathEnv F)
    (intersect2D : Vec3 F → Vec3 F → Vec3 F → Vec3 F → Bool)
    (screenRect : Rectf F) (fuel : Nat) (a : Addr) (w : World F) : Option (World F) :=
  if (w.sprites a).mBoundsNeedChecking = true then
    (checkBounds env intersect2D screenRect fuel a w).map Prod.fst
  else some w

/-- The function `Sprite::inBounds`: the new state and the value returned. -/
def inBounds (env : MathEnv F) (intersect2D : Vec3 F → Vec3 F → Vec3 F → Vec3 F → Bool)
    (screenRect : Rectf F) (fuel : Nat) (a : Addr) (w : World F) : Option (World F × Bool) :=
  (updateCheckBounds env intersect2D screenRect fuel a w).map
    (fun w1 => (w1, (w1.sprites a).mInBounds))

/-- The function `Sprite::setCheckBounds`. -/
def setCheckBounds (a : Addr) (checkBounds : Bool) (w : World F) : World F :=
  w.modify a (fun s =>
    { s with mCheckBounds := checkBounds, mInBounds := !checkBounds,
             mBoundsNeedChecking := checkBounds })

/-! ### Destruction and deferred delete (sprite.cpp lines 147 to 151, 461 to 474, 503 to 507;
engine.cpp lines 523 to 528 and 662 to 671) -/

/-- The process state with the members of the engine that deletion uses: the heap and the
registry (`world`), the vector `Engine::mRequestDelete`, and the addresses of the sprite
objects on which `delete` has run. -/
structure Process (F : Type) where
  /-- The heap of sprites and the registry. -/
  world : World F
  /-- The vector `Engine::mRequestDelete`. -/
  mRequestDelete : List sprite_id_t
  /-- The objects that have been deleted, the last one first. -/
  deleted : List Addr

/-- A function of the sprite tree, run on the heap of the process. -/
def Process.onWorld (f : World F → Option (World F)) (e : Process F) : Option (Process F) :=
  match f e.world with
  | none => none
  | some w => some { e with world := w }

/-- A loop over a list of sprites that runs `body` for each of them in order. -/
def forEachSprite (body : Addr → Process F → Option (Process F)) :
    List Addr → Process F → Option (Process F)
  | [], e => some e
  | c :: cs, e =>
    match body c e with
    | none => none
    | some e1 => forEachSprite body cs e1

/-- The function `Sprite::remove`; `clear` is `clearChildren`. -/
def remove (clear : Addr → Process F → Option (Process F)) (fuel : Nat) (a : Addr)
    (e : Process F) : Option (Process F) :=
  match clear a e with
  | none => none
  | some e1 => e1.onWorld (removeParent fuel a)

/-- The destructor `Sprite::~Sprite`: `remove()` and `setSpriteId(0)`. -/
def destructor (clear : Addr → Process F → Option (Process F)) (fuel : Nat) (a : Addr)
    (e : Process F) : Option (Process F) :=
  match remove clear fuel a e with
  | none => none
  | some e1 => e1.onWorld (setSpriteId fuel a 0)

/-- The expression `delete s`: the destructor runs and the object is gone. -/
def deleteSprite (clear : Addr → Process F → Option (Process F)) (fuel : Nat) (a : Addr)
    (e : Process F) : Option (Process F) :=
  match destructor clear fuel a e with
  | none => none
  | some e1 => some { e1 with deleted := a :: e1.deleted }

/-- The function `Sprite::clearChildren`. -/
def clearChildren : Nat → Addr → Process F → Option (Process F)
  | 0, _, _ => none
  | fuel + 1, a, e =>
    let tempList := (e.world.sprites a).mChildren
    let e1 : Process F :=
      { e with world := e.world.modify a (fun s => { s with mChildren := [] }) }
    forEachSprite (fun c e0 =>
      match e0.onWorld (removeParent fuel c) with
      | none => none
      | some e2 =>
        match clearChildren fuel c e2 with
        | none => none
        | some e3 => deleteSprite (fun x e4 => clearChildren fuel x e4) fuel c e3)
      tempList e1
  termination_by structural fuel => fuel

/-- The body of the loop of `clearChildren` when `clearChildren` runs with fuel
`fuel + 1`: `removeParent()`, `clearChildren()` and `delete` for the child `c`. -/
def clearChild (fuel : Nat) (c : Addr) (e0 : Process F) : Option (Process F) :=
  match e0.onWorld (removeParent fuel c) with
  | none => none
  | some e2 =>
    match clearChildren fuel c e2 with
    | none => none
    | some e3 => deleteSprite (fun x e4 => clearChildren fuel x e4) fuel c e3

/-- The expression `delete s` made from outside the class. -/
def deleteObject (fuel : Nat) (a : Addr) (e : Process F) : Option (Process F) :=
  deleteSprite (fun x e4 => clearChildren fuel x e4) fuel a e

/-- Modelled from the spec: the static function `Sprite::removeAndDelete` is declared outside
`src/`; the spec says that a requested sprite "is actually removed" at this point and that
"removing a sprite recursively destroys its subtree". It is taken to be `s->remove()`
followed by `delete s`. -/
def removeAndDelete (fuel : Nat) (a : Addr) (e : Process F) : Option (Process F) :=
  match remove (fun x e4 => clearChildren fuel x e4) fuel a e with
  | none => none
  | some e1 => deleteObject fuel a e1

/-- The function `Engine::requestDeleteSprite`. -/
def requestDeleteSprite (a : Addr) (e : Process F) : Process F :=
  { e with mRequestDelete := e.mRequestDelete ++ [(e.world.sprites a).mId] }

/-- The loop of `Engine::deleteRequestedSprites` over the pending identifiers. -/
def deleteRequestedLoop (fuel : Nat) : List sprite_id_t → Process F → Option (Process F)
  | [], e => some e
  | id :: ids, e =>
    match findSprite e.world id with
    | some s =>
      match removeAndDelete fuel s e with
      | none => none
      | some e1 => deleteRequestedLoop fuel ids e1
    | none => deleteRequestedLoop fuel ids e

/-- The function `Engine::deleteRequestedSprites`. -/
def deleteRequestedSprites (fuel : Nat) (e : Process F) : Option (Process F) :=
  match deleteRequestedLoop fuel e.mRequestDelete e with
  | none => none
  | some e1 => some { e1 with mRequestDelete := [] }

end Embedding

/-! ### The wire format as the spec words it -/

section WireFormat

variable {F : Type} [LinearOrderedCommRing F]

/-- The identifier that a PARENT record carries: the identifier of the parent, or
`EMPTY_SPRITE_ID` for a sprite without parent. -/
def parentIdOf (a : Addr) (w : World F) : sprite_id_t :=
  match (w.sprites a).mParent with
  | some p => (w.sprites p).mId
  | none => EMPTY_SPRITE_ID

/-- The attribute records of a sprite in the words of the spec: "a sequence of attribute
records selected by dirty bits in a fixed canonical order: parent, size, flags, position, scale,
color, opacity"; "unset bits contribute no record". -/
def specAttributeRecords (a : Addr) (w : World F) : DataBuffer F :=
  let s := w.sprites a
  (if s.mDirty.has PARENT_DIRTY = true
    then [Item.char PARENT_ATT, Item.spriteId (parentIdOf a w)] else [])
  ++ (if s.mDirty.has SIZE_DIRTY = true
    then [Item.char SIZE_ATT, Item.float s.mWidth, Item.float s.mHeight, Item.float s.mDepth]
    else [])
  ++ (if s.mDirty.has FLAGS_DIRTY = true
    then [Item.char FLAGS_ATT, Item.int s.mSpriteFlags] else [])
  ++ (if s.mDirty.has POSITION_DIRTY = true
    then [Item.char POSITION_ATT, Item.float s.mPosition.x, Item.float s.mPosition.y,
      Item.float s.mPosition.z]
    else [])
  ++ (if s.mDirty.has SCALE_DIRTY = true
    then [Item.char SCALE_ATT, Item.float s.mScale.x, Item.float s.mScale.y,
      Item.float s.mScale.z]
    else [])
  ++ (if s.mDirty.has COLOR_DIRTY = true
    then [Item.char COLOR_ATT, Item.float s.mColor.r, Item.float s.mColor.g,
      Item.float s.mColor.b]
    else [])
  ++ (if s.mDirty.has OPACITY_DIRTY = true
    then [Item.char OPACITY_ATT, Item.float s.mOpacity] else [])

/-- One sprite block in the words of the spec: "type tag, has identifier marker, identifier,
then a sequence of attribute records ..., followed by a terminator marker". -/
def specSpriteBlock (a : Addr) (w : World F) : DataBuffer F :=
  [Item.char (w.sprites a).mBlobType, Item.char SPRITE_ID_ATTRIBUTE,
    Item.spriteId (w.sprites a).mId]
  ++ specAttributeRecords a w ++ [Item.char TERMINATOR_CHAR]

/-- The receiving sprite `dst` after a SIZE record of the sending sprite `src`, if the size
bit of `src` is set. -/
def applySize (src dst : Sprite F) : Sprite F :=
  if src.mDirty.has SIZE_DIRTY = true then
    { dst with mWidth := src.mWidth, mHeight := src.mHeight, mDepth := src.mDepth }
  else dst

/-- The receiving sprite after a FLAGS record, if the flags bit of `src` is set. -/
def applyFlags (src dst : Sprite F) : Sprite F :=
  if src.mDirty.has FLAGS_DIRTY = true then { dst with mSpriteFlags := src.mSpriteFlags }
  else dst

/-- The receiving sprite after a POSITION record, if the position bit of `src` is set. -/
def applyPosition (src dst : Sprite F) : Sprite F :=
  if src.mDirty.has POSITION_DIRTY = true then
    { dst with mPosition := ⟨src.mPosition.x, src.mPosition.y, src.mPosition.z⟩ }
  else dst

/-- The receiving sprite after a SCALE record, if the scale bit of `src` is set. -/
def applyScale (src dst : Sprite F) : Sprite F :=
  if src.mDirty.has SCALE_DIRTY = true then
    { dst with mScale := ⟨src.mScale.x, src.mScale.y, src.mScale.z⟩ }
  else dst

/-- The receiving sprite after a COLOR record, if the color bit of `src` is set. -/
def applyColor (src dst : Sprite F) : Sprite F :=
  if src.mDirty.has COLOR_DIRTY = true then
    { dst with mColor := ⟨src.mColor.r, src.mColor.g, src.mColor.b⟩ }
  else dst

/-- The receiving sprite after an OPACITY record, if the opacity bit of `src` is set. -/
def applyOpacity (src dst : Sprite F) : Sprite F :=
  if src.mDirty.has OPACITY_DIRTY = true then { dst with mOpacity := src.mOpacity }
  else dst

end WireFormat

/-! ### Predicates used in the statements -/

section Predicates

variable {F : Type} [LinearOrderedCommRing F]

/-- The state `w1` is `w` with the dirty sets of some sprites cleared. -/
def Cleared (w w1 : World F) : Prop :=
  w1.mSprites = w.mSprites
  ∧ ∀ b, w1.sprites b = w.sprites b
      ∨ w1.sprites b = { w.sprites b with mDirty := (w.sprites b).mDirty.clear }

/-- Only sprites at addresses below `n` have a non-empty dirty set. -/
def DirtyBelow (n : Nat) (w : World F) : Prop :=
  ∀ b, n ≤ b → (w.sprites b).mDirty.isEmpty = true

/-- The number of sprites below `n` that writeTo would write: dirty, with a valid identifier. -/
def pendingWrites (n : Nat) (w : World F) : Nat :=
  ((Finset.range n).filter (fun b =>
    (w.sprites b).mDirty.isEmpty = false ∧ (w.sprites b).mId ≠ EMPTY_SPRITE_ID)).card

/-- The parent pointer of every sprite. -/
def parentOf (w : World F) : Addr → Option Addr := fun b => (w.sprites b).mParent

/-- The child list of every sprite. -/
def childrenOf (w : World F) : Addr → List Addr := fun b => (w.sprites b).mChildren

/-- The state `w1` is `w` with the child bit added to the dirty sets of some sprites. -/
def Marked (w w1 : World F) : Prop :=
  w1.mSprites = w.mSprites
  ∧ ∀ b, w1.sprites b = w.sprites b
      ∨ w1.sprites b = { w.sprites b with mDirty := (w.sprites b).mDirty.or CHILD_DIRTY }

/-- Only sprites at addresses below `n` have a parent. -/
def ParentsBelow (n : Nat) (w : World F) : Prop :=
  ∀ b, n ≤ b → (w.sprites b).mParent = none

/-- The number of sprites below `n` whose dirty set lacks the child bit. -/
def unmarkedCount (n : Nat) (w : World F) : Nat :=
  ((Finset.range n).filter (fun b => (w.sprites b).mDirty.has CHILD_DIRTY = false)).card

/-- Parent pointers `P` and child lists `C` agree: no list holds a sprite twice, and a sprite
is in the list of `p` exactly when its parent pointer is `p`. -/
def TreeInv (P : Addr → Option Addr) (C : Addr → List Addr) : Prop :=
  ∀ s p, (C p).count s ≤ 1 ∧ (s ∈ C p ↔ P s = some p)

/-- Parent uniqueness as the spec words it: a sprite appears in the child list of at most one
sprite, at most once, and that sprite is its `getParent()`. -/
def ParentUnique (w : World F) : Prop :=
  ∀ s p, s ∈ (w.sprites p).mChildren →
    getParent s w = some p ∧ (w.sprites p).mChildren.count s = 1
      ∧ ∀ q, s ∈ (w.sprites q).mChildren → q = p

/-- One call of the tree interface of a sprite. -/
inductive TreeCall where
  /-- The call `p.addChild(c)`. -/
  | addChild (p c : Addr)
  /-- The call `p.removeChild(c)`. -/
  | removeChild (p c : Addr)
  /-- The call `a.setParent(parent)`. -/
  | setParent (a : Addr) (parent : Option Addr)
deriving DecidableEq

/-- The execution of one call. -/
def runCall (fuel : Nat) (call : TreeCall) (w : World F) : Option (World F) :=
  match call with
  | TreeCall.addChild p c => addChild fuel p c w
  | TreeCall.removeChild p c => removeChild fuel p c w
  | TreeCall.setParent a parent => setParent fuel a parent w

/-- The execution of a sequence of calls, each with the same fuel. -/
def runCalls (fuel : Nat) : List TreeCall → World F → Option (World F)
  | [], w => some w
  | call :: calls, w =>
    match runCall fuel call w with
    | none => none
    | some w1 => runCalls fuel calls w1

/-- The call attaches nothing through `setParent`: it is `addChild`, `removeChild` or
`setParent(nullptr)`. -/
def TreeCall.detaching : TreeCall → Bool
  | TreeCall.setParent _ (some _) => false
  | _ => true

/-- Every sprite that the call names is at an address below `n`. -/
def TreeCall.below (n : Nat) : TreeCall → Prop
  | TreeCall.addChild p c => p < n ∧ c < n
  | TreeCall.removeChild p c => p < n ∧ c < n
  | TreeCall.setParent a _ => a < n

/-- The child lists `C` after the sprite `c` has been taken out of the list of its parent
under the parent pointers `P`. -/
def childrenWithout (c : Addr) (P : Addr → Option Addr) (C : Addr → List Addr) :
    Addr → List Addr :=
  match P c with
  | none => C
  | some q => Function.update C q ((C q).filter (fun x => x != c))

/-- The state `w1` differs from `w` at most in the transform caches of the sprites: the fields
`mTransformation`, `mGlobalTransform` and `mUpdateTransform`. -/
def CacheOnly (w w1 : World F) : Prop :=
  w1.mSprites = w.mSprites ∧
  ∀ b, ∃ (t g : Matrix44 F) (u : Bool),
    w1.sprites b =
      { w.sprites b with mTransformation := t, mGlobalTransform := g, mUpdateTransform := u }

/-- The state in which the visible flag of every sprite is set and everything else is as in
`w`. Two states are identical except for the visible flags of their sprites exactly when
`showAll` maps them to the same state. -/
def showAll (w : World F) : World F :=
  { w with sprites := fun b =>
      { w.sprites b with mSpriteFlags := (w.sprites b).mSpriteFlags ||| VISIBLE_F } }

/-- The result of a hit test with the visible flags of the new state set. -/
def showAllResult {α : Type} (r : World F × α) : World F × α := (showAll r.1, r.2)

/-- The sprite reached from `a` by `k` steps of `getParent()` under the parent pointers `P`,
if the chain is that long. -/
def ancestorAt (P : Addr → Option Addr) : Nat → Addr → Option Addr
  | 0, a => some a
  | k + 1, a =>
    match P a with
    | none => none
    | some q => ancestorAt P k q

/-- Following `getParent()` from any sprite reaches null in finitely many steps. -/
def Acyclic (P : Addr → Option Addr) : Prop :=
  ∀ a, ∃ k, ancestorAt P k a = none

/-- The sprite `a` is its own ancestor: some positive number of steps of `getParent()` leads
from `a` back to `a`. -/
def OwnAncestor (P : Addr → Option Addr) (a : Addr) : Prop :=
  ∃ k, ancestorAt P (k + 1) a = some a

/-- The call does not attach a sprite below itself: for `p.addChild(c)` the sprite `c` is
neither `p` nor an ancestor of `p` in the state `w`. -/
def TreeCall.attachSafe (w : World F) : TreeCall → Prop
  | TreeCall.addChild p c => ∀ k, ancestorAt (parentOf w) k p ≠ some c
  | _ => True

/-- Every call of the sequence is `attachSafe` in the state in which it runs. -/
def AttachSafe (fuel : Nat) : List TreeCall → World F → Prop
  | [], _ => True
  | call :: calls, w =>
    call.attachSafe w ∧ ∀ w1, runCall fuel call w = some w1 → AttachSafe fuel calls w1

/-- No sprite is registered under `EMPTY_SPRITE_ID`. -/
def RegistryValid (w : World F) : Prop :=
  ∀ e ∈ w.mSprites, e.1 ≠ EMPTY_SPRITE_ID

/-- The axis-aligned bounding box of four points in the plain words of the claim: the least
and the greatest of their x and of their y coordinates. -/
def specBoundingBox (p0 p1 p2 p3 : Vec3 F) : Bounds F :=
  { minX := min (min (min p0.x p1.x) p2.x) p3.x
    minY := min (min (min p0.y p1.y) p2.y) p3.y
    maxX := max (max (max p0.x p1.x) p2.x) p3.x
    maxY := max (max (max p0.y p1.y) p2.y) p3.y }

/-- The plain overlap test of a box and the screen rectangle, with inclusive comparisons. -/
def specOverlaps (b : Bounds F) (screenRect : Rectf F) : Prop :=
  b.minX ≤ screenRect.x2 ∧ screenRect.x1 ≤ b.maxX
  ∧ b.minY ≤ screenRect.y2 ∧ screenRect.y1 ≤ b.maxY

/-- The test `specOverlaps` is decidable. -/
instance specOverlapsDecidable (b : Bounds F) (screenRect : Rectf F) :
    Decidable (specOverlaps b screenRect) := by
  unfold specOverlaps
  infer_instance

/-- The transformed bounding box of a sprite in the words of the claim: the bounding box of
the corners (0,0), (w-1,0), (0,h-1), (w-1,h-1) under the global transform. -/
def transformedBox (s : Sprite F) : Bounds F :=
  specBoundingBox (transformPoint s.mGlobalTransform 0 0)
    (transformPoint s.mGlobalTransform (s.mWidth - 1) 0)
    (transformPoint s.mGlobalTransform 0 (s.mHeight - 1))
    (transformPoint s.mGlobalTransform (s.mWidth - 1) (s.mHeight - 1))

/-- The sprite `x` is a descendant of `a` under the parent pointers `P`: some positive number
of steps of `getParent()` leads from `x` to `a`. -/
def IsDescendant (P : Addr → Option Addr) (x a : Addr) : Prop :=
  ∃ j, ancestorAt P (j + 1) x = some a

/-- The process `e` after the statement `mChildren.clear()` of the sprite `a`. -/
def clearList (a : Addr) (e : Process F) : Process F :=
  { e with world := e.world.modify a (fun s => { s with mChildren := [] }) }

/-- From `e` to `e1` exactly the sprites of the set `S` have been deleted: the other sprites
are as before; a sprite of `S` has no children, no parent and its former identifier `id0` is
not found in the registry; the registry has lost entries only; the pending list is as
before. -/
def Destroys (id0 : Addr → sprite_id_t) (S : Addr → Prop) (e e1 : Process F) : Prop :=
  (∀ y, ¬ S y → e1.world.sprites y = e.world.sprites y)
  ∧ (∀ x, x ∈ e1.deleted ↔ x ∈ e.deleted ∨ S x)
  ∧ (∀ x, S x → (e1.world.sprites x).mChildren = [] ∧ (e1.world.sprites x).mParent = none
      ∧ findSprite e1.world (id0 x) = none)
  ∧ List.Sublist e1.world.mSprites e.world.mSprites
  ∧ e1.mRequestDelete = e.mRequestDelete

/-- The function `clearChildren` with fuel `fuel` destroys the descendants of every sprite
`a` whose descendants are at most `k` steps below it, in every state in which these
descendants are as in the state `w0` and `a` has the child list that it has in `w0`. -/
def ClearSpec (w0 : World F) (k fuel : Nat) : Prop :=
  ∀ (a : Addr) (e : Process F),
    (∀ x j, ancestorAt (parentOf w0) j x = some a → j ≤ k) →
    (∀ x, IsDescendant (parentOf w0) x a → e.world.sprites x = w0.sprites x) →
    (e.world.sprites a).mChildren = childrenOf w0 a →
    RegistryValid e.world →
    ∃ e1, clearChildren fuel a e = some e1
      ∧ Destroys (fun x => (w0.sprites x).mId) (fun x => IsDescendant (parentOf w0) x a)
          (clearList a e) e1

/-- The state `w1` differs from `w` at most in the parent pointers, the child lists and the
dirty sets of the sprites. -/
def TreeOnly (w w1 : World F) : Prop :=
  w1.mSprites = w.mSprites ∧
  ∀ b, ∃ (p : Option Addr) (ch : List Addr) (d : DirtyState),
    w1.sprites b = { w.sprites b with mParent := p, mChildren := ch, mDirty := d }

/-- The state is a forest of depth below `n` with a sound registry: parent pointers and
child lists agree, every chain of parents has ended after `n` steps, only sprites below
`n` have a parent, no sprite is registered under `EMPTY_SPRITE_ID`, and every entry of the
registry holds the identifier of its sprite. -/
def GoodTree (n : Nat) (w : World F) : Prop :=
  TreeInv (parentOf w) (childrenOf w)
  ∧ (∀ x, ancestorAt (parentOf w) n x = none)
  ∧ ParentsBelow n w
  ∧ RegistryValid w
  ∧ ∀ e ∈ w.mSprites, (w.sprites e.2).mId = e.1

/-- The dirty sets are in step with the tree: every sprite with a non-empty dirty set has a
parent, if it has one, whose dirty set contains the child bit. -/
def Sync (w : World F) : Prop :=
  ∀ x p, (w.sprites x).mDirty.isEmpty = false → (w.sprites x).mParent = some p →
    (w.sprites p).mDirty.has CHILD_DIRTY = true

/-- The property `Sync` for every sprite other than `a`. -/
def SyncBut (a : Addr) (w : World F) : Prop :=
  ∀ x p, x ≠ a → (w.sprites x).mDirty.isEmpty = false → (w.sprites x).mParent = some p →
    (w.sprites p).mDirty.has CHILD_DIRTY = true

/-- The property `Sync` up to the sprite `q` that the loop of markAsDirty is about to visit:
the parent of a dirty sprite has the child bit or is `q`. -/
def SyncUpTo (q : Option Addr) (w : World F) : Prop :=
  ∀ x p, (w.sprites x).mDirty.isEmpty = false → (w.sprites x).mParent = some p →
    (w.sprites p).mDirty.has CHILD_DIRTY = true ∨ q = some p

/-- Every parent pointer leads to an address below `n`. -/
def ParentTargetsBelow (n : Nat) (w : World F) : Prop :=
  ∀ x p, (w.sprites x).mParent = some p → p < n

/-- The sprites below `n` are freshly constructed with valid identifiers and nothing else
is in use: no sprite has a parent or a child, the sprites below `n` have an identifier other
than `EMPTY_SPRITE_ID`, and the dirty sets at the other addresses are empty. -/
def FreshSprites (n : Nat) (w : World F) : Prop :=
  ∀ x, (w.sprites x).mParent = none ∧ (w.sprites x).mChildren = []
    ∧ (x < n → (w.sprites x).mId ≠ EMPTY_SPRITE_ID)
    ∧ (n ≤ x → (w.sprites x).mDirty.isEmpty = true)

/-- The invariant of a tree of sprites with valid identifiers below `n`: parent pointers and
child lists agree, only sprites below `n` have a parent, are a parent, or have a non-empty
dirty set, every sprite below `n` has a valid identifier, and the dirty sets are in step
with the tree. -/
def WriteInv (n : Nat) (w : World F) : Prop :=
  TreeInv (parentOf w) (childrenOf w)
  ∧ ParentsBelow n w
  ∧ DirtyBelow n w
  ∧ ParentTargetsBelow n w
  ∧ (∀ x, x < n → (w.sprites x).mId ≠ EMPTY_SPRITE_ID)
  ∧ Sync w

/-- One call of the interface of a sprite that a server makes between two frames: an
attribute setter, `addChild`, `removeChild`, or `writeTo` into a fresh buffer. -/
inductive WriteCall (F : Type) where
  /-- The call `a.setPosition(pos)`. -/
  | setPosition (a : Addr) (pos : Vec3 F)
  /-- The call `a.setScale(scale)`. -/
  | setScale (a : Addr) (scale : Vec3 F)
  /-- The call `a.setCenter(center)`. -/
  | setCenter (a : Addr) (center : Vec3 F)
  /-- The call `a.setRotation(rotZ)`. -/
  | setRotationZ (a : Addr) (rotZ : F)
  /-- The call `a.setRotation(rot)`. -/
  | setRotation (a : Addr) (rot : Vec3 F)
  /-- The call `a.setZLevel(zlevel)`. -/
  | setZLevel (a : Addr) (zlevel : F)
  /-- The call `a.move(delta)`. -/
  | move (a : Addr) (delta : Vec3 F)
  /-- The call `a.setSize(width, height, depth)`. -/
  | setSize (a : Addr) (width height depth : F)
  /-- The call `a.setSize(width, height)`. -/
  | setSize2 (a : Addr) (width height : F)
  /-- The call `a.setColor(color)`. -/
  | setColor (a : Addr) (color : Color F)
  /-- The call `a.setOpacity(opacity)`. -/
  | setOpacity (a : Addr) (opacity : F)
  /-- The call `a.setDrawSorted(flag)`. -/
  | setDrawSorted (a : Addr) (flag : Bool)
  /-- The call `a.setTransparent(flag)`. -/
  | setTransparent (a : Addr) (flag : Bool)
  /-- The call `a.show()`. -/
  | showSprite (a : Addr)
  /-- The call `a.hide()`. -/
  | hide (a : Addr)
  /-- The call `a.enable(flag)`. -/
  | enable (a : Addr) (flag : Bool)
  /-- The call `a.setCheckBounds(flag)`. -/
  | setCheckBounds (a : Addr) (flag : Bool)
  /-- The call `p.addChild(c)`. -/
  | addChild (p c : Addr)
  /-- The call `p.removeChild(c)`. -/
  | removeChild (p c : Addr)
  /-- The call `a.writeTo(buf)` with a fresh buffer `buf`. -/
  | writeTo (a : Addr)

/-- The execution of one call; the buffer that `writeTo` fills is dropped. -/
def runWriteCall (env : MathEnv F) (fuel : Nat) (call : WriteCall F) (w : World F) :
    Option (World F) :=
  match call with
  | WriteCall.setPosition a pos => setPosition fuel a pos w
  | WriteCall.setScale a scale => setScale fuel a scale w
  | WriteCall.setCenter a center => some (setCenter a center w)
  | WriteCall.setRotationZ a rotZ => some (setRotationZ env a rotZ w)
  | WriteCall.setRotation a rot => some (setRotation env a rot w)
  | WriteCall.setZLevel a zlevel => some (setZLevel a zlevel w)
  | WriteCall.move a delta => some (move a delta w)
  | WriteCall.setSize a width height depth => setSize fuel a width height depth w
  | WriteCall.setSize2 a width height => setSize2 fuel a width height w
  | WriteCall.setColor a color => setColor fuel a color w
  | WriteCall.setOpacity a opacity => setOpacity fuel a opacity w
  | WriteCall.setDrawSorted a flag => setDrawSorted fuel a flag w
  | WriteCall.setTransparent a flag => setTransparent fuel a flag w
  | WriteCall.showSprite a => showSprite fuel a w
  | WriteCall.hide a => hide fuel a w
  | WriteCall.enable a flag => enable fuel a flag w
  | WriteCall.setCheckBounds a flag => some (setCheckBounds a flag w)
  | WriteCall.addChild p c => addChild fuel p c w
  | WriteCall.removeChild p c => removeChild fuel p c w
  | WriteCall.writeTo a => (writeTo fuel a w []).map (fun r => r.1)

/-- The execution of a sequence of calls, each with the same fuel. -/
def runWriteCalls (env : MathEnv F) (fuel : Nat) : List (WriteCall F) → World F → Option (World F)
  | [], w => some w
  | call :: calls, w =>
    match runWriteCall env fuel call w with
    | none => none
    | some w1 => runWriteCalls env fuel calls w1

/-- Every sprite that the call names is at an address below `n`. -/
def WriteCall.named (n : Nat) : WriteCall F → Prop
  | WriteCall.setPosition a _ => a < n
  | WriteCall.setScale a _ => a < n
  | WriteCall.setCenter a _ => a < n
  | WriteCall.setRotationZ a _ => a < n
  | WriteCall.setRotation a _ => a < n
  | WriteCall.setZLevel a _ => a < n
  | WriteCall.move a _ => a < n
  | WriteCall.setSize a _ _ _ => a < n
  | WriteCall.setSize2 a _ _ => a < n
  | WriteCall.setColor a _ => a < n
  | WriteCall.setOpacity a _ => a < n
  | WriteCall.setDrawSorted a _ => a < n
  | WriteCall.setTransparent a _ => a < n
  | WriteCall.showSprite a => a < n
  | WriteCall.hide a => a < n
  | WriteCall.enable a _ => a < n
  | WriteCall.setCheckBounds a _ => a < n
  | WriteCall.addChild p c => p < n ∧ c < n
  | WriteCall.removeChild p c => p < n ∧ c < n
  | WriteCall.writeTo a => a < n

/-- What a call of writeTo from the state `w` to the state `w1` has appended: for every sprite
whose dirty set it has cleared, `blocks` holds the block of the sprite, and the dirty set of
every child of the sprite is empty afterwards. -/
def Emitted (w w1 : World F) (blocks : DataBuffer F) : Prop :=
  ∀ x, (w.sprites x).mDirty.isEmpty = false → (w1.sprites x).mDirty.isEmpty = true →
    List.IsInfix (specSpriteBlock x w) blocks
    ∧ ∀ c ∈ (w.sprites x).mChildren, (w1.sprites c).mDirty.isEmpty = true

/-- The local transform that `getTransform` would return for the sprite: the cached matrix
when the cache is valid, the matrix of the fields otherwise. -/
def effectiveTransform (env : MathEnv F) (s : Sprite F) : Matrix44 F :=
  if s.mUpdateTransform = false then s.mTransformation else localTransform env s

/-- The sprite with its transform caches normalised: the local cache rebuilt, the global
cache reset. -/
def sceneSprite (env : MathEnv F) (s : Sprite F) : Sprite F :=
  { s with mTransformation := effectiveTransform env s, mUpdateTransform := false,
           mGlobalTransform := 1 }

/-- The state with the transform caches of every sprite normalised. Two states show the same
scene, whatever has been cached in them, exactly when `sceneOf` maps them to the same
state. -/
def sceneOf (env : MathEnv F) (w : World F) : World F :=
  { w with sprites := fun b => sceneSprite env (w.sprites b) }

/-- The sprite `x` is hit by the point in the state `w`: it is enabled and a call of
`x.contains(point)` in `w` returns true. -/
def IsHit (env : MathEnv F) (fuel : Nat) (point : Vec3 F) (w : World F) (x : Addr) : Prop :=
  isEnabled x w = true ∧ (contains env fuel x point w).map (fun r => r.2) = some true

/-- The test `IsHit` is decidable. -/
instance isHitDecidable (env : MathEnv F) (fuel : Nat) (point : Vec3 F) (w : World F)
    (x : Addr) : Decidable (IsHit env fuel point w x) := by
  unfold IsHit
  infer_instance

/-- The sprite `x` is in the subtree of `a`: it is `a` or a descendant of `a`. -/
def InSubtree (w : World F) (x a : Addr) : Prop :=
  x = a ∨ IsDescendant (parentOf w) x a

/-- The answer `r` of a hit test on `a` is right for the state `w0`: it is null exactly when
no sprite of the subtree of `a` is hit, and a sprite that it names is in the subtree of `a`
and is hit. -/
def HitResult (env : MathEnv F) (fuel0 : Nat) (point : Vec3 F) (w0 : World F) (a : Addr)
    (r : Option Addr) : Prop :=
  (r = none ↔ ∀ x, InSubtree w0 x a → ¬ IsHit env fuel0 point w0 x)
  ∧ (∀ y, r = some y → InSubtree w0 y a ∧ IsHit env fuel0 point w0 y)

/-- Valid identifiers are process-unique: two sprites with the same identifier other than
`EMPTY_SPRITE_ID` are the same sprite. -/
def UniqueIds (w : World F) : Prop :=
  ∀ x y, (w.sprites x).mId = (w.sprites y).mId → (w.sprites x).mId ≠ EMPTY_SPRITE_ID → x = y

/-- The registry and the identifiers of a process are sound: every entry of the registry
holds the identifier of its sprite, valid identifiers are unique, and a deleted object holds
no identifier. -/
def RegInv (e : Process F) : Prop :=
  (∀ en ∈ e.world.mSprites, (e.world.sprites en.2).mId = en.1)
  ∧ UniqueIds e.world
  ∧ ∀ x ∈ e.deleted, (e.world.sprites x).mId = EMPTY_SPRITE_ID

/-- From `e` to `e1` the registry has lost entries of deleted sprites only: the process `e1`
is sound, what was deleted is deleted, a sprite that is not deleted has its identifier, and
an entry of a sprite that is not deleted is still there. -/
def RegKeeps (e e1 : Process F) : Prop :=
  RegInv e1
  ∧ (∀ x, x ∈ e.deleted → x ∈ e1.deleted)
  ∧ (∀ x, x ∉ e1.deleted → (e1.world.sprites x).mId = (e.world.sprites x).mId)
  ∧ (∀ en ∈ e.world.mSprites, en.2 ∉ e1.deleted → en ∈ e1.world.mSprites)

/-- A process whose sprites form a forest of depth below `n` with a sound registry and
process-unique identifiers. -/
def SoundProcess (n : Nat) (e : Process F) : Prop :=
  GoodTree n e.world ∧ UniqueIds e.world
  ∧ ∀ x ∈ e.deleted, (e.world.sprites x).mId = EMPTY_SPRITE_ID

/-- The sprite `x` is to be deleted for the pending identifiers `ids` in the state `w`: it is
in the subtree of a sprite that is registered under one of the identifiers. -/
def RequestedBy (ids : List sprite_id_t) (w : World F) (x : Addr) : Prop :=
  ∃ id ∈ ids, ∃ a, findSprite w id = some a ∧ InSubtree w x a

/-- The process with the pending list `l`. -/
def Process.withPending (l : List sprite_id_t) (e : Process F) : Process F :=
  { e with mRequestDelete := l }

/-- From `e` to `e1` exactly the sprites requested by the identifiers `ids` have been
deleted. A sprite is deleted in `e1` exactly when it was deleted before or is requested; a
requested sprite has no parent, no children and its identifier is not found; every other
sprite keeps its parent and its identifier, and its child list has lost exactly the
requested sprites; the registry has lost exactly the entries of the requested sprites. -/
def DeletesRequested (ids : List sprite_id_t) (e e1 : Process F) : Prop :=
  (∀ x, x ∈ e1.deleted ↔ x ∈ e.deleted ∨ RequestedBy ids e.world x)
  ∧ (∀ x, RequestedBy ids e.world x →
      parentOf e1.world x = none ∧ childrenOf e1.world x = []
      ∧ findSprite e1.world (e.world.sprites x).mId = none)
  ∧ (∀ x, ¬ RequestedBy ids e.world x →
      parentOf e1.world x = parentOf e.world x
      ∧ (e1.world.sprites x).mId = (e.world.sprites x).mId
      ∧ List.Sublist (childrenOf e1.world x) (childrenOf e.world x)
      ∧ ∀ y, y ∈ childrenOf e1.world x ↔
          y ∈ childrenOf e.world x ∧ ¬ RequestedBy ids e.world y)
  ∧ (∀ en, en ∈ e1.world.mSprites ↔
      en ∈ e.world.mSprites ∧ ¬ RequestedBy ids e.world en.2)
  ∧ List.Sublist e1.world.mSprites e.world.mSprites

end Predicates

/-! ### Concrete processes used to evaluate the code -/

section Examples

/-- An environment over the integers for sprites that are not rotated: comparison is equality
and every rotation matrix is the identity. -/
def exampleEnv : MathEnv ℤ :=
  { isEqual := fun x y => x == y, DEGREE2RADIAN := 0, createRotation := fun _ _ => 1 }

/-- The value that the global `BLOB_TYPE` has in the concrete processes below. -/
def exampleBlobType : Int := 9

/-- The scenario of the spec: root R (identifier 1, address 0) and child C (identifier 2,
address 1), then `R.addChild(C)` and `C.setPosition(10,20,0)`. -/
def scenarioTree : Option (World ℤ) :=
  (newSprite 4 exampleBlobType 0 1 World.empty).bind fun w1 =>
  (newSprite 4 exampleBlobType 1 2 w1).bind fun w2 =>
  (addChild 4 0 1 w2).bind fun w3 =>
  setPosition 4 1 ⟨10, 20, 0⟩ w3

/-- The scenario of the spec followed by `R.writeTo(buffer)` on an empty buffer. -/
def scenarioWrite : Option (World ℤ × DataBuffer ℤ) :=
  scenarioTree.bind fun w => writeTo 4 0 w []

/-- A sprite (identifier 1, address 0) that has been written once, so that it is clean. -/
def cleanSprite : Option (World ℤ) :=
  (newSprite 4 exampleBlobType 0 1 World.empty).bind fun w1 =>
  (writeTo 4 0 w1 []).map fun r => r.1

/-- A sprite constructed with the identifier `EMPTY_SPRITE_ID` and then positioned. -/
def unregisteredSprite : Option (World ℤ) :=
  (newSprite 4 exampleBlobType 0 EMPTY_SPRITE_ID World.empty).bind fun w1 =>
  setPosition 4 0 ⟨1, 0, 0⟩ w1

/-- A sprite with center (1,0,0) whose transform has been read once. -/
def centeredSprite : Option (World ℤ) :=
  (newSprite 4 exampleBlobType 0 1 World.empty).map fun w1 =>
  (getTransform exampleEnv 0 (setCenter 0 ⟨1, 0, 0⟩ w1)).1

/-- Three sprites in a chain: G (address 0) is the parent of P (address 1), which is the
parent of C (address 2); G is at position (1,0,0). -/
def chainOfThree : Option (World ℤ) :=
  (newSprite 4 exampleBlobType 0 1 World.empty).bind fun w1 =>
  (newSprite 4 exampleBlobType 1 2 w1).bind fun w2 =>
  (newSprite 4 exampleBlobType 2 3 w2).bind fun w3 =>
  (addChild 4 0 1 w3).bind fun w4 =>
  (addChild 4 1 2 w4).bind fun w5 =>
  setPosition 4 0 ⟨1, 0, 0⟩ w5

/-- The scenario tree written out as a heap: the root (identifier 1, address 0) and its child
(identifier 2, address 1, position (10,20,0)), both dirty; every other address holds an object
that no constructor has run on. -/
def dirtyPair : World ℤ :=
  { sprites := fun a =>
      if a = 0 then
        { (Sprite.uninit : Sprite ℤ) with
          mId := 1, mChildren := [1], mDirty := ID_DIRTY.or CHILD_DIRTY }
      else if a = 1 then
        { (Sprite.uninit : Sprite ℤ) with
          mId := 2, mParent := some 0, mPosition := ⟨10, 20, 0⟩,
          mDirty := (ID_DIRTY.or PARENT_DIRTY).or POSITION_DIRTY }
      else Sprite.uninit
    mSprites := [(2, 1), (1, 0)] }

/-- A receiving process for `dirtyPair`: the sprite with identifier 1 at address 0 and a sprite
with identifier 2 at address 1, both registered, without parent and without children. -/
def receiverPair : World ℤ :=
  { sprites := fun a =>
      if a = 0 then { (Sprite.uninit : Sprite ℤ) with mId := 1 }
      else if a = 1 then { (Sprite.uninit : Sprite ℤ) with mId := 2 }
      else Sprite.uninit
    mSprites := [(2, 1), (1, 0)] }

/-- A sprite of size (100,50) at the identity transform (identifier 1, address 0), enabled. -/
def hitBox : World ℤ :=
  { sprites := fun a =>
      if a = 0 then
        { (Sprite.uninit : Sprite ℤ) with
          mId := 1, mWidth := 100, mHeight := 50, mDepth := 1, mScale := ⟨1, 1, 1⟩,
          mSpriteFlags := VISIBLE_F ||| TRANSPARENT_F ||| ENABLED_F, mUpdateTransform := true }
      else Sprite.uninit
    mSprites := [(1, 0)] }

/-- Root R (address 0) with the children A (address 1) and B (address 2), added in this
order; A and B are enabled, of size (100,50), at the identity transform. -/
def hitSiblings : World ℤ :=
  { sprites := fun a =>
      if a = 0 then
        { (Sprite.uninit : Sprite ℤ) with
          mId := 1, mChildren := [1, 2], mDepth := 1, mScale := ⟨1, 1, 1⟩,
          mSpriteFlags := VISIBLE_F ||| TRANSPARENT_F, mUpdateTransform := true }
      else if a = 1 then
        { (Sprite.uninit : Sprite ℤ) with
          mId := 2, mParent := some 0, mWidth := 100, mHeight := 50, mDepth := 1,
          mScale := ⟨1, 1, 1⟩, mSpriteFlags := VISIBLE_F ||| TRANSPARENT_F ||| ENABLED_F,
          mUpdateTransform := true }
      else if a = 2 then
        { (Sprite.uninit : Sprite ℤ) with
          mId := 3, mParent := some 0, mWidth := 100, mHeight := 50, mDepth := 1,
          mScale := ⟨1, 1, 1⟩, mSpriteFlags := VISIBLE_F ||| TRANSPARENT_F ||| ENABLED_F,
          mUpdateTransform := true }
      else Sprite.uninit
    mSprites := [(3, 2), (2, 1), (1, 0)] }

/-- The tree of `hitSiblings` built by the calls of the interface: three constructors, size and
`enable(true)` for A and B, then `R.addChild(A)` and `R.addChild(B)`. -/
def hitSiblingsBuilt : Option (World ℤ) :=
  (newSprite 4 exampleBlobType 0 1 World.empty).bind fun w1 =>
  (newSprite 4 exampleBlobType 1 2 w1).bind fun w2 =>
  (newSprite 4 exampleBlobType 2 3 w2).bind fun w3 =>
  (setSize2 4 1 100 50 w3).bind fun w4 =>
  (setSize2 4 2 100 50 w4).bind fun w5 =>
  (enable 4 1 true w5).bind fun w6 =>
  (enable 4 2 true w6).bind fun w7 =>
  (addChild 8 0 1 w7).bind fun w8 =>
  addChild 8 0 2 w8

/-- The tree of `hitSiblings` with a root that draws sorted; A has the Z level 3 and B the
Z level 5. -/
def sortedSiblings : World ℤ :=
  { sprites := fun a =>
      if a = 0 then
        { (Sprite.uninit : Sprite ℤ) with
          mId := 1, mChildren := [1, 2], mDepth := 1, mScale := ⟨1, 1, 1⟩,
          mSpriteFlags := VISIBLE_F ||| TRANSPARENT_F ||| DRAW_SORTED_F,
          mUpdateTransform := true }
      else if a = 1 then
        { (Sprite.uninit : Sprite ℤ) with
          mId := 2, mParent := some 0, mWidth := 100, mHeight := 50, mDepth := 1,
          mScale := ⟨1, 1, 1⟩, mZLevel := 3,
          mSpriteFlags := VISIBLE_F ||| TRANSPARENT_F ||| ENABLED_F, mUpdateTransform := true }
      else if a = 2 then
        { (Sprite.uninit : Sprite ℤ) with
          mId := 3, mParent := some 0, mWidth := 100, mHeight := 50, mDepth := 1,
          mScale := ⟨1, 1, 1⟩, mZLevel := 5,
          mSpriteFlags := VISIBLE_F ||| TRANSPARENT_F ||| ENABLED_F, mUpdateTransform := true }
      else Sprite.uninit
    mSprites := [(3, 2), (2, 1), (1, 0)] }

/-- The sprite of `hitBox` without the visible flag: enabled, of size (100,50), hidden. -/
def hiddenBox : World ℤ :=
  { sprites := fun a =>
      if a = 0 then
        { (Sprite.uninit : Sprite ℤ) with
          mId := 1, mWidth := 100, mHeight := 50, mDepth := 1, mScale := ⟨1, 1, 1⟩,
          mSpriteFlags := TRANSPARENT_F ||| ENABLED_F, mUpdateTransform := true }
      else Sprite.uninit
    mSprites := [(1, 0)] }

/-- The tree of `dirtyPair` with a root that has no valid identifier: the root (address 0,
identifier `EMPTY_SPRITE_ID`) and its child (identifier 2, address 1), both dirty. -/
def unnamedRoot : World ℤ :=
  { sprites := fun a =>
      if a = 0 then
        { (Sprite.uninit : Sprite ℤ) with
          mId := EMPTY_SPRITE_ID, mChildren := [1], mDirty := PARENT_DIRTY.or CHILD_DIRTY }
      else if a = 1 then
        { (Sprite.uninit : Sprite ℤ) with
          mId := 2, mParent := some 0, mPosition := ⟨10, 20, 0⟩,
          mDirty := (ID_DIRTY.or PARENT_DIRTY).or POSITION_DIRTY }
      else Sprite.uninit
    mSprites := [(2, 1)] }

/-- A parent (address 0) at position (5,5,0) with scale (2,2,1) and its child (address 1),
which has the size (0,0) that `init` gives and is enabled. -/
def zeroSizeChild : World ℤ :=
  { sprites := fun a =>
      if a = 0 then
        { (Sprite.uninit : Sprite ℤ) with
          mId := 1, mChildren := [1], mDepth := 1, mPosition := ⟨5, 5, 0⟩,
          mScale := ⟨2, 2, 1⟩, mSpriteFlags := VISIBLE_F ||| TRANSPARENT_F,
          mUpdateTransform := true }
      else if a = 1 then
        { (Sprite.uninit : Sprite ℤ) with
          mId := 2, mParent := some 0, mWidth := 0, mHeight := 0, mDepth := 1,
          mScale := ⟨1, 1, 1⟩, mSpriteFlags := VISIBLE_F ||| TRANSPARENT_F ||| ENABLED_F,
          mUpdateTransform := true }
      else Sprite.uninit
    mSprites := [(2, 1), (1, 0)] }

/-- The screen rectangle of the examples: 1920 by 1080 at the origin. -/
def exampleScreen : Rectf ℤ := ⟨0, 0, 1920, 1080⟩

/-- A sprite of width 1 and height 50 at position (10,10) with bounds checking on: its
corners (0,0) and (w-1,0) coincide, so its transformed box has the width 0. -/
def thinBox : World ℤ :=
  { sprites := fun a =>
      if a = 0 then
        { (Sprite.uninit : Sprite ℤ) with
          mId := 1, mWidth := 1, mHeight := 50, mDepth := 1, mPosition := ⟨10, 10, 0⟩,
          mScale := ⟨1, 1, 1⟩, mSpriteFlags := VISIBLE_F ||| TRANSPARENT_F,
          mUpdateTransform := true, mCheckBounds := true, mBoundsNeedChecking := true }
      else Sprite.uninit
    mSprites := [(1, 0)] }

/-- The sprite of `hitBox` (size (100,50) at the origin) with bounds checking on. -/
def boundedBox : World ℤ := setCheckBounds 0 true hitBox

/-- The process of `chainOfThree` (G at address 0, its child P at 1, the child C of P at 2)
with an empty pending list and no deleted object. -/
def chainProcess : Option (Process ℤ) :=
  chainOfThree.map fun w => { world := w, mRequestDelete := [], deleted := [] }

/-- Two freshly constructed sprites: identifier 1 at address 0 and identifier 2 at address 1;
nothing else has been called. -/
def freshPair : World ℤ :=
  ((newSprite 4 exampleBlobType 0 1 World.empty).bind fun w1 =>
    newSprite 4 exampleBlobType 1 2 w1).getD World.empty

/-- A server that attaches the second sprite to the first, positions it, writes a frame,
hides the child, moves it, and detaches it again. -/
def frameCalls : List (WriteCall ℤ) :=
  [WriteCall.addChild 0 1, WriteCall.setPosition 1 ⟨10, 20, 0⟩, WriteCall.writeTo 0,
    WriteCall.hide 1, WriteCall.move 1 ⟨1, 1, 0⟩, WriteCall.removeChild 0 1,
    WriteCall.addChild 0 1, WriteCall.setOpacity 1 0]

/-- The scenario of the spec, written once, then `R.removeChild(C)`: the child C (identifier
2, address 1) is registered, has no parent and its dirty set holds the parent bit. -/
def detachedChild : Option (World ℤ) :=
  scenarioWrite.bind fun r => removeChild 4 0 1 r.1

end Examples

/-! ## Part 2: theorems -/

set_option linter.unusedSectionVars false

section Basics

variable {F : Type} [LinearOrderedCommRing F]

/-- The sprite at the modified address. -/
@[simp] theorem modify_sprites_same (w : World F) (a : Addr) (f : Sprite F → Sprite F) :
    (w.modify a f).sprites a = f (w.sprites a) := by
  simp [World.modify]

/-- The sprites at the other addresses are untouched. -/
@[simp] theorem modify_sprites_ne (w : World F) {a b : Addr} (f : Sprite F → Sprite F)
    (h : b ≠ a) : (w.modify a f).sprites b = w.sprites b := by
  simp [World.modify, Function.update_noteq h]

/-- The heap after a modification, at any address. -/
theorem modify_sprites (w : World F) (a b : Addr) (f : Sprite F → Sprite F) :
    (w.modify a f).sprites b = if b = a then f (w.sprites a) else w.sprites b := by
  by_cases h : b = a
  · subst h; simp
  · simp [h]

/-- A modification of the heap leaves the registry as it is. -/
@[simp] theorem modify_mSprites (w : World F) (a : Addr) (f : Sprite F → Sprite F) :
    (w.modify a f).mSprites = w.mSprites := rfl

/-- A modification that returns the sprite it was given changes nothing. -/
theorem modify_id (w : World F) (a : Addr) (f : Sprite F → Sprite F)
    (h : f (w.sprites a) = w.sprites a) : w.modify a f = w := by
  cases w with
  | mk sprites mSprites =>
    simp only [World.modify, World.mk.injEq, and_true]
    simp only at h
    rw [h]
    exact Function.update_eq_self a sprites

/-! ### Bits -/

/-- Setting a bit that is set changes nothing. -/
theorem or_bit_of_and_ne_zero (flags k : Nat) (h : flags &&& 2 ^ k ≠ 0) :
    flags ||| 2 ^ k = flags := by
  apply Nat.eq_of_testBit_eq
  intro i
  rw [Nat.testBit_or]
  by_cases hik : i = k
  · subst hik
    have : flags.testBit i = true := by
      by_contra hc
      apply h
      apply Nat.eq_of_testBit_eq
      intro j
      rw [Nat.testBit_and, Nat.zero_testBit, Nat.testBit_two_pow]
      by_cases hj : i = j
      · subst hj; simp at hc; simp [hc]
      · simp [hj]
    simp [this]
  · rw [Nat.testBit_two_pow]
    have : decide (k = i) = false := by simp; omega
    simp [this]

/-- Clearing a bit that is clear changes nothing in a 32 bit word. -/
theorem and_compl_of_and_eq_zero (flags k : Nat) (h32 : flags < 2 ^ 32)
    (h : flags &&& 2 ^ k = 0) : flags &&& (4294967295 ^^^ 2 ^ k) = flags := by
  apply Nat.eq_of_testBit_eq
  intro i
  rw [Nat.testBit_and, Nat.testBit_xor]
  have hbit : flags.testBit k = false := by
    have := congrArg (fun x => x.testBit k) h
    simpa [Nat.testBit_and, Nat.testBit_two_pow] using this
  by_cases hi : i < 32
  · have h1 : (4294967295 : Nat).testBit i = true := by
      have : (4294967295 : Nat) = 2 ^ 32 - 1 := by norm_num
      rw [this, Nat.testBit_two_pow_sub_one]; simp [hi]
    rw [h1, Nat.testBit_two_pow]
    by_cases hik : k = i
    · subst hik; simp [hbit]
    · simp [hik]
  · have : flags.testBit i = false := by
      apply Nat.testBit_lt_two_pow
      calc flags < 2 ^ 32 := h32
        _ ≤ 2 ^ i := Nat.pow_le_pow_right (by norm_num) (by omega)
    simp [this]

/-- Setting a flag to the value it has leaves the world as it is. -/
theorem setFlag_current (fuel : Nat) (a : Addr) (k : Nat) (dirty : DirtyState) (w : World F)
    (h32 : (w.sprites a).mSpriteFlags < 2 ^ 32) :
    setFlag fuel a (2 ^ k) (getFlag (2 ^ k) (w.sprites a).mSpriteFlags) dirty w = some w := by
  unfold setFlag getFlag
  by_cases h : (w.sprites a).mSpriteFlags &&& 2 ^ k = 0
  · have h2 := and_compl_of_and_eq_zero _ k h32 h
    simp [h, complement32, h2]
  · have h2 := or_bit_of_and_ne_zero _ k h
    simp [h, h2]

end Basics

/-! ### Setters (claims C7, C8, C9) and transforms (claims C2, C10) -/
section SetterClaims

variable {F : Type} [LinearOrderedCommRing F]

/-- C7: calling a setter with the value the sprite currently holds returns the process state
unchanged: setPosition, setScale, setSize (both overloads), setColor, setOpacity, and the flag
setters show (on a visible sprite), hide (on a hidden sprite), enable, setTransparent and
setDrawSorted called with the current value of their flag. No dirty set of any sprite, no
mUpdateTransform and no bounds-recheck flag changes. -/
theorem setter_with_current_value_changes_nothing (fuel : Nat) (a : Addr) (w : World F)
    (h32 : (w.sprites a).mSpriteFlags < 2 ^ 32) :
    setPosition fuel a (w.sprites a).mPosition w = some w
    ∧ setScale fuel a (w.sprites a).mScale w = some w
    ∧ setSize fuel a (w.sprites a).mWidth (w.sprites a).mHeight (w.sprites a).mDepth w = some w
    ∧ setSize2 fuel a (w.sprites a).mWidth (w.sprites a).mHeight w = some w
    ∧ setColor fuel a (w.sprites a).mColor w = some w
    ∧ setOpacity fuel a (w.sprites a).mOpacity w = some w
    ∧ (visible a w = true → showSprite fuel a w = some w)
    ∧ (visible a w = false → hide fuel a w = some w)
    ∧ enable fuel a (isEnabled a w) w = some w
    ∧ setTransparent fuel a (getTransparent a w) w = some w
    ∧ setDrawSorted fuel a (getDrawSorted a w) w = some w := by
  refine ⟨by simp [setPosition], by simp [setScale], by simp [setSize],
    by simp [setSize2, setSize], by simp [setColor], by simp [setOpacity], ?_, ?_, ?_, ?_, ?_⟩
  · intro hv
    have := setFlag_current fuel a 0 FLAGS_DIRTY w h32
    have hv' : getFlag (2 ^ 0) (w.sprites a).mSpriteFlags = true := hv
    rw [hv'] at this
    exact this
  · intro hv
    have := setFlag_current fuel a 0 FLAGS_DIRTY w h32
    have hv' : getFlag (2 ^ 0) (w.sprites a).mSpriteFlags = false := hv
    rw [hv'] at this
    exact this
  · exact setFlag_current fuel a 2 FLAGS_DIRTY w h32
  · exact setFlag_current fuel a 1 FLAGS_DIRTY w h32
  · exact setFlag_current fuel a 3 FLAGS_DIRTY w h32

end SetterClaims

/-- A witness of C7 on the child sprite of the scenario tree. -/
theorem setter_with_current_value_witness :
    ((scenarioTree.getD World.empty).sprites 1).mSpriteFlags < 2 ^ 32
    ∧ setPosition 0 1 ⟨10, 20, 0⟩ (scenarioTree.getD World.empty)
        = some (scenarioTree.getD World.empty) := by
  have h : ((scenarioTree.getD World.empty).sprites 1).mSpriteFlags < 2 ^ 32 := by decide
  have hp : ((scenarioTree.getD World.empty).sprites 1).mPosition = ⟨10, 20, 0⟩ := by decide
  refine ⟨h, ?_⟩
  have := (setter_with_current_value_changes_nothing 0 1 (scenarioTree.getD World.empty) h).1
  rw [hp] at this
  exact this

section TransformFlagClaims

variable {F : Type} [LinearOrderedCommRing F]

/-- C8 (the code misses it): on a clean sprite at the origin, move by (1,0,0) changes the
position to (1,0,0) but leaves the dirty set empty, so the next writeTo appends nothing, while
setPosition to (1,0,0) marks the position bit and the next writeTo appends a block that carries
the POSITION record (1,0,0). -/
theorem move_does_not_mark_position_dirty :
    cleanSprite.map (fun w =>
        (((move 0 ⟨1, 0, 0⟩ w).sprites 0).mPosition,
         ((move 0 ⟨1, 0, 0⟩ w).sprites 0).mDirty.has POSITION_DIRTY,
         ((move 0 ⟨1, 0, 0⟩ w).sprites 0).mDirty.isEmpty,
         (writeTo 4 0 (move 0 ⟨1, 0, 0⟩ w) []).map (fun r => r.2)))
      = some (⟨1, 0, 0⟩, false, true, some [])
    ∧ cleanSprite.bind (fun w =>
        (setPosition 4 0 ⟨1, 0, 0⟩ w).map (fun w1 =>
          ((w1.sprites 0).mPosition, (w1.sprites 0).mDirty.has POSITION_DIRTY,
           (writeTo 4 0 w1 []).map (fun r => r.2))))
      = some (⟨1, 0, 0⟩, true,
          some [Item.char exampleBlobType, Item.char SPRITE_ID_ATTRIBUTE, Item.spriteId 1,
            Item.char POSITION_ATT, Item.float 1, Item.float 0, Item.float 0,
            Item.char TERMINATOR_CHAR]) := by
  constructor <;> decide

/-- C9, as stated, fails: on a sprite whose transform has been read, so that mUpdateTransform
is false, setCenter with the current center and move by the zero vector both set
mUpdateTransform to true. -/
theorem setCenter_move_invalidate_without_change :
    centeredSprite.map (fun w =>
        ((w.sprites 0).mUpdateTransform,
         ((setCenter 0 (w.sprites 0).mCenter w).sprites 0).mUpdateTransform,
         ((move 0 ⟨0, 0, 0⟩ w).sprites 0).mUpdateTransform))
      = some (false, true, true) := by
  decide

/-- C9, amended: setCenter and move have no write-if-changed test. After setCenter with any
center and after move with any delta the flags mUpdateTransform and mBoundsNeedChecking of the
sprite are true; with the current center, or with the zero delta, the sprite is otherwise as
before (same center, same position) and no dirty set changes. -/
theorem setCenter_move_always_invalidate (a : Addr) (v : Vec3 F) (w : World F) :
    ((setCenter a v w).sprites a).mUpdateTransform = true
    ∧ ((setCenter a v w).sprites a).mBoundsNeedChecking = true
    ∧ ((move a v w).sprites a).mUpdateTransform = true
    ∧ ((move a v w).sprites a).mBoundsNeedChecking = true
    ∧ setCenter a (w.sprites a).mCenter w
        = w.modify a (fun s => { s with mUpdateTransform := true, mBoundsNeedChecking := true })
    ∧ move a ⟨0, 0, 0⟩ w
        = w.modify a (fun s => { s with mUpdateTransform := true, mBoundsNeedChecking := true })
    ∧ (∀ b, ((setCenter a v w).sprites b).mDirty = (w.sprites b).mDirty)
    ∧ (∀ b, ((move a v w).sprites b).mDirty = (w.sprites b).mDirty) := by
  refine ⟨by simp [setCenter], by simp [setCenter], by simp [move], by simp [move], ?_, ?_,
    ?_, ?_⟩
  · simp [setCenter, World.modify]
  · simp [move, World.modify]
  · intro b
    simp only [setCenter, modify_sprites]
    split_ifs with h
    · subst h; rfl
    · rfl
  · intro b
    simp only [move, modify_sprites]
    split_ifs with h
    · subst h; rfl
    · rfl
end TransformFlagClaims

/-- C10 (the code misses it): a sprite with center (1,0,0) whose transform has been read, then
resized with setSize(2,0): mUpdateTransform stays false and getTransform returns the cached
matrix, whose translation entry is 0, while the matrix of the current fields has -2 there. -/
theorem setSize_leaves_stale_transform :
    centeredSprite.bind (fun w =>
        (setSize2 4 0 2 0 w).map (fun w1 =>
          ((w1.sprites 0).mUpdateTransform, (w1.sprites 0).mWidth,
           (getTransform exampleEnv 0 w1).2 0 3,
           localTransform exampleEnv (w1.sprites 0) 0 3)))
      = some (false, 2, 0, -2) := by
  decide!

/-- C2 (the code is wrong): in the chain G, P, C with G at (1,0,0), the global transform of P is
the translation by 1 and the local transform of C is the identity, so their product translates
by 1, but getGlobalTransform of C translates by 2: the local transform of G is applied twice. -/
theorem grandchild_global_transform_counts_grandparent_twice :
    chainOfThree.bind (fun w =>
        (getGlobalTransform exampleEnv 8 1 w).bind (fun rp =>
          (getGlobalTransform exampleEnv 8 2 rp.1).map (fun rc =>
            (rc.2 0 3, (rp.2 * (getTransform exampleEnv 2 rc.1).2) 0 3,
             ((getTransform exampleEnv 0 rc.1).2 * (getTransform exampleEnv 1 rc.1).2
               * (getTransform exampleEnv 2 rc.1).2) 0 3))))
      = some (2, 1, 1) := by
  decide!

/-! ### Wire format (claims C5, C6) -/
section
variable {F : Type} [LinearOrderedCommRing F]

/-- A conditional append is the append of a conditional list. -/
theorem ite_append_self {α : Type} (c : Prop) [Decidable c] (buf X : List α) :
    (if c then buf ++ X else buf) = buf ++ (if c then X else []) := by
  split <;> simp

/-- The function writeAttributesTo appends the records that the spec lists. -/
theorem writeAttributesTo_eq (a : Addr) (w : World F) (buf : DataBuffer F) :
    writeAttributesTo a w buf = buf ++ specAttributeRecords a w := by
  simp only [writeAttributesTo, DataBuffer.add]
  simp only [List.append_assoc, List.singleton_append, List.cons_append, List.nil_append]
  simp only [ite_append_self]
  simp only [specAttributeRecords, List.append_assoc, parentIdOf]
  cases (w.sprites a).mParent <;> rfl

/-- C5: for a sprite with a valid identifier and a non-empty dirty set, writeTo clears the dirty
set and appends the block of the spec (type tag, SPRITE_ID_ATTRIBUTE, identifier, the records of
the dirty attributes in the order parent, size, flags, position, scale, color, opacity, and the
terminator) before it writes the children; for a sprite without children the block is all that
is appended. The id and child bits add nothing to the block. -/
theorem writeTo_appends_sprite_block (fuel : Nat) (a : Addr) (w : World F) (buf : DataBuffer F)
    (hid : (w.sprites a).mId ≠ EMPTY_SPRITE_ID) (hdirty : (w.sprites a).mDirty.isEmpty = false) :
    writeTo (fuel + 1) a w buf
      = (w.sprites a).mChildren.foldlM (fun st c => writeTo fuel c st.1 st.2)
          (w.modify a (fun s => { s with mDirty := s.mDirty.clear }), buf ++ specSpriteBlock a w)
    ∧ ((w.sprites a).mChildren = [] →
        writeTo (fuel + 1) a w buf
          = some (w.modify a (fun s => { s with mDirty := s.mDirty.clear }),
              buf ++ specSpriteBlock a w)) := by
  have h : writeTo (fuel + 1) a w buf
      = (w.sprites a).mChildren.foldlM (fun st c => writeTo fuel c st.1 st.2)
          (w.modify a (fun s => { s with mDirty := s.mDirty.clear }),
            buf ++ specSpriteBlock a w) := by
    simp only [writeTo, hdirty, hid, if_false, Bool.false_eq_true, writeAttributesTo_eq,
      modify_sprites_same, DataBuffer.add, specSpriteBlock, List.append_assoc,
      List.singleton_append, List.cons_append, List.nil_append]
  refine ⟨h, ?_⟩
  intro hc
  rw [h, hc]
  rfl

end

/-- A witness of C5 on the child sprite of the scenario tree. -/
theorem writeTo_appends_sprite_block_witness :
    (writeTo 1 1 (scenarioTree.getD World.empty) []).map (fun r => r.2)
      = some [Item.char 9, Item.char 1, Item.spriteId 2, Item.char 2, Item.spriteId 1,
          Item.char 5, Item.float 10, Item.float 20, Item.float 0, Item.char 0] := by
  have h := (writeTo_appends_sprite_block 0 1 (scenarioTree.getD World.empty) []
    (by decide) (by decide)).2 (by decide)
  rw [h]
  decide

/-- C6, as stated, fails: in the scenario the dirty set of R is not empty when R is written (it
holds the id bit from construction and the child bit from the changes of C), and the buffer is
not the single block of C: it is longer and starts with a block for R. -/
theorem scenario_buffer_is_not_one_block :
    scenarioTree.map (fun w => (w.sprites 0).mDirty.isEmpty) = some false
    ∧ scenarioWrite.map (fun r => r.2)
      ≠ some [Item.char exampleBlobType, Item.char SPRITE_ID_ATTRIBUTE, Item.spriteId 2,
          Item.char PARENT_ATT, Item.spriteId 1,
          Item.char POSITION_ATT, Item.float 10, Item.float 20, Item.float 0,
          Item.char TERMINATOR_CHAR]
    ∧ scenarioWrite.map (fun r => r.2.take 4)
      = some [Item.char exampleBlobType, Item.char SPRITE_ID_ATTRIBUTE, Item.spriteId 1,
          Item.char TERMINATOR_CHAR] := by
  refine ⟨by decide, by decide, by decide⟩

/-- C6, amended: in the scenario the buffer holds two sprite blocks. The first is the block of R
with no attribute record: type tag, SPRITE_ID_ATTRIBUTE, identifier 1, terminator. The second
is the block of C: type tag, SPRITE_ID_ATTRIBUTE, identifier 2, a PARENT record with identifier
1, a POSITION record (10,20,0), terminator. Both dirty sets are empty afterwards. -/
theorem scenario_buffer_holds_two_blocks :
    scenarioWrite.map (fun r => r.2)
      = some [Item.char exampleBlobType, Item.char SPRITE_ID_ATTRIBUTE, Item.spriteId 1,
          Item.char TERMINATOR_CHAR,
          Item.char exampleBlobType, Item.char SPRITE_ID_ATTRIBUTE, Item.spriteId 2,
          Item.char PARENT_ATT, Item.spriteId 1,
          Item.char POSITION_ATT, Item.float 10, Item.float 20, Item.float 0,
          Item.char TERMINATOR_CHAR]
    ∧ scenarioWrite.map (fun r => ((r.1.sprites 0).mDirty.isEmpty, (r.1.sprites 1).mDirty.isEmpty))
      = some (true, true) := by
  refine ⟨by decide, by decide⟩

/-! ### Dirty-clear-on-write (claim C4) -/
section
variable {F : Type} [LinearOrderedCommRing F]

/-- Clearing no dirty set. -/
theorem Cleared.cleared_refl (w : World F) : Cleared w w := ⟨rfl, fun _ => Or.inl rfl⟩

/-- Clearing in two steps. -/
theorem Cleared.cleared_trans {w w1 w2 : World F} (h1 : Cleared w w1) (h2 : Cleared w1 w2) :
    Cleared w w2 := by
  refine ⟨h2.1.trans h1.1, fun b => ?_⟩
  rcases h1.2 b with e1 | e1 <;> rcases h2.2 b with e2 | e2
  · left; rw [e2, e1]
  · right; rw [e2, e1]
  · right; rw [e2, e1]
  · right; rw [e2, e1]; rfl

/-- Clearing the dirty set of one sprite. -/
theorem Cleared.modify_clear (w : World F) (a : Addr) :
    Cleared w (w.modify a (fun s => { s with mDirty := s.mDirty.clear })) := by
  refine ⟨rfl, fun b => ?_⟩
  by_cases h : b = a
  · subst h; right; simp
  · left; simp [h]

/-- An empty dirty set stays empty. -/
theorem Cleared.isEmpty_of_isEmpty {w w1 : World F} (h : Cleared w w1) (b : Addr)
    (hb : (w.sprites b).mDirty.isEmpty = true) : (w1.sprites b).mDirty.isEmpty = true := by
  rcases h.2 b with e | e
  · rw [e]; exact hb
  · rw [e]; rfl

/-- The bound on the dirty sprites is kept. -/
theorem Cleared.dirtyBelow {w w1 : World F} (h : Cleared w w1) {n : Nat}
    (hn : DirtyBelow n w) : DirtyBelow n w1 :=
  fun b hb => h.isEmpty_of_isEmpty b (hn b hb)

/-- Clearing dirty sets does not add sprites to write. -/
theorem Cleared.pendingWrites_le {w w1 : World F} (h : Cleared w w1) (n : Nat) :
    pendingWrites n w1 ≤ pendingWrites n w := by
  unfold pendingWrites
  apply Finset.card_le_card
  intro b
  simp only [Finset.mem_filter, Finset.mem_range]
  rintro ⟨hb, hd, hi⟩
  rcases h.2 b with e | e
  · rw [e] at hd hi; exact ⟨hb, hd, hi⟩
  · rw [e] at hd; exact absurd hd (by simp [DirtyState.clear, DirtyState.isEmpty])

/-- Clearing the dirty set of a sprite that would be written leaves fewer sprites to write. -/
theorem pendingWrites_modify_clear_lt (w : World F) (a n : Nat) (ha : a < n)
    (hd : (w.sprites a).mDirty.isEmpty = false) (hi : (w.sprites a).mId ≠ EMPTY_SPRITE_ID) :
    pendingWrites n (w.modify a (fun s => { s with mDirty := s.mDirty.clear }))
      < pendingWrites n w := by
  unfold pendingWrites
  apply Finset.card_lt_card
  rw [Finset.ssubset_iff_of_subset]
  · refine ⟨a, ?_, ?_⟩
    · simp [ha, hd, hi]
    · simp [DirtyState.clear, DirtyState.isEmpty]
  · intro b
    simp only [Finset.mem_filter, Finset.mem_range]
    rintro ⟨hb, hd', hi'⟩
    by_cases hba : b = a
    · subst hba
      simp [DirtyState.clear, DirtyState.isEmpty] at hd'
    · rw [modify_sprites_ne _ _ hba] at hd' hi'
      exact ⟨hb, hd', hi'⟩

/-- The loop of writeTo over a list of children returns when each call of writeTo does. -/
theorem writeTo_children_total (n f : Nat)
    (ih : ∀ (a : Addr) (w : World F) (buf : DataBuffer F), DirtyBelow n w →
      pendingWrites n w < f → ∃ w1 buf1, writeTo f a w buf = some (w1, buf1) ∧ Cleared w w1) :
    ∀ (cs : List Addr) (w : World F) (buf : DataBuffer F), DirtyBelow n w →
      pendingWrites n w < f →
      ∃ w1 buf1, cs.foldlM (fun st c => writeTo f c st.1 st.2) (w, buf) = some (w1, buf1)
        ∧ Cleared w w1 := by
  intro cs
  induction cs with
  | nil =>
    intro w buf _ _
    exact ⟨w, buf, rfl, Cleared.cleared_refl w⟩
  | cons c cs ihc =>
    intro w buf hn hp
    obtain ⟨w1, buf1, e1, c1⟩ := ih c w buf hn hp
    obtain ⟨w2, buf2, e2, c2⟩ := ihc w1 buf1 (c1.dirtyBelow hn)
      (lt_of_le_of_lt (c1.pendingWrites_le n) hp)
    refine ⟨w2, buf2, ?_, c1.cleared_trans c2⟩
    rw [List.foldlM_cons]
    simp only [e1]
    exact e2

/-- With more fuel than there are sprites to write, writeTo returns. -/
theorem writeTo_total (n : Nat) :
    ∀ (f : Nat) (a : Addr) (w : World F) (buf : DataBuffer F), DirtyBelow n w →
      pendingWrites n w < f → ∃ w1 buf1, writeTo f a w buf = some (w1, buf1) ∧ Cleared w w1 := by
  intro f
  induction f with
  | zero => intro a w buf _ hp; exact absurd hp (Nat.not_lt_zero _)
  | succ f ih =>
    intro a w buf hn hp
    by_cases hd : (w.sprites a).mDirty.isEmpty = true
    · exact ⟨w, buf, by simp [writeTo, hd], Cleared.cleared_refl w⟩
    · by_cases hi : (w.sprites a).mId = EMPTY_SPRITE_ID
      · exact ⟨w, buf, by simp [writeTo, hd, hi], Cleared.cleared_refl w⟩
      · have hd' : (w.sprites a).mDirty.isEmpty = false := by simpa using hd
        have ha : a < n := by
          by_contra hge
          have := hn a (Nat.le_of_not_lt hge)
          rw [this] at hd'
          exact absurd hd' (by simp)
        have hlt := pendingWrites_modify_clear_lt w a n ha hd' hi
        have hc := Cleared.modify_clear w a
        obtain ⟨w1, buf1, e1, c1⟩ := writeTo_children_total n f ih
          ((w.modify a (fun s => { s with mDirty := s.mDirty.clear })).sprites a).mChildren
          (w.modify a (fun s => { s with mDirty := s.mDirty.clear }))
          (((writeAttributesTo a w (((buf.add (Item.char (w.sprites a).mBlobType)).add
            (Item.char SPRITE_ID_ATTRIBUTE)).add (Item.spriteId (w.sprites a).mId))).add
            (Item.char TERMINATOR_CHAR)))
          (hc.dirtyBelow hn) (lt_of_lt_of_le hlt (Nat.lt_succ_iff.mp hp))
        refine ⟨w1, buf1, ?_, hc.cleared_trans c1⟩
        simp only [writeTo, hd', hi, if_false, Bool.false_eq_true]
        exact e1

/-- C4, amended: for a sprite with a valid identifier and a non-empty dirty set, in a process
where only the sprites below `n` are dirty, writeTo with fuel above `n` returns, the dirty set
of the sprite is empty afterwards, and a second writeTo on the same sprite returns the same
state and the same buffer: it appends nothing. -/
theorem writeTo_clears_dirty_set (n fuel : Nat) (a : Addr) (w : World F) (buf : DataBuffer F)
    (hid : (w.sprites a).mId ≠ EMPTY_SPRITE_ID) (hdirty : (w.sprites a).mDirty.isEmpty = false)
    (hn : DirtyBelow n w) (hfuel : n < fuel) :
    ∃ w1 buf1, writeTo fuel a w buf = some (w1, buf1)
      ∧ (w1.sprites a).mDirty.isEmpty = true
      ∧ ∀ fuel2, writeTo (fuel2 + 1) a w1 buf1 = some (w1, buf1) := by
  obtain ⟨f, rfl⟩ : ∃ f, fuel = f + 1 := ⟨fuel - 1, by omega⟩
  have ha : a < n := by
    by_contra hge
    have := hn a (Nat.le_of_not_lt hge)
    rw [this] at hdirty
    exact absurd hdirty (by simp)
  have hle : pendingWrites n w ≤ n := by
    unfold pendingWrites
    calc _ ≤ (Finset.range n).card := Finset.card_filter_le _ _
      _ = n := Finset.card_range n
  have hlt := pendingWrites_modify_clear_lt w a n ha hdirty hid
  have hc := Cleared.modify_clear w a
  obtain ⟨w1, buf1, e1, c1⟩ := writeTo_children_total n f (writeTo_total n f)
    ((w.modify a (fun s => { s with mDirty := s.mDirty.clear })).sprites a).mChildren
    (w.modify a (fun s => { s with mDirty := s.mDirty.clear }))
    (((writeAttributesTo a w (((buf.add (Item.char (w.sprites a).mBlobType)).add
      (Item.char SPRITE_ID_ATTRIBUTE)).add (Item.spriteId (w.sprites a).mId))).add
      (Item.char TERMINATOR_CHAR)))
    (hc.dirtyBelow hn) (lt_of_lt_of_le hlt (le_trans hle (Nat.lt_succ_iff.mp hfuel)))
  have hempty : (w1.sprites a).mDirty.isEmpty = true :=
    c1.isEmpty_of_isEmpty a (by simp [DirtyState.clear, DirtyState.isEmpty])
  refine ⟨w1, buf1, ?_, hempty, ?_⟩
  · simp only [writeTo, hdirty, hid, if_false, Bool.false_eq_true]
    exact e1
  · intro fuel2
    simp [writeTo, hempty]

end

/-- C4, as stated, fails: a sprite constructed with the identifier EMPTY_SPRITE_ID and then
positioned has a non-empty dirty set; writeTo returns without writing and the dirty set is
still not empty. -/
theorem writeTo_keeps_dirty_set_without_identifier :
    unregisteredSprite.map (fun w => ((w.sprites 0).mId, (w.sprites 0).mDirty.isEmpty))
      = some (EMPTY_SPRITE_ID, false)
    ∧ unregisteredSprite.bind (fun w =>
        (writeTo 4 0 w []).map (fun r => ((r.1.sprites 0).mDirty.isEmpty, r.2)))
      = some (false, []) := by
  refine ⟨by decide, by decide⟩

/-- A witness of the amended C4 on the root of the scenario tree, with two dirty sprites. -/
theorem writeTo_clears_dirty_set_witness :
    ∃ w1 buf1, writeTo 3 0 dirtyPair [] = some (w1, buf1)
      ∧ (w1.sprites 0).mDirty.isEmpty = true
      ∧ ∀ fuel2, writeTo (fuel2 + 1) 0 w1 buf1 = some (w1, buf1) :=
  writeTo_clears_dirty_set 2 3 0 dirtyPair [] (by decide) (by decide)
    (by
      intro b hb
      have h0 : b ≠ 0 := by omega
      have h1 : b ≠ 1 := by omega
      simp [dirtyPair, h0, h1, Sprite.uninit, DirtyState.isEmpty])
    (by decide)

/-! ### The loop of markAsDirty -/
section
variable {F : Type} [LinearOrderedCommRing F]

/-- Adding the same bits twice is adding them once. -/
theorem DirtyState.or_or_self (d b : DirtyState) : (d.or b).or b = d.or b := by
  simp [DirtyState.or, Nat.or_assoc]

/-- Marking no sprite. -/
theorem Marked.marked_refl (w : World F) : Marked w w := ⟨rfl, fun _ => Or.inl rfl⟩

/-- Marking in two steps. -/
theorem Marked.marked_trans {w w1 w2 : World F} (h1 : Marked w w1) (h2 : Marked w1 w2) :
    Marked w w2 := by
  refine ⟨h2.1.trans h1.1, fun b => ?_⟩
  rcases h1.2 b with e1 | e1 <;> rcases h2.2 b with e2 | e2
  · left; rw [e2, e1]
  · right; rw [e2, e1]
  · right; rw [e2, e1]
  · right; rw [e2, e1]; simp [DirtyState.or_or_self]

/-- Marking one sprite. -/
theorem Marked.modify_mark (w : World F) (a : Addr) :
    Marked w (w.modify a (fun s => { s with mDirty := s.mDirty.or CHILD_DIRTY })) := by
  refine ⟨rfl, fun b => ?_⟩
  by_cases h : b = a
  · subst h; right; simp
  · left; simp [h]

/-- Marking keeps the parent pointers. -/
theorem Marked.parentOf_eq {w w1 : World F} (h : Marked w w1) : parentOf w1 = parentOf w := by
  funext b
  unfold parentOf
  rcases h.2 b with e | e <;> rw [e]

/-- Marking keeps the child lists. -/
theorem Marked.childrenOf_eq {w w1 : World F} (h : Marked w w1) :
    childrenOf w1 = childrenOf w := by
  funext b
  unfold childrenOf
  rcases h.2 b with e | e <;> rw [e]

/-- Marking keeps the bound on the sprites with a parent. -/
theorem Marked.parentsBelow {w w1 : World F} (h : Marked w w1) {n : Nat}
    (hn : ParentsBelow n w) : ParentsBelow n w1 := by
  intro b hb
  have := congrFun h.parentOf_eq b
  unfold parentOf at this
  rw [this]
  exact hn b hb

/-- The loop of markAsDirty ends at once without an ancestor. -/
theorem markAsDirtyLoop_none (fuel : Nat) (w : World F) :
    markAsDirtyLoop fuel none w = some w := by
  cases fuel <;> rfl

/-- The loop of markAsDirty only adds the child bit to dirty sets. -/
theorem markAsDirtyLoop_marked :
    ∀ (fuel : Nat) (p : Option Addr) (w w1 : World F),
      markAsDirtyLoop fuel p w = some w1 → Marked w w1 := by
  intro fuel
  induction fuel with
  | zero =>
    intro p w w1 h
    cases p with
    | none => simp [markAsDirtyLoop] at h; subst h; exact Marked.marked_refl w
    | some p => simp [markAsDirtyLoop] at h
  | succ fuel ih =>
    intro p w w1 h
    cases p with
    | none => simp [markAsDirtyLoop] at h; subst h; exact Marked.marked_refl w
    | some p =>
      simp only [markAsDirtyLoop] at h
      split at h
      · simp at h; subst h; exact Marked.marked_refl w
      · exact (Marked.modify_mark w p).marked_trans (ih _ _ _ h)

/-- More fuel does not change a result of the loop of markAsDirty. -/
theorem markAsDirtyLoop_mono :
    ∀ (fuel : Nat) (p : Option Addr) (w w1 : World F),
      markAsDirtyLoop fuel p w = some w1 → markAsDirtyLoop (fuel + 1) p w = some w1 := by
  intro fuel
  induction fuel with
  | zero =>
    intro p w w1 h
    cases p with
    | none => simpa [markAsDirtyLoop] using h
    | some p => simp [markAsDirtyLoop] at h
  | succ fuel ih =>
    intro p w w1 h
    cases p with
    | none => simpa [markAsDirtyLoop] using h
    | some p =>
      simp only [markAsDirtyLoop] at h ⊢
      split at h
      · rename_i hc; simp [hc]; simpa using h
      · rename_i hc; simp only [hc, if_false, Bool.false_eq_true]; exact ih _ _ _ h

/-- Any larger fuel gives the same result of the loop of markAsDirty. -/
theorem markAsDirtyLoop_mono_le {fuel fuel2 : Nat} (hle : fuel ≤ fuel2) (p : Option Addr)
    (w w1 : World F) (h : markAsDirtyLoop fuel p w = some w1) :
    markAsDirtyLoop fuel2 p w = some w1 := by
  induction hle with
  | refl => exact h
  | step _ ih => exact markAsDirtyLoop_mono _ _ _ _ ih

/-- At most `n` sprites below `n` lack the child bit. -/
theorem unmarkedCount_le (n : Nat) (w : World F) : unmarkedCount n w ≤ n := by
  unfold unmarkedCount
  calc _ ≤ (Finset.range n).card := Finset.card_filter_le _ _
    _ = n := Finset.card_range n

/-- Marking an unmarked sprite below `n` leaves fewer unmarked sprites. -/
theorem unmarkedCount_modify_mark_lt (w : World F) (a n : Nat) (ha : a < n)
    (hd : (w.sprites a).mDirty.has CHILD_DIRTY = false) :
    unmarkedCount n (w.modify a (fun s => { s with mDirty := s.mDirty.or CHILD_DIRTY }))
      < unmarkedCount n w := by
  have hmark : ∀ d : DirtyState, (d.or CHILD_DIRTY).has CHILD_DIRTY = true := by
    intro d
    simp only [DirtyState.has, DirtyState.or, CHILD_DIRTY, bne_iff_ne, ne_eq]
    intro h0
    have := congrArg (fun x => x.testBit 2) h0
    have h4 : Nat.testBit 4 2 = true := by decide
    simp [Nat.testBit_and, Nat.testBit_or, h4] at this
  unfold unmarkedCount
  apply Finset.card_lt_card
  rw [Finset.ssubset_iff_of_subset]
  · refine ⟨a, ?_, ?_⟩
    · simp [ha, hd]
    · simp [hmark]
  · intro b
    simp only [Finset.mem_filter, Finset.mem_range]
    rintro ⟨hb, hd'⟩
    by_cases hba : b = a
    · subst hba
      simp [hmark] at hd'
    · rw [modify_sprites_ne _ _ hba] at hd'
      exact ⟨hb, hd'⟩

/-- In a process where only the sprites below `n` have a parent, the loop of markAsDirty returns
when the fuel exceeds the number of sprites below `n` without the child bit. -/
theorem markAsDirtyLoop_total (n : Nat) :
    ∀ (fuel : Nat) (p : Option Addr) (w : World F), ParentsBelow n w →
      unmarkedCount n w < fuel → ∃ w1, markAsDirtyLoop fuel p w = some w1 := by
  intro fuel
  induction fuel with
  | zero => intro p w _ h; exact absurd h (Nat.not_lt_zero _)
  | succ fuel ih =>
    intro p w hn hlt
    cases p with
    | none => exact ⟨w, rfl⟩
    | some p =>
      by_cases hc : (w.sprites p).mDirty.has CHILD_DIRTY = true
      · exact ⟨w, by simp [markAsDirtyLoop, hc]⟩
      · simp only [markAsDirtyLoop, hc, if_false, Bool.false_eq_true]
        by_cases hp : p < n
        · apply ih
          · exact (Marked.modify_mark w p).parentsBelow hn
          · have := unmarkedCount_modify_mark_lt w p n hp (by simpa using hc)
            exact lt_of_lt_of_le this (Nat.lt_succ_iff.mp hlt)
        · have : (w.sprites p).mParent = none := hn p (Nat.le_of_not_lt hp)
          simp only [modify_sprites_same, this]
          exact ⟨_, markAsDirtyLoop_none _ _⟩

end

/-! ### Frame and fuel lemmas of markAsDirty and the tree functions -/
section
variable {F : Type} [LinearOrderedCommRing F]

/-- The parent pointers after a modification of the heap. -/
theorem parentOf_modify (w : World F) (a : Addr) (f : Sprite F → Sprite F) :
    parentOf (w.modify a f) = Function.update (parentOf w) a (f (w.sprites a)).mParent := by
  funext b
  unfold parentOf
  by_cases h : b = a
  · subst h; simp
  · simp [h]

/-- The child lists after a modification of the heap. -/
theorem childrenOf_modify (w : World F) (a : Addr) (f : Sprite F → Sprite F) :
    childrenOf (w.modify a f) = Function.update (childrenOf w) a (f (w.sprites a)).mChildren := by
  funext b
  unfold childrenOf
  by_cases h : b = a
  · subst h; simp
  · simp [h]

/-- The function markAsDirty adds `dirty` to the sprite and the child bit to ancestors. -/
theorem markAsDirty_marked {fuel : Nat} {a : Addr} {dirty : DirtyState} {w w1 : World F}
    (h : markAsDirty fuel a dirty w = some w1) :
    Marked (w.modify a (fun s => { s with mDirty := s.mDirty.or dirty })) w1 :=
  markAsDirtyLoop_marked _ _ _ _ h

/-- The function markAsDirty keeps the parent pointers. -/
theorem markAsDirty_parentOf {fuel : Nat} {a : Addr} {dirty : DirtyState} {w w1 : World F}
    (h : markAsDirty fuel a dirty w = some w1) : parentOf w1 = parentOf w := by
  rw [(markAsDirty_marked h).parentOf_eq, parentOf_modify]
  exact Function.update_eq_self a _

/-- The function markAsDirty keeps the child lists. -/
theorem markAsDirty_childrenOf {fuel : Nat} {a : Addr} {dirty : DirtyState} {w w1 : World F}
    (h : markAsDirty fuel a dirty w = some w1) : childrenOf w1 = childrenOf w := by
  rw [(markAsDirty_marked h).childrenOf_eq, childrenOf_modify]
  exact Function.update_eq_self a _

/-- The function markAsDirty keeps the registry. -/
theorem markAsDirty_mSprites {fuel : Nat} {a : Addr} {dirty : DirtyState} {w w1 : World F}
    (h : markAsDirty fuel a dirty w = some w1) : w1.mSprites = w.mSprites :=
  (markAsDirty_marked h).1

/-- More fuel does not change a result of markAsDirty. -/
theorem markAsDirty_mono {fuel : Nat} {a : Addr} {dirty : DirtyState} {w w1 : World F}
    (h : markAsDirty fuel a dirty w = some w1) : markAsDirty (fuel + 1) a dirty w = some w1 :=
  markAsDirtyLoop_mono _ _ _ _ h

/-- A change of a dirty set keeps the bound on the sprites with a parent. -/
theorem ParentsBelow.modify_dirty {n : Nat} {w : World F} (hn : ParentsBelow n w) (a : Addr)
    (dirty : DirtyState) :
    ParentsBelow n (w.modify a (fun s => { s with mDirty := s.mDirty.or dirty })) := by
  intro b hb
  by_cases h : b = a
  · subst h; simpa using hn b hb
  · simpa [h] using hn b hb

/-- In a process where only the sprites below `n` have a parent, markAsDirty returns when the
fuel exceeds `n`. -/
theorem markAsDirty_total {n fuel : Nat} (a : Addr) (dirty : DirtyState) {w : World F}
    (hn : ParentsBelow n w) (hfuel : n < fuel) : ∃ w1, markAsDirty fuel a dirty w = some w1 :=
  markAsDirtyLoop_total n fuel _ _ (hn.modify_dirty a dirty)
    (lt_of_le_of_lt (unmarkedCount_le n _) hfuel)

/-- More fuel does not change a result of the four tree functions. -/
theorem tree_mono : ∀ (f : Nat),
    (∀ (p c : Addr) (w w1 : World F), addChild f p c w = some w1 →
      addChild (f + 1) p c w = some w1)
    ∧ (∀ (p c : Addr) (w w1 : World F), removeChild f p c w = some w1 →
      removeChild (f + 1) p c w = some w1)
    ∧ (∀ (a : Addr) (parent : Option Addr) (w w1 : World F), setParent f a parent w = some w1 →
      setParent (f + 1) a parent w = some w1)
    ∧ (∀ (a : Addr) (w w1 : World F), removeParent f a w = some w1 →
      removeParent (f + 1) a w = some w1) := by
  intro f
  induction f with
  | zero =>
    refine ⟨?_, ?_, ?_, ?_⟩
    · intro p c w w1 h; simp [addChild] at h
    · intro p c w w1 h; simp [removeChild] at h
    · intro a parent w w1 h; simp [setParent] at h
    · intro a w w1 h; simp [removeParent] at h
  | succ f ih =>
    obtain ⟨ihA, ihR, ihS, ihP⟩ := ih
    refine ⟨?_, ?_, ?_, ?_⟩
    · intro p c w w1 h
      rw [addChild] at h ⊢
      split at h
      · rename_i hc; simp only [hc, if_true]; exact h
      · rename_i hc; simp only [hc, if_false]; exact ihS _ _ _ _ h
    · intro p c w w1 h
      rw [removeChild] at h ⊢
      split at h
      · rename_i hc; simp only [hc, if_true]; exact h
      · rename_i hc; simp only [hc, if_false]; exact ihS _ _ _ _ h
    · intro a parent w w1 h
      rw [setParent] at h ⊢
      cases hr : removeParent f a w with
      | none => simp [hr] at h
      | some wr =>
        simp only [hr, modify_sprites_same] at h
        simp only [ihP _ _ _ hr, modify_sprites_same]
        cases parent with
        | none => exact markAsDirty_mono h
        | some p =>
          simp only at h ⊢
          cases ha : addChild f p a
              (wr.modify a (fun s => { s with mParent := some p })) with
          | none => simp [ha] at h
          | some wa =>
            simp only [ha] at h
            simp only [ihA _ _ _ _ ha]
            exact markAsDirty_mono h
    · intro a w w1 h
      rw [removeParent] at h ⊢
      cases hp : (w.sprites a).mParent with
      | none => simp only [hp] at h ⊢; exact h
      | some p =>
        simp only [hp] at h ⊢
        cases hr : removeChild f p a w with
        | none => simp [hr] at h
        | some wr =>
          simp only [hr] at h
          simp only [ihR _ _ _ _ hr]
          exact markAsDirty_mono h

end

/-! ### Effects of the tree functions on parent pointers and child lists -/
section
variable {F : Type} [LinearOrderedCommRing F]

/-- Removing an absent element from a list changes nothing. -/
theorem filter_ne_of_not_mem (l : List Addr) (c : Addr) (h : c ∉ l) :
    l.filter (fun x => x != c) = l := by
  rw [List.filter_eq_self]
  intro x hx
  simp only [bne_iff_ne, ne_eq]
  rintro rfl
  exact h hx

/-- A removed element is no longer in the list. -/
theorem not_mem_filter_ne (l : List Addr) (c : Addr) : c ∉ l.filter (fun x => x != c) := by
  simp [List.mem_filter]

/-- The test containsChild reads the child list. -/
theorem containsChild_eq (p c : Addr) (w : World F) :
    containsChild p c w = decide (c ∈ childrenOf w p) := rfl

/-- The function removeChild on an absent child changes nothing. -/
theorem removeChild_absent_spec {g : Nat} {p c : Addr} {w w1 : World F}
    (hc : c ∉ childrenOf w p) (h : removeChild g p c w = some w1) : w1 = w := by
  cases g with
  | zero => simp [removeChild] at h
  | succ g =>
    rw [removeChild] at h
    have : containsChild p c w = false := by simp [containsChild_eq, hc]
    simp [this] at h
    exact h.symm

/-- The function removeParent on a sprite that points to a parent whose list does not hold it:
only the parent pointer is cleared. -/
theorem removeParent_stale_spec {g : Nat} {c q : Addr} {w w1 : World F}
    (hp : parentOf w c = some q) (hc : c ∉ childrenOf w q)
    (h : removeParent g c w = some w1) :
    parentOf w1 = Function.update (parentOf w) c none ∧ childrenOf w1 = childrenOf w
      ∧ w1.mSprites = w.mSprites := by
  cases g with
  | zero => simp [removeParent] at h
  | succ g =>
    rw [removeParent] at h
    have hp' : (w.sprites c).mParent = some q := hp
    simp only [hp'] at h
    cases hr : removeChild g q c w with
    | none => simp [hr] at h
    | some wr =>
      simp only [hr] at h
      have := removeChild_absent_spec hc hr
      subst this
      refine ⟨?_, ?_, ?_⟩
      · rw [markAsDirty_parentOf h, parentOf_modify]
      · rw [markAsDirty_childrenOf h, childrenOf_modify]
        exact Function.update_eq_self c _
      · rw [markAsDirty_mSprites h]; rfl

/-- The function setParent with a null parent on a sprite that points to a parent whose list does
not hold it: only the parent pointer is cleared. -/
theorem setParent_none_stale_spec {g : Nat} {c q : Addr} {w w1 : World F}
    (hp : parentOf w c = some q) (hc : c ∉ childrenOf w q)
    (h : setParent g c none w = some w1) :
    parentOf w1 = Function.update (parentOf w) c none ∧ childrenOf w1 = childrenOf w
      ∧ w1.mSprites = w.mSprites := by
  cases g with
  | zero => simp [setParent] at h
  | succ g =>
    rw [setParent] at h
    cases hr : removeParent g c w with
    | none => simp [hr] at h
    | some wr =>
      simp only [hr, modify_sprites_same] at h
      obtain ⟨e1, e2, e3⟩ := removeParent_stale_spec hp hc hr
      refine ⟨?_, ?_, ?_⟩
      · rw [markAsDirty_parentOf h, parentOf_modify, e1]
        simp
      · rw [markAsDirty_childrenOf h, childrenOf_modify, e2]
        have : (wr.sprites c).mChildren = childrenOf w c := by
          rw [← e2]; rfl
        simp only [this]
        exact Function.update_eq_self c _
      · rw [markAsDirty_mSprites h]; exact e3

end

/-! ### Effects of the tree functions, continued -/
section
variable {F : Type} [LinearOrderedCommRing F]

/-- The function removeChild called on the parent of the child: the child leaves the list and its
parent pointer is cleared. -/
theorem removeChild_own_spec {g : Nat} {c q : Addr} {w w1 : World F}
    (hp : parentOf w c = some q) (hc : c ∈ childrenOf w q)
    (h : removeChild g q c w = some w1) :
    parentOf w1 = Function.update (parentOf w) c none
      ∧ childrenOf w1
        = Function.update (childrenOf w) q ((childrenOf w q).filter (fun x => x != c))
      ∧ w1.mSprites = w.mSprites := by
  cases g with
  | zero => simp [removeChild] at h
  | succ g =>
    rw [removeChild] at h
    have : containsChild q c w = true := by simp [containsChild_eq, hc]
    simp only [this, Bool.true_eq_false, if_false] at h
    have hP : parentOf (w.modify q (fun s =>
        { s with mChildren := s.mChildren.filter (fun x => x != c) })) = parentOf w := by
      rw [parentOf_modify]; exact Function.update_eq_self q _
    have hC : childrenOf (w.modify q (fun s =>
        { s with mChildren := s.mChildren.filter (fun x => x != c) }))
        = Function.update (childrenOf w) q ((childrenOf w q).filter (fun x => x != c)) := by
      rw [childrenOf_modify]; rfl
    obtain ⟨e1, e2, e3⟩ := setParent_none_stale_spec (q := q) (by rw [hP]; exact hp)
      (by rw [hC]; simp [not_mem_filter_ne]) h
    exact ⟨by rw [e1, hP], by rw [e2, hC], by rw [e3]; rfl⟩

/-- The function removeParent, when it returns, has cleared the parent pointer of the sprite
and taken the sprite out of the child list of its former parent. -/
theorem removeParent_spec {g : Nat} {c : Addr} {w w1 : World F}
    (h : removeParent g c w = some w1) :
    parentOf w1 = Function.update (parentOf w) c none
      ∧ childrenOf w1 = childrenWithout c (parentOf w) (childrenOf w)
      ∧ w1.mSprites = w.mSprites := by
  cases hp : parentOf w c with
  | none =>
    have hp' : (w.sprites c).mParent = none := hp
    cases g with
    | zero => simp [removeParent] at h
    | succ g =>
      rw [removeParent] at h
      simp only [hp'] at h
      simp at h
      subst h
      refine ⟨?_, ?_, rfl⟩
      · rw [← hp]; exact (Function.update_eq_self c _).symm
      · simp [childrenWithout, hp]
  | some q =>
    by_cases hc : c ∈ childrenOf w q
    · cases g with
      | zero => simp [removeParent] at h
      | succ g =>
        rw [removeParent] at h
        have hp' : (w.sprites c).mParent = some q := hp
        simp only [hp'] at h
        cases hr : removeChild g q c w with
        | none => simp [hr] at h
        | some wr =>
          simp only [hr] at h
          obtain ⟨e1, e2, e3⟩ := removeChild_own_spec hp hc hr
          refine ⟨?_, ?_, ?_⟩
          · rw [markAsDirty_parentOf h, parentOf_modify, e1]
            simp
          · rw [markAsDirty_childrenOf h, childrenOf_modify, e2]
            simp only [childrenWithout, hp]
            have : (wr.sprites c).mChildren = childrenOf wr c := rfl
            rw [this, e2]
            exact Function.update_eq_self c _
          · rw [markAsDirty_mSprites h]; exact e3
    · obtain ⟨e1, e2, e3⟩ := removeParent_stale_spec hp hc h
      refine ⟨e1, ?_, e3⟩
      rw [e2]
      simp only [childrenWithout, hp, filter_ne_of_not_mem _ _ hc]
      exact (Function.update_eq_self q _).symm

/-- The function setParent with a null parent, when it returns, has done what removeParent
does. -/
theorem setParent_none_spec {g : Nat} {c : Addr} {w w1 : World F}
    (h : setParent g c none w = some w1) :
    parentOf w1 = Function.update (parentOf w) c none
      ∧ childrenOf w1 = childrenWithout c (parentOf w) (childrenOf w)
      ∧ w1.mSprites = w.mSprites := by
  cases g with
  | zero => simp [setParent] at h
  | succ g =>
    rw [setParent] at h
    cases hr : removeParent g c w with
    | none => simp [hr] at h
    | some wr =>
      simp only [hr, modify_sprites_same] at h
      obtain ⟨e1, e2, e3⟩ := removeParent_spec hr
      refine ⟨?_, ?_, ?_⟩
      · rw [markAsDirty_parentOf h, parentOf_modify, e1]
        simp
      · rw [markAsDirty_childrenOf h, childrenOf_modify]
        have : (wr.sprites c).mChildren = childrenOf wr c := rfl
        simp only [this]
        rw [Function.update_eq_self c _, e2]
      · rw [markAsDirty_mSprites h]; exact e3

/-- The function setParent with a parent `p` whose child list already holds the sprite, while
the parent pointer of the sprite is not `p` (the state in which addChild calls it): when it
returns, the sprite has left its former parent and points to `p`. -/
theorem setParent_some_spec {g : Nat} {c p : Addr} {w w1 : World F}
    (hc : c ∈ childrenOf w p) (hp : parentOf w c ≠ some p)
    (h : setParent g c (some p) w = some w1) :
    parentOf w1 = Function.update (parentOf w) c (some p)
      ∧ childrenOf w1 = childrenWithout c (parentOf w) (childrenOf w)
      ∧ w1.mSprites = w.mSprites := by
  cases g with
  | zero => simp [setParent] at h
  | succ g =>
    rw [setParent] at h
    cases hr : removeParent g c w with
    | none => simp [hr] at h
    | some wr =>
      simp only [hr, modify_sprites_same] at h
      obtain ⟨e1, e2, e3⟩ := removeParent_spec hr
      have hC2 : childrenOf (wr.modify c (fun s => { s with mParent := some p }))
          = childrenWithout c (parentOf w) (childrenOf w) := by
        rw [childrenOf_modify]
        have : (wr.sprites c).mChildren = childrenOf wr c := rfl
        simp only [this]
        rw [Function.update_eq_self c _, e2]
      have hmem : c ∈ childrenOf (wr.modify c (fun s => { s with mParent := some p })) p := by
        rw [hC2]
        unfold childrenWithout
        cases hq : parentOf w c with
        | none => exact hc
        | some q =>
          have hqp : p ≠ q := by
            rintro rfl
            exact hp hq
          simp only [Function.update_noteq hqp]
          exact hc
      cases g with
      | zero => simp [addChild] at h
      | succ g =>
        rw [addChild] at h
        have hcc : containsChild p c (wr.modify c (fun s => { s with mParent := some p }))
            = true := by
          simp [containsChild_eq, hmem]
        simp only [hcc, if_true] at h
        refine ⟨?_, ?_, ?_⟩
        · rw [markAsDirty_parentOf h, parentOf_modify, e1]
          simp
        · rw [markAsDirty_childrenOf h, hC2]
        · rw [markAsDirty_mSprites h]; exact e3

/-- The function addChild, for a sprite that is not in the child list of `p` and does not point
to `p`: when it returns, the sprite is the last child of `p`, points to `p` and has left its
former parent. -/
theorem addChild_spec {g : Nat} {c p : Addr} {w w1 : World F}
    (hc : c ∉ childrenOf w p) (hp : parentOf w c ≠ some p)
    (h : addChild g p c w = some w1) :
    parentOf w1 = Function.update (parentOf w) c (some p)
      ∧ childrenOf w1 = childrenWithout c (parentOf w)
          (Function.update (childrenOf w) p (childrenOf w p ++ [c]))
      ∧ w1.mSprites = w.mSprites := by
  cases g with
  | zero => simp [addChild] at h
  | succ g =>
    rw [addChild] at h
    have hcc : containsChild p c w = false := by simp [containsChild_eq, hc]
    simp only [hcc, Bool.false_eq_true, if_false] at h
    have hP : parentOf (w.modify p (fun s => { s with mChildren := s.mChildren ++ [c] }))
        = parentOf w := by
      rw [parentOf_modify]; exact Function.update_eq_self p _
    have hC : childrenOf (w.modify p (fun s => { s with mChildren := s.mChildren ++ [c] }))
        = Function.update (childrenOf w) p (childrenOf w p ++ [c]) := by
      rw [childrenOf_modify]; rfl
    obtain ⟨e1, e2, e3⟩ := setParent_some_spec (by rw [hC]; simp) (by rw [hP]; exact hp) h
    exact ⟨by rw [e1, hP], by rw [e2, hP, hC], by rw [e3]; rfl⟩

/-- The function removeChild for a sprite in the child list. -/
theorem removeChild_spec {g : Nat} {c p : Addr} {w w1 : World F}
    (hc : c ∈ childrenOf w p) (h : removeChild g p c w = some w1) :
    parentOf w1 = Function.update (parentOf w) c none
      ∧ childrenOf w1 = childrenWithout c (parentOf w)
          (Function.update (childrenOf w) p ((childrenOf w p).filter (fun x => x != c)))
      ∧ w1.mSprites = w.mSprites := by
  cases g with
  | zero => simp [removeChild] at h
  | succ g =>
    rw [removeChild] at h
    have : containsChild p c w = true := by simp [containsChild_eq, hc]
    simp only [this, Bool.true_eq_false, if_false] at h
    have hP : parentOf (w.modify p (fun s =>
        { s with mChildren := s.mChildren.filter (fun x => x != c) })) = parentOf w := by
      rw [parentOf_modify]; exact Function.update_eq_self p _
    have hC : childrenOf (w.modify p (fun s =>
        { s with mChildren := s.mChildren.filter (fun x => x != c) }))
        = Function.update (childrenOf w) p ((childrenOf w p).filter (fun x => x != c)) := by
      rw [childrenOf_modify]; rfl
    obtain ⟨e1, e2, e3⟩ := setParent_none_spec h
    exact ⟨by rw [e1, hP], by rw [e2, hP, hC], by rw [e3]; rfl⟩

end

/-! ### Termination of the tree functions -/
section
variable {F : Type} [LinearOrderedCommRing F]

/-- A change of the parent pointer of a sprite below `n`, or to null, keeps the bound on the
sprites with a parent. -/
theorem parentsBelow_of_parentOf {n : Nat} {w w1 : World F} {c : Addr} {v : Option Addr}
    (e : parentOf w1 = Function.update (parentOf w) c v) (hv : v = none ∨ c < n)
    (hn : ParentsBelow n w) : ParentsBelow n w1 := by
  intro b hb
  have hb' : parentOf w1 b = none := by
    rw [e]
    by_cases hbc : b = c
    · subst hbc
      rcases hv with hv | hv
      · simp [hv]
      · exact absurd hb (Nat.not_le_of_lt hv)
    · rw [Function.update_noteq hbc]; exact hn b hb
  exact hb'

/-- Equal parent pointers give the same bound. -/
theorem parentsBelow_of_parentOf_eq {n : Nat} {w w1 : World F}
    (e : parentOf w1 = parentOf w) (hn : ParentsBelow n w) : ParentsBelow n w1 := by
  intro b hb
  have : parentOf w1 b = none := by rw [e]; exact hn b hb
  exact this

/-- The function removeChild returns at once for an absent child. -/
theorem removeChild_absent_eq (g : Nat) {p c : Addr} {w : World F}
    (hc : c ∉ childrenOf w p) : removeChild (g + 1) p c w = some w := by
  rw [removeChild]
  have : containsChild p c w = false := by simp [containsChild_eq, hc]
  simp [this]

/-- The function addChild returns at once for a child that is present. -/
theorem addChild_present_eq (g : Nat) {p c : Addr} {w : World F}
    (hc : c ∈ childrenOf w p) : addChild (g + 1) p c w = some w := by
  rw [addChild]
  have : containsChild p c w = true := by simp [containsChild_eq, hc]
  simp [this]

/-- The function removeParent returns on a sprite that points to a parent whose list does not hold
it. -/
theorem removeParent_stale_total {n g : Nat} {c q : Addr} {w : World F}
    (hp : parentOf w c = some q) (hc : c ∉ childrenOf w q)
    (hn : ParentsBelow n w) (hg : n + 2 ≤ g) : ∃ w1, removeParent g c w = some w1 := by
  obtain ⟨g, rfl⟩ : ∃ k, g = k + 2 := ⟨g - 2, by omega⟩
  rw [removeParent]
  have hp' : (w.sprites c).mParent = some q := hp
  simp only [hp', removeChild_absent_eq g hc]
  apply markAsDirty_total c PARENT_DIRTY _ (by omega : n < g + 1)
  exact parentsBelow_of_parentOf (c := c) (v := none) (by rw [parentOf_modify])
    (Or.inl rfl) hn

/-- The function setParent with a null parent returns on a sprite that points to a parent whose
list does not hold it. -/
theorem setParent_none_stale_total {n g : Nat} {c q : Addr} {w : World F}
    (hp : parentOf w c = some q) (hc : c ∉ childrenOf w q)
    (hn : ParentsBelow n w) (hg : n + 3 ≤ g) : ∃ w1, setParent g c none w = some w1 := by
  obtain ⟨g, rfl⟩ : ∃ k, g = k + 1 := ⟨g - 1, by omega⟩
  obtain ⟨wr, hr⟩ := removeParent_stale_total hp hc hn (by omega : n + 2 ≤ g)
  rw [setParent]
  simp only [hr, modify_sprites_same]
  apply markAsDirty_total c PARENT_DIRTY _ (by omega : n < g)
  have hn1 := parentsBelow_of_parentOf (removeParent_spec hr).1 (Or.inl rfl) hn
  exact parentsBelow_of_parentOf (c := c) (v := none) (by rw [parentOf_modify])
    (Or.inl rfl) hn1

/-- The function removeChild returns when it is called on the parent of the child. -/
theorem removeChild_own_total {n g : Nat} {c q : Addr} {w : World F}
    (hp : parentOf w c = some q) (hn : ParentsBelow n w) (hg : n + 4 ≤ g) :
    ∃ w1, removeChild g q c w = some w1 := by
  obtain ⟨g, rfl⟩ : ∃ k, g = k + 1 := ⟨g - 1, by omega⟩
  by_cases hc : c ∈ childrenOf w q
  · rw [removeChild]
    have : containsChild q c w = true := by simp [containsChild_eq, hc]
    simp only [this, Bool.true_eq_false, if_false]
    have hP : parentOf (w.modify q (fun s =>
        { s with mChildren := s.mChildren.filter (fun x => x != c) })) = parentOf w := by
      rw [parentOf_modify]; exact Function.update_eq_self q _
    have hC : childrenOf (w.modify q (fun s =>
        { s with mChildren := s.mChildren.filter (fun x => x != c) }))
        = Function.update (childrenOf w) q ((childrenOf w q).filter (fun x => x != c)) := by
      rw [childrenOf_modify]; rfl
    exact setParent_none_stale_total (q := q) (by rw [hP]; exact hp)
      (by rw [hC]; simp [not_mem_filter_ne]) (parentsBelow_of_parentOf_eq hP hn)
      (by omega : n + 3 ≤ g)
  · exact ⟨w, removeChild_absent_eq g hc⟩

/-- In a process where only the sprites below `n` have a parent, removeParent returns when the
fuel is at least `n + 5`. -/
theorem removeParent_total {n g : Nat} (c : Addr) {w : World F}
    (hn : ParentsBelow n w) (hg : n + 5 ≤ g) : ∃ w1, removeParent g c w = some w1 := by
  obtain ⟨g, rfl⟩ : ∃ k, g = k + 1 := ⟨g - 1, by omega⟩
  rw [removeParent]
  cases hp : (w.sprites c).mParent with
  | none => exact ⟨w, rfl⟩
  | some q =>
    simp only
    obtain ⟨wr, hr⟩ := removeChild_own_total (c := c) (q := q) hp hn (by omega : n + 4 ≤ g)
    simp only [hr]
    apply markAsDirty_total c PARENT_DIRTY _ (by omega : n < g)
    by_cases hc : c ∈ childrenOf w q
    · have hn1 := parentsBelow_of_parentOf (removeChild_own_spec hp hc hr).1 (Or.inl rfl) hn
      exact parentsBelow_of_parentOf (c := c) (v := none) (by rw [parentOf_modify])
        (Or.inl rfl) hn1
    · have := removeChild_absent_spec hc hr
      subst this
      exact parentsBelow_of_parentOf (c := c) (v := none) (by rw [parentOf_modify])
        (Or.inl rfl) hn

/-- In a process where only the sprites below `n` have a parent, setParent with a null parent
returns when the fuel is at least `n + 6`. -/
theorem setParent_none_total {n g : Nat} (c : Addr) {w : World F}
    (hn : ParentsBelow n w) (hg : n + 6 ≤ g) : ∃ w1, setParent g c none w = some w1 := by
  obtain ⟨g, rfl⟩ : ∃ k, g = k + 1 := ⟨g - 1, by omega⟩
  obtain ⟨wr, hr⟩ := removeParent_total c hn (by omega : n + 5 ≤ g)
  rw [setParent]
  simp only [hr, modify_sprites_same]
  apply markAsDirty_total c PARENT_DIRTY _ (by omega : n < g)
  have hn1 := parentsBelow_of_parentOf (removeParent_spec hr).1 (Or.inl rfl) hn
  exact parentsBelow_of_parentOf (c := c) (v := none) (by rw [parentOf_modify])
    (Or.inl rfl) hn1

/-- In a process where only the sprites below `n` have a parent, removeChild returns when the
fuel is at least `n + 7`. -/
theorem removeChild_total {n g : Nat} (p c : Addr) {w : World F}
    (hn : ParentsBelow n w) (hg : n + 7 ≤ g) : ∃ w1, removeChild g p c w = some w1 := by
  obtain ⟨g, rfl⟩ : ∃ k, g = k + 1 := ⟨g - 1, by omega⟩
  by_cases hc : c ∈ childrenOf w p
  · rw [removeChild]
    have : containsChild p c w = true := by simp [containsChild_eq, hc]
    simp only [this, Bool.true_eq_false, if_false]
    have hP : parentOf (w.modify p (fun s =>
        { s with mChildren := s.mChildren.filter (fun x => x != c) })) = parentOf w := by
      rw [parentOf_modify]; exact Function.update_eq_self p _
    exact setParent_none_total c (parentsBelow_of_parentOf_eq hP hn) (by omega : n + 6 ≤ g)
  · exact ⟨w, removeChild_absent_eq g hc⟩

/-- In a process where only the sprites below `n` have a parent, addChild of a sprite below `n`
that does not point to `p` returns when the fuel is at least `n + 7`. -/
theorem addChild_total {n g : Nat} {p c : Addr} {w : World F}
    (hp : parentOf w c ≠ some p ∨ c ∈ childrenOf w p) (hcn : c < n)
    (hn : ParentsBelow n w) (hg : n + 7 ≤ g) : ∃ w1, addChild g p c w = some w1 := by
  obtain ⟨g, rfl⟩ : ∃ k, g = k + 3 := ⟨g - 3, by omega⟩
  by_cases hc : c ∈ childrenOf w p
  · exact ⟨w, addChild_present_eq (g + 2) hc⟩
  · have hp' : parentOf w c ≠ some p := hp.resolve_right hc
    rw [addChild]
    have hcc : containsChild p c w = false := by simp [containsChild_eq, hc]
    simp only [hcc, Bool.false_eq_true, if_false]
    have hP : parentOf (w.modify p (fun s => { s with mChildren := s.mChildren ++ [c] }))
        = parentOf w := by
      rw [parentOf_modify]; exact Function.update_eq_self p _
    have hC : childrenOf (w.modify p (fun s => { s with mChildren := s.mChildren ++ [c] }))
        = Function.update (childrenOf w) p (childrenOf w p ++ [c]) := by
      rw [childrenOf_modify]; rfl
    have hn0 := parentsBelow_of_parentOf_eq hP hn
    obtain ⟨wr, hr⟩ := removeParent_total c hn0 (by omega : n + 5 ≤ g + 1)
    obtain ⟨e1, e2, e3⟩ := removeParent_spec hr
    rw [setParent]
    simp only [hr, modify_sprites_same]
    have hC2 : childrenOf (wr.modify c (fun s => { s with mParent := some p }))
        = childrenOf wr := by
      rw [childrenOf_modify]
      exact Function.update_eq_self c _
    have hmem : c ∈ childrenOf (wr.modify c (fun s => { s with mParent := some p })) p := by
      rw [hC2, e2, hP, hC]
      unfold childrenWithout
      cases hq : parentOf w c with
      | none => simp
      | some q =>
        have hqp : p ≠ q := by
          rintro rfl
          exact hp' hq
        simp [Function.update_noteq hqp]
    rw [addChild_present_eq g hmem]
    simp only
    apply markAsDirty_total c PARENT_DIRTY _ (by omega : n < g + 1)
    have hn1 := parentsBelow_of_parentOf e1 (Or.inl rfl) hn0
    exact parentsBelow_of_parentOf (c := c) (v := some p) (by rw [parentOf_modify])
      (Or.inr hcn) hn1

end

/-! ### The invariant of parent pointers and child lists -/
section
variable {F : Type} [LinearOrderedCommRing F]

/-- Under the invariant a sprite without parent is in no child list. -/
theorem TreeInv.not_mem_of_parent_none {P : Addr → Option Addr} {C : Addr → List Addr}
    (h : TreeInv P C) {c : Addr} (hc : P c = none) (r : Addr) : c ∉ C r := by
  intro hm
  have := ((h c r).2).1 hm
  rw [hc] at this
  exact absurd this (by simp)

/-- Taking a sprite out of the child list of its parent keeps the invariant. -/
theorem TreeInv.detach {P : Addr → Option Addr} {C : Addr → List Addr} (h : TreeInv P C)
    (c : Addr) : TreeInv (Function.update P c none) (childrenWithout c P C) := by
  unfold childrenWithout
  cases hq : P c with
  | none =>
    have : Function.update P c none = P := by rw [← hq]; exact Function.update_eq_self c P
    rw [this]; exact h
  | some q =>
    intro s p
    simp only
    constructor
    · by_cases hpq : p = q
      · subst hpq
        rw [Function.update_same]
        exact le_trans ((List.filter_sublist _).count_le s) (h s p).1
      · rw [Function.update_noteq hpq]; exact (h s p).1
    · by_cases hsc : s = c
      · subst hsc
        rw [Function.update_same]
        constructor
        · intro hm
          exfalso
          by_cases hpq : p = q
          · subst hpq
            rw [Function.update_same] at hm
            exact not_mem_filter_ne _ _ hm
          · rw [Function.update_noteq hpq] at hm
            have := ((h s p).2).1 hm
            rw [hq] at this
            exact hpq (Option.some.inj this).symm
        · intro hn; exact absurd hn (by simp)
      · rw [Function.update_noteq hsc]
        by_cases hpq : p = q
        · subst hpq
          rw [Function.update_same]
          rw [← (h s p).2]
          simp [List.mem_filter, hsc]
        · rw [Function.update_noteq hpq]; exact (h s p).2

/-- Appending a sprite without parent to a child list and pointing it to that parent keeps the
invariant. -/
theorem TreeInv.attach {P : Addr → Option Addr} {C : Addr → List Addr} (h : TreeInv P C)
    {c : Addr} (hc : P c = none) (p : Addr) :
    TreeInv (Function.update P c (some p)) (Function.update C p (C p ++ [c])) := by
  have hnot := h.not_mem_of_parent_none hc
  intro s r
  constructor
  · by_cases hrp : r = p
    · subst hrp
      rw [Function.update_same, List.count_append]
      by_cases hsc : s = c
      · subst hsc
        have : (C r).count s = 0 := List.count_eq_zero_of_not_mem (hnot r)
        simp [this]
      · have : List.count s [c] = 0 := by
          apply List.count_eq_zero_of_not_mem
          simp [hsc]
        rw [this]
        exact (h s r).1
    · rw [Function.update_noteq hrp]; exact (h s r).1
  · by_cases hsc : s = c
    · subst hsc
      rw [Function.update_same]
      by_cases hrp : r = p
      · subst hrp
        simp
      · rw [Function.update_noteq hrp]
        constructor
        · intro hm; exact absurd hm (hnot r)
        · intro he; exact absurd (Option.some.inj he).symm hrp
    · rw [Function.update_noteq hsc]
      by_cases hrp : r = p
      · subst hrp
        rw [Function.update_same, ← (h s r).2]
        simp [hsc]
      · rw [Function.update_noteq hrp]; exact (h s r).2

/-- Appending the sprite to the list of `p` and taking it out of the list of another parent
commute. -/
theorem childrenWithout_push {P : Addr → Option Addr} {C : Addr → List Addr} {c p : Addr}
    (hp : P c ≠ some p) :
    childrenWithout c P (Function.update C p (C p ++ [c]))
      = Function.update (childrenWithout c P C) p (childrenWithout c P C p ++ [c]) := by
  unfold childrenWithout
  cases hq : P c with
  | none => rfl
  | some q =>
    have hqp : q ≠ p := by
      rintro rfl
      exact hp hq
    simp only [Function.update_noteq hqp, Function.update_noteq hqp.symm]
    exact (Function.update_comm hqp _ _ _).symm

/-- Taking the sprite out of the list of its parent twice is taking it out once. -/
theorem childrenWithout_filter {P : Addr → Option Addr} {C : Addr → List Addr} {c p : Addr}
    (hp : P c = some p) :
    childrenWithout c P (Function.update C p ((C p).filter (fun x => x != c)))
      = childrenWithout c P C := by
  unfold childrenWithout
  simp only [hp, Function.update_same, Function.update_idem, List.filter_filter, Bool.and_self]

/-- When addChild returns, the invariant still holds. -/
theorem addChild_treeInv {g : Nat} {p c : Addr} {w w1 : World F}
    (h : TreeInv (parentOf w) (childrenOf w)) (hr : addChild g p c w = some w1) :
    TreeInv (parentOf w1) (childrenOf w1) := by
  by_cases hc : c ∈ childrenOf w p
  · cases g with
    | zero => simp [addChild] at hr
    | succ g =>
      rw [addChild_present_eq g hc] at hr
      simp at hr; subst hr; exact h
  · have hp : parentOf w c ≠ some p := fun e => hc (((h c p).2).2 e)
    obtain ⟨e1, e2, _⟩ := addChild_spec hc hp hr
    rw [e1, e2, childrenWithout_push hp]
    have hcn : Function.update (parentOf w) c none c = none := by simp
    have := (h.detach c).attach hcn p
    rwa [Function.update_idem] at this

/-- When removeChild returns, the invariant still holds. -/
theorem removeChild_treeInv {g : Nat} {p c : Addr} {w w1 : World F}
    (h : TreeInv (parentOf w) (childrenOf w)) (hr : removeChild g p c w = some w1) :
    TreeInv (parentOf w1) (childrenOf w1) := by
  by_cases hc : c ∈ childrenOf w p
  · have hp : parentOf w c = some p := ((h c p).2).1 hc
    obtain ⟨e1, e2, _⟩ := removeChild_spec hc hr
    rw [e1, e2, childrenWithout_filter hp]
    exact h.detach c
  · rw [removeChild_absent_spec hc hr]; exact h

/-- When the invariant holds, setParent with a parent that is not null never returns: addChild
finds the sprite absent from the child list and calls setParent again in the same state. -/
theorem setParent_some_diverges (c p : Addr) :
    ∀ (g : Nat) (w : World F), TreeInv (parentOf w) (childrenOf w) →
      setParent g c (some p) w = none := by
  intro g
  induction g using Nat.strong_induction_on with
  | _ g ih =>
    intro w h
    cases g with
    | zero => simp [setParent]
    | succ g =>
      rw [setParent]
      cases hr : removeParent g c w with
      | none => rfl
      | some wr =>
        simp only [modify_sprites_same]
        obtain ⟨e1, e2, _⟩ := removeParent_spec hr
        have hinv : TreeInv (parentOf wr) (childrenOf wr) := by
          rw [e1, e2]; exact h.detach c
        have hpc : parentOf wr c = none := by rw [e1]; simp
        cases g with
        | zero => simp [addChild]
        | succ g =>
          have hP2 : parentOf (wr.modify c (fun s => { s with mParent := some p }))
              = Function.update (parentOf wr) c (some p) := by
            rw [parentOf_modify]
          have hC2 : childrenOf (wr.modify c (fun s => { s with mParent := some p }))
              = childrenOf wr := by
            rw [childrenOf_modify]; exact Function.update_eq_self c _
          have hnot : c ∉ childrenOf (wr.modify c (fun s => { s with mParent := some p })) p := by
            rw [hC2]; exact hinv.not_mem_of_parent_none hpc p
          rw [addChild]
          have hcc : containsChild p c (wr.modify c (fun s => { s with mParent := some p }))
              = false := by
            simp [containsChild_eq, hnot]
          simp only [hcc, Bool.false_eq_true, if_false]
          rw [ih g (by omega)]
          rw [parentOf_modify, childrenOf_modify]
          have h1 : ((wr.modify c (fun s => { s with mParent := some p })).sprites p).mParent
              = parentOf (wr.modify c (fun s => { s with mParent := some p })) p := rfl
          have h2 : ((wr.modify c (fun s => { s with mParent := some p })).sprites p).mChildren
              = childrenOf (wr.modify c (fun s => { s with mParent := some p })) p := rfl
          simp only [h1, h2]
          rw [Function.update_eq_self, hP2, hC2]
          exact hinv.attach hpc p

/-- When a call of the tree interface returns, the invariant still holds. -/
theorem runCall_treeInv {g : Nat} {call : TreeCall} {w w1 : World F}
    (h : TreeInv (parentOf w) (childrenOf w)) (hr : runCall g call w = some w1) :
    TreeInv (parentOf w1) (childrenOf w1) := by
  cases call with
  | addChild p c => exact addChild_treeInv h hr
  | removeChild p c => exact removeChild_treeInv h hr
  | setParent a parent =>
    cases parent with
    | none =>
      obtain ⟨e1, e2, _⟩ := setParent_none_spec hr
      rw [e1, e2]; exact h.detach a
    | some p =>
      have := setParent_some_diverges a p g w h
      simp only [runCall] at hr
      rw [this] at hr
      exact absurd hr (by simp)

/-- When a sequence of calls returns, the invariant still holds. -/
theorem runCalls_treeInv {g : Nat} : ∀ (calls : List TreeCall) {w w1 : World F},
    TreeInv (parentOf w) (childrenOf w) → runCalls g calls w = some w1 →
    TreeInv (parentOf w1) (childrenOf w1) := by
  intro calls
  induction calls with
  | nil => intro w w1 h hr; simp [runCalls] at hr; subst hr; exact h
  | cons call calls ih =>
    intro w w1 h hr
    rw [runCalls] at hr
    cases hc : runCall g call w with
    | none => simp [hc] at hr
    | some w2 =>
      simp only [hc] at hr
      exact ih (runCall_treeInv h hc) hr

/-- The invariant gives parent uniqueness as the spec words it. -/
theorem TreeInv.parentUnique {w : World F} (h : TreeInv (parentOf w) (childrenOf w)) :
    ParentUnique w := by
  intro s p hm
  have hm' : s ∈ childrenOf w p := hm
  have hp : parentOf w s = some p := ((h s p).2).1 hm'
  refine ⟨hp, ?_, ?_⟩
  · have h1 := (h s p).1
    have h2 : 0 < (childrenOf w p).count s := List.count_pos_iff.mpr hm'
    exact le_antisymm h1 h2
  · intro q hq
    have hq' : parentOf w s = some q := ((h s q).2).1 hq
    rw [hp] at hq'
    exact (Option.some.inj hq').symm

end

/-! ### Parent uniqueness (claim C3) -/
section
variable {F : Type} [LinearOrderedCommRing F]

/-- A call that attaches nothing through setParent, on sprites below `n`, returns when the
invariant holds and the fuel is at least `n + 7`, and keeps the sprites with a parent
below `n`. -/
theorem runCall_total {n g : Nat} {call : TreeCall} {w : World F}
    (h : TreeInv (parentOf w) (childrenOf w)) (hn : ParentsBelow n w)
    (hd : call.detaching = true) (hb : call.below n) (hg : n + 7 ≤ g) :
    ∃ w1, runCall g call w = some w1 ∧ ParentsBelow n w1 := by
  cases call with
  | addChild p c =>
    have hp : parentOf w c ≠ some p ∨ c ∈ childrenOf w p := by
      by_cases e : parentOf w c = some p
      · exact Or.inr (((h c p).2).2 e)
      · exact Or.inl e
    obtain ⟨w1, hr⟩ := addChild_total hp hb.2 hn hg
    refine ⟨w1, hr, ?_⟩
    by_cases hc : c ∈ childrenOf w p
    · obtain ⟨k, rfl⟩ : ∃ k, g = k + 1 := ⟨g - 1, by omega⟩
      rw [addChild_present_eq k hc] at hr
      simp at hr; subst hr; exact hn
    · exact parentsBelow_of_parentOf (addChild_spec hc (hp.resolve_right hc) hr).1
        (Or.inr hb.2) hn
  | removeChild p c =>
    obtain ⟨w1, hr⟩ := removeChild_total p c hn hg
    refine ⟨w1, hr, ?_⟩
    by_cases hc : c ∈ childrenOf w p
    · exact parentsBelow_of_parentOf (removeChild_spec hc hr).1 (Or.inl rfl) hn
    · rw [removeChild_absent_spec hc hr]; exact hn
  | setParent a parent =>
    cases parent with
    | some p => simp [TreeCall.detaching] at hd
    | none =>
      obtain ⟨w1, hr⟩ := setParent_none_total a hn (by omega : n + 6 ≤ g)
      exact ⟨w1, hr, parentsBelow_of_parentOf (setParent_none_spec hr).1 (Or.inl rfl) hn⟩

/-- A sequence of calls that attach nothing through setParent returns. -/
theorem runCalls_total {n g : Nat} (hg : n + 7 ≤ g) : ∀ (calls : List TreeCall) {w : World F},
    TreeInv (parentOf w) (childrenOf w) → ParentsBelow n w →
    (∀ call ∈ calls, call.detaching = true ∧ call.below n) →
    ∃ w1, runCalls g calls w = some w1 := by
  intro calls
  induction calls with
  | nil => intro w _ _ _; exact ⟨w, rfl⟩
  | cons call calls ih =>
    intro w h hn hall
    obtain ⟨hd, hb⟩ := hall call (List.mem_cons_self _ _)
    obtain ⟨w1, hr, hn1⟩ := runCall_total h hn hd hb hg
    obtain ⟨w2, hr2⟩ := ih (runCall_treeInv h hr) hn1
      (fun c hc => hall c (List.mem_cons_of_mem _ hc))
    exact ⟨w2, by rw [runCalls]; simp only [hr]; exact hr2⟩

/-- C3: start from sprites without parent and without children and run any sequence of
addChild, removeChild and setParent calls. Whenever the sequence returns, every sprite that
appears in a child list appears there once, in the list of one sprite only, and that sprite is
its getParent(). A sequence of addChild, removeChild and setParent(nullptr) calls on sprites
below `n` does return when the fuel is at least `n + 7`. -/
theorem parent_uniqueness (w0 : World F) (calls : List TreeCall)
    (h0 : ∀ a, (w0.sprites a).mParent = none ∧ (w0.sprites a).mChildren = []) :
    (∀ fuel w, runCalls fuel calls w0 = some w → ParentUnique w)
    ∧ (∀ n fuel, (∀ call ∈ calls, call.detaching = true ∧ call.below n) → n + 7 ≤ fuel →
        ∃ w, runCalls fuel calls w0 = some w ∧ ParentUnique w) := by
  have hinv : TreeInv (parentOf w0) (childrenOf w0) := by
    intro s p
    have h1 : childrenOf w0 p = [] := (h0 p).2
    have h2 : parentOf w0 s = none := (h0 s).1
    rw [h1, h2]
    simp
  refine ⟨fun fuel w hr => (runCalls_treeInv calls hinv hr).parentUnique, ?_⟩
  intro n fuel hall hfuel
  obtain ⟨w, hr⟩ := runCalls_total hfuel calls hinv (fun b _ => (h0 b).1) hall
  exact ⟨w, hr, (runCalls_treeInv calls hinv hr).parentUnique⟩

end

/-- A witness of C3: a child is added to one sprite, moved to another by a second addChild,
removed, detached again and finally added to itself. -/
theorem parent_uniqueness_witness :
    ∃ w, runCalls 10
        [TreeCall.addChild 0 1, TreeCall.addChild 2 1, TreeCall.removeChild 2 1,
          TreeCall.setParent 1 none, TreeCall.addChild 1 1]
        (World.empty : World ℤ) = some w ∧ ParentUnique w :=
  (parent_uniqueness (World.empty : World ℤ)
      [TreeCall.addChild 0 1, TreeCall.addChild 2 1, TreeCall.removeChild 2 1,
        TreeCall.setParent 1 none, TreeCall.addChild 1 1]
      (fun _ => ⟨rfl, rfl⟩)).2 3 10
    (by
      intro call hc
      simp only [List.mem_cons, List.mem_singleton, List.not_mem_nil, or_false] at hc
      rcases hc with rfl | rfl | rfl | rfl | rfl <;>
        simp [TreeCall.detaching, TreeCall.below])
    (by decide)

/-! ### Steps of the loop of readAttributesFrom -/
section
variable {F : Type} [LinearOrderedCommRing F]

/-- Two modifications of the same sprite are one. -/
theorem modify_modify (w : World F) (a : Addr) (f g : Sprite F → Sprite F) :
    (w.modify a f).modify a g = w.modify a (fun s => g (f s)) := by
  simp [World.modify]

/-- The identity modification changes nothing. -/
theorem modify_self (w : World F) (a : Addr) : w.modify a (fun s => s) = w :=
  modify_id w a _ rfl

/-- The loop of readAttributesFrom stops at the terminator. -/
theorem readLoop_terminator (f : Nat) (a : Addr) (w : World F) (rest : DataBuffer F)
    (tc : Bool) :
    readAttributesFromLoop (f + 1) a w (Item.char TERMINATOR_CHAR :: rest) tc
      = some (w, rest, tc) := by
  simp [readAttributesFromLoop, DataBuffer.canRead, DataBuffer.readChar]

/-- The loop of readAttributesFrom on a PARENT record whose identifier is registered. -/
theorem readLoop_parent_found (f : Nat) (a : Addr) (w : World F) (pid : sprite_id_t)
    (rest : DataBuffer F) (tc : Bool) {q : Addr} {w1 : World F}
    (hq : findSprite w pid = some q) (hadd : addChild f q a w = some w1) :
    readAttributesFromLoop (f + 1) a w (Item.char PARENT_ATT :: Item.spriteId pid :: rest) tc
      = readAttributesFromLoop f a w1 rest tc := by
  simp [readAttributesFromLoop, DataBuffer.canRead, DataBuffer.readChar,
    DataBuffer.readSpriteId, PARENT_ATT, TERMINATOR_CHAR, hq, hadd]

/-- The loop of readAttributesFrom on a PARENT record whose identifier is not registered. -/
theorem readLoop_parent_unknown (f : Nat) (a : Addr) (w : World F) (pid : sprite_id_t)
    (rest : DataBuffer F) (tc : Bool) (hq : findSprite w pid = none) :
    readAttributesFromLoop (f + 1) a w (Item.char PARENT_ATT :: Item.spriteId pid :: rest) tc
      = readAttributesFromLoop f a w rest tc := by
  simp [readAttributesFromLoop, DataBuffer.canRead, DataBuffer.readChar,
    DataBuffer.readSpriteId, PARENT_ATT, TERMINATOR_CHAR, hq]

/-- The loop of readAttributesFrom on a SIZE record. -/
theorem readLoop_size (f : Nat) (a : Addr) (w : World F) (x y z : F)
    (rest : DataBuffer F) (tc : Bool) :
    readAttributesFromLoop (f + 1) a w
        (Item.char SIZE_ATT :: Item.float x :: Item.float y :: Item.float z :: rest) tc
      = readAttributesFromLoop f a
          (w.modify a (fun s => { s with mWidth := x, mHeight := y, mDepth := z })) rest tc := by
  simp [readAttributesFromLoop, DataBuffer.canRead, DataBuffer.readChar,
    DataBuffer.readFloat, PARENT_ATT, SIZE_ATT, TERMINATOR_CHAR]

/-- The loop of readAttributesFrom on a FLAGS record. -/
theorem readLoop_flags (f : Nat) (a : Addr) (w : World F) (i : Nat)
    (rest : DataBuffer F) (tc : Bool) :
    readAttributesFromLoop (f + 1) a w (Item.char FLAGS_ATT :: Item.int i :: rest) tc
      = readAttributesFromLoop f a
          (w.modify a (fun s => { s with mSpriteFlags := i })) rest tc := by
  simp [readAttributesFromLoop, DataBuffer.canRead, DataBuffer.readChar,
    DataBuffer.readInt, PARENT_ATT, SIZE_ATT, FLAGS_ATT, TERMINATOR_CHAR]

/-- The loop of readAttributesFrom on a POSITION record. -/
theorem readLoop_position (f : Nat) (a : Addr) (w : World F) (x y z : F)
    (rest : DataBuffer F) (tc : Bool) :
    readAttributesFromLoop (f + 1) a w
        (Item.char POSITION_ATT :: Item.float x :: Item.float y :: Item.float z :: rest) tc
      = readAttributesFromLoop f a
          (w.modify a (fun s => { s with mPosition := ⟨x, y, z⟩ })) rest true := by
  simp [readAttributesFromLoop, DataBuffer.canRead, DataBuffer.readChar,
    DataBuffer.readFloat, PARENT_ATT, SIZE_ATT, FLAGS_ATT, POSITION_ATT, TERMINATOR_CHAR]

/-- The loop of readAttributesFrom on a SCALE record. -/
theorem readLoop_scale (f : Nat) (a : Addr) (w : World F) (x y z : F)
    (rest : DataBuffer F) (tc : Bool) :
    readAttributesFromLoop (f + 1) a w
        (Item.char SCALE_ATT :: Item.float x :: Item.float y :: Item.float z :: rest) tc
      = readAttributesFromLoop f a
          (w.modify a (fun s => { s with mScale := ⟨x, y, z⟩ })) rest true := by
  simp [readAttributesFromLoop, DataBuffer.canRead, DataBuffer.readChar,
    DataBuffer.readFloat, PARENT_ATT, SIZE_ATT, FLAGS_ATT, POSITION_ATT, SCALE_ATT,
    TERMINATOR_CHAR]

/-- The loop of readAttributesFrom on a COLOR record. -/
theorem readLoop_color (f : Nat) (a : Addr) (w : World F) (x y z : F)
    (rest : DataBuffer F) (tc : Bool) :
    readAttributesFromLoop (f + 1) a w
        (Item.char COLOR_ATT :: Item.float x :: Item.float y :: Item.float z :: rest) tc
      = readAttributesFromLoop f a
          (w.modify a (fun s => { s with mColor := ⟨x, y, z⟩ })) rest tc := by
  simp [readAttributesFromLoop, DataBuffer.canRead, DataBuffer.readChar,
    DataBuffer.readFloat, PARENT_ATT, SIZE_ATT, FLAGS_ATT, POSITION_ATT, SCALE_ATT, COLOR_ATT,
    TERMINATOR_CHAR]

/-- The loop of readAttributesFrom on an OPACITY record. -/
theorem readLoop_opacity (f : Nat) (a : Addr) (w : World F) (x : F)
    (rest : DataBuffer F) (tc : Bool) :
    readAttributesFromLoop (f + 1) a w (Item.char OPACITY_ATT :: Item.float x :: rest) tc
      = readAttributesFromLoop f a (w.modify a (fun s => { s with mOpacity := x })) rest tc := by
  simp [readAttributesFromLoop, DataBuffer.canRead, DataBuffer.readChar,
    DataBuffer.readFloat, PARENT_ATT, SIZE_ATT, FLAGS_ATT, POSITION_ATT, SCALE_ATT, COLOR_ATT,
    OPACITY_ATT, TERMINATOR_CHAR]

end

/-! ### Reading the records of a sprite block -/
section
variable {F : Type} [LinearOrderedCommRing F]

/-- Reading the optional OPACITY record and the terminator. -/
theorem read_opacity_stage (src : Sprite F) (a : Addr) (f : Nat) (hf : 2 ≤ f) (w : World F)
    (tc : Bool) (rest : DataBuffer F) :
    readAttributesFromLoop f a w
        ((if src.mDirty.has OPACITY_DIRTY = true
            then [Item.char OPACITY_ATT, Item.float src.mOpacity] else [])
          ++ Item.char TERMINATOR_CHAR :: rest) tc
      = some (w.modify a (applyOpacity src), rest, tc) := by
  obtain ⟨k, rfl⟩ : ∃ k, f = k + 2 := ⟨f - 2, by omega⟩
  by_cases h : src.mDirty.has OPACITY_DIRTY = true
  · rw [if_pos h]
    simp only [List.cons_append, List.nil_append, readLoop_opacity, readLoop_terminator]
    have e : applyOpacity src = fun d => { d with mOpacity := src.mOpacity } := by
      funext d; simp [applyOpacity, h]
    rw [e]
  · rw [if_neg h, List.nil_append, readLoop_terminator]
    have e : applyOpacity src = fun d => d := by
      funext d; simp [applyOpacity, h]
    rw [e, modify_self]

/-- Reading the optional COLOR record and what follows it. -/
theorem read_color_stage (src : Sprite F) (a : Addr) (f : Nat) (hf : 3 ≤ f) (w : World F)
    (tc : Bool) (rest : DataBuffer F) :
    readAttributesFromLoop f a w
        ((if src.mDirty.has COLOR_DIRTY = true
            then [Item.char COLOR_ATT, Item.float src.mColor.r, Item.float src.mColor.g,
              Item.float src.mColor.b] else [])
          ++ ((if src.mDirty.has OPACITY_DIRTY = true
            then [Item.char OPACITY_ATT, Item.float src.mOpacity] else [])
          ++ Item.char TERMINATOR_CHAR :: rest)) tc
      = some (w.modify a (fun d => applyOpacity src (applyColor src d)), rest, tc) := by
  obtain ⟨k, rfl⟩ : ∃ k, f = k + 1 := ⟨f - 1, by omega⟩
  by_cases h : src.mDirty.has COLOR_DIRTY = true
  · rw [if_pos h]
    simp only [List.cons_append, List.nil_append, readLoop_color]
    rw [read_opacity_stage src a k (by omega), modify_modify]
    simp [applyColor, h]
  · rw [if_neg h, List.nil_append]
    rw [read_opacity_stage src a (k + 1) (by omega)]
    simp [applyColor, h]

/-- Reading the optional SCALE record and what follows it. -/
theorem read_scale_stage (src : Sprite F) (a : Addr) (f : Nat) (hf : 4 ≤ f) (w : World F)
    (tc : Bool) (rest : DataBuffer F) :
    readAttributesFromLoop f a w
        ((if src.mDirty.has SCALE_DIRTY = true
            then [Item.char SCALE_ATT, Item.float src.mScale.x, Item.float src.mScale.y,
              Item.float src.mScale.z] else [])
          ++ ((if src.mDirty.has COLOR_DIRTY = true
            then [Item.char COLOR_ATT, Item.float src.mColor.r, Item.float src.mColor.g,
              Item.float src.mColor.b] else [])
          ++ ((if src.mDirty.has OPACITY_DIRTY = true
            then [Item.char OPACITY_ATT, Item.float src.mOpacity] else [])
          ++ Item.char TERMINATOR_CHAR :: rest))) tc
      = some (w.modify a (fun d => applyOpacity src (applyColor src (applyScale src d))), rest,
          tc || src.mDirty.has SCALE_DIRTY) := by
  obtain ⟨k, rfl⟩ : ∃ k, f = k + 1 := ⟨f - 1, by omega⟩
  by_cases h : src.mDirty.has SCALE_DIRTY = true
  · rw [if_pos h]
    simp only [List.cons_append, List.nil_append, readLoop_scale]
    rw [read_color_stage src a k (by omega), modify_modify]
    simp [applyScale, h]
  · rw [if_neg h, List.nil_append]
    rw [read_color_stage src a (k + 1) (by omega)]
    simp [applyScale, h]

/-- Reading the optional POSITION record and what follows it. -/
theorem read_position_stage (src : Sprite F) (a : Addr) (f : Nat) (hf : 5 ≤ f) (w : World F)
    (tc : Bool) (rest : DataBuffer F) :
    readAttributesFromLoop f a w
        ((if src.mDirty.has POSITION_DIRTY = true
            then [Item.char POSITION_ATT, Item.float src.mPosition.x,
              Item.float src.mPosition.y, Item.float src.mPosition.z] else [])
          ++ ((if src.mDirty.has SCALE_DIRTY = true
            then [Item.char SCALE_ATT, Item.float src.mScale.x, Item.float src.mScale.y,
              Item.float src.mScale.z] else [])
          ++ ((if src.mDirty.has COLOR_DIRTY = true
            then [Item.char COLOR_ATT, Item.float src.mColor.r, Item.float src.mColor.g,
              Item.float src.mColor.b] else [])
          ++ ((if src.mDirty.has OPACITY_DIRTY = true
            then [Item.char OPACITY_ATT, Item.float src.mOpacity] else [])
          ++ Item.char TERMINATOR_CHAR :: rest)))) tc
      = some (w.modify a (fun d =>
            applyOpacity src (applyColor src (applyScale src (applyPosition src d)))), rest,
          (tc || src.mDirty.has POSITION_DIRTY) || src.mDirty.has SCALE_DIRTY) := by
  obtain ⟨k, rfl⟩ : ∃ k, f = k + 1 := ⟨f - 1, by omega⟩
  by_cases h : src.mDirty.has POSITION_DIRTY = true
  · rw [if_pos h]
    simp only [List.cons_append, List.nil_append, readLoop_position]
    rw [read_scale_stage src a k (by omega), modify_modify]
    simp [applyPosition, h]
  · rw [if_neg h, List.nil_append]
    rw [read_scale_stage src a (k + 1) (by omega)]
    simp [applyPosition, h]

/-- Reading the optional FLAGS record and what follows it. -/
theorem read_flags_stage (src : Sprite F) (a : Addr) (f : Nat) (hf : 6 ≤ f) (w : World F)
    (tc : Bool) (rest : DataBuffer F) :
    readAttributesFromLoop f a w
        ((if src.mDirty.has FLAGS_DIRTY = true
            then [Item.char FLAGS_ATT, Item.int src.mSpriteFlags] else [])
          ++ ((if src.mDirty.has POSITION_DIRTY = true
            then [Item.char POSITION_ATT, Item.float src.mPosition.x,
              Item.float src.mPosition.y, Item.float src.mPosition.z] else [])
          ++ ((if src.mDirty.has SCALE_DIRTY = true
            then [Item.char SCALE_ATT, Item.float src.mScale.x, Item.float src.mScale.y,
              Item.float src.mScale.z] else [])
          ++ ((if src.mDirty.has COLOR_DIRTY = true
            then [Item.char COLOR_ATT, Item.float src.mColor.r, Item.float src.mColor.g,
              Item.float src.mColor.b] else [])
          ++ ((if src.mDirty.has OPACITY_DIRTY = true
            then [Item.char OPACITY_ATT, Item.float src.mOpacity] else [])
          ++ Item.char TERMINATOR_CHAR :: rest))))) tc
      = some (w.modify a (fun d =>
            applyOpacity src (applyColor src (applyScale src (applyPosition src
              (applyFlags src d))))), rest,
          (tc || src.mDirty.has POSITION_DIRTY) || src.mDirty.has SCALE_DIRTY) := by
  obtain ⟨k, rfl⟩ : ∃ k, f = k + 1 := ⟨f - 1, by omega⟩
  by_cases h : src.mDirty.has FLAGS_DIRTY = true
  · rw [if_pos h]
    simp only [List.cons_append, List.nil_append, readLoop_flags]
    rw [read_position_stage src a k (by omega), modify_modify]
    simp [applyFlags, h]
  · rw [if_neg h, List.nil_append]
    rw [read_position_stage src a (k + 1) (by omega)]
    simp [applyFlags, h]

/-- Reading the optional SIZE record and what follows it. -/
theorem read_size_stage (src : Sprite F) (a : Addr) (f : Nat) (hf : 7 ≤ f) (w : World F)
    (tc : Bool) (rest : DataBuffer F) :
    readAttributesFromLoop f a w
        ((if src.mDirty.has SIZE_DIRTY = true
            then [Item.char SIZE_ATT, Item.float src.mWidth, Item.float src.mHeight,
              Item.float src.mDepth] else [])
          ++ ((if src.mDirty.has FLAGS_DIRTY = true
            then [Item.char FLAGS_ATT, Item.int src.mSpriteFlags] else [])
          ++ ((if src.mDirty.has POSITION_DIRTY = true
            then [Item.char POSITION_ATT, Item.float src.mPosition.x,
              Item.float src.mPosition.y, Item.float src.mPosition.z] else [])
          ++ ((if src.mDirty.has SCALE_DIRTY = true
            then [Item.char SCALE_ATT, Item.float src.mScale.x, Item.float src.mScale.y,
              Item.float src.mScale.z] else [])
          ++ ((if src.mDirty.has COLOR_DIRTY = true
            then [Item.char COLOR_ATT, Item.float src.mColor.r, Item.float src.mColor.g,
              Item.float src.mColor.b] else [])
          ++ ((if src.mDirty.has OPACITY_DIRTY = true
            then [Item.char OPACITY_ATT, Item.float src.mOpacity] else [])
          ++ Item.char TERMINATOR_CHAR :: rest)))))) tc
      = some (w.modify a (fun d =>
            applyOpacity src (applyColor src (applyScale src (applyPosition src
              (applyFlags src (applySize src d)))))), rest,
          (tc || src.mDirty.has POSITION_DIRTY) || src.mDirty.has SCALE_DIRTY) := by
  obtain ⟨k, rfl⟩ : ∃ k, f = k + 1 := ⟨f - 1, by omega⟩
  by_cases h : src.mDirty.has SIZE_DIRTY = true
  · rw [if_pos h]
    simp only [List.cons_append, List.nil_append, readLoop_size]
    rw [read_flags_stage src a k (by omega), modify_modify]
    simp [applySize, h]
  · rw [if_neg h, List.nil_append]
    rw [read_flags_stage src a (k + 1) (by omega)]
    simp [applySize, h]

end

/-! ### Fields after reading a block -/
section
variable {F : Type} [LinearOrderedCommRing F]

/-- The fields of a receiving sprite after the records of `src` other than PARENT. -/
theorem applied_fields (src d : Sprite F) :
    (applyOpacity src (applyColor src (applyScale src (applyPosition src
        (applyFlags src (applySize src d)))))).mParent = d.mParent
    ∧ (src.mDirty.has SIZE_DIRTY = true →
        (applyOpacity src (applyColor src (applyScale src (applyPosition src
          (applyFlags src (applySize src d)))))).mWidth = src.mWidth
        ∧ (applyOpacity src (applyColor src (applyScale src (applyPosition src
          (applyFlags src (applySize src d)))))).mHeight = src.mHeight
        ∧ (applyOpacity src (applyColor src (applyScale src (applyPosition src
          (applyFlags src (applySize src d)))))).mDepth = src.mDepth)
    ∧ (src.mDirty.has FLAGS_DIRTY = true →
        (applyOpacity src (applyColor src (applyScale src (applyPosition src
          (applyFlags src (applySize src d)))))).mSpriteFlags = src.mSpriteFlags)
    ∧ (src.mDirty.has POSITION_DIRTY = true →
        (applyOpacity src (applyColor src (applyScale src (applyPosition src
          (applyFlags src (applySize src d)))))).mPosition = src.mPosition)
    ∧ (src.mDirty.has SCALE_DIRTY = true →
        (applyOpacity src (applyColor src (applyScale src (applyPosition src
          (applyFlags src (applySize src d)))))).mScale = src.mScale)
    ∧ (src.mDirty.has COLOR_DIRTY = true →
        (applyOpacity src (applyColor src (applyScale src (applyPosition src
          (applyFlags src (applySize src d)))))).mColor = src.mColor)
    ∧ (src.mDirty.has OPACITY_DIRTY = true →
        (applyOpacity src (applyColor src (applyScale src (applyPosition src
          (applyFlags src (applySize src d)))))).mOpacity = src.mOpacity) := by
  refine ⟨?_, ?_, ?_, ?_, ?_, ?_, ?_⟩
  · simp only [applyOpacity, applyColor, applyScale, applyPosition, applyFlags, applySize,
      apply_ite Sprite.mParent, ite_self]
  · intro h
    simp only [applyOpacity, applyColor, applyScale, applyPosition, applyFlags, applySize, h,
      if_true, apply_ite Sprite.mWidth, apply_ite Sprite.mHeight, apply_ite Sprite.mDepth,
      ite_self, and_self]
  · intro h
    simp only [applyOpacity, applyColor, applyScale, applyPosition, applyFlags, applySize, h,
      if_true, apply_ite Sprite.mSpriteFlags, ite_self]
  · intro h
    simp only [applyOpacity, applyColor, applyScale, applyPosition, applyFlags, applySize, h,
      if_true, apply_ite Sprite.mPosition, ite_self]
  · intro h
    simp only [applyOpacity, applyColor, applyScale, applyPosition, applyFlags, applySize, h,
      if_true, apply_ite Sprite.mScale, ite_self]
  · intro h
    simp only [applyOpacity, applyColor, applyScale, applyPosition, applyFlags, applySize, h,
      if_true, apply_ite Sprite.mColor, ite_self]
  · intro h
    simp only [applyOpacity, applyColor, applyScale, applyPosition, applyFlags, applySize, h,
      if_true]

/-- The function readAttributesFrom returns what its loop returns, up to the two flags that it
sets when a POSITION or SCALE record has been read. -/
theorem readAttributesFrom_of_loop {fuel : Nat} {a : Addr} {w w1 : World F}
    {buf buf1 : DataBuffer F} {tc : Bool}
    (h : readAttributesFromLoop fuel a w buf false = some (w1, buf1, tc)) :
    ∃ w2, readAttributesFrom fuel a w buf = some (w2, buf1)
      ∧ (w2.sprites a = w1.sprites a
        ∨ w2.sprites a
          = { w1.sprites a with mUpdateTransform := true, mBoundsNeedChecking := true }) := by
  unfold readAttributesFrom
  simp only [h]
  cases tc with
  | false => exact ⟨w1, by simp, Or.inl rfl⟩
  | true =>
    exact ⟨w1.modify a (fun s =>
      { s with mUpdateTransform := true, mBoundsNeedChecking := true }), by simp,
      Or.inr (by simp)⟩

end

/-! ### Round trip of a sprite diff (claim C1) -/
section
variable {F : Type} [LinearOrderedCommRing F]

/-- The attribute block of a sprite, record by record. -/
theorem block_records_eq (s : Addr) (ws : World F) (rest : DataBuffer F) :
    writeAttributesTo s ws [] ++ Item.char TERMINATOR_CHAR :: rest
      = (if (ws.sprites s).mDirty.has PARENT_DIRTY = true
          then [Item.char PARENT_ATT, Item.spriteId (parentIdOf s ws)] else [])
        ++ ((if (ws.sprites s).mDirty.has SIZE_DIRTY = true
            then [Item.char SIZE_ATT, Item.float (ws.sprites s).mWidth,
              Item.float (ws.sprites s).mHeight, Item.float (ws.sprites s).mDepth] else [])
          ++ ((if (ws.sprites s).mDirty.has FLAGS_DIRTY = true
            then [Item.char FLAGS_ATT, Item.int (ws.sprites s).mSpriteFlags] else [])
          ++ ((if (ws.sprites s).mDirty.has POSITION_DIRTY = true
            then [Item.char POSITION_ATT, Item.float (ws.sprites s).mPosition.x,
              Item.float (ws.sprites s).mPosition.y, Item.float (ws.sprites s).mPosition.z]
            else [])
          ++ ((if (ws.sprites s).mDirty.has SCALE_DIRTY = true
            then [Item.char SCALE_ATT, Item.float (ws.sprites s).mScale.x,
              Item.float (ws.sprites s).mScale.y, Item.float (ws.sprites s).mScale.z] else [])
          ++ ((if (ws.sprites s).mDirty.has COLOR_DIRTY = true
            then [Item.char COLOR_ATT, Item.float (ws.sprites s).mColor.r,
              Item.float (ws.sprites s).mColor.g, Item.float (ws.sprites s).mColor.b] else [])
          ++ ((if (ws.sprites s).mDirty.has OPACITY_DIRTY = true
            then [Item.char OPACITY_ATT, Item.float (ws.sprites s).mOpacity] else [])
          ++ Item.char TERMINATOR_CHAR :: rest)))))) := by
  rw [writeAttributesTo_eq]
  simp only [specAttributeRecords, List.append_assoc, List.nil_append]

/-- C1, amended: let `s` be a sprite of the sending process and `peer` a sprite of the receiving process
whose parent pointer agrees with the child lists (as for a freshly constructed sprite, which
has no parent and is in no child list), in a receiving process where only the sprites below `n`
have a parent. Reading the attribute block of `s` (the records of writeAttributesTo and the
terminator, followed by any data `rest`) with readAttributesFrom on `peer` returns, consumes the
block and leaves `rest`, and for every dirty bit of `s` the field of `peer` equals the field of
`s`: size, flags, position, scale, color and opacity are equal, and the parent of `peer` is the
sprite registered under the parent identifier of `s`; when no sprite is registered under it,
the parent of `peer` is as before (none for a freshly constructed peer). -/
theorem roundtrip_diff (ws wr : World F) (s peer : Addr) (n fuel : Nat) (rest : DataBuffer F)
    (hcons : ∀ q, peer ∈ (wr.sprites q).mChildren ↔ (wr.sprites peer).mParent = some q)
    (hpn : peer < n) (hn : ParentsBelow n wr) (hfuel : n + 16 ≤ fuel) :
    ∃ wr1,
      readAttributesFrom fuel peer wr
          (writeAttributesTo s ws [] ++ Item.char TERMINATOR_CHAR :: rest) = some (wr1, rest)
      ∧ ((ws.sprites s).mDirty.has PARENT_DIRTY = true →
          (∀ q, findSprite wr (parentIdOf s ws) = some q → (wr1.sprites peer).mParent = some q)
          ∧ (findSprite wr (parentIdOf s ws) = none →
              (wr1.sprites peer).mParent = (wr.sprites peer).mParent))
      ∧ ((ws.sprites s).mDirty.has SIZE_DIRTY = true →
          (wr1.sprites peer).mWidth = (ws.sprites s).mWidth
          ∧ (wr1.sprites peer).mHeight = (ws.sprites s).mHeight
          ∧ (wr1.sprites peer).mDepth = (ws.sprites s).mDepth)
      ∧ ((ws.sprites s).mDirty.has FLAGS_DIRTY = true →
          (wr1.sprites peer).mSpriteFlags = (ws.sprites s).mSpriteFlags)
      ∧ ((ws.sprites s).mDirty.has POSITION_DIRTY = true →
          (wr1.sprites peer).mPosition = (ws.sprites s).mPosition)
      ∧ ((ws.sprites s).mDirty.has SCALE_DIRTY = true →
          (wr1.sprites peer).mScale = (ws.sprites s).mScale)
      ∧ ((ws.sprites s).mDirty.has COLOR_DIRTY = true →
          (wr1.sprites peer).mColor = (ws.sprites s).mColor)
      ∧ ((ws.sprites s).mDirty.has OPACITY_DIRTY = true →
          (wr1.sprites peer).mOpacity = (ws.sprites s).mOpacity) := by
  -- the state after the PARENT record, if there is one
  have hstage1 : ∃ (w1 : World F) (tc : Bool),
      readAttributesFromLoop fuel peer wr
          (writeAttributesTo s ws [] ++ Item.char TERMINATOR_CHAR :: rest) false
        = some (w1.modify peer (fun d =>
            applyOpacity (ws.sprites s) (applyColor (ws.sprites s) (applyScale (ws.sprites s)
              (applyPosition (ws.sprites s) (applyFlags (ws.sprites s)
                (applySize (ws.sprites s) d)))))), rest, tc)
      ∧ ((ws.sprites s).mDirty.has PARENT_DIRTY = true →
          (∀ q, findSprite wr (parentIdOf s ws) = some q → (w1.sprites peer).mParent = some q)
          ∧ (findSprite wr (parentIdOf s ws) = none →
              (w1.sprites peer).mParent = (wr.sprites peer).mParent)) := by
    rw [block_records_eq]
    by_cases hP : (ws.sprites s).mDirty.has PARENT_DIRTY = true
    · rw [if_pos hP]
      obtain ⟨k, rfl⟩ : ∃ k, fuel = k + 2 := ⟨fuel - 2, by omega⟩
      simp only [List.cons_append, List.nil_append]
      cases hq : findSprite wr (parentIdOf s ws) with
      | none =>
        rw [readLoop_parent_unknown _ _ _ _ _ _ hq, read_size_stage _ _ _ (by omega)]
        exact ⟨wr, _, rfl, fun _ => ⟨fun q h => absurd h (by simp), fun _ => rfl⟩⟩
      | some q =>
        by_cases hc : peer ∈ childrenOf wr q
        · rw [readLoop_parent_found _ _ _ _ _ _ hq (addChild_present_eq k hc),
            read_size_stage _ _ _ (by omega)]
          refine ⟨wr, _, rfl, fun _ => ⟨fun q2 h => ?_, fun h => absurd h (by simp)⟩⟩
          have : q2 = q := (Option.some.inj h).symm
          subst this
          exact (hcons q2).1 hc
        · have hne : parentOf wr peer ≠ some q := fun e => hc ((hcons q).2 e)
          obtain ⟨w1, hadd⟩ := addChild_total (p := q) (Or.inl hne) hpn hn
            (by omega : n + 7 ≤ k + 1)
          have hspec := addChild_spec hc hne hadd
          rw [readLoop_parent_found _ _ _ _ _ _ hq hadd, read_size_stage _ _ _ (by omega)]
          refine ⟨w1, _, rfl, fun _ => ⟨fun q2 h => ?_, fun h => absurd h (by simp)⟩⟩
          have hq2 : q2 = q := (Option.some.inj h).symm
          subst hq2
          have := congrFun hspec.1 peer
          simpa [parentOf] using this
    · rw [if_neg hP, List.nil_append, read_size_stage _ _ _ (by omega)]
      exact ⟨wr, _, rfl, fun h => absurd h hP⟩
  obtain ⟨w1, tc, hloop, hparent⟩ := hstage1
  obtain ⟨w2, hread, hw2⟩ := readAttributesFrom_of_loop hloop
  obtain ⟨f0, f1, f2, f3, f4, f5, f6⟩ := applied_fields (ws.sprites s) (w1.sprites peer)
  have hpar : (w2.sprites peer).mParent = (w1.sprites peer).mParent := by
    rcases hw2 with e | e <;> rw [e] <;> simp only [modify_sprites_same] <;> rw [f0]
  refine ⟨w2, hread, ?_, ?_, ?_, ?_, ?_, ?_, ?_⟩
  · intro h
    rw [hpar]
    exact hparent h
  · intro h
    rcases hw2 with e | e <;> rw [e] <;> simp only [modify_sprites_same] <;> exact f1 h
  · intro h
    rcases hw2 with e | e <;> rw [e] <;> simp only [modify_sprites_same] <;> exact f2 h
  · intro h
    rcases hw2 with e | e <;> rw [e] <;> simp only [modify_sprites_same] <;> exact f3 h
  · intro h
    rcases hw2 with e | e <;> rw [e] <;> simp only [modify_sprites_same] <;> exact f4 h
  · intro h
    rcases hw2 with e | e <;> rw [e] <;> simp only [modify_sprites_same] <;> exact f5 h
  · intro h
    rcases hw2 with e | e <;> rw [e] <;> simp only [modify_sprites_same] <;> exact f6 h

end

/-- C1, amended, at a witness: the child of `dirtyPair` (parent and position dirty) is sent to the sprite
at address 1 of `receiverPair`, which ends with the sprite registered under identifier 1 as its
parent and with position (10,20,0). -/
theorem roundtrip_diff_witness :
    ∃ wr1,
      readAttributesFrom 18 1 receiverPair
          (writeAttributesTo 1 dirtyPair [] ++ [Item.char TERMINATOR_CHAR]) = some (wr1, [])
      ∧ (wr1.sprites 1).mParent = some 0
      ∧ (wr1.sprites 1).mPosition = ⟨10, 20, 0⟩ := by
  obtain ⟨wr1, h1, h2, _, _, h5, _⟩ :=
    roundtrip_diff dirtyPair receiverPair 1 1 2 18 []
      (by
        intro q
        by_cases h0 : q = 0
        · subst h0; decide
        · by_cases h1 : q = 1
          · subst h1; decide
          · have hp : (receiverPair.sprites 1).mParent = none := by decide
            rw [hp]
            simp [receiverPair, h0, h1, Sprite.uninit])
      (by decide)
      (by
        intro b hb
        have h0 : b ≠ 0 := by omega
        have h1 : b ≠ 1 := by omega
        simp [receiverPair, h0, h1, Sprite.uninit])
      (by decide)
  exact ⟨wr1, h1, (h2 (by decide)).1 0 (by decide), by rw [h5 (by decide)]; decide⟩

/-- C1, as stated, fails: the child C (identifier 2) of the scenario is written once and then
detached with `removeChild`, so it is registered, has no parent and has the parent bit set;
its PARENT record carries `EMPTY_SPRITE_ID`. The peer registered under identifier 2 in
`dirtyPair` has the parent R. No sprite is registered under the parent identifier of C, and
after reading the block of C the peer still has the parent R: it does not get the parent of
the sender. -/
theorem roundtrip_detached_sender_keeps_peer_parent :
    (detachedChild.map fun ws =>
        (findSprite ws 2, (ws.sprites 1).mParent, (ws.sprites 1).mDirty.has PARENT_DIRTY,
          parentIdOf 1 ws)) = some (some 1, none, true, EMPTY_SPRITE_ID)
    ∧ findSprite dirtyPair 2 = some 1
    ∧ findSprite dirtyPair EMPTY_SPRITE_ID = none
    ∧ (dirtyPair.sprites 1).mParent = some 0
    ∧ (detachedChild.bind fun ws =>
        (readAttributesFrom 18 1 dirtyPair
          (writeAttributesTo 1 ws [] ++ [Item.char TERMINATOR_CHAR])).map fun r =>
            ((r.1.sprites 1).mParent, r.2)) = some (some 0, []) := by
  decide!

/-! ### Hit testing: containment -/

section HitTest

variable {F : Type} [LinearOrderedCommRing F]

theorem buildGlobalTransformLoop_none (env : MathEnv F) (fuel : Nat) (a : Addr) (w : World F) :
    buildGlobalTransformLoop env fuel a none w = some w := by
  cases fuel <;> simp [buildGlobalTransformLoop]

theorem buildTransform_mParent (env : MathEnv F) (a b : Addr) (w : World F) :
    ((buildTransform env a w).sprites b).mParent = (w.sprites b).mParent := by
  unfold buildTransform
  split
  · rfl
  · by_cases h : b = a
    · subst h; simp [World.modify]
    · simp [World.modify, Function.update_noteq h]

/-- The sprite at `a` after `buildTransform`. -/
theorem buildTransform_sprites_self (env : MathEnv F) (a : Addr) (w : World F) :
    (buildTransform env a w).sprites a =
      if (w.sprites a).mUpdateTransform = false then w.sprites a
      else { w.sprites a with mUpdateTransform := false,
                              mTransformation := localTransform env (w.sprites a) } := by
  unfold buildTransform
  split
  · rfl
  · simp [World.modify]

theorem buildGlobalTransform_root (env : MathEnv F) (fuel : Nat) (a : Addr) (w : World F)
    (hp : (w.sprites a).mParent = none) :
    buildGlobalTransform env (fuel + 1) a w =
      some ((buildTransform env a w).modify a
        (fun s => { s with mGlobalTransform := s.mTransformation })) := by
  have h : (((buildTransform env a w).modify a
      (fun s => { s with mGlobalTransform := s.mTransformation })).sprites a).mParent = none := by
    simp [World.modify, buildTransform_mParent, hp]
  simp only [buildGlobalTransform]
  rw [h, buildGlobalTransformLoop_none]

/-- The local transform of a sprite without rotation and with center (0,0,0). -/
theorem localTransform_axis_aligned (env : MathEnv F)
    (hid : ∀ axis, env.createRotation axis 0 = 1) (s : Sprite F)
    (hr : s.mRotation = ⟨0, 0, 0⟩) (hc : s.mCenter = ⟨0, 0, 0⟩) :
    localTransform env s =
      !![s.mScale.x, 0, 0, s.mPosition.x; 0, s.mScale.y, 0, s.mPosition.y;
         0, 0, s.mScale.z, s.mPosition.z; 0, 0, 0, 1] := by
  have hT : createTranslation (⟨0, 0, 0⟩ : Vec3 F) = 1 := by
    ext i j
    fin_cases i <;> fin_cases j <;> simp [createTranslation, Matrix.vecHead, Matrix.vecTail]
  unfold localTransform
  rw [hr, hc]
  simp only [zero_mul, neg_zero, hid, one_mul, mul_one, hT]
  ext i j
  fin_cases i <;> fin_cases j <;>
    simp [Matrix.mul_apply, Fin.sum_univ_four, createTranslation, createScale,
      Matrix.vecHead, Matrix.vecTail]

/-- The test of `contains` on the global transform of an axis-aligned sprite. -/
theorem contains_test_axis_aligned (sx sy sz px py pz wd ht x y z : F)
    (hsx : 0 < sx) (hsy : 0 < sy) (hw : 0 < wd) (hh : 0 < ht) :
    let G : Matrix44 F := !![sx, 0, 0, px; 0, sy, 0, py; 0, 0, sz, pz; 0, 0, 0, 1]
    let pR : Fin 4 → F := ![x, y, z, 1]
    let cA : Fin 4 → F := G.mulVec ![0, 0, 0, 1]
    let cB : Fin 4 → F := G.mulVec ![wd, 0, 0, 1]
    let cC : Fin 4 → F := G.mulVec ![wd, ht, 0, 1]
    (decide (0 ≤ Matrix.dotProduct (pR - cB) (cA - cB))
        && decide (0 ≤ Matrix.dotProduct (pR - cB) (cC - cB))
        && decide (Matrix.dotProduct (pR - cB) (cA - cB)
            ≤ Matrix.dotProduct (cA - cB) (cA - cB))
        && decide (Matrix.dotProduct (pR - cB) (cC - cB)
            ≤ Matrix.dotProduct (cC - cB) (cC - cB)))
      = decide (px ≤ x ∧ x ≤ px + sx * wd ∧ py ≤ y ∧ y ≤ py + sy * ht) := by
  intro G pR cA cB cC
  have hA : 0 < sx * wd := mul_pos hsx hw
  have hB : 0 < sy * ht := mul_pos hsy hh
  have e1 : Matrix.dotProduct (pR - cB) (cA - cB) = (px + sx * wd - x) * (sx * wd) := by
    simp [Matrix.dotProduct, Fin.sum_univ_four, Matrix.mulVec, pR, cA, cB, G,
      Matrix.vecHead, Matrix.vecTail]
    ring
  have e2 : Matrix.dotProduct (pR - cB) (cC - cB) = (y - py) * (sy * ht) := by
    simp [Matrix.dotProduct, Fin.sum_univ_four, Matrix.mulVec, pR, cC, cB, G,
      Matrix.vecHead, Matrix.vecTail]
    ring_nf
    simp
  have e3 : Matrix.dotProduct (cA - cB) (cA - cB) = (sx * wd) * (sx * wd) := by
    simp [Matrix.dotProduct, Fin.sum_univ_four, Matrix.mulVec, cA, cB, G,
      Matrix.vecHead, Matrix.vecTail]
    ring
  have e4 : Matrix.dotProduct (cC - cB) (cC - cB) = (sy * ht) * (sy * ht) := by
    simp [Matrix.dotProduct, Fin.sum_univ_four, Matrix.mulVec, cC, cB, G,
      Matrix.vecHead, Matrix.vecTail]
    ring
  rw [e1, e2, e3, e4]
  have i1 : 0 ≤ (px + sx * wd - x) * (sx * wd) ↔ x ≤ px + sx * wd := by
    rw [mul_nonneg_iff_of_pos_right hA, sub_nonneg]
  have i2 : 0 ≤ (y - py) * (sy * ht) ↔ py ≤ y := by
    rw [mul_nonneg_iff_of_pos_right hB, sub_nonneg]
  have i3 : (px + sx * wd - x) * (sx * wd) ≤ (sx * wd) * (sx * wd) ↔ px ≤ x := by
    rw [mul_le_mul_right hA]
    constructor <;> intro h <;> linarith
  have i4 : (y - py) * (sy * ht) ≤ (sy * ht) * (sy * ht) ↔ y ≤ py + sy * ht := by
    rw [mul_le_mul_right hB]
    constructor <;> intro h <;> linarith
  simp only [i1, i2, i3, i4, ← Bool.decide_and]
  apply decide_eq_decide.mpr
  tauto

/-- The fields that `contains` reads for a parentless sprite whose cache is coherent. -/
theorem contains_root_fields (env : MathEnv F) (a : Addr) (w : World F)
    (hcache : (w.sprites a).mUpdateTransform = false →
      (w.sprites a).mTransformation = localTransform env (w.sprites a)) :
    (((buildTransform env a w).modify a
        (fun s => { s with mGlobalTransform := s.mTransformation })).sprites a).mGlobalTransform
      = localTransform env (w.sprites a)
    ∧ (((buildTransform env a w).modify a
        (fun s => { s with mGlobalTransform := s.mTransformation })).sprites a).mWidth
      = (w.sprites a).mWidth
    ∧ (((buildTransform env a w).modify a
        (fun s => { s with mGlobalTransform := s.mTransformation })).sprites a).mHeight
      = (w.sprites a).mHeight := by
  simp only [World.modify, Function.update_same, buildTransform_sprites_self]
  by_cases h : (w.sprites a).mUpdateTransform = false
  · rw [if_pos h]
    exact ⟨hcache h, rfl, rfl⟩
  · rw [if_neg h]
    exact ⟨rfl, rfl, rfl⟩

/-- C11: a parentless sprite without rotation, with center (0,0,0), positive scale in x and y
and positive width and height contains a point exactly when the point lies in the rectangle
from the position to the position plus scale times size, edges included, whatever the z
coordinates are; `contains` returns with any fuel above zero. The rotation by the angle zero
is taken to be the identity, and a transform cache that is marked valid is taken to hold the
transform of the fields. -/
theorem contains_axis_aligned_rectangle (env : MathEnv F)
    (hid : ∀ axis, env.createRotation axis 0 = 1) (fuel : Nat) (a : Addr) (point : Vec3 F)
    (w : World F)
    (hp : (w.sprites a).mParent = none)
    (hr : (w.sprites a).mRotation = ⟨0, 0, 0⟩) (hc : (w.sprites a).mCenter = ⟨0, 0, 0⟩)
    (hsx : 0 < (w.sprites a).mScale.x) (hsy : 0 < (w.sprites a).mScale.y)
    (hw : 0 < (w.sprites a).mWidth) (hh : 0 < (w.sprites a).mHeight)
    (hcache : (w.sprites a).mUpdateTransform = false →
      (w.sprites a).mTransformation = localTransform env (w.sprites a)) :
    (contains env (fuel + 1) a point w).map Prod.snd =
      some (decide ((w.sprites a).mPosition.x ≤ point.x
        ∧ point.x ≤ (w.sprites a).mPosition.x + (w.sprites a).mScale.x * (w.sprites a).mWidth
        ∧ (w.sprites a).mPosition.y ≤ point.y
        ∧ point.y ≤ (w.sprites a).mPosition.y
            + (w.sprites a).mScale.y * (w.sprites a).mHeight)) := by
  obtain ⟨hG, hwd, hht⟩ := contains_root_fields env a w hcache
  unfold contains
  rw [buildGlobalTransform_root env fuel a w hp]
  simp only [hG, Option.map_some', hwd, hht,
    localTransform_axis_aligned env hid (w.sprites a) hr hc]
  exact congrArg some
    (contains_test_axis_aligned _ _ (w.sprites a).mScale.z _ _ (w.sprites a).mPosition.z _ _
      point.x point.y point.z hsx hsy hw hh)

end HitTest

/-- C11, at the sprite of size (100,50) at the identity transform and the points (50,25),
(150,25) and (-1,10). -/
theorem contains_axis_aligned_rectangle_witness :
    (contains exampleEnv 1 0 ⟨50, 25, 0⟩ hitBox).map Prod.snd = some true
    ∧ (contains exampleEnv 1 0 ⟨150, 25, 0⟩ hitBox).map Prod.snd = some false
    ∧ (contains exampleEnv 1 0 ⟨-1, 10, 0⟩ hitBox).map Prod.snd = some false :=
  ⟨contains_axis_aligned_rectangle exampleEnv (fun _ => rfl) 0 0 ⟨50, 25, 0⟩ hitBox
      (by decide) (by decide) (by decide) (by decide) (by decide) (by decide) (by decide)
      (by decide),
   contains_axis_aligned_rectangle exampleEnv (fun _ => rfl) 0 0 ⟨150, 25, 0⟩ hitBox
      (by decide) (by decide) (by decide) (by decide) (by decide) (by decide) (by decide)
      (by decide),
   contains_axis_aligned_rectangle exampleEnv (fun _ => rfl) 0 0 ⟨-1, 10, 0⟩ hitBox
      (by decide) (by decide) (by decide) (by decide) (by decide) (by decide) (by decide)
      (by decide)⟩

/-! ### Hit testing: order of the children -/

section HitOrder

variable {F : Type} [LinearOrderedCommRing F]

/-- The loop over a list that is the concatenation of two lists. -/
theorem firstHit_append (test : Addr → World F → Option (World F × Option Addr)) :
    ∀ (xs ys : List Addr) (w : World F),
      firstHit test (xs ++ ys) w =
        match firstHit test xs w with
        | none => none
        | some (w1, some h) => some (w1, some h)
        | some (w1, none) => firstHit test ys w1
  | [], ys, w => rfl
  | x :: xs, ys, w => by
    simp only [List.cons_append, firstHit]
    cases hx : test x w with
    | none => rfl
    | some r =>
      obtain ⟨w1, r1⟩ := r
      cases r1 with
      | none => exact firstHit_append test xs ys w1
      | some h => rfl

/-- The loop stops at the first sprite of the list that yields a hit. -/
theorem firstHit_of_split (test : Addr → World F → Option (World F × Option Addr))
    (pre : List Addr) (c : Addr) (post : List Addr) (w w1 w2 : World F) (h : Addr)
    (hpre : firstHit test pre w = some (w1, none))
    (hc : test c w1 = some (w2, some h)) :
    firstHit test (pre ++ c :: post) w = some (w2, some h) := by
  rw [firstHit_append, hpre]
  simp only [firstHit, hc]

/-- The order of the tests of a sprite that does not draw sorted. -/
theorem hitOrder_unsorted (a : Addr) (w : World F) (hflag : getDrawSorted a w = false) :
    hitOrder a w = (w.sprites a).mChildren.reverse := by
  unfold hitOrder
  exact if_pos hflag

/-- The result of `getHit` when the loop over the children yields a hit. -/
theorem getHit_of_firstHit (env : MathEnv F) (fuel : Nat) (a : Addr) (point : Vec3 F)
    (w w1 : World F) (h : Addr)
    (hloop : firstHit (getHitChild env fuel point) (hitOrder a w) w = some (w1, some h)) :
    getHit env (fuel + 1) a point w = some (w1, some h) := by
  unfold getHitChild at hloop
  simp only [getHit, hloop]

/-- A child that is enabled and contains the point is the hit of its test. -/
theorem getHitChild_enabled_contains (env : MathEnv F) (fuel : Nat) (point : Vec3 F)
    (c : Addr) (w w1 : World F) (hen : isEnabled c w = true)
    (hcont : contains env fuel c point w = some (w1, true)) :
    getHitChild env fuel point c w = some (w1, some c) := by
  unfold getHitChild hitChild
  rw [if_pos hen, hcont]

/-- C12: a sprite that does not draw sorted tests its children from the last of the child list
to the first: when the children added after `c` (the list `post`) yield no hit and the test of
`c` (the child itself when it is enabled and contains the point, otherwise `c->getHit`)
yields `h`, then `getHit` returns `h`. -/
theorem getHit_last_added_wins (env : MathEnv F) (fuel : Nat) (a : Addr) (point : Vec3 F)
    (w w1 w2 : World F) (pre : List Addr) (c : Addr) (post : List Addr) (h : Addr)
    (hflag : getDrawSorted a w = false)
    (hch : (w.sprites a).mChildren = pre ++ c :: post)
    (hpost : firstHit (getHitChild env fuel point) post.reverse w = some (w1, none))
    (hc : getHitChild env fuel point c w1 = some (w2, some h)) :
    getHit env (fuel + 1) a point w = some (w2, some h) := by
  apply getHit_of_firstHit
  rw [hitOrder_unsorted a w hflag, hch]
  have e : (pre ++ c :: post).reverse = post.reverse ++ c :: pre.reverse := by simp
  rw [e]
  exact firstHit_of_split _ _ _ _ _ _ _ _ hpost hc

end HitOrder

/-- The sibling B of `hitSiblings`, added last, contains the point (50,25). -/
theorem hitSiblings_contains_last :
    (contains exampleEnv 4 2 ⟨50, 25, 0⟩ hitSiblings).map Prod.snd = some true := by
  decide!

/-- The sibling A of `hitSiblings`, added first, is enabled and contains the point (50,25). -/
theorem hitSiblings_contains_first :
    isEnabled 1 hitSiblings = true
    ∧ (contains exampleEnv 4 1 ⟨50, 25, 0⟩ hitSiblings).map Prod.snd = some true := by
  decide!

/-- The tree built by `R.addChild(A)` then `R.addChild(B)`: `getHit` returns B. -/
theorem hitSiblingsBuilt_last_added :
    (hitSiblingsBuilt.bind (getHit exampleEnv 5 0 ⟨50, 25, 0⟩)).map Prod.snd = some (some 2) := by
  decide!

/-- C12, at the two overlapping siblings of `hitSiblings`: the one added last is returned. -/
theorem getHit_last_added_wins_witness :
    (getHit exampleEnv 5 0 ⟨50, 25, 0⟩ hitSiblings).map Prod.snd = some (some 2) := by
  have hB := hitSiblings_contains_last
  cases hr : contains exampleEnv 4 2 ⟨50, 25, 0⟩ hitSiblings with
  | none => rw [hr] at hB; exact absurd hB (by simp)
  | some r =>
    obtain ⟨w1, b⟩ := r
    rw [hr] at hB
    have hb : b = true := by simpa using hB
    subst hb
    rw [getHit_last_added_wins exampleEnv 4 0 ⟨50, 25, 0⟩ hitSiblings hitSiblings w1 [1] 2 [] 2
      (by decide) (by decide) rfl
      (getHitChild_enabled_contains exampleEnv 4 ⟨50, 25, 0⟩ 2 hitSiblings w1 (by decide) hr)]
    rfl

/-! ### Hit testing: the frame and the sorted order -/


section Frame

variable {F : Type} [LinearOrderedCommRing F]

theorem CacheOnly.cache_refl (w : World F) : CacheOnly w w :=
  ⟨rfl, fun b => ⟨(w.sprites b).mTransformation, (w.sprites b).mGlobalTransform,
    (w.sprites b).mUpdateTransform, rfl⟩⟩

theorem CacheOnly.cache_trans {w w1 w2 : World F} (h1 : CacheOnly w w1) (h2 : CacheOnly w1 w2) :
    CacheOnly w w2 := by
  refine ⟨h2.1.trans h1.1, fun b => ?_⟩
  obtain ⟨t1, g1, u1, e1⟩ := h1.2 b
  obtain ⟨t2, g2, u2, e2⟩ := h2.2 b
  exact ⟨t2, g2, u2, by rw [e2, e1]⟩

/-- A change of the caches of one sprite. -/
theorem CacheOnly.modify_cache (w : World F) (a : Addr) (f : Sprite F → Sprite F)
    (hf : ∀ s, ∃ (t g : Matrix44 F) (u : Bool),
      f s = { s with mTransformation := t, mGlobalTransform := g, mUpdateTransform := u }) :
    CacheOnly w (w.modify a f) := by
  refine ⟨rfl, fun b => ?_⟩
  by_cases h : b = a
  · subst h
    simp only [World.modify, Function.update_same]
    exact hf _
  · simp only [World.modify, Function.update_noteq h]
    exact (CacheOnly.cache_refl w).2 b

theorem buildTransform_cacheOnly (env : MathEnv F) (a : Addr) (w : World F) :
    CacheOnly w (buildTransform env a w) := by
  unfold buildTransform
  split
  · exact CacheOnly.cache_refl w
  · exact CacheOnly.modify_cache w a _ (fun s => ⟨localTransform env s, s.mGlobalTransform, false, rfl⟩)

theorem buildGlobalTransform_cacheOnly_aux (env : MathEnv F) : ∀ (fuel : Nat),
    (∀ (a : Addr) (w w1 : World F), buildGlobalTransform env fuel a w = some w1 → CacheOnly w w1)
    ∧ (∀ (a : Addr) (p : Option Addr) (w w1 : World F),
        buildGlobalTransformLoop env fuel a p w = some w1 → CacheOnly w w1)
  | 0 => by
    constructor
    · intro a w w1 h
      simp [buildGlobalTransform] at h
    · intro a p w w1 h
      cases p with
      | none =>
        simp only [buildGlobalTransformLoop, Option.some.injEq] at h
        subst h
        exact CacheOnly.cache_refl w
      | some q => simp [buildGlobalTransformLoop] at h
  | fuel + 1 => by
    obtain ⟨ih1, ih2⟩ := buildGlobalTransform_cacheOnly_aux env fuel
    constructor
    · intro a w w1 h
      simp only [buildGlobalTransform] at h
      refine CacheOnly.cache_trans (buildTransform_cacheOnly env a w) ?_
      refine CacheOnly.cache_trans ?_ (ih2 _ _ _ _ h)
      exact CacheOnly.modify_cache _ a _
        (fun s => ⟨s.mTransformation, s.mTransformation, s.mUpdateTransform, rfl⟩)
    · intro a p w w1 h
      cases p with
      | none =>
        simp only [buildGlobalTransformLoop, Option.some.injEq] at h
        subst h
        exact CacheOnly.cache_refl w
      | some q =>
        simp only [buildGlobalTransformLoop] at h
        cases hq : buildGlobalTransform env fuel q w with
        | none => rw [hq] at h; simp at h
        | some w2 =>
          rw [hq] at h
          simp only at h
          refine CacheOnly.cache_trans (ih1 _ _ _ hq) ?_
          refine CacheOnly.cache_trans ?_ (ih2 _ _ _ _ h)
          exact CacheOnly.modify_cache _ a _
            (fun s => ⟨s.mTransformation, (w2.sprites q).mGlobalTransform * s.mGlobalTransform,
              s.mUpdateTransform, rfl⟩)

theorem buildGlobalTransform_cacheOnly (env : MathEnv F) {fuel : Nat} {a : Addr}
    {w w1 : World F} (h : buildGlobalTransform env fuel a w = some w1) : CacheOnly w w1 :=
  (buildGlobalTransform_cacheOnly_aux env fuel).1 a w w1 h

theorem contains_cacheOnly (env : MathEnv F) {fuel : Nat} {a : Addr} {point : Vec3 F}
    {w w1 : World F} {b : Bool} (h : contains env fuel a point w = some (w1, b)) :
    CacheOnly w w1 := by
  unfold contains at h
  cases hb : buildGlobalTransform env fuel a w with
  | none => rw [hb] at h; simp at h
  | some w2 =>
    rw [hb] at h
    simp only [Option.some.injEq, Prod.mk.injEq] at h
    rw [← h.1]
    exact buildGlobalTransform_cacheOnly env hb

theorem firstHit_cacheOnly (test : Addr → World F → Option (World F × Option Addr))
    (htest : ∀ c w w1 r, test c w = some (w1, r) → CacheOnly w w1) :
    ∀ (l : List Addr) (w w1 : World F) (r : Option Addr),
      firstHit test l w = some (w1, r) → CacheOnly w w1
  | [], w, w1, r, h => by
    simp only [firstHit, Option.some.injEq, Prod.mk.injEq] at h
    rw [← h.1]
    exact CacheOnly.cache_refl w
  | c :: cs, w, w1, r, h => by
    simp only [firstHit] at h
    cases hc : test c w with
    | none => rw [hc] at h; simp at h
    | some x =>
      obtain ⟨w2, r2⟩ := x
      rw [hc] at h
      cases r2 with
      | none =>
        simp only at h
        exact CacheOnly.cache_trans (htest _ _ _ _ hc) (firstHit_cacheOnly test htest cs _ _ _ h)
      | some hh =>
        simp only [Option.some.injEq, Prod.mk.injEq] at h
        rw [← h.1]
        exact htest _ _ _ _ hc

theorem hitChild_cacheOnly (env : MathEnv F) (fuel : Nat) (point : Vec3 F)
    (recur : Addr → World F → Option (World F × Option Addr))
    (hrec : ∀ c w w1 r, recur c w = some (w1, r) → CacheOnly w w1)
    (c : Addr) (w w1 : World F) (r : Option Addr)
    (h : hitChild env fuel point recur c w = some (w1, r)) : CacheOnly w w1 := by
  unfold hitChild at h
  split at h
  · cases hc : contains env fuel c point w with
    | none => rw [hc] at h; simp at h
    | some x =>
      obtain ⟨w2, b⟩ := x
      rw [hc] at h
      cases b with
      | true =>
        simp only [Option.some.injEq, Prod.mk.injEq] at h
        rw [← h.1]
        exact contains_cacheOnly env hc
      | false =>
        simp only at h
        exact CacheOnly.cache_trans (contains_cacheOnly env hc) (hrec _ _ _ _ h)
  · exact hrec _ _ _ _ h

/-- The function `getHit` changes at most the transform caches. -/
theorem getHit_cacheOnly (env : MathEnv F) (point : Vec3 F) : ∀ (fuel : Nat) (a : Addr)
    (w w1 : World F) (r : Option Addr),
    getHit env fuel a point w = some (w1, r) → CacheOnly w w1
  | 0, a, w, w1, r, h => by simp [getHit] at h
  | fuel + 1, a, w, w1, r, h => by
    simp only [getHit] at h
    have htest : ∀ c w w1 r,
        hitChild env fuel point (fun c w0 => getHit env fuel c point w0) c w = some (w1, r) →
        CacheOnly w w1 :=
      fun c w w1 r hh => hitChild_cacheOnly env fuel point _
        (fun c w w1 r h0 => getHit_cacheOnly env point fuel c w w1 r h0) c w w1 r hh
    cases hl : firstHit (hitChild env fuel point (fun c w0 => getHit env fuel c point w0))
        (hitOrder a w) w with
    | none => rw [hl] at h; simp at h
    | some x =>
      obtain ⟨w2, r2⟩ := x
      rw [hl] at h
      have h2 := firstHit_cacheOnly _ htest _ _ _ _ hl
      cases r2 with
      | some hh =>
        simp only [Option.some.injEq, Prod.mk.injEq] at h
        rw [← h.1]
        exact h2
      | none =>
        simp only at h
        split at h
        · cases hc : contains env fuel a point w2 with
          | none => rw [hc] at h; simp at h
          | some y =>
            obtain ⟨w3, b⟩ := y
            rw [hc] at h
            cases b <;>
            · simp only [Option.some.injEq, Prod.mk.injEq] at h
              rw [← h.1]
              exact CacheOnly.cache_trans h2 (contains_cacheOnly env hc)
        · simp only [Option.some.injEq, Prod.mk.injEq] at h
          rw [← h.1]
          exact h2

theorem CacheOnly.mChildren_eq {w w1 : World F} (h : CacheOnly w w1) (b : Addr) :
    (w1.sprites b).mChildren = (w.sprites b).mChildren := by
  obtain ⟨t, g, u, e⟩ := h.2 b
  rw [e]

end Frame

section SortedOrder

variable {F : Type} [LinearOrderedCommRing F]

/-- The order of the tests of a sprite that draws sorted. -/
theorem hitOrder_sorted (a : Addr) (w : World F) (hflag : getDrawSorted a w = true) :
    hitOrder a w =
      (w.sprites a).mChildren.insertionSort (fun i j => getZLevel i w ≤ getZLevel j w) := by
  unfold hitOrder
  have h : ¬ getFlag DRAW_SORTED_F (w.sprites a).mSpriteFlags = false := by
    have h2 : getFlag DRAW_SORTED_F (w.sprites a).mSpriteFlags = true := hflag
    rw [h2]; simp
  exact if_neg h

/-- The insertion sort by Z level gives an ascending list. -/
theorem sorted_by_zlevel (w : World F) (l : List Addr) :
    (l.insertionSort (fun i j => getZLevel i w ≤ getZLevel j w)).Sorted
      (fun i j => getZLevel i w ≤ getZLevel j w) := by
  haveI : IsTotal Addr (fun i j => getZLevel i w ≤ getZLevel j w) :=
    ⟨fun i j => le_total (getZLevel i w) (getZLevel j w)⟩
  haveI : IsTrans Addr (fun i j => getZLevel i w ≤ getZLevel j w) :=
    ⟨fun i j k hij hjk => le_trans hij hjk⟩
  exact List.sorted_insertionSort _ l

/-- C13: a sprite that draws sorted tests its children in ascending order of the Z level:
the order of the tests is ascending, it is a permutation of the child list, and two children
with Z levels in ascending order (equal ones included) keep the order that they have in the
child list; `getHit` returns the hit of the first child in this order that yields one; with
two children of which the one with the smaller Z level is enabled and contains the point,
that one is returned; and `getHit` leaves every child list as it was. -/
theorem getHit_draw_sorted_order (env : MathEnv F) (fuel : Nat) (a : Addr) (point : Vec3 F)
    (w : World F) (hflag : getDrawSorted a w = true) :
    (hitOrder a w).Sorted (fun i j => getZLevel i w ≤ getZLevel j w)
    ∧ (hitOrder a w).Perm (w.sprites a).mChildren
    ∧ (∀ c1 c2, List.Sublist [c1, c2] (w.sprites a).mChildren →
        getZLevel c1 w ≤ getZLevel c2 w → List.Sublist [c1, c2] (hitOrder a w))
    ∧ (∀ (pre : List Addr) (c : Addr) (post : List Addr) (w1 w2 : World F) (h : Addr),
        hitOrder a w = pre ++ c :: post →
        firstHit (getHitChild env fuel point) pre w = some (w1, none) →
        getHitChild env fuel point c w1 = some (w2, some h) →
        getHit env (fuel + 1) a point w = some (w2, some h))
    ∧ (∀ (c1 c2 : Addr) (w1 : World F),
        ((w.sprites a).mChildren = [c1, c2] ∨ (w.sprites a).mChildren = [c2, c1]) →
        getZLevel c1 w < getZLevel c2 w → isEnabled c1 w = true →
        contains env fuel c1 point w = some (w1, true) →
        getHit env (fuel + 1) a point w = some (w1, some c1))
    ∧ (∀ (w1 : World F) (r : Option Addr), getHit env (fuel + 1) a point w = some (w1, r) →
        ∀ b, (w1.sprites b).mChildren = (w.sprites b).mChildren) := by
  have hgen : ∀ (pre : List Addr) (c : Addr) (post : List Addr) (w1 w2 : World F) (h : Addr),
      hitOrder a w = pre ++ c :: post →
      firstHit (getHitChild env fuel point) pre w = some (w1, none) →
      getHitChild env fuel point c w1 = some (w2, some h) →
      getHit env (fuel + 1) a point w = some (w2, some h) := by
    intro pre c post w1 w2 h hord hpre hc
    apply getHit_of_firstHit
    rw [hord]
    exact firstHit_of_split _ _ _ _ _ _ _ _ hpre hc
  refine ⟨?_, ?_, ?_, hgen, ?_, ?_⟩
  · rw [hitOrder_sorted a w hflag]
    exact sorted_by_zlevel w _
  · rw [hitOrder_sorted a w hflag]
    exact List.perm_insertionSort _ _
  · intro c1 c2 hsub hle
    rw [hitOrder_sorted a w hflag]
    exact List.pair_sublist_insertionSort hle hsub
  · intro c1 c2 w1 hch hlt hen hcont
    have hord : hitOrder a w = [] ++ c1 :: [c2] := by
      rw [hitOrder_sorted a w hflag]
      rcases hch with hch | hch
      · rw [hch]
        simp [List.insertionSort, List.orderedInsert, le_of_lt hlt]
      · rw [hch]
        simp [List.insertionSort, List.orderedInsert, not_le.mpr hlt]
    exact hgen [] c1 [c2] w w1 c1 hord rfl
      (getHitChild_enabled_contains env fuel point c1 w w1 hen hcont)
  · intro w1 r h b
    exact (getHit_cacheOnly env point _ a w w1 r h).mChildren_eq b

end SortedOrder

/-- The child A of `sortedSiblings`, first in the child list and of smaller Z level, contains
the point (50,25). -/
theorem sortedSiblings_contains_first :
    (contains exampleEnv 4 1 ⟨50, 25, 0⟩ sortedSiblings).map Prod.snd = some true := by
  decide!

/-- The function `getHit` on `sortedSiblings` and on `hitSiblings`, which differ in the flag
of the root and the Z levels: the child of smaller Z level against the child added last. -/
theorem sortedSiblings_against_hitSiblings :
    (getHit exampleEnv 5 0 ⟨50, 25, 0⟩ sortedSiblings).map Prod.snd = some (some 1)
    ∧ (getHit exampleEnv 5 0 ⟨50, 25, 0⟩ hitSiblings).map Prod.snd = some (some 2) := by
  decide!

/-- C13, at `sortedSiblings`: the child of Z level 3 is returned, not the one of Z level 5,
and the child list is still [A, B]. -/
theorem getHit_draw_sorted_order_witness :
    (getHit exampleEnv 5 0 ⟨50, 25, 0⟩ sortedSiblings).map Prod.snd = some (some 1)
    ∧ (getHit exampleEnv 5 0 ⟨50, 25, 0⟩ sortedSiblings).map
        (fun r => (r.1.sprites 0).mChildren) = some [1, 2] := by
  have hA := sortedSiblings_contains_first
  have hthm := getHit_draw_sorted_order exampleEnv 4 0 ⟨50, 25, 0⟩ sortedSiblings (by decide)
  cases hr : contains exampleEnv 4 1 ⟨50, 25, 0⟩ sortedSiblings with
  | none => rw [hr] at hA; exact absurd hA (by simp)
  | some r =>
    obtain ⟨w1, b⟩ := r
    rw [hr] at hA
    have hb : b = true := by simpa using hA
    subst hb
    have hhit := hthm.2.2.2.2.1 1 2 w1 (Or.inl (by decide)) (by decide) (by decide) hr
    have hch := hthm.2.2.2.2.2 w1 (some 1) hhit 0
    rw [hhit]
    exact ⟨rfl, by simp only [Option.map_some', hch]; rfl⟩

/-! ### Hit testing: the visible flag -/


section Visibility

variable {F : Type} [LinearOrderedCommRing F]

/-- The visible bit does not enter the test of another single bit. -/
theorem getFlag_or_visible (bit flags : Nat) (h : bit &&& VISIBLE_F = 0) :
    getFlag bit (flags ||| VISIBLE_F) = getFlag bit flags := by
  unfold getFlag
  rw [Nat.and_comm, Nat.and_or_distrib_left, h, Nat.or_zero, Nat.and_comm]

theorem showAll_sprites (w : World F) (b : Addr) :
    (showAll w).sprites b =
      { w.sprites b with mSpriteFlags := (w.sprites b).mSpriteFlags ||| VISIBLE_F } := rfl

theorem isEnabled_showAll (a : Addr) (w : World F) : isEnabled a (showAll w) = isEnabled a w :=
  getFlag_or_visible ENABLED_F _ (by decide)

theorem hitOrder_showAll (a : Addr) (w : World F) : hitOrder a (showAll w) = hitOrder a w := by
  unfold hitOrder
  have h : getFlag DRAW_SORTED_F ((showAll w).sprites a).mSpriteFlags
      = getFlag DRAW_SORTED_F (w.sprites a).mSpriteFlags :=
    getFlag_or_visible DRAW_SORTED_F _ (by decide)
  rw [h]
  rfl

/-- A change of one sprite that does not read or write the flags commutes with `showAll`. -/
theorem showAll_modify (w : World F) (a : Addr) (f : Sprite F → Sprite F)
    (hf : ∀ (s : Sprite F) (k : Nat),
      f { s with mSpriteFlags := k } = { f s with mSpriteFlags := k })
    (hk : ∀ s : Sprite F, (f s).mSpriteFlags = s.mSpriteFlags) :
    (showAll w).modify a f = showAll (w.modify a f) := by
  unfold showAll World.modify
  simp only [World.mk.injEq, and_true]
  funext b
  by_cases h : b = a
  · subst h
    simp only [Function.update_same]
    rw [hf, hk]
  · simp only [Function.update_noteq h]

theorem buildTransform_showAll (env : MathEnv F) (a : Addr) (w : World F) :
    buildTransform env a (showAll w) = showAll (buildTransform env a w) := by
  unfold buildTransform
  have h : ((showAll w).sprites a).mUpdateTransform = (w.sprites a).mUpdateTransform := rfl
  rw [h]
  split
  · rfl
  · exact showAll_modify w a _ (fun s k => rfl) (fun s => rfl)

theorem buildGlobalTransform_showAll_aux (env : MathEnv F) : ∀ (fuel : Nat),
    (∀ (a : Addr) (w : World F),
      buildGlobalTransform env fuel a (showAll w)
        = (buildGlobalTransform env fuel a w).map showAll)
    ∧ (∀ (a : Addr) (p : Option Addr) (w : World F),
      buildGlobalTransformLoop env fuel a p (showAll w)
        = (buildGlobalTransformLoop env fuel a p w).map showAll)
  | 0 => by
    constructor
    · intro a w
      simp [buildGlobalTransform]
    · intro a p w
      cases p <;> simp [buildGlobalTransformLoop]
  | fuel + 1 => by
    obtain ⟨ih1, ih2⟩ := buildGlobalTransform_showAll_aux env fuel
    constructor
    · intro a w
      simp only [buildGlobalTransform]
      have e : (showAll (buildTransform env a w)).modify a
            (fun s => { s with mGlobalTransform := s.mTransformation })
          = showAll ((buildTransform env a w).modify a
            (fun s => { s with mGlobalTransform := s.mTransformation })) :=
        showAll_modify (buildTransform env a w) a _ (fun s k => rfl) (fun s => rfl)
      rw [buildTransform_showAll, e, ih2]
      rfl
    · intro a p w
      cases p with
      | none => simp [buildGlobalTransformLoop]
      | some q =>
        simp only [buildGlobalTransformLoop]
        rw [ih1]
        cases hq : buildGlobalTransform env fuel q w with
        | none => rfl
        | some w1 =>
          simp only [Option.map_some']
          have e : ((showAll w1).modify a (fun s =>
              { s with mGlobalTransform :=
                  ((showAll w1).sprites q).mGlobalTransform * s.mGlobalTransform }))
              = showAll (w1.modify a (fun s =>
              { s with mGlobalTransform :=
                  (w1.sprites q).mGlobalTransform * s.mGlobalTransform })) :=
            showAll_modify w1 a _ (fun s k => rfl) (fun s => rfl)
          rw [e, ih2]
          rfl

theorem contains_showAll (env : MathEnv F) (fuel : Nat) (a : Addr) (point : Vec3 F)
    (w : World F) :
    contains env fuel a point (showAll w) = (contains env fuel a point w).map showAllResult := by
  unfold contains
  rw [(buildGlobalTransform_showAll_aux env fuel).1]
  cases buildGlobalTransform env fuel a w with
  | none => rfl
  | some w1 => rfl

theorem firstHit_showAll (test : Addr → World F → Option (World F × Option Addr))
    (htest : ∀ c w, test c (showAll w) = (test c w).map showAllResult) :
    ∀ (l : List Addr) (w : World F),
      firstHit test l (showAll w) = (firstHit test l w).map showAllResult
  | [], w => rfl
  | c :: cs, w => by
    simp only [firstHit]
    rw [htest]
    cases hc : test c w with
    | none => rfl
    | some x =>
      obtain ⟨w1, r⟩ := x
      cases r with
      | none => exact firstHit_showAll test htest cs w1
      | some h => rfl

theorem hitChild_showAll (env : MathEnv F) (fuel : Nat) (point : Vec3 F)
    (recur : Addr → World F → Option (World F × Option Addr))
    (hrec : ∀ c w, recur c (showAll w) = (recur c w).map showAllResult)
    (c : Addr) (w : World F) :
    hitChild env fuel point recur c (showAll w)
      = (hitChild env fuel point recur c w).map showAllResult := by
  unfold hitChild
  rw [isEnabled_showAll, contains_showAll]
  split
  · cases hc : contains env fuel c point w with
    | none => rfl
    | some x =>
      obtain ⟨w1, b⟩ := x
      cases b with
      | true => rfl
      | false => exact hrec c w1
  · exact hrec c w

/-- The function `getHit` commutes with setting every visible flag. -/
theorem getHit_showAll (env : MathEnv F) (point : Vec3 F) : ∀ (fuel : Nat) (a : Addr)
    (w : World F),
    getHit env fuel a point (showAll w) = (getHit env fuel a point w).map showAllResult
  | 0, a, w => rfl
  | fuel + 1, a, w => by
    simp only [getHit]
    rw [hitOrder_showAll,
      firstHit_showAll _ (hitChild_showAll env fuel point _
        (fun c w0 => getHit_showAll env point fuel c w0))]
    cases hl : firstHit (hitChild env fuel point (fun c w0 => getHit env fuel c point w0))
        (hitOrder a w) w with
    | none => rfl
    | some x =>
      obtain ⟨w1, r⟩ := x
      cases r with
      | some h => rfl
      | none =>
        simp only [Option.map_some', showAllResult]
        rw [isEnabled_showAll, contains_showAll]
        split
        · cases hc : contains env fuel a point w1 with
          | none => rfl
          | some y =>
            obtain ⟨w2, b⟩ := y
            cases b <;> rfl
        · rfl

/-- C14: two states that are identical except for the visible flags of their sprites give the
same answer of `getHit` for every sprite and point (the same sprite, or none in both, or no
return in both), and the states after the call are again identical except for the visible
flags. -/
theorem getHit_ignores_visible_flag (env : MathEnv F) (fuel : Nat) (a : Addr) (point : Vec3 F)
    (w w2 : World F) (h : showAll w = showAll w2) :
    (getHit env fuel a point w).map Prod.snd = (getHit env fuel a point w2).map Prod.snd
    ∧ (getHit env fuel a point w).map (fun r => showAll r.1)
        = (getHit env fuel a point w2).map (fun r => showAll r.1) := by
  have e := getHit_showAll env point fuel a w
  have e2 := getHit_showAll env point fuel a w2
  rw [h, e2] at e
  constructor
  · have := congrArg (Option.map Prod.snd) e
    simpa [Option.map_map, Function.comp_def, showAllResult] using this.symm
  · have := congrArg (Option.map Prod.fst) e
    simpa [Option.map_map, Function.comp_def, showAllResult] using this.symm

end Visibility

/-- The states `hiddenBox` and `hitBox` are identical except for the visible flag. -/
theorem hiddenBox_showAll : showAll hiddenBox = showAll hitBox := by
  unfold showAll hiddenBox hitBox
  simp only [World.mk.injEq, and_true]
  funext b
  by_cases h : b = 0
  · subst h; simp only [if_true]; rfl
  · simp only [if_neg h]

/-- The function `getHit` returns the sprite of `hitBox` at the point (50,25). -/
theorem hitBox_getHit :
    (getHit exampleEnv 2 0 ⟨50, 25, 0⟩ hitBox).map Prod.snd = some (some 0) := by
  decide!

/-- C14, at the hidden sprite of `hiddenBox` and the visible one of `hitBox`: the sprite is
not visible, it is enabled, and `getHit` returns it. -/
theorem getHit_ignores_visible_flag_witness :
    visible 0 hiddenBox = false ∧ isEnabled 0 hiddenBox = true
    ∧ (getHit exampleEnv 2 0 ⟨50, 25, 0⟩ hiddenBox).map Prod.snd = some (some 0) :=
  ⟨by decide, by decide,
    (getHit_ignores_visible_flag exampleEnv 2 0 ⟨50, 25, 0⟩ hiddenBox hitBox
      hiddenBox_showAll).1.trans hitBox_getHit⟩

/-! ### The contract of addChild and removeChild (claim C15) -/

section TreeContract

variable {F : Type} [LinearOrderedCommRing F]

/-- The sprite `c` is in no list of `childrenWithout c`, at the place where it was filtered. -/
theorem not_mem_childrenWithout_filter (c p : Addr) (P : Addr → Option Addr)
    (C : Addr → List Addr) :
    c ∉ childrenWithout c P (Function.update C p ((C p).filter (fun x => x != c))) p := by
  unfold childrenWithout
  cases P c with
  | none =>
    simp only [Function.update_same]
    exact not_mem_filter_ne _ c
  | some q =>
    simp only
    by_cases h : p = q
    · subst h
      simp only [Function.update_same]
      exact not_mem_filter_ne _ c
    · rw [Function.update_noteq h, Function.update_same]
      exact not_mem_filter_ne _ c

/-- C15: `p.addChild(c)` with `c` in the child list of `p`, and `p.removeChild(c)` with `c`
not in it, return the state unchanged; `p.addChild(c)` with `c` not in the list returns a
state in which the child list of `p` is the old one followed by `c` and the parent of `c` is
`p`; `p.removeChild(c)` with `c` in the list returns a state in which `c` is not in the list
of `p` and has no parent. The parent pointer of `c` is taken to agree with the child list of
`p`, the sprites with a parent lie below `n`, and the fuel is `n + 7` or more. -/
theorem addChild_removeChild_contract (n g : Nat) (p c : Addr) (w : World F)
    (hcons : c ∈ childrenOf w p ↔ parentOf w c = some p)
    (hn : ParentsBelow n w) (hcn : c < n) (hg : n + 7 ≤ g) :
    (c ∈ childrenOf w p → addChild g p c w = some w)
    ∧ (c ∉ childrenOf w p → removeChild g p c w = some w)
    ∧ (c ∉ childrenOf w p → ∃ w1, addChild g p c w = some w1
        ∧ childrenOf w1 p = childrenOf w p ++ [c] ∧ getParent c w1 = some p)
    ∧ (c ∈ childrenOf w p → ∃ w1, removeChild g p c w = some w1
        ∧ c ∉ childrenOf w1 p ∧ getParent c w1 = none) := by
  obtain ⟨k, rfl⟩ : ∃ k, g = k + 1 := ⟨g - 1, by omega⟩
  refine ⟨fun hc => addChild_present_eq k hc, fun hc => removeChild_absent_eq k hc, ?_, ?_⟩
  · intro hc
    have hp : parentOf w c ≠ some p := fun h => hc (hcons.mpr h)
    obtain ⟨w1, h1⟩ := addChild_total (Or.inl hp) hcn hn hg
    obtain ⟨hP, hC, _⟩ := addChild_spec hc hp h1
    refine ⟨w1, h1, ?_, ?_⟩
    · rw [hC]
      unfold childrenWithout
      cases hq : parentOf w c with
      | none => simp
      | some q =>
        have hqp : p ≠ q := by
          intro e
          subst e
          exact hp hq
        simp only
        rw [Function.update_noteq hqp, Function.update_same]
    · show parentOf w1 c = some p
      rw [hP, Function.update_same]
  · intro hc
    obtain ⟨w1, h1⟩ := removeChild_total p c hn hg
    obtain ⟨hP, hC, _⟩ := removeChild_spec hc h1
    refine ⟨w1, h1, ?_, ?_⟩
    · rw [hC]
      exact not_mem_childrenWithout_filter c p _ _
    · show parentOf w1 c = none
      rw [hP, Function.update_same]

end TreeContract

/-- C15, at two sprites without parent and children: `addChild` makes the second the only
child of the first, and `removeChild` on the unrelated pair changes nothing. -/
theorem addChild_removeChild_contract_witness :
    (∃ w1, addChild 10 0 1 (World.empty : World ℤ) = some w1
        ∧ childrenOf w1 0 = [1] ∧ getParent 1 w1 = some 0)
    ∧ removeChild 10 0 1 (World.empty : World ℤ) = some World.empty :=
  have h := addChild_removeChild_contract 3 10 0 1 (World.empty : World ℤ)
    (by simp [childrenOf, parentOf, World.empty, Sprite.uninit]) (fun _ _ => rfl)
    (by decide) (by decide)
  ⟨h.2.2.1 (by simp [childrenOf, World.empty, Sprite.uninit]),
   h.2.1 (by simp [childrenOf, World.empty, Sprite.uninit])⟩

/-! ### The recursion of setParent (claim C16) -/

/-- In `receiverPair` no sprite has a parent or a child. -/
theorem receiverPair_flat (b : Addr) :
    (receiverPair.sprites b).mParent = none ∧ (receiverPair.sprites b).mChildren = [] := by
  unfold receiverPair
  by_cases h0 : b = 0
  · subst h0; exact ⟨rfl, rfl⟩
  · by_cases h1 : b = 1
    · subst h1; exact ⟨rfl, rfl⟩
    · simp only [if_neg h0, if_neg h1]
      exact ⟨rfl, rfl⟩

/-- Parent pointers and child lists agree in `receiverPair`. -/
theorem receiverPair_treeInv : TreeInv (parentOf receiverPair) (childrenOf receiverPair) := by
  intro s p
  simp [parentOf, childrenOf, (receiverPair_flat p).2, (receiverPair_flat s).1]

/-- C16: for two freshly constructed sprites P (address 0) and C (address 1), the call
`C.setParent(P)` does not return, whatever the fuel: the recursion through `addChild`,
`setParent`, `removeParent` and `removeChild` comes back to `setParent(P)` in the same state.
The call `C.setParent(nullptr)` returns and leaves C without parent. -/
theorem setParent_attach_never_returns :
    (∀ fuel : Nat, setParent fuel 1 (some 0) receiverPair = none)
    ∧ ∃ w1, setParent 9 1 none receiverPair = some w1 ∧ getParent 1 w1 = none := by
  refine ⟨fun fuel => setParent_some_diverges 1 0 fuel receiverPair receiverPair_treeInv, ?_⟩
  obtain ⟨w1, h1⟩ := setParent_none_total (n := 2) (g := 9) 1 (w := receiverPair)
    (fun b _ => (receiverPair_flat b).1) (by decide)
  refine ⟨w1, h1, ?_⟩
  show parentOf w1 1 = none
  rw [(setParent_none_spec h1).1, Function.update_same]

/-! ### Acyclicity of the parent chains (claim C17) -/


section Acyclicity

variable {F : Type} [LinearOrderedCommRing F]

/-- A chain that has ended stays ended. -/
theorem ancestorAt_none_succ (P : Addr → Option Addr) :
    ∀ (k : Nat) (a : Addr), ancestorAt P k a = none → ancestorAt P (k + 1) a = none
  | 0, a, h => by simp [ancestorAt] at h
  | k + 1, a, h => by
    rw [ancestorAt] at h ⊢
    cases hq : P a with
    | none => rfl
    | some q =>
      rw [hq] at h
      exact ancestorAt_none_succ P k q h

/-- A sprite that is its own ancestor has a chain that never ends. -/
theorem ownAncestor_not_acyclic (P : Addr → Option Addr) (a : Addr) (h : OwnAncestor P a) :
    ¬ Acyclic P := by
  obtain ⟨k, hk⟩ := h
  intro hac
  obtain ⟨m, hm⟩ := hac a
  -- composition of chains
  have hcomp : ∀ (i : Nat) (x y : Addr), ancestorAt P i x = some y →
      ∀ j, ancestorAt P (i + j) x = ancestorAt P j y := by
    intro i
    induction i with
    | zero =>
      intro x y hxy j
      simp only [ancestorAt, Option.some.injEq] at hxy
      subst hxy
      simp
    | succ i ih =>
      intro x y hxy j
      rw [ancestorAt] at hxy
      have e : i + 1 + j = (i + j) + 1 := by omega
      rw [e, ancestorAt]
      cases hq : P x with
      | none => rw [hq] at hxy; simp at hxy
      | some q =>
        rw [hq] at hxy
        exact ih q y hxy j
  -- the chain of `a` is not ended after any multiple of the period
  have hper : ∀ j, ancestorAt P ((k + 1) * j) a = some a := by
    intro j
    induction j with
    | zero => rfl
    | succ j ih =>
      have e : (k + 1) * (j + 1) = (k + 1) + (k + 1) * j := by ring
      rw [e, hcomp (k + 1) a a hk, ih]
  have hmono : ∀ d, ancestorAt P (m + d) a = none := by
    intro d
    induction d with
    | zero => exact hm
    | succ d ih => exact ancestorAt_none_succ P _ a ih
  have hle : m ≤ (k + 1) * m := Nat.le_mul_of_pos_left m (Nat.succ_pos k)
  have h1 := hmono ((k + 1) * m - m)
  rw [Nat.add_sub_cancel' hle, hper m] at h1
  simp at h1

/-- Clearing one parent pointer keeps every chain finite. -/
theorem acyclic_detach (P : Addr → Option Addr) (c : Addr) (h : Acyclic P) :
    Acyclic (Function.update P c none) := by
  have key : ∀ (k : Nat) (a : Addr), ancestorAt P k a = none →
      ancestorAt (Function.update P c none) k a = none := by
    intro k
    induction k with
    | zero => intro a ha; simp [ancestorAt] at ha
    | succ k ih =>
      intro a ha
      rw [ancestorAt] at ha ⊢
      by_cases hac : a = c
      · subst hac
        simp
      · rw [Function.update_noteq hac]
        cases hq : P a with
        | none => rfl
        | some q =>
          rw [hq] at ha
          exact ih q ha
  intro a
  obtain ⟨k, hk⟩ := h a
  exact ⟨k, key k a hk⟩

/-- Pointing `c` to `p` keeps every chain finite when `c` is neither `p` nor an ancestor of
`p`. -/
theorem acyclic_attach (P : Addr → Option Addr) (c p : Addr) (h : Acyclic P)
    (hsafe : ∀ k, ancestorAt P k p ≠ some c) :
    Acyclic (Function.update P c (some p)) := by
  -- chains that do not meet `c` are unchanged
  have hsame : ∀ (k : Nat) (x : Addr), (∀ j, ancestorAt P j x ≠ some c) →
      ancestorAt (Function.update P c (some p)) k x = ancestorAt P k x := by
    intro k
    induction k with
    | zero => intro x _; rfl
    | succ k ih =>
      intro x hx
      have hxc : x ≠ c := fun e => hx 0 (by rw [e]; rfl)
      rw [ancestorAt, ancestorAt, Function.update_noteq hxc]
      cases hq : P x with
      | none => rfl
      | some q =>
        apply ih q
        intro j hj
        apply hx (j + 1)
        rw [ancestorAt, hq]
        exact hj
  obtain ⟨k0, hk0⟩ := h p
  have hp : ancestorAt (Function.update P c (some p)) k0 p = none := by
    rw [hsame k0 p hsafe]; exact hk0
  have hc : ancestorAt (Function.update P c (some p)) (k0 + 1) c = none := by
    rw [ancestorAt, Function.update_same]
    exact hp
  have key : ∀ (k : Nat) (a : Addr), ancestorAt P k a = none →
      ∃ m, ancestorAt (Function.update P c (some p)) m a = none := by
    intro k
    induction k with
    | zero => intro a ha; simp [ancestorAt] at ha
    | succ k ih =>
      intro a ha
      by_cases hac : a = c
      · subst hac
        exact ⟨k0 + 1, hc⟩
      · rw [ancestorAt] at ha
        cases hq : P a with
        | none =>
          refine ⟨1, ?_⟩
          rw [ancestorAt, Function.update_noteq hac, hq]
        | some q =>
          rw [hq] at ha
          obtain ⟨m, hm⟩ := ih q ha
          refine ⟨m + 1, ?_⟩
          rw [ancestorAt, Function.update_noteq hac, hq]
          exact hm
  intro a
  obtain ⟨k, hk⟩ := h a
  exact key k a hk

/-- One call that is `attachSafe` keeps every chain of parents finite. -/
theorem runCall_acyclic {g : Nat} {call : TreeCall} {w w1 : World F}
    (hinv : TreeInv (parentOf w) (childrenOf w)) (hac : Acyclic (parentOf w))
    (hd : call.detaching = true) (hsafe : call.attachSafe w)
    (hr : runCall g call w = some w1) : Acyclic (parentOf w1) := by
  cases call with
  | addChild p c =>
    simp only [runCall] at hr
    by_cases hc : c ∈ childrenOf w p
    · cases g with
      | zero => simp [addChild] at hr
      | succ k =>
        rw [addChild_present_eq k hc] at hr
        simp only [Option.some.injEq] at hr
        rw [← hr]; exact hac
    · have hp : parentOf w c ≠ some p := fun h => hc ((hinv c p).2.mpr h)
      rw [(addChild_spec hc hp hr).1]
      exact acyclic_attach _ c p hac hsafe
  | removeChild p c =>
    simp only [runCall] at hr
    by_cases hc : c ∈ childrenOf w p
    · rw [(removeChild_spec hc hr).1]
      exact acyclic_detach _ c hac
    · cases g with
      | zero => simp [removeChild] at hr
      | succ k =>
        rw [removeChild_absent_eq k hc] at hr
        simp only [Option.some.injEq] at hr
        rw [← hr]; exact hac
  | setParent a parent =>
    cases parent with
    | some q => simp [TreeCall.detaching] at hd
    | none =>
      simp only [runCall] at hr
      rw [(setParent_none_spec hr).1]
      exact acyclic_detach _ a hac

/-- C17, amended: started in a state where parent pointers and child lists agree and every
chain of parents is finite, a sequence of `addChild`, `removeChild` and `setParent(nullptr)`
calls in which no `p.addChild(c)` is made with `c` equal to `p` or an ancestor of `p` returns
and leaves every chain of parents finite: no sprite is its own ancestor. -/
theorem acyclic_when_no_ancestor_is_attached (n g : Nat) (hg : n + 7 ≤ g) :
    ∀ (calls : List TreeCall) (w : World F),
    TreeInv (parentOf w) (childrenOf w) → ParentsBelow n w →
    (∀ call ∈ calls, call.detaching = true ∧ call.below n) →
    Acyclic (parentOf w) → AttachSafe g calls w →
    ∃ w1, runCalls g calls w = some w1 ∧ Acyclic (parentOf w1)
      ∧ ∀ a, ¬ OwnAncestor (parentOf w1) a
  | [], w, _, _, _, hac, _ =>
    ⟨w, rfl, hac, fun a ha => ownAncestor_not_acyclic _ a ha hac⟩
  | call :: calls, w, hinv, hn, hcalls, hac, hsafe => by
    have hcall := hcalls call (List.mem_cons_self _ _)
    obtain ⟨w1, hr, hn1⟩ := runCall_total hinv hn hcall.1 hcall.2 hg
    have hinv1 := runCall_treeInv hinv hr
    have hac1 := runCall_acyclic hinv hac hcall.1 hsafe.1 hr
    obtain ⟨w2, hr2, h2⟩ := acyclic_when_no_ancestor_is_attached n g hg calls w1 hinv1 hn1
      (fun c hc => hcalls c (List.mem_cons_of_mem _ hc)) hac1 (hsafe.2 w1 hr)
    refine ⟨w2, ?_, h2⟩
    simp only [runCalls, hr]
    exact hr2

end Acyclicity

/-- The parents after `s.addChild(s)`, and after `a.addChild(b)` followed by
`b.addChild(a)`, on sprites without parent and children. -/
theorem addChild_cycle_parents :
    (addChild 10 0 0 (World.empty : World ℤ)).map (getParent 0) = some (some 0)
    ∧ (runCalls 10 [TreeCall.addChild 0 1, TreeCall.addChild 1 0] (World.empty : World ℤ)).map
        (fun w => (getParent 0 w, getParent 1 w)) = some (some 1, some 0) := by
  decide!

/-- C17, counterexample: `s.addChild(s)` returns and leaves `s` its own parent, and
`a.addChild(b)` followed by `b.addChild(a)` returns and leaves `a` the parent of `b` and `b`
the parent of `a`; in both states a chain of parents never reaches null. -/
theorem addChild_makes_sprite_its_own_ancestor :
    (∃ w1, addChild 10 0 0 (World.empty : World ℤ) = some w1
        ∧ getParent 0 w1 = some 0 ∧ ¬ Acyclic (parentOf w1))
    ∧ (∃ w2, runCalls 10 [TreeCall.addChild 0 1, TreeCall.addChild 1 0]
          (World.empty : World ℤ) = some w2
        ∧ getParent 0 w2 = some 1 ∧ getParent 1 w2 = some 0 ∧ ¬ Acyclic (parentOf w2)) := by
  obtain ⟨h1, h2⟩ := addChild_cycle_parents
  constructor
  · cases hr : addChild 10 0 0 (World.empty : World ℤ) with
    | none => rw [hr] at h1; simp at h1
    | some w1 =>
      rw [hr] at h1
      simp only [Option.map_some', Option.some.injEq] at h1
      refine ⟨w1, rfl, h1, ownAncestor_not_acyclic _ 0 ⟨0, ?_⟩⟩
      have e : parentOf w1 0 = some 0 := h1
      simp [ancestorAt, e]
  · cases hr : runCalls 10 [TreeCall.addChild 0 1, TreeCall.addChild 1 0]
        (World.empty : World ℤ) with
    | none => rw [hr] at h2; simp at h2
    | some w2 =>
      rw [hr] at h2
      simp only [Option.map_some', Option.some.injEq, Prod.mk.injEq] at h2
      refine ⟨w2, rfl, h2.1, h2.2, ownAncestor_not_acyclic _ 0 ⟨1, ?_⟩⟩
      have e0 : parentOf w2 0 = some 1 := h2.1
      have e1 : parentOf w2 1 = some 0 := h2.2
      simp [ancestorAt, e0, e1]

/-- C17, amended, at the calls `R.addChild(A)`, `A.addChild(B)`, `R.removeChild(A)` on three
sprites without parent and children. -/
theorem acyclic_when_no_ancestor_is_attached_witness :
    ∃ w1, runCalls 10
        [TreeCall.addChild 0 1, TreeCall.addChild 1 2, TreeCall.removeChild 0 1]
        (World.empty : World ℤ) = some w1
      ∧ Acyclic (parentOf w1) ∧ ∀ a, ¬ OwnAncestor (parentOf w1) a :=
  acyclic_when_no_ancestor_is_attached 3 10 (by decide)
    [TreeCall.addChild 0 1, TreeCall.addChild 1 2, TreeCall.removeChild 0 1]
    (World.empty : World ℤ)
    (by intro s p; simp [parentOf, childrenOf, World.empty, Sprite.uninit])
    (fun _ _ => rfl)
    (by
      intro call hc
      simp only [List.mem_cons, List.mem_singleton, List.not_mem_nil, or_false] at hc
      rcases hc with rfl | rfl | rfl <;> simp [TreeCall.detaching, TreeCall.below])
    (fun a => ⟨1, rfl⟩)
    (by
      refine ⟨?_, fun w1 h1 => ⟨?_, fun w2 _ => ⟨trivial, fun _ _ => trivial⟩⟩⟩
      · intro k
        cases k with
        | zero => simp [ancestorAt]
        | succ k => simp [ancestorAt, parentOf, World.empty, Sprite.uninit]
      · have hP := (addChild_spec (w := (World.empty : World ℤ)) (p := 0) (c := 1)
          (by simp [childrenOf, World.empty, Sprite.uninit])
          (by simp [parentOf, World.empty, Sprite.uninit]) h1).1
        intro k
        show ancestorAt (parentOf w1) k 1 ≠ some 2
        rw [hP]
        rcases k with _ | _ | k <;>
          simp [ancestorAt, parentOf, World.empty, Sprite.uninit, Function.update])

/-! ### Records that the reader drops (claims C18 and C19) -/

section UnknownParent

variable {F : Type} [LinearOrderedCommRing F]

/-- C18: a PARENT record whose identifier is not in the registry is dropped: reading goes on
with the records behind it in the unchanged state, and with a POSITION record and the
terminator behind it `readAttributesFrom` returns, the position is applied, and the parent of
every sprite and every child list are as before. -/
theorem unknown_parent_is_dropped (f : Nat) (a : Addr) (w : World F) (pid : sprite_id_t)
    (hq : findSprite w pid = none) :
    (∀ rest : DataBuffer F,
      readAttributesFrom (f + 1) a w (Item.char PARENT_ATT :: Item.spriteId pid :: rest)
        = readAttributesFrom f a w rest)
    ∧ (∀ (x y z : F) (rest : DataBuffer F), ∃ w1,
        readAttributesFrom (f + 3) a w
          (Item.char PARENT_ATT :: Item.spriteId pid :: Item.char POSITION_ATT ::
            Item.float x :: Item.float y :: Item.float z :: Item.char TERMINATOR_CHAR :: rest)
          = some (w1, rest)
        ∧ w1 = w.modify a (fun s => { s with mPosition := ⟨x, y, z⟩, mUpdateTransform := true,
                                             mBoundsNeedChecking := true })
        ∧ parentOf w1 = parentOf w ∧ childrenOf w1 = childrenOf w
        ∧ (w1.sprites a).mPosition = ⟨x, y, z⟩) := by
  constructor
  · intro rest
    unfold readAttributesFrom
    rw [readLoop_parent_unknown f a w pid rest false hq]
  · intro x y z rest
    refine ⟨_, ?_, rfl, ?_, ?_, ?_⟩
    · unfold readAttributesFrom
      rw [readLoop_parent_unknown (f + 2) a w pid _ false hq, readLoop_position,
        readLoop_terminator]
      simp only [if_true, modify_modify]
    · rw [parentOf_modify]
      exact Function.update_eq_self a (parentOf w)
    · rw [childrenOf_modify]
      exact Function.update_eq_self a (childrenOf w)
    · simp

end UnknownParent

/-- C18, at the sprite at address 1 of `receiverPair` and the identifier 7, which no sprite
is registered under. -/
theorem unknown_parent_is_dropped_witness :
    (readAttributesFrom 3 1 receiverPair
        [Item.char PARENT_ATT, Item.spriteId 7, Item.char POSITION_ATT,
          Item.float 10, Item.float 20, Item.float 0, Item.char TERMINATOR_CHAR]).map
      (fun r => (getParent 1 r.1, (r.1.sprites 0).mChildren, (r.1.sprites 1).mPosition, r.2))
      = some (none, [], ⟨10, 20, 0⟩, []) := by
  obtain ⟨w1, h, he, _, _, _⟩ :=
    (unknown_parent_is_dropped 0 1 receiverPair 7 (by decide)).2 10 20 0 []
  rw [h, he]
  rfl

/-! ### Records with an unrecognised tag (claim C19) -/

section UnknownTag

variable {F : Type} [LinearOrderedCommRing F]

/-- The loop of readAttributesFrom on a tag that the base class does not know: only the tag
is consumed. -/
theorem readLoop_unknown_tag (f : Nat) (a : Addr) (w : World F) (id : Int)
    (rest : DataBuffer F) (tc : Bool)
    (h0 : id ≠ TERMINATOR_CHAR) (h2 : id ≠ PARENT_ATT) (h3 : id ≠ SIZE_ATT)
    (h4 : id ≠ FLAGS_ATT) (h5 : id ≠ POSITION_ATT) (h6 : id ≠ SCALE_ATT)
    (h7 : id ≠ COLOR_ATT) (h8 : id ≠ OPACITY_ATT) :
    readAttributesFromLoop (f + 1) a w (Item.char id :: rest) tc
      = readAttributesFromLoop f a w rest tc := by
  simp only [readAttributesFromLoop, DataBuffer.canRead, DataBuffer.readChar, List.isEmpty_cons,
    Bool.not_false, Bool.true_eq_false, if_false, if_neg h0, if_neg h2, if_neg h3, if_neg h4,
    if_neg h5, if_neg h6, if_neg h7, if_neg h8, readAttributeFrom]

/-- C19, amended: of a record with an unrecognised tag the base class consumes the tag and
nothing else. Wherever the loop of readAttributesFrom meets such a tag, in whatever state, it
goes on at the value right behind the tag, and readAttributesFrom on a block that starts with
the tag gives the state and the remaining buffer of reading what follows the tag: a record
that is the tag alone is skipped and the records behind it are decoded unchanged. A payload is
not skipped: a payload that starts with the byte 0 is taken for the terminator, and the loop
returns there with the state as it is and everything behind that byte unread. -/
theorem unknown_tag_consumes_tag_only (f : Nat) (a : Addr) (w : World F) (id : Int)
    (rest : DataBuffer F) (tc : Bool)
    (h0 : id ≠ TERMINATOR_CHAR) (h2 : id ≠ PARENT_ATT) (h3 : id ≠ SIZE_ATT)
    (h4 : id ≠ FLAGS_ATT) (h5 : id ≠ POSITION_ATT) (h6 : id ≠ SCALE_ATT)
    (h7 : id ≠ COLOR_ATT) (h8 : id ≠ OPACITY_ATT) :
    readAttributesFromLoop (f + 1) a w (Item.char id :: rest) tc
        = readAttributesFromLoop f a w rest tc
    ∧ readAttributesFrom (f + 1) a w (Item.char id :: rest) = readAttributesFrom f a w rest
    ∧ readAttributesFromLoop (f + 2) a w (Item.char id :: Item.char TERMINATOR_CHAR :: rest) tc
        = some (w, rest, tc)
    ∧ readAttributesFrom (f + 2) a w (Item.char id :: Item.char TERMINATOR_CHAR :: rest)
        = some (w, rest) := by
  have hterm : ∀ t : Bool,
      readAttributesFromLoop (f + 1) a w (Item.char TERMINATOR_CHAR :: rest) t
        = some (w, rest, t) := by
    intro t
    simp only [readAttributesFromLoop, DataBuffer.canRead, DataBuffer.readChar,
      List.isEmpty_cons, Bool.not_false, Bool.true_eq_false, if_false, if_true]
  refine ⟨readLoop_unknown_tag f a w id rest tc h0 h2 h3 h4 h5 h6 h7 h8, ?_, ?_, ?_⟩
  · unfold readAttributesFrom
    rw [readLoop_unknown_tag f a w id rest false h0 h2 h3 h4 h5 h6 h7 h8]
  · rw [readLoop_unknown_tag (f + 1) a w id _ tc h0 h2 h3 h4 h5 h6 h7 h8]
    exact hterm tc
  · unfold readAttributesFrom
    rw [readLoop_unknown_tag (f + 1) a w id _ false h0 h2 h3 h4 h5 h6 h7 h8, hterm false]
    simp

end UnknownTag

/-- C19, counterexample: a block with a record of the unknown tag 9 and a one-byte payload
0 in front of a POSITION record. The base class takes the payload for the terminator: it
returns with the position unchanged and the POSITION record unread, whereas the block without
the unknown record sets the position (1,2,3). -/
theorem unknown_tag_payload_is_decoded_as_records :
    (readAttributesFrom 5 0 receiverPair
        [Item.char 9, Item.char 0, Item.char POSITION_ATT, Item.float 1, Item.float 2,
          Item.float 3, Item.char TERMINATOR_CHAR]).map
      (fun r => ((r.1.sprites 0).mPosition, r.2))
      = some (⟨0, 0, 0⟩, [Item.char POSITION_ATT, Item.float 1, Item.float 2, Item.float 3,
          Item.char TERMINATOR_CHAR])
    ∧ (readAttributesFrom 5 0 receiverPair
        [Item.char POSITION_ATT, Item.float 1, Item.float 2, Item.float 3,
          Item.char TERMINATOR_CHAR]).map
      (fun r => ((r.1.sprites 0).mPosition, r.2)) = some (⟨1, 2, 3⟩, []) := by
  decide!

/-- C19, amended, at the unknown tag 9: without payload in front of a POSITION record the
block is read as the POSITION record alone; with the payload byte 0 the read returns at that
byte with the state as it is. -/
theorem unknown_tag_consumes_tag_only_witness :
    readAttributesFrom 5 0 receiverPair
        [Item.char 9, Item.char POSITION_ATT, Item.float 1, Item.float 2, Item.float 3,
          Item.char TERMINATOR_CHAR]
      = readAttributesFrom 4 0 receiverPair
        [Item.char POSITION_ATT, Item.float 1, Item.float 2, Item.float 3,
          Item.char TERMINATOR_CHAR]
    ∧ readAttributesFrom 5 0 receiverPair
        [Item.char 9, Item.char TERMINATOR_CHAR, Item.char POSITION_ATT, Item.float 1,
          Item.float 2, Item.float 3, Item.char TERMINATOR_CHAR]
      = some (receiverPair, [Item.char POSITION_ATT, Item.float 1, Item.float 2, Item.float 3,
          Item.char TERMINATOR_CHAR]) :=
  ⟨(unknown_tag_consumes_tag_only 4 0 receiverPair 9 _ false
      (by decide) (by decide) (by decide) (by decide) (by decide) (by decide) (by decide)
      (by decide)).2.1,
    (unknown_tag_consumes_tag_only 3 0 receiverPair 9 _ false
      (by decide) (by decide) (by decide) (by decide) (by decide) (by decide) (by decide)
      (by decide)).2.2.2⟩

/-! ### The registry (claim C20) -/

section Registry

variable {F : Type} [LinearOrderedCommRing F]

/-- The lookup as a search in the association list. -/
theorem findSprite_eq (w : World F) (id : sprite_id_t) :
    findSprite w id = (w.mSprites.find? (fun e => e.1 == id)).map Prod.snd := by
  unfold findSprite
  cases h : w.mSprites with
  | nil => rfl
  | cons e l =>
    simp only [List.isEmpty_cons, Bool.false_eq_true, if_false]
    cases List.find? (fun e => e.1 == id) (e :: l) <;> rfl

/-- The search for `id` does not see the removal of the entries of another identifier. -/
theorem find_filter_other (l : List (sprite_id_t × Addr)) (id k : sprite_id_t) (h : id ≠ k) :
    (l.filter (fun e => !(e.1 == k))).find? (fun e => e.1 == id)
      = l.find? (fun e => e.1 == id) := by
  induction l with
  | nil => rfl
  | cons e l ih =>
    by_cases hk : e.1 = k
    · have hid : ¬ ((fun x : sprite_id_t × Addr => x.1 == id) e = true) := by
        simp only [beq_iff_eq]
        exact fun e2 => h (e2.symm.trans hk)
      have hf : ¬ ((fun x : sprite_id_t × Addr => !(x.1 == k)) e = true) := by
        simp [hk]
      rw [List.filter_cons_of_neg (p := fun x : sprite_id_t × Addr => !(x.1 == k)) hf, List.find?_cons_of_neg (p := fun x : sprite_id_t × Addr => x.1 == id) _ hid]
      exact ih
    · have hf : (fun x : sprite_id_t × Addr => !(x.1 == k)) e = true := by
        simp [hk]
      rw [List.filter_cons_of_pos (p := fun x : sprite_id_t × Addr => !(x.1 == k)) hf]
      by_cases hid : (fun x : sprite_id_t × Addr => x.1 == id) e = true
      · rw [List.find?_cons_of_pos (p := fun x : sprite_id_t × Addr => x.1 == id) _ hid, List.find?_cons_of_pos (p := fun x : sprite_id_t × Addr => x.1 == id) _ hid]
      · rw [List.find?_cons_of_neg (p := fun x : sprite_id_t × Addr => x.1 == id) _ hid, List.find?_cons_of_neg (p := fun x : sprite_id_t × Addr => x.1 == id) _ hid]
        exact ih

/-- The search for `k` finds nothing once the entries of `k` are removed. -/
theorem find_filter_self (l : List (sprite_id_t × Addr)) (k : sprite_id_t) :
    (l.filter (fun e => !(e.1 == k))).find? (fun e => e.1 == k) = none := by
  simp [List.find?_eq_none, List.mem_filter]

/-- C20: the lookup after `registerSprite` and `unregisterSprite` is the lookup before,
changed at the identifier of the sprite only: there it is the sprite just registered, or
"not found" after `unregisterSprite`; for a sprite with the identifier `EMPTY_SPRITE_ID` both
functions change nothing; on an empty registry every lookup is "not found". The lookup is a
total function: it returns for every identifier. -/
theorem registry_lookup (a : Addr) (w : World F) :
    ((w.sprites a).mId ≠ EMPTY_SPRITE_ID →
      findSprite (registerSprite a w)
        = Function.update (findSprite w) (w.sprites a).mId (some a))
    ∧ ((w.sprites a).mId ≠ EMPTY_SPRITE_ID →
      findSprite (unregisterSprite a w)
        = Function.update (findSprite w) (w.sprites a).mId none)
    ∧ ((w.sprites a).mId = EMPTY_SPRITE_ID →
      registerSprite a w = w ∧ unregisterSprite a w = w)
    ∧ (w.mSprites = [] → ∀ id, findSprite w id = none) := by
  refine ⟨?_, ?_, ?_, ?_⟩
  · intro hid
    funext id
    rw [findSprite_eq]
    unfold registerSprite
    rw [if_neg hid]
    by_cases h : id = (w.sprites a).mId
    · subst h
      simp
    · rw [Function.update_noteq h, findSprite_eq]
      have h2 : ¬ ((fun x : sprite_id_t × Addr => x.1 == id) ((w.sprites a).mId, a) = true) := by
        simp only [beq_iff_eq]
        exact fun e => h e.symm
      simp only
      rw [List.find?_cons_of_neg (p := fun x : sprite_id_t × Addr => x.1 == id) _ h2, find_filter_other _ id _ h]
  · intro hid
    funext id
    rw [findSprite_eq]
    unfold unregisterSprite
    by_cases he : w.mSprites.isEmpty = true
    · rw [if_pos he]
      have hnil : w.mSprites = [] := List.isEmpty_iff.mp he
      by_cases h : id = (w.sprites a).mId
      · subst h
        simp [hnil]
      · rw [Function.update_noteq h, findSprite_eq]
    · rw [if_neg he, if_neg hid]
      by_cases h : id = (w.sprites a).mId
      · subst h
        rw [Function.update_same]
        simp only [find_filter_self, Option.map_none']
      · rw [Function.update_noteq h, findSprite_eq]
        simp only
        rw [find_filter_other _ id _ h]
  · intro hid
    constructor
    · unfold registerSprite
      rw [if_pos hid]
    · unfold unregisterSprite
      rw [if_pos hid]
      simp
  · intro hnil id
    unfold findSprite
    simp [hnil]

end Registry

/-- C20, at the registry of `receiverPair`: the sprite at address 1 has the identifier 2;
after `unregisterSprite` identifier 2 is not found and identifier 1 still is, and after
registering again identifier 2 is found. -/
theorem registry_lookup_witness :
    findSprite (unregisterSprite 1 receiverPair) 2 = none
    ∧ findSprite (unregisterSprite 1 receiverPair) 1 = some 0
    ∧ findSprite (registerSprite 1 (unregisterSprite 1 receiverPair)) 2 = some 1
    ∧ findSprite (World.empty : World ℤ) 2 = none := by
  have h := registry_lookup 1 receiverPair
  have h2 := registry_lookup 1 (unregisterSprite 1 receiverPair)
  have h3 := registry_lookup 0 (World.empty : World ℤ)
  refine ⟨?_, ?_, ?_, h3.2.2.2 rfl 2⟩
  · rw [h.2.1 (by decide)]; rfl
  · rw [h.2.1 (by decide)]; rfl
  · rw [h2.1 (by decide)]; rfl

/-! ### The identifier allocator (claim C21) -/


/-- C21, counterexample: the call after the one that returned the largest identifier returns
`EMPTY_SPRITE_ID + 1`, which is smaller. -/
theorem nextSpriteId_restarts_after_maximum :
    (nextSpriteId (SPRITE_ID_MAX - 1)).2 = SPRITE_ID_MAX
    ∧ (nextSpriteId (nextSpriteId (SPRITE_ID_MAX - 1)).1).2 = 1
    ∧ ¬ ((nextSpriteId (SPRITE_ID_MAX - 1)).2
          < (nextSpriteId (nextSpriteId (SPRITE_ID_MAX - 1)).1).2) := by
  decide

/-- The arithmetic of `nextSpriteId` on the integers. -/
theorem nextSpriteId_arith (x : Int) (hlo : -2147483648 ≤ x) (hhi : x ≤ 2147483647) :
    0 < (if x = 2147483647 then (1 : Int) else if x + 1 ≤ 0 then 1 else x + 1)
    ∧ -2147483648 ≤ (if x = 2147483647 then (1 : Int) else if x + 1 ≤ 0 then 1 else x + 1)
    ∧ (if x = 2147483647 then (1 : Int) else if x + 1 ≤ 0 then 1 else x + 1) ≤ 2147483647
    ∧ (0 ≤ x → x < 2147483647 →
        (if x = 2147483647 then (1 : Int) else if x + 1 ≤ 0 then 1 else x + 1) = x + 1
        ∧ x < (if x = 2147483647 then (1 : Int) else if x + 1 ≤ 0 then 1 else x + 1)) := by
  refine ⟨?_, ?_, ?_, ?_⟩
  · split_ifs <;> omega
  · split_ifs <;> omega
  · split_ifs <;> omega
  · intro h0 h1
    split_ifs <;> omega

/-- C21, amended: for every value of the static variable in the range of the type,
`nextSpriteId` returns an identifier above `EMPTY_SPRITE_ID` and leaves the variable at the
identifier returned and in the range; after a call that returned an identifier below the
largest one the next call returns the successor, which is greater; after the largest one it
returns `EMPTY_SPRITE_ID + 1`. -/
theorem nextSpriteId_increases_below_maximum (ID : sprite_id_t)
    (hlo : SPRITE_ID_MIN ≤ ID) (hhi : ID ≤ SPRITE_ID_MAX) :
    EMPTY_SPRITE_ID < (nextSpriteId ID).2
    ∧ (nextSpriteId ID).1 = (nextSpriteId ID).2
    ∧ SPRITE_ID_MIN ≤ (nextSpriteId ID).1 ∧ (nextSpriteId ID).1 ≤ SPRITE_ID_MAX
    ∧ (EMPTY_SPRITE_ID ≤ ID → ID < SPRITE_ID_MAX →
        (nextSpriteId ID).2 = ID + 1 ∧ ID < (nextSpriteId ID).2)
    ∧ (ID = SPRITE_ID_MAX → (nextSpriteId ID).2 = EMPTY_SPRITE_ID + 1) := by
  have hmax : SPRITE_ID_MAX = (2147483647 : Int) := by decide
  have hmin : SPRITE_ID_MIN = (-2147483648 : Int) := by decide
  have hempty : EMPTY_SPRITE_ID = (0 : Int) := rfl
  have hlo2 : (-2147483648 : Int) ≤ ID := hmin ▸ hlo
  have hhi2 : ID ≤ (2147483647 : Int) := hmax ▸ hhi
  have key : (nextSpriteId ID).2
      = if ID = (2147483647 : Int) then (1 : Int)
        else if ID + 1 ≤ (0 : Int) then (1 : Int) else ID + 1 := by
    unfold nextSpriteId incrementId
    simp only [hmax, hmin, hempty]
    by_cases h : ID = (2147483647 : Int)
    · rw [if_pos h, if_pos h]
      rfl
    · rw [if_neg h, if_neg h]
      rfl
  have hfst : (nextSpriteId ID).1 = (nextSpriteId ID).2 := rfl
  have aux := nextSpriteId_arith ID hlo2 hhi2
  rw [hfst, key, hmax, hmin, hempty]
  refine ⟨aux.1, rfl, aux.2.1, aux.2.2.1, fun h0 h1 => aux.2.2.2 h0 h1, ?_⟩
  intro h
  rw [if_pos h]
  rfl

/-- C21, amended, at the first calls in a process: the static variable starts at 0 and the
calls return 1, 2, 3. -/
theorem nextSpriteId_increases_below_maximum_witness :
    nextSpriteIds 3 0 = [1, 2, 3]
    ∧ EMPTY_SPRITE_ID < (nextSpriteId 0).2 ∧ (nextSpriteId 0).2 = 0 + 1 :=
  have h := nextSpriteId_increases_below_maximum 0 (by decide) (by decide)
  ⟨by decide, h.1, (h.2.2.2.2.1 (by decide) (by decide)).1⟩

/-! ### Writing a sprite without identifier (claim C22) -/


section WriteUnnamed

variable {F : Type} [LinearOrderedCommRing F]

/-- C22: for a sprite whose identifier is `EMPTY_SPRITE_ID`, `writeTo` returns the buffer and
the state as they were: nothing is appended, no child is written, no dirty set is changed. -/
theorem writeTo_without_identifier_writes_nothing (fuel : Nat) (a : Addr) (w : World F)
    (buf : DataBuffer F) (hid : (w.sprites a).mId = EMPTY_SPRITE_ID) :
    writeTo (fuel + 1) a w buf = some (w, buf) := by
  simp only [writeTo, if_pos hid, ite_self]

end WriteUnnamed

/-- C22, at `unnamedRoot`: the root is dirty and has a dirty child with a valid identifier,
and `writeTo` on the root leaves the buffer empty. -/
theorem writeTo_without_identifier_writes_nothing_witness :
    isDirty 0 unnamedRoot = true ∧ isDirty 1 unnamedRoot = true
    ∧ writeTo 4 0 unnamedRoot [] = some (unnamedRoot, []) :=
  ⟨by decide, by decide, writeTo_without_identifier_writes_nothing 3 0 unnamedRoot [] rfl⟩

/-! ### Totality of buildGlobalTransform and sprites of size zero (claim C29) -/


section ZeroSize

variable {F : Type} [LinearOrderedCommRing F]

theorem CacheOnly.cache_parentOf_eq {w w1 : World F} (h : CacheOnly w w1) :
    parentOf w1 = parentOf w := by
  funext b
  obtain ⟨t, g, u, e⟩ := h.2 b
  unfold parentOf
  rw [e]

theorem CacheOnly.size_eq {w w1 : World F} (h : CacheOnly w w1) (b : Addr) :
    (w1.sprites b).mWidth = (w.sprites b).mWidth
    ∧ (w1.sprites b).mHeight = (w.sprites b).mHeight := by
  obtain ⟨t, g, u, e⟩ := h.2 b
  rw [e]
  exact ⟨rfl, rfl⟩

theorem CacheOnly.flags_eq {w w1 : World F} (h : CacheOnly w w1) (b : Addr) :
    (w1.sprites b).mSpriteFlags = (w.sprites b).mSpriteFlags := by
  obtain ⟨t, g, u, e⟩ := h.2 b
  rw [e]

/-- The function `buildGlobalTransform` returns on a sprite whose chain of parents ends
after `n` steps when the fuel is `2 * n + 1` or more, and its loop returns from an ancestor
whose chain ends after less than `n` steps when the fuel is `2 * n` or more. -/
theorem buildGlobalTransform_total_aux (env : MathEnv F) : ∀ (n : Nat),
    (∀ (fuel : Nat) (a : Addr) (q : Option Addr) (w : World F),
      (∀ p, q = some p → ancestorAt (parentOf w) n p = none) → 2 * n ≤ fuel →
      ∃ w1, buildGlobalTransformLoop env fuel a q w = some w1)
    ∧ (∀ (fuel : Nat) (a : Addr) (w : World F),
      ancestorAt (parentOf w) (n + 1) a = none → 2 * n + 1 ≤ fuel →
      ∃ w1, buildGlobalTransform env fuel a w = some w1) := by
  intro n
  induction n with
  | zero =>
    have hloop : ∀ (fuel : Nat) (a : Addr) (q : Option Addr) (w : World F),
        (∀ p, q = some p → ancestorAt (parentOf w) 0 p = none) → 2 * 0 ≤ fuel →
        ∃ w1, buildGlobalTransformLoop env fuel a q w = some w1 := by
      intro fuel a q w hq _
      cases q with
      | none => exact ⟨w, buildGlobalTransformLoop_none env fuel a w⟩
      | some p =>
        have := hq p rfl
        simp [ancestorAt] at this
    refine ⟨hloop, ?_⟩
    intro fuel a w ha hf
    obtain ⟨f, rfl⟩ : ∃ f, fuel = f + 1 := ⟨fuel - 1, by omega⟩
    simp only [buildGlobalTransform]
    apply hloop
    · intro p hp
      have hc : CacheOnly w ((buildTransform env a w).modify a
          (fun s => { s with mGlobalTransform := s.mTransformation })) :=
        CacheOnly.cache_trans (buildTransform_cacheOnly env a w)
          (CacheOnly.modify_cache _ a _
            (fun s => ⟨s.mTransformation, s.mTransformation, s.mUpdateTransform, rfl⟩))
      have hP := hc.cache_parentOf_eq
      have hpa : parentOf w a = some p := by
        rw [← hP]; exact hp
      rw [ancestorAt, hpa] at ha
      simp [ancestorAt] at ha
    · omega
  | succ n ih =>
    obtain ⟨ihloop, ihb⟩ := ih
    have hloop : ∀ (fuel : Nat) (a : Addr) (q : Option Addr) (w : World F),
        (∀ p, q = some p → ancestorAt (parentOf w) (n + 1) p = none) → 2 * (n + 1) ≤ fuel →
        ∃ w1, buildGlobalTransformLoop env fuel a q w = some w1 := by
      intro fuel a q w hq hf
      cases q with
      | none => exact ⟨w, buildGlobalTransformLoop_none env fuel a w⟩
      | some p =>
        obtain ⟨f, rfl⟩ : ∃ f, fuel = f + 1 := ⟨fuel - 1, by omega⟩
        have hp := hq p rfl
        obtain ⟨w1, h1⟩ := ihb f p w hp (by omega)
        simp only [buildGlobalTransformLoop, h1]
        have hc1 := buildGlobalTransform_cacheOnly env h1
        have hc : CacheOnly w (w1.modify a (fun s =>
            { s with mGlobalTransform := (w1.sprites p).mGlobalTransform * s.mGlobalTransform })) :=
          CacheOnly.cache_trans hc1
            (CacheOnly.modify_cache _ a _
              (fun s => ⟨s.mTransformation, (w1.sprites p).mGlobalTransform * s.mGlobalTransform,
                s.mUpdateTransform, rfl⟩))
        apply ihloop
        · intro p2 hp2
          rw [hc.cache_parentOf_eq]
          have hpp : parentOf w p = some p2 := by
            rw [← hc.cache_parentOf_eq]; exact hp2
          rw [ancestorAt, hpp] at hp
          exact hp
        · omega
    refine ⟨hloop, ?_⟩
    intro fuel a w ha hf
    obtain ⟨f, rfl⟩ : ∃ f, fuel = f + 1 := ⟨fuel - 1, by omega⟩
    simp only [buildGlobalTransform]
    apply hloop
    · intro p hp
      have hc : CacheOnly w ((buildTransform env a w).modify a
          (fun s => { s with mGlobalTransform := s.mTransformation })) :=
        CacheOnly.cache_trans (buildTransform_cacheOnly env a w)
          (CacheOnly.modify_cache _ a _
            (fun s => ⟨s.mTransformation, s.mTransformation, s.mUpdateTransform, rfl⟩))
      have hpa : parentOf w a = some p := by
        rw [← hc.cache_parentOf_eq]; exact hp
      rw [hc.cache_parentOf_eq]
      rw [ancestorAt, hpa] at ha
      exact ha
    · omega

/-- The function `buildGlobalTransform` returns when the fuel is twice the length of the
chain of parents, plus one. -/
theorem buildGlobalTransform_total (env : MathEnv F) (n fuel : Nat) (a : Addr) (w : World F)
    (ha : ancestorAt (parentOf w) (n + 1) a = none) (hf : 2 * n + 1 ≤ fuel) :
    ∃ w1, buildGlobalTransform env fuel a w = some w1 :=
  (buildGlobalTransform_total_aux env n).2 fuel a w ha hf

/-- The answer of `contains` for a sprite of width and height 0. -/
theorem contains_zero_size (env : MathEnv F) (fuel : Nat) (a : Addr) (point : Vec3 F)
    (w w1 : World F) (hw : (w.sprites a).mWidth = 0) (hh : (w.sprites a).mHeight = 0)
    (hb : buildGlobalTransform env fuel a w = some w1) :
    contains env fuel a point w = some (w1, true) := by
  have hs := (buildGlobalTransform_cacheOnly env hb).size_eq a
  unfold contains
  rw [hb]
  simp only [hs.1, hs.2, hw, hh, sub_self, Matrix.dotProduct_zero, le_refl, decide_True,
    Bool.and_self]

/-- C29: a sprite of width 0 and height 0 contains every point, whatever its position,
scale, rotation and ancestors are: `contains` returns true (the chain of parents ends after
`n` steps and the fuel is `2 * n + 1` or more), and when the sprite is enabled the test of
`getHit` for it yields the sprite itself. -/
theorem zero_size_sprite_contains_every_point (env : MathEnv F) (n fuel : Nat) (a : Addr)
    (point : Vec3 F) (w : World F)
    (hw : (w.sprites a).mWidth = 0) (hh : (w.sprites a).mHeight = 0)
    (ha : ancestorAt (parentOf w) (n + 1) a = none) (hf : 2 * n + 1 ≤ fuel) :
    ∃ w1, contains env fuel a point w = some (w1, true)
      ∧ (isEnabled a w = true → getHitChild env fuel point a w = some (w1, some a)) := by
  obtain ⟨w1, hb⟩ := buildGlobalTransform_total env n fuel a w ha hf
  have hc := contains_zero_size env fuel a point w w1 hw hh hb
  exact ⟨w1, hc, fun hen => getHitChild_enabled_contains env fuel point a w w1 hen hc⟩

end ZeroSize

/-- C29, at the child of `zeroSizeChild`, a sprite of the size that the constructor leaves
(width 0, height 0) under a moved and scaled parent, and the point (1000,-7,3). -/
theorem zero_size_sprite_contains_every_point_witness :
    ∃ w1, contains exampleEnv 3 1 ⟨1000, -7, 3⟩ zeroSizeChild = some (w1, true)
      ∧ (isEnabled 1 zeroSizeChild = true →
          getHitChild exampleEnv 3 ⟨1000, -7, 3⟩ 1 zeroSizeChild = some (w1, some 1)) :=
  zero_size_sprite_contains_every_point exampleEnv 1 3 1 ⟨1000, -7, 3⟩ zeroSizeChild
    (by decide) (by decide) (by decide) (by decide)

/-! ### Detaching on the receiving side (claim C30) -/


section Detach

variable {F : Type} [LinearOrderedCommRing F]

/-- An empty registry holds no entry for `EMPTY_SPRITE_ID`, and `registerSprite` and
`unregisterSprite` add none. -/
theorem registryValid_steps (a : Addr) (w : World F) :
    RegistryValid (World.empty : World F)
    ∧ (RegistryValid w → RegistryValid (registerSprite a w))
    ∧ (RegistryValid w → RegistryValid (unregisterSprite a w)) := by
  refine ⟨fun e he => by simp [World.empty] at he, ?_, ?_⟩
  · intro h
    unfold registerSprite
    split
    · exact h
    · rename_i hid
      intro e he
      simp only [List.mem_cons, List.mem_filter] at he
      rcases he with rfl | ⟨he, _⟩
      · exact hid
      · exact h e he
  · intro h
    unfold unregisterSprite
    split
    · exact h
    · split
      · exact h
      · intro e he
        simp only [List.mem_filter] at he
        exact h e he.1

/-- Nothing is found under `EMPTY_SPRITE_ID`. -/
theorem findSprite_empty_id (w : World F) (h : RegistryValid w) :
    findSprite w EMPTY_SPRITE_ID = none := by
  rw [findSprite_eq]
  have : w.mSprites.find? (fun e => e.1 == EMPTY_SPRITE_ID) = none := by
    rw [List.find?_eq_none]
    intro e he
    simpa using h e he
  rw [this]
  rfl

/-- The records other than PARENT leave the parent and the child list of the receiving
sprite as they are. -/
theorem applied_tree_fields (src d : Sprite F) :
    (applyOpacity src (applyColor src (applyScale src (applyPosition src
        (applyFlags src (applySize src d)))))).mParent = d.mParent
    ∧ (applyOpacity src (applyColor src (applyScale src (applyPosition src
        (applyFlags src (applySize src d)))))).mChildren = d.mChildren := by
  constructor
  · simp only [applyOpacity, applyColor, applyScale, applyPosition, applyFlags, applySize,
      apply_ite Sprite.mParent, ite_self]
  · simp only [applyOpacity, applyColor, applyScale, applyPosition, applyFlags, applySize,
      apply_ite Sprite.mChildren, ite_self]

/-- C30: the PARENT record of a sprite without parent carries `EMPTY_SPRITE_ID`, under which
nothing is found in a registry filled by `registerSprite`; reading the attribute block of such
a sprite returns and leaves the parent of every sprite and every child list of the receiving
process as they were. -/
theorem detach_is_not_applied_on_read (ws wr : World F) (s peer : Addr) (fuel : Nat)
    (rest : DataBuffer F)
    (hreg : RegistryValid wr) (hp : (ws.sprites s).mParent = none) (hf : 9 ≤ fuel) :
    parentIdOf s ws = EMPTY_SPRITE_ID
    ∧ findSprite wr EMPTY_SPRITE_ID = none
    ∧ ((ws.sprites s).mDirty.has PARENT_DIRTY = true →
        (writeAttributesTo s ws []).take 2
          = [Item.char PARENT_ATT, Item.spriteId EMPTY_SPRITE_ID])
    ∧ ∃ wr1,
        readAttributesFrom fuel peer wr
            (writeAttributesTo s ws [] ++ Item.char TERMINATOR_CHAR :: rest) = some (wr1, rest)
        ∧ parentOf wr1 = parentOf wr ∧ childrenOf wr1 = childrenOf wr := by
  have hpid : parentIdOf s ws = EMPTY_SPRITE_ID := by
    unfold parentIdOf; rw [hp]
  have hfind := findSprite_empty_id wr hreg
  refine ⟨hpid, hfind, ?_, ?_⟩
  · intro hd
    have e := block_records_eq s ws ([] : DataBuffer F)
    have e2 : (writeAttributesTo s ws [] ++ [Item.char TERMINATOR_CHAR]).take 2
        = [Item.char PARENT_ATT, Item.spriteId EMPTY_SPRITE_ID] := by
      rw [e, if_pos hd, hpid]
      rfl
    have hlen : 2 ≤ (writeAttributesTo s ws []).length := by
      rw [writeAttributesTo_eq]
      simp only [specAttributeRecords, List.nil_append, if_pos hd, List.length_append,
        List.length_cons, List.length_nil]
      omega
    rw [List.take_append_of_le_length hlen] at e2
    exact e2
  · -- the loop on the whole block
    have hloop : ∃ tc, readAttributesFromLoop fuel peer wr
        (writeAttributesTo s ws [] ++ Item.char TERMINATOR_CHAR :: rest) false
        = some (wr.modify peer (fun d =>
            applyOpacity (ws.sprites s) (applyColor (ws.sprites s) (applyScale (ws.sprites s)
              (applyPosition (ws.sprites s) (applyFlags (ws.sprites s)
                (applySize (ws.sprites s) d)))))), rest, tc) := by
      rw [block_records_eq]
      by_cases hP : (ws.sprites s).mDirty.has PARENT_DIRTY = true
      · rw [if_pos hP, hpid]
        obtain ⟨k, rfl⟩ : ∃ k, fuel = k + 1 := ⟨fuel - 1, by omega⟩
        simp only [List.cons_append, List.nil_append]
        rw [readLoop_parent_unknown k peer wr EMPTY_SPRITE_ID _ false hfind,
          read_size_stage (ws.sprites s) peer k (by omega)]
        exact ⟨_, rfl⟩
      · rw [if_neg hP, List.nil_append, read_size_stage (ws.sprites s) peer fuel (by omega)]
        exact ⟨_, rfl⟩
    obtain ⟨tc, hl⟩ := hloop
    have htree : ∀ (f : Sprite F → Sprite F),
        (∀ d, (f d).mParent = d.mParent ∧ (f d).mChildren = d.mChildren) →
        ∀ w : World F, parentOf (w.modify peer f) = parentOf w
          ∧ childrenOf (w.modify peer f) = childrenOf w := by
      intro f hfd w
      rw [parentOf_modify, childrenOf_modify, (hfd _).1, (hfd _).2]
      exact ⟨Function.update_eq_self peer (parentOf w),
        Function.update_eq_self peer (childrenOf w)⟩
    have h1 := htree _ (fun d => applied_tree_fields (ws.sprites s) d) wr
    unfold readAttributesFrom
    rw [hl]
    cases tc with
    | false => exact ⟨_, rfl, h1.1, h1.2⟩
    | true =>
      have h2 := htree (fun d => { d with mUpdateTransform := true, mBoundsNeedChecking := true })
        (fun d => ⟨rfl, rfl⟩)
        (wr.modify peer (fun d =>
            applyOpacity (ws.sprites s) (applyColor (ws.sprites s) (applyScale (ws.sprites s)
              (applyPosition (ws.sprites s) (applyFlags (ws.sprites s)
                (applySize (ws.sprites s) d)))))))
      exact ⟨_, rfl, h2.1.trans h1.1, h2.2.trans h1.2⟩

end Detach

/-- C30, at the sender `unnamedRoot`, whose root has no parent and a set parent bit, and
the receiver `dirtyPair`, where the sprite at address 1 is a child of the sprite at
address 0 and stays one. -/
theorem detach_is_not_applied_on_read_witness :
    (writeAttributesTo 0 unnamedRoot []).take 2
        = [Item.char PARENT_ATT, Item.spriteId EMPTY_SPRITE_ID]
    ∧ ∃ wr1,
        readAttributesFrom 9 1 dirtyPair
            (writeAttributesTo 0 unnamedRoot [] ++ [Item.char TERMINATOR_CHAR]) = some (wr1, [])
        ∧ parentOf wr1 1 = some 0 ∧ childrenOf wr1 0 = [1] := by
  have h := detach_is_not_applied_on_read unnamedRoot dirtyPair 0 1 9 []
    (by intro e he; simp [dirtyPair] at he; rcases he with rfl | rfl <;> decide)
    (by decide) (by decide)
  obtain ⟨wr1, hr, hP, hC⟩ := h.2.2.2
  exact ⟨h.2.2.1 (by decide), wr1, hr, by rw [hP]; rfl, by rw [hC]; rfl⟩

/-! ### Bounds checking (claims C27 and C28) -/




section Bounds

variable {F : Type} [LinearOrderedCommRing F]

/-- One round of the loop takes the least and the greatest coordinates. -/
theorem boundsStep_eq (b : Bounds F) (p : Vec3 F) :
    boundsStep b p
      = ⟨min b.minX p.x, min b.minY p.y, max b.maxX p.x, max b.maxY p.y⟩ := by
  unfold boundsStep
  by_cases h1 : p.x < b.minX <;> by_cases h2 : p.y < b.minY <;>
    by_cases h3 : p.x > b.maxX <;> by_cases h4 : p.y > b.maxY <;>
    simp [h1, h2, h3, h4, min_def, max_def, not_le.mpr, not_lt.mp, le_of_lt]

/-- The loop of `checkBounds` computes the bounding box of the four positions. -/
theorem spriteBounds_eq_spec (p0 p1 p2 p3 : Vec3 F) :
    spriteBounds [p0, p1, p2, p3] = specBoundingBox p0 p1 p2 p3 := by
  simp only [spriteBounds, List.foldl, boundsStep_eq, specBoundingBox]

/-- The function `checkBounds` with the three last tests, which all give the same result,
taken together. -/
theorem checkBounds_eq (env : MathEnv F)
    (intersect2D : Vec3 F → Vec3 F → Vec3 F → Vec3 F → Bool)
    (screenRect : Rectf F) (fuel : Nat) (a : Addr) (w : World F) :
    checkBounds env intersect2D screenRect fuel a w
      = if (w.sprites a).mCheckBounds = false then some (w, true)
        else
          match buildGlobalTransform env fuel a
              (w.modify a (fun s =>
                { s with mBoundsNeedChecking := false, mInBounds := false })) with
          | none => none
          | some w2 =>
            if (spriteBounds (boundsPositions (w2.sprites a))).minX
                  = (spriteBounds (boundsPositions (w2.sprites a))).maxX
                ∨ (spriteBounds (boundsPositions (w2.sprites a))).minY
                  = (spriteBounds (boundsPositions (w2.sprites a))).maxY
            then some (w2, false)
            else if (spriteBounds (boundsPositions (w2.sprites a))).minX > screenRect.x2
              then some (w2, false)
            else if (spriteBounds (boundsPositions (w2.sprites a))).maxX < screenRect.x1
              then some (w2, false)
            else if (spriteBounds (boundsPositions (w2.sprites a))).minY > screenRect.y2
              then some (w2, false)
            else if (spriteBounds (boundsPositions (w2.sprites a))).maxY < screenRect.y1
              then some (w2, false)
            else some (w2.modify a (fun s => { s with mInBounds := true }), true) := by
  unfold checkBounds
  simp only [ite_self]

/-- The box that `checkBounds` tests, in the words of the claim: the bounding box of the
transformed corners (0,0), (w-1,0), (0,h-1), (w-1,h-1) of a sprite. -/
theorem spriteBounds_positions (s : Sprite F) :
    spriteBounds (boundsPositions s)
      = specBoundingBox (transformPoint s.mGlobalTransform 0 0)
          (transformPoint s.mGlobalTransform (s.mWidth - 1) 0)
          (transformPoint s.mGlobalTransform 0 (s.mHeight - 1))
          (transformPoint s.mGlobalTransform (s.mWidth - 1) (s.mHeight - 1)) :=
  spriteBounds_eq_spec _ _ _ _

/-- The function `checkBounds` returns for a sprite whose chain of parents ends after `n`
steps: the state after `buildGlobalTransform` with the flag `mInBounds` set to the result. -/
theorem checkBounds_total (env : MathEnv F)
    (intersect2D : Vec3 F → Vec3 F → Vec3 F → Vec3 F → Bool)
    (screenRect : Rectf F) (n fuel : Nat) (a : Addr) (w : World F)
    (hcb : (w.sprites a).mCheckBounds = true)
    (ha : ancestorAt (parentOf w) (n + 1) a = none) (hf : 2 * n + 1 ≤ fuel) :
    ∃ w2, buildGlobalTransform env fuel a
        (w.modify a (fun s => { s with mBoundsNeedChecking := false, mInBounds := false }))
        = some w2
      ∧ (w2.sprites a).mInBounds = false
      ∧ ∃ r, checkBounds env intersect2D screenRect fuel a w
          = some (w2.modify a (fun s => { s with mInBounds := r }), r)
        ∧ (r = false ↔
            ((spriteBounds (boundsPositions (w2.sprites a))).minX
                = (spriteBounds (boundsPositions (w2.sprites a))).maxX
              ∨ (spriteBounds (boundsPositions (w2.sprites a))).minY
                = (spriteBounds (boundsPositions (w2.sprites a))).maxY)
            ∨ (spriteBounds (boundsPositions (w2.sprites a))).minX > screenRect.x2
            ∨ (spriteBounds (boundsPositions (w2.sprites a))).maxX < screenRect.x1
            ∨ (spriteBounds (boundsPositions (w2.sprites a))).minY > screenRect.y2
            ∨ (spriteBounds (boundsPositions (w2.sprites a))).maxY < screenRect.y1) := by
  have hP : parentOf (w.modify a (fun s =>
      { s with mBoundsNeedChecking := false, mInBounds := false })) = parentOf w := by
    rw [parentOf_modify]
    exact Function.update_eq_self a (parentOf w)
  obtain ⟨w2, hb⟩ := buildGlobalTransform_total env n fuel a
    (w.modify a (fun s => { s with mBoundsNeedChecking := false, mInBounds := false }))
    (by rw [hP]; exact ha) hf
  have hin : (w2.sprites a).mInBounds = false := by
    obtain ⟨t, g, u, e⟩ := (buildGlobalTransform_cacheOnly env hb).2 a
    rw [e]
    simp
  have hself : w2.modify a (fun s => { s with mInBounds := false }) = w2 := by
    apply modify_id
    rw [← hin]
  refine ⟨w2, hb, hin, ?_⟩
  have hcb2 : ¬ (w.sprites a).mCheckBounds = false := by rw [hcb]; simp
  rw [checkBounds_eq, if_neg hcb2, hb]
  simp only
  by_cases h0 : (spriteBounds (boundsPositions (w2.sprites a))).minX
        = (spriteBounds (boundsPositions (w2.sprites a))).maxX
      ∨ (spriteBounds (boundsPositions (w2.sprites a))).minY
        = (spriteBounds (boundsPositions (w2.sprites a))).maxY
  · rw [if_pos h0]
    exact ⟨false, by rw [hself], by simp [h0]⟩
  · rw [if_neg h0]
    by_cases h1 : (spriteBounds (boundsPositions (w2.sprites a))).minX > screenRect.x2
    · rw [if_pos h1]
      exact ⟨false, by rw [hself], by simp [h1]⟩
    · rw [if_neg h1]
      by_cases h2 : (spriteBounds (boundsPositions (w2.sprites a))).maxX < screenRect.x1
      · rw [if_pos h2]
        exact ⟨false, by rw [hself], by simp [h2]⟩
      · rw [if_neg h2]
        by_cases h3 : (spriteBounds (boundsPositions (w2.sprites a))).minY > screenRect.y2
        · rw [if_pos h3]
          exact ⟨false, by rw [hself], by simp [h3]⟩
        · rw [if_neg h3]
          by_cases h4 : (spriteBounds (boundsPositions (w2.sprites a))).maxY < screenRect.y1
          · rw [if_pos h4]
            exact ⟨false, by rw [hself], by simp [h4]⟩
          · rw [if_neg h4]
            refine ⟨true, rfl, ?_⟩
            simp only [Bool.true_eq_false, false_iff]
            intro h
            rcases h with h | h | h | h | h
            · exact h0 h
            · exact h1 h
            · exact h2 h
            · exact h3 h
            · exact h4 h

/-- The box of the claim is the one that the code computes, also after the flag `mInBounds`
has been written. -/
theorem transformedBox_eq (w2 : World F) (a : Addr) (r : Bool) :
    transformedBox ((w2.modify a (fun s => { s with mInBounds := r })).sprites a)
      = spriteBounds (boundsPositions (w2.sprites a)) := by
  rw [spriteBounds_positions]
  simp [transformedBox]

/-- C27: for a sprite with bounds checking on, `checkBounds` returns; the flag `mInBounds`
is the value returned; the result does not depend on `intersect2D`; and when the transformed
bounding box has non-zero width and height, the value is true exactly when the box overlaps
the screen rectangle, comparisons inclusive. -/
theorem checkBounds_is_box_overlap (env : MathEnv F)
    (intersect2D : Vec3 F → Vec3 F → Vec3 F → Vec3 F → Bool)
    (screenRect : Rectf F) (n fuel : Nat) (a : Addr) (w : World F)
    (hcb : (w.sprites a).mCheckBounds = true)
    (ha : ancestorAt (parentOf w) (n + 1) a = none) (hf : 2 * n + 1 ≤ fuel) :
    ∃ w1 r, checkBounds env intersect2D screenRect fuel a w = some (w1, r)
      ∧ (w1.sprites a).mInBounds = r
      ∧ (∀ other : Vec3 F → Vec3 F → Vec3 F → Vec3 F → Bool,
          checkBounds env other screenRect fuel a w = some (w1, r))
      ∧ ((transformedBox (w1.sprites a)).minX ≠ (transformedBox (w1.sprites a)).maxX →
          (transformedBox (w1.sprites a)).minY ≠ (transformedBox (w1.sprites a)).maxY →
          (r = true ↔ specOverlaps (transformedBox (w1.sprites a)) screenRect)) := by
  obtain ⟨w2, hb, hin, r, hr, hiff⟩ :=
    checkBounds_total env intersect2D screenRect n fuel a w hcb ha hf
  refine ⟨_, r, hr, by simp, ?_, ?_⟩
  · intro other
    rw [checkBounds_eq env other, ← checkBounds_eq env intersect2D]
    exact hr
  · rw [transformedBox_eq]
    intro hx hy
    unfold specOverlaps
    constructor
    · intro ht
      have hnf : ¬ r = false := by rw [ht]; simp
      rw [hiff] at hnf
      simp only [not_or, not_lt, gt_iff_lt] at hnf
      exact ⟨hnf.2.1, hnf.2.2.1, hnf.2.2.2.1, hnf.2.2.2.2⟩
    · intro ho
      cases hrr : r with
      | true => rfl
      | false =>
        exfalso
        rcases hiff.mp hrr with h | h | h | h | h
        · rcases h with h | h
          · exact hx h
          · exact hy h
        · exact absurd ho.1 (not_le.mpr h)
        · exact absurd ho.2.1 (not_le.mpr h)
        · exact absurd ho.2.2.1 (not_le.mpr h)
        · exact absurd ho.2.2.2 (not_le.mpr h)

/-- C28, amended: for a sprite with bounds checking on whose transformed bounding box has
zero width or zero height, `checkBounds` returns false and leaves `mInBounds` false, whether
or not the box overlaps the screen rectangle. -/
theorem checkBounds_degenerate_is_out_of_bounds (env : MathEnv F)
    (intersect2D : Vec3 F → Vec3 F → Vec3 F → Vec3 F → Bool)
    (screenRect : Rectf F) (n fuel : Nat) (a : Addr) (w : World F)
    (hcb : (w.sprites a).mCheckBounds = true)
    (ha : ancestorAt (parentOf w) (n + 1) a = none) (hf : 2 * n + 1 ≤ fuel) :
    ∃ w1 r, checkBounds env intersect2D screenRect fuel a w = some (w1, r)
      ∧ (w1.sprites a).mInBounds = r
      ∧ ((transformedBox (w1.sprites a)).minX = (transformedBox (w1.sprites a)).maxX
          ∨ (transformedBox (w1.sprites a)).minY = (transformedBox (w1.sprites a)).maxY →
          r = false) := by
  obtain ⟨w2, hb, hin, r, hr, hiff⟩ :=
    checkBounds_total env intersect2D screenRect n fuel a w hcb ha hf
  refine ⟨_, r, hr, by simp, ?_⟩
  rw [transformedBox_eq]
  intro hdeg
  exact hiff.mpr (Or.inl hdeg)

end Bounds

/-- C28, counterexample: the sprite of `thinBox` has a transformed box of width 0 that lies
inside the screen rectangle, so it passes the rejection tests; `checkBounds` returns false
and `inBounds` reports it out of bounds. -/
theorem checkBounds_degenerate_inside_screen_is_rejected :
    (checkBounds exampleEnv (fun _ _ _ _ => true) exampleScreen 1 0 thinBox).map
        (fun x => (x.2, (transformedBox (x.1.sprites 0)).minX,
          (transformedBox (x.1.sprites 0)).maxX,
          decide (specOverlaps (transformedBox (x.1.sprites 0)) exampleScreen)))
      = some (false, 10, 10, true)
    ∧ (inBounds exampleEnv (fun _ _ _ _ => true) exampleScreen 1 0 thinBox).map Prod.snd
      = some false := by
  decide!

/-- C27, at the sprite of size (100,50) at the origin on the screen of 1920 by 1080: it is
in bounds. -/
theorem checkBounds_is_box_overlap_witness :
    (checkBounds exampleEnv (fun _ _ _ _ => false) exampleScreen 1 0 boundedBox).map Prod.snd
      = some true := by
  obtain ⟨w1, r, hr, hin, _, hiff⟩ :=
    checkBounds_is_box_overlap exampleEnv (fun _ _ _ _ => false) exampleScreen 0 1 0 boundedBox
      (by decide) (by decide) (by decide)
  have hbox : (checkBounds exampleEnv (fun _ _ _ _ => false) exampleScreen 1 0 boundedBox).map
      (fun x => ((transformedBox (x.1.sprites 0)).minX, (transformedBox (x.1.sprites 0)).maxX,
        (transformedBox (x.1.sprites 0)).minY, (transformedBox (x.1.sprites 0)).maxY))
      = some (0, 99, 0, 49) := by decide!
  rw [hr] at hbox ⊢
  simp only [Option.map_some', Option.some.injEq, Prod.mk.injEq] at hbox ⊢
  obtain ⟨h1, h2, h3, h4⟩ := hbox
  refine (hiff (by rw [h1, h2]; decide) (by rw [h3, h4]; decide)).mpr ?_
  unfold specOverlaps
  rw [h1, h2, h3, h4]
  decide

/-- C28, amended, at the sprite of `thinBox`. -/
theorem checkBounds_degenerate_is_out_of_bounds_witness :
    (checkBounds exampleEnv (fun _ _ _ _ => true) exampleScreen 1 0 thinBox).map Prod.snd
      = some false := by
  obtain ⟨w1, r, hr, hin, hdeg⟩ :=
    checkBounds_degenerate_is_out_of_bounds exampleEnv (fun _ _ _ _ => true) exampleScreen
      0 1 0 thinBox (by decide) (by decide) (by decide)
  have hbox : (checkBounds exampleEnv (fun _ _ _ _ => true) exampleScreen 1 0 thinBox).map
      (fun x => ((transformedBox (x.1.sprites 0)).minX, (transformedBox (x.1.sprites 0)).maxX))
      = some (10, 10) := by decide!
  rw [hr] at hbox ⊢
  simp only [Option.map_some', Option.some.injEq, Prod.mk.injEq] at hbox ⊢
  exact hdeg (Or.inl (by rw [hbox.1, hbox.2]))

/-! ### Descendants in an acyclic tree -/

section Descendants

/-- Chains of parents compose. -/
theorem ancestorAt_add (P : Addr → Option Addr) :
    ∀ (i : Nat) (x y : Addr), ancestorAt P i x = some y →
      ∀ j, ancestorAt P (i + j) x = ancestorAt P j y := by
  intro i
  induction i with
  | zero =>
    intro x y hxy j
    simp only [ancestorAt, Option.some.injEq] at hxy
    subst hxy
    simp
  | succ i ih =>
    intro x y hxy j
    rw [ancestorAt] at hxy
    have e : i + 1 + j = (i + j) + 1 := by omega
    rw [e, ancestorAt]
    cases hq : P x with
    | none => rw [hq] at hxy; simp at hxy
    | some q =>
      rw [hq] at hxy
      exact ih q y hxy j

/-- The chain of `x` after one more step. -/
theorem ancestorAt_succ_of (P : Addr → Option Addr) (i : Nat) (x y : Addr)
    (h : ancestorAt P i x = some y) : ancestorAt P (i + 1) x = P y := by
  rw [ancestorAt_add P i x y h 1]
  simp only [ancestorAt]
  cases P y <;> rfl

/-- A child is a descendant of its parent. -/
theorem isDescendant_child (P : Addr → Option Addr) {c a : Addr} (h : P c = some a) :
    IsDescendant P c a :=
  ⟨0, by simp [ancestorAt, h]⟩

theorem isDescendant_trans (P : Addr → Option Addr) {x y z : Addr}
    (h1 : IsDescendant P x y) (h2 : IsDescendant P y z) : IsDescendant P x z := by
  obtain ⟨i, hi⟩ := h1
  obtain ⟨j, hj⟩ := h2
  refine ⟨i + 1 + j, ?_⟩
  have := ancestorAt_add P (i + 1) x y hi (j + 1)
  rw [← hj, ← this]
  congr 1

/-- A descendant of `a` is a child of `a` or a descendant of a child of `a`. -/
theorem isDescendant_cases (P : Addr → Option Addr) {x a : Addr} (h : IsDescendant P x a) :
    ∃ c, P c = some a ∧ (x = c ∨ IsDescendant P x c) := by
  obtain ⟨j, hj⟩ := h
  induction j generalizing x with
  | zero =>
    refine ⟨x, ?_, Or.inl rfl⟩
    rw [ancestorAt] at hj
    cases hq : P x with
    | none => rw [hq] at hj; simp at hj
    | some q =>
      rw [hq] at hj
      simp only [ancestorAt] at hj
      rw [hj]
  | succ j ih =>
    rw [ancestorAt] at hj
    cases hq : P x with
    | none => rw [hq] at hj; simp at hj
    | some q =>
      rw [hq] at hj
      obtain ⟨c, hc, hqc⟩ := ih hj
      refine ⟨c, hc, Or.inr ?_⟩
      rcases hqc with rfl | hqc
      · exact isDescendant_child P hq
      · exact isDescendant_trans P (isDescendant_child P hq) hqc

/-- Without a sprite that is its own ancestor, a sprite is met at one place of a chain
only. -/
theorem ancestorAt_unique (P : Addr → Option Addr) (hac : ∀ x, ¬ OwnAncestor P x)
    {i j : Nat} {x a : Addr} (hi : ancestorAt P i x = some a) (hj : ancestorAt P j x = some a) :
    i = j := by
  by_contra hne
  rcases Nat.lt_or_gt_of_ne hne with h | h
  · obtain ⟨d, rfl⟩ : ∃ d, j = i + (d + 1) := ⟨j - i - 1, by omega⟩
    rw [ancestorAt_add P i x a hi] at hj
    exact hac a ⟨d, hj⟩
  · obtain ⟨d, rfl⟩ : ∃ d, i = j + (d + 1) := ⟨i - j - 1, by omega⟩
    rw [ancestorAt_add P j x a hj] at hi
    exact hac a ⟨d, hi⟩

/-- No sprite is its own descendant. -/
theorem not_isDescendant_self (P : Addr → Option Addr) (hac : ∀ x, ¬ OwnAncestor P x)
    (a : Addr) : ¬ IsDescendant P a a :=
  fun h => hac a h

/-- A parent is not a descendant of its child, and is not its child. -/
theorem parent_not_below_child (P : Addr → Option Addr) (hac : ∀ x, ¬ OwnAncestor P x)
    {c a : Addr} (h : P c = some a) : a ≠ c ∧ ¬ IsDescendant P a c := by
  constructor
  · intro e
    subst e
    exact hac a (isDescendant_child P h)
  · intro hd
    exact hac a (isDescendant_trans P hd (isDescendant_child P h))

/-- Two children of one sprite with a common sprite in or below them are the same. -/
theorem siblings_disjoint (P : Addr → Option Addr) (hac : ∀ x, ¬ OwnAncestor P x)
    {c c2 a x : Addr} (hc : P c = some a) (hc2 : P c2 = some a)
    (hx : x = c ∨ IsDescendant P x c) (hx2 : x = c2 ∨ IsDescendant P x c2) : c = c2 := by
  -- the places of `c` and `c2` on the chain of `x`
  have h1 : ∃ i, ancestorAt P i x = some c := by
    rcases hx with rfl | ⟨j, hj⟩
    · exact ⟨0, rfl⟩
    · exact ⟨j + 1, hj⟩
  have h2 : ∃ i, ancestorAt P i x = some c2 := by
    rcases hx2 with rfl | ⟨j, hj⟩
    · exact ⟨0, rfl⟩
    · exact ⟨j + 1, hj⟩
  obtain ⟨i, hi⟩ := h1
  obtain ⟨j, hj⟩ := h2
  have hia : ancestorAt P (i + 1) x = some a := by
    rw [ancestorAt_succ_of P i x c hi, hc]
  have hja : ancestorAt P (j + 1) x = some a := by
    rw [ancestorAt_succ_of P j x c2 hj, hc2]
  have e := ancestorAt_unique P hac hia hja
  have e2 : i = j := by omega
  subst e2
  rw [hi] at hj
  exact Option.some.inj hj

end Descendants

/-! ### Steps of the destruction of a sprite -/

section DestroySteps

variable {F : Type} [LinearOrderedCommRing F]

/-- The function `removeParent` on a sprite whose parent no longer lists it: the parent
pointer is cleared and the parent bit set. -/
theorem removeParent_stale_eq (f : Nat) (c q : Addr) (w : World F)
    (hp : (w.sprites c).mParent = some q) (hc : c ∉ (w.sprites q).mChildren) :
    removeParent (f + 2) c w
      = some (w.modify c (fun s =>
          { s with mParent := none, mDirty := s.mDirty.or PARENT_DIRTY })) := by
  have hcc : containsChild q c w = false := by
    unfold containsChild
    simpa using hc
  simp only [removeParent, hp, removeChild, hcc, if_true, markAsDirty, modify_sprites_same,
    markAsDirtyLoop_none, modify_modify]

/-- The function `removeParent` on a sprite without parent. -/
theorem removeParent_none_eq (f : Nat) (c : Addr) (w : World F)
    (hp : (w.sprites c).mParent = none) : removeParent (f + 1) c w = some w := by
  simp only [removeParent, hp]

/-- The heap after `unregisterSprite`. -/
theorem unregisterSprite_sprites (c : Addr) (w : World F) :
    (unregisterSprite c w).sprites = w.sprites := by
  unfold unregisterSprite
  split
  · rfl
  · split
    · rfl
    · rfl

/-- The call `setSpriteId(0)` on a sprite without parent: the sprite is unregistered, its
identifier is 0 and the identifier bit is set; nothing happens when the identifier is 0
already. -/
theorem setSpriteId_zero_eq (fuel : Nat) (c : Addr) (w : World F)
    (hp : (w.sprites c).mParent = none) :
    setSpriteId fuel c 0 w
      = some (if (w.sprites c).mId = 0 then w
          else (unregisterSprite c w).modify c (fun s =>
            { s with mId := 0, mDirty := s.mDirty.or ID_DIRTY })) := by
  unfold setSpriteId
  by_cases h : (w.sprites c).mId = 0
  · rw [if_pos h, if_pos h]
  · rw [if_neg h, if_neg h]
    have h1 : (w.sprites c).mId ≠ EMPTY_SPRITE_ID := h
    have hq : ((unregisterSprite c w).sprites c).mParent = none := by
      rw [unregisterSprite_sprites]; exact hp
    simp only [if_pos h1, modify_sprites_same, EMPTY_SPRITE_ID, ne_eq, not_true_eq_false,
      if_false, markAsDirty, modify_modify, h, not_false_eq_true, if_true, hq,
      markAsDirtyLoop_none]

/-- The registry after `unregisterSprite` is a part of the one before. -/
theorem unregisterSprite_sublist (c : Addr) (w : World F) :
    List.Sublist (unregisterSprite c w).mSprites w.mSprites := by
  unfold unregisterSprite
  split
  · exact List.Sublist.refl _
  · split
    · exact List.Sublist.refl _
    · exact List.filter_sublist _

/-- What is not found in a registry is not found in a part of it. -/
theorem findSprite_none_of_sublist (w w1 : World F)
    (h : List.Sublist w1.mSprites w.mSprites) (id : sprite_id_t)
    (hn : findSprite w id = none) : findSprite w1 id = none := by
  rw [findSprite_eq] at hn ⊢
  simp only [Option.map_eq_none', List.find?_eq_none] at hn ⊢
  intro e he
  exact hn e (h.subset he)

/-- A part of a registry without entry for `EMPTY_SPRITE_ID` has none. -/
theorem registryValid_of_sublist (w w1 : World F)
    (h : List.Sublist w1.mSprites w.mSprites) (hv : RegistryValid w) : RegistryValid w1 :=
  fun e he => hv e (h.subset he)

end DestroySteps

/-! ### The function clearChildren destroys the descendants -/


section Destroy

variable {F : Type} [LinearOrderedCommRing F]

/-- Nothing is destroyed when nothing happens. -/
theorem Destroys.nothing (id0 : Addr → sprite_id_t) (S : Addr → Prop) (hS : ∀ x, ¬ S x)
    (e : Process F) : Destroys id0 S e e :=
  ⟨fun _ _ => rfl, fun x => ⟨fun h => Or.inl h, fun h => h.resolve_right (hS x)⟩,
    fun x hx => absurd hx (hS x), List.Sublist.refl _, rfl⟩

/-- One destruction after another. -/
theorem Destroys.andThen {id0 : Addr → sprite_id_t} {S1 S2 : Addr → Prop} {e e1 e2 : Process F}
    (h1 : Destroys id0 S1 e e1) (h2 : Destroys id0 S2 e1 e2) :
    Destroys id0 (fun x => S1 x ∨ S2 x) e e2 := by
  obtain ⟨f1, d1, s1, r1, p1⟩ := h1
  obtain ⟨f2, d2, s2, r2, p2⟩ := h2
  refine ⟨?_, ?_, ?_, r2.trans r1, p2.trans p1⟩
  · intro y hy
    rw [f2 y (fun h => hy (Or.inr h)), f1 y (fun h => hy (Or.inl h))]
  · intro x
    rw [d2, d1]
    tauto
  · intro x hx
    by_cases hx2 : S2 x
    · exact s2 x hx2
    · have hx1 : S1 x := hx.resolve_right hx2
      obtain ⟨a1, a2, a3⟩ := s1 x hx1
      rw [f2 x hx2]
      exact ⟨a1, a2, findSprite_none_of_sublist e1.world e2.world r2 _ a3⟩

/-- The same destruction, with the set described in another way. -/
theorem Destroys.congr {id0 : Addr → sprite_id_t} {S T : Addr → Prop} {e e1 : Process F}
    (h : Destroys id0 S e e1) (hST : ∀ x, S x ↔ T x) : Destroys id0 T e e1 := by
  obtain ⟨f1, d1, s1, r1, p1⟩ := h
  refine ⟨fun y hy => f1 y (fun h => hy ((hST y).mp h)), ?_,
    fun x hx => s1 x ((hST x).mpr hx), r1, p1⟩
  intro x
  rw [d1, hST]

/-- The function `clearChildren` on a sprite without children. -/
theorem clearChildren_nil (f : Nat) (a : Addr) (e : Process F)
    (h : (e.world.sprites a).mChildren = []) : clearChildren (f + 1) a e = some e := by
  have hw : e.world.modify a (fun s => { s with mChildren := [] }) = e.world := by
    apply modify_id
    rw [← h]
  simp only [clearChildren, h, forEachSprite, hw]

/-- The loop of `clearChildren` runs `clearChild` for each child. -/
theorem clearChildren_eq (f : Nat) (a : Addr) (e : Process F) :
    clearChildren (f + 1) a e
      = forEachSprite (clearChild f) (e.world.sprites a).mChildren (clearList a e) := by
  simp only [clearChildren]
  rfl

/-- The expression `delete c` on a sprite without children and without parent: the sprite
is unregistered and deleted. -/
theorem deleteSprite_leaf (f : Nat) (c : Addr) (e : Process F)
    (hch : (e.world.sprites c).mChildren = []) (hp : (e.world.sprites c).mParent = none) :
    deleteSprite (fun x e4 => clearChildren (f + 1) x e4) (f + 1) c e
      = some { e with
          world := if (e.world.sprites c).mId = 0 then e.world
            else (unregisterSprite c e.world).modify c (fun s =>
              { s with mId := 0, mDirty := s.mDirty.or ID_DIRTY }),
          deleted := c :: e.deleted } := by
  simp only [deleteSprite, destructor, remove, clearChildren_nil f c e hch, Process.onWorld,
    removeParent_none_eq f c e.world hp, setSpriteId_zero_eq (f + 1) c e.world hp]

/-- The state after `delete c` on a sprite without children and parent. -/
theorem deleteSprite_leaf_destroys (id0 : Addr → sprite_id_t) (c : Addr) (e : Process F)
    (hch : (e.world.sprites c).mChildren = []) (hp : (e.world.sprites c).mParent = none)
    (hid : (e.world.sprites c).mId = id0 c) (hreg : RegistryValid e.world) :
    Destroys id0 (fun x => x = c) e
      { e with
          world := if (e.world.sprites c).mId = 0 then e.world
            else (unregisterSprite c e.world).modify c (fun s =>
              { s with mId := 0, mDirty := s.mDirty.or ID_DIRTY }),
          deleted := c :: e.deleted } := by
  by_cases h0 : (e.world.sprites c).mId = 0
  · simp only [if_pos h0]
    refine ⟨fun _ _ => rfl, fun x => by simp [eq_comm, or_comm], ?_, List.Sublist.refl _, rfl⟩
    intro x hx
    subst hx
    refine ⟨hch, hp, ?_⟩
    rw [← hid, h0]
    exact findSprite_empty_id e.world hreg
  · simp only [if_neg h0]
    refine ⟨?_, fun x => by simp [eq_comm, or_comm], ?_, ?_, rfl⟩
    · intro y hy
      simp only [modify_sprites_ne _ _ hy, unregisterSprite_sprites]
    · intro x hx
      subst hx
      simp only [modify_sprites_same, unregisterSprite_sprites]
      refine ⟨hch, hp, ?_⟩
      rw [findSprite_eq]
      simp only [modify_mSprites]
      rw [← hid]
      unfold unregisterSprite
      have hne : ¬ (e.world.sprites x).mId = EMPTY_SPRITE_ID := h0
      by_cases hem : e.world.mSprites.isEmpty = true
      · rw [if_pos hem]
        rw [List.isEmpty_iff.mp hem]
        rfl
      · rw [if_neg hem, if_neg hne]
        simp only [find_filter_self, Option.map_none']
    · simp only [modify_mSprites]
      exact unregisterSprite_sublist c e.world

/-- The body of the loop of `clearChildren` for a child `c` that is as in `w0`: the child
and its descendants are destroyed. -/
theorem clearChild_spec (w0 : World F) (hac : ∀ x, ¬ OwnAncestor (parentOf w0) x)
    (k f : Nat) (hspec : ClearSpec w0 k (f + 2)) (c a : Addr) (e : Process F)
    (hpc : parentOf w0 c = some a)
    (hk : ∀ x j, ancestorAt (parentOf w0) j x = some c → j ≤ k)
    (hlist : c ∉ (e.world.sprites a).mChildren)
    (hc : e.world.sprites c = w0.sprites c)
    (hdesc : ∀ x, IsDescendant (parentOf w0) x c → e.world.sprites x = w0.sprites x)
    (hreg : RegistryValid e.world) :
    ∃ e1, clearChild (f + 2) c e = some e1
      ∧ Destroys (fun x => (w0.sprites x).mId)
          (fun x => x = c ∨ IsDescendant (parentOf w0) x c) e e1 := by
  have hpar : (e.world.sprites c).mParent = some a := by rw [hc]; exact hpc
  have h1 := removeParent_stale_eq f c a e.world hpar hlist
  have hself : ¬ IsDescendant (parentOf w0) c c := not_isDescendant_self _ hac c
  -- the descendants of `c`
  obtain ⟨e3, h3, hD⟩ := hspec c
    { e with world := e.world.modify c (fun s =>
        { s with mParent := none, mDirty := s.mDirty.or PARENT_DIRTY }) }
    hk
    (by
      intro x hx
      have hxc : x ≠ c := fun h => hself (h ▸ hx)
      simp only [modify_sprites_ne _ _ hxc]
      exact hdesc x hx)
    (by
      simp only [modify_sprites_same]
      rw [hc]
      rfl)
    hreg
  obtain ⟨fr, dl, st, rg, pd⟩ := hD
  -- the sprite `c` after its descendants are destroyed
  have hc3 : e3.world.sprites c
      = { w0.sprites c with mParent := none, mDirty := (w0.sprites c).mDirty.or PARENT_DIRTY,
                            mChildren := [] } := by
    rw [fr c hself]
    simp only [clearList, modify_sprites_same]
    rw [hc]
  have hch3 : (e3.world.sprites c).mChildren = [] := by rw [hc3]
  have hp3 : (e3.world.sprites c).mParent = none := by rw [hc3]
  have hid3 : (e3.world.sprites c).mId = (w0.sprites c).mId := by rw [hc3]
  have hreg3 : RegistryValid e3.world := registryValid_of_sublist _ _ rg hreg
  have hleaf := deleteSprite_leaf (f + 1) c e3 hch3 hp3
  have hL := deleteSprite_leaf_destroys (fun x => (w0.sprites x).mId) c e3 hch3 hp3 hid3 hreg3
  have hrun : clearChild (f + 2) c e
      = some { e3 with
          world := if (e3.world.sprites c).mId = 0 then e3.world
            else (unregisterSprite c e3.world).modify c (fun s =>
              { s with mId := 0, mDirty := s.mDirty.or ID_DIRTY }),
          deleted := c :: e3.deleted } := by
    simp only [clearChild, Process.onWorld, h1, h3]
    exact hleaf
  refine ⟨_, hrun, ?_⟩
  · -- from `e` to `e3` the descendants are destroyed and `c` is changed
    have hD0 : Destroys (fun x => (w0.sprites x).mId)
        (fun x => IsDescendant (parentOf w0) x c)
        (clearList c { e with world := e.world.modify c (fun s =>
          { s with mParent := none, mDirty := s.mDirty.or PARENT_DIRTY }) }) e3 :=
      ⟨fr, dl, st, rg, pd⟩
    have hall := Destroys.andThen hD0 hL
    obtain ⟨fr2, dl2, st2, rg2, pd2⟩ := hall
    refine ⟨?_, ?_, ?_, ?_, ?_⟩
    · intro y hy
      have hyc : y ≠ c := fun h => hy (Or.inl h)
      rw [fr2 y (fun h => hy (h.symm))]
      simp only [clearList, modify_sprites_ne _ _ hyc]
    · intro x
      rw [dl2]
      simp only [clearList]
      tauto
    · intro x hx
      exact st2 x hx.symm
    · exact rg2
    · exact pd2

/-- The loop of `clearChildren` over children that are as in `w0`: the children and their
descendants are destroyed. -/
theorem clearLoop_spec (w0 : World F) (hac : ∀ x, ¬ OwnAncestor (parentOf w0) x)
    (k f : Nat) (hspec : ClearSpec w0 k (f + 2)) (a : Addr) :
    ∀ (cs : List Addr) (e : Process F), cs.Nodup →
    (∀ c ∈ cs, parentOf w0 c = some a
      ∧ ∀ x j, ancestorAt (parentOf w0) j x = some c → j ≤ k) →
    (e.world.sprites a).mChildren = [] →
    (∀ c ∈ cs, ∀ x, (x = c ∨ IsDescendant (parentOf w0) x c) →
      e.world.sprites x = w0.sprites x) →
    RegistryValid e.world →
    ∃ e1, forEachSprite (clearChild (f + 2)) cs e = some e1
      ∧ Destroys (fun x => (w0.sprites x).mId)
          (fun x => ∃ c ∈ cs, x = c ∨ IsDescendant (parentOf w0) x c) e e1
  | [], e, _, _, _, _, _ =>
    ⟨e, rfl, Destroys.nothing _ _ (fun x hx => by simp at hx) e⟩
  | c :: cs, e, hnd, hcs, hlist, hun, hreg => by
    have hc := hcs c (List.mem_cons_self _ _)
    obtain ⟨e1, h1, D1⟩ := clearChild_spec w0 hac k f hspec c a e hc.1 hc.2
      (by rw [hlist]; simp)
      (hun c (List.mem_cons_self _ _) c (Or.inl rfl))
      (fun x hx => hun c (List.mem_cons_self _ _) x (Or.inr hx)) hreg
    have hnd2 := List.nodup_cons.mp hnd
    have hpa := parent_not_below_child _ hac hc.1
    obtain ⟨e2, h2, D2⟩ := clearLoop_spec w0 hac k f hspec a cs e1 hnd2.2
      (fun c2 h => hcs c2 (List.mem_cons_of_mem _ h))
      (by
        rw [D1.1 a (by
          intro h
          rcases h with h | h
          · exact hpa.1 h
          · exact hpa.2 h)]
        exact hlist)
      (by
        intro c2 hc2 x hx
        have hx1 : ¬ (x = c ∨ IsDescendant (parentOf w0) x c) := by
          intro hxc
          have := siblings_disjoint _ hac hc.1 (hcs c2 (List.mem_cons_of_mem _ hc2)).1 hxc hx
          exact hnd2.1 (this ▸ hc2)
        rw [D1.1 x hx1]
        exact hun c2 (List.mem_cons_of_mem _ hc2) x hx)
      (registryValid_of_sublist _ _ D1.2.2.2.1 hreg)
    refine ⟨e2, ?_, ?_⟩
    · simp only [forEachSprite, h1]
      exact h2
    · refine (Destroys.andThen D1 D2).congr ?_
      intro x
      simp only [List.mem_cons, exists_eq_or_imp]

/-- The function `clearChildren` destroys the descendants of a sprite in a tree without
cycles when the fuel exceeds the depth below the sprite by three. -/
theorem clearSpec_all (w0 : World F) (hinv : TreeInv (parentOf w0) (childrenOf w0))
    (hac : ∀ x, ¬ OwnAncestor (parentOf w0) x) :
    ∀ (k fuel : Nat), k + 3 ≤ fuel → ClearSpec w0 k fuel := by
  intro k
  induction k with
  | zero =>
    intro fuel hf a e hk hdesc hch hreg
    obtain ⟨g, rfl⟩ : ∃ g, fuel = g + 1 := ⟨fuel - 1, by omega⟩
    have hnil : childrenOf w0 a = [] := by
      cases hl : childrenOf w0 a with
      | nil => rfl
      | cons c cs =>
        have hc : c ∈ childrenOf w0 a := by rw [hl]; exact List.mem_cons_self _ _
        have hp : parentOf w0 c = some a := (hinv c a).2.mp hc
        have := hk c 1 (by simp [ancestorAt, hp])
        omega
    rw [clearChildren_eq, hch, hnil]
    refine ⟨_, rfl, Destroys.nothing _ _ ?_ _⟩
    intro x ⟨j, hj⟩
    have := hk x (j + 1) hj
    omega
  | succ k ih =>
    intro fuel hf a e hk hdesc hch hreg
    obtain ⟨f, rfl⟩ : ∃ f, fuel = f + 2 + 1 := ⟨fuel - 3, by omega⟩
    have hspec := ih (f + 2) (by omega)
    have hchild : ∀ c ∈ childrenOf w0 a, parentOf w0 c = some a :=
      fun c hc => (hinv c a).2.mp hc
    have hnd : (childrenOf w0 a).Nodup := by
      rw [List.nodup_iff_count_le_one]
      exact fun c => (hinv c a).1
    obtain ⟨e1, h1, D1⟩ := clearLoop_spec w0 hac k f hspec a (childrenOf w0 a) (clearList a e)
      hnd
      (by
        intro c hc
        refine ⟨hchild c hc, ?_⟩
        intro x j hj
        have := hk x (j + 1) (by rw [ancestorAt_succ_of _ j x c hj, hchild c hc])
        omega)
      (by simp [clearList])
      (by
        intro c hc x hx
        have hxa : IsDescendant (parentOf w0) x a := by
          rcases hx with rfl | hx
          · exact isDescendant_child _ (hchild x hc)
          · exact isDescendant_trans _ hx (isDescendant_child _ (hchild c hc))
        have hne : x ≠ a := fun h => not_isDescendant_self _ hac a (h ▸ hxa)
        simp only [clearList, modify_sprites_ne _ _ hne]
        exact hdesc x hxa)
      hreg
    refine ⟨e1, ?_, D1.congr ?_⟩
    · rw [clearChildren_eq, hch]
      exact h1
    · intro x
      constructor
      · rintro ⟨c, hc, hx⟩
        rcases hx with rfl | hx
        · exact isDescendant_child _ (hchild x hc)
        · exact isDescendant_trans _ hx (isDescendant_child _ (hchild c hc))
      · intro hx
        obtain ⟨c, hc, hxc⟩ := isDescendant_cases _ hx
        exact ⟨c, (hinv c a).2.mpr hc, hxc⟩

end Destroy

/-! ### What the tree functions leave unchanged -/


section TreeFrame

variable {F : Type} [LinearOrderedCommRing F]

theorem TreeOnly.tree_refl (w : World F) : TreeOnly w w :=
  ⟨rfl, fun b => ⟨(w.sprites b).mParent, (w.sprites b).mChildren, (w.sprites b).mDirty, rfl⟩⟩

theorem TreeOnly.tree_trans {w w1 w2 : World F} (h1 : TreeOnly w w1) (h2 : TreeOnly w1 w2) :
    TreeOnly w w2 := by
  refine ⟨h2.1.trans h1.1, fun b => ?_⟩
  obtain ⟨p1, c1, d1, e1⟩ := h1.2 b
  obtain ⟨p2, c2, d2, e2⟩ := h2.2 b
  exact ⟨p2, c2, d2, by rw [e2, e1]⟩

/-- A change of the parent, the children and the dirty set of one sprite. -/
theorem TreeOnly.modify_tree (w : World F) (a : Addr) (f : Sprite F → Sprite F)
    (hf : ∀ s, ∃ (p : Option Addr) (ch : List Addr) (d : DirtyState),
      f s = { s with mParent := p, mChildren := ch, mDirty := d }) :
    TreeOnly w (w.modify a f) := by
  refine ⟨rfl, fun b => ?_⟩
  by_cases h : b = a
  · subst h
    simp only [modify_sprites_same]
    exact hf _
  · simp only [modify_sprites_ne _ _ h]
    exact (TreeOnly.tree_refl w).2 b

theorem TreeOnly.of_marked {w w1 : World F} (h : Marked w w1) : TreeOnly w w1 := by
  refine ⟨h.1, fun b => ?_⟩
  rcases h.2 b with e | e
  · rw [e]; exact (TreeOnly.tree_refl w).2 b
  · rw [e]; exact ⟨_, _, _, rfl⟩

theorem markAsDirty_treeOnly {fuel : Nat} {a : Addr} {dirty : DirtyState} {w w1 : World F}
    (h : markAsDirty fuel a dirty w = some w1) : TreeOnly w w1 :=
  TreeOnly.tree_trans
    (TreeOnly.modify_tree w a _ (fun s => ⟨s.mParent, s.mChildren, s.mDirty.or dirty, rfl⟩))
    (TreeOnly.of_marked (markAsDirty_marked h))

/-- The tree functions change parent pointers, child lists and dirty sets only. -/
theorem tree_treeOnly : ∀ (f : Nat),
    (∀ (p c : Addr) (w w1 : World F), addChild f p c w = some w1 → TreeOnly w w1)
    ∧ (∀ (p c : Addr) (w w1 : World F), removeChild f p c w = some w1 → TreeOnly w w1)
    ∧ (∀ (a : Addr) (parent : Option Addr) (w w1 : World F),
        setParent f a parent w = some w1 → TreeOnly w w1)
    ∧ (∀ (a : Addr) (w w1 : World F), removeParent f a w = some w1 → TreeOnly w w1) := by
  intro f
  induction f with
  | zero =>
    refine ⟨?_, ?_, ?_, ?_⟩
    · intro p c w w1 h; simp [addChild] at h
    · intro p c w w1 h; simp [removeChild] at h
    · intro a parent w w1 h; simp [setParent] at h
    · intro a w w1 h; simp [removeParent] at h
  | succ f ih =>
    obtain ⟨ihA, ihR, ihS, ihP⟩ := ih
    refine ⟨?_, ?_, ?_, ?_⟩
    · intro p c w w1 h
      rw [addChild] at h
      split at h
      · simp only [Option.some.injEq] at h
        rw [← h]; exact TreeOnly.tree_refl w
      · exact TreeOnly.tree_trans
          (TreeOnly.modify_tree w p _ (fun s => ⟨s.mParent, s.mChildren ++ [c], s.mDirty, rfl⟩))
          (ihS _ _ _ _ h)
    · intro p c w w1 h
      rw [removeChild] at h
      split at h
      · simp only [Option.some.injEq] at h
        rw [← h]; exact TreeOnly.tree_refl w
      · exact TreeOnly.tree_trans
          (TreeOnly.modify_tree w p _
            (fun s => ⟨s.mParent, s.mChildren.filter (fun x => x != c), s.mDirty, rfl⟩))
          (ihS _ _ _ _ h)
    · intro a parent w w1 h
      rw [setParent] at h
      cases hr : removeParent f a w with
      | none => rw [hr] at h; simp at h
      | some w2 =>
        rw [hr] at h
        simp only at h
        have h2 := ihP _ _ _ hr
        have h3 : TreeOnly w2 (w2.modify a (fun s => { s with mParent := parent })) :=
          TreeOnly.modify_tree w2 a _ (fun s => ⟨parent, s.mChildren, s.mDirty, rfl⟩)
        cases parent with
        | none =>
          simp only [modify_sprites_same] at h
          exact TreeOnly.tree_trans h2 (TreeOnly.tree_trans h3 (markAsDirty_treeOnly h))
        | some p =>
          simp only [modify_sprites_same] at h
          cases ha : addChild f p a (w2.modify a (fun s => { s with mParent := some p })) with
          | none => rw [ha] at h; simp at h
          | some w3 =>
            rw [ha] at h
            simp only at h
            exact TreeOnly.tree_trans h2 (TreeOnly.tree_trans h3
              (TreeOnly.tree_trans (ihA _ _ _ _ ha) (markAsDirty_treeOnly h)))
    · intro a w w1 h
      rw [removeParent] at h
      cases hp : (w.sprites a).mParent with
      | none =>
        rw [hp] at h
        simp only [Option.some.injEq] at h
        rw [← h]; exact TreeOnly.tree_refl w
      | some p =>
        rw [hp] at h
        simp only at h
        cases hr : removeChild f p a w with
        | none => rw [hr] at h; simp at h
        | some w2 =>
          rw [hr] at h
          simp only at h
          exact TreeOnly.tree_trans (ihR _ _ _ _ hr)
            (TreeOnly.tree_trans
              (TreeOnly.modify_tree w2 a _ (fun s => ⟨none, s.mChildren, s.mDirty, rfl⟩))
              (markAsDirty_treeOnly h))

theorem TreeOnly.mId_eq {w w1 : World F} (h : TreeOnly w w1) (b : Addr) :
    (w1.sprites b).mId = (w.sprites b).mId := by
  obtain ⟨p, ch, d, e⟩ := h.2 b
  rw [e]

end TreeFrame

/-! ### Destruction releases the subtree (claim C23) -/

section Destruction

variable {F : Type} [LinearOrderedCommRing F]

/-- The parent of a descendant of `a` is `a` or a descendant of `a`. -/
theorem parent_of_descendant (P : Addr → Option Addr) {x a p : Addr}
    (hx : IsDescendant P x a) (hp : P x = some p) : p = a ∨ IsDescendant P p a := by
  obtain ⟨j, hj⟩ := hx
  rw [ancestorAt, hp] at hj
  cases j with
  | zero =>
    simp only [ancestorAt, Option.some.injEq] at hj
    exact Or.inl hj
  | succ j => exact Or.inr ⟨j, hj⟩

/-- The function `clearChildren` on a sprite of a tree: it returns, the child list of the
sprite is empty, every descendant is deleted, has no children and no parent and is not
found in the registry, no other sprite is deleted, and the sprites outside are as before. -/
theorem clearChildren_tree (e : Process F) (k fuel : Nat) (a : Addr)
    (hinv : TreeInv (parentOf e.world) (childrenOf e.world))
    (hac : ∀ x, ¬ OwnAncestor (parentOf e.world) x)
    (hk : ∀ x j, ancestorAt (parentOf e.world) j x = some a → j ≤ k)
    (hreg : RegistryValid e.world) (hf : k + 3 ≤ fuel) :
    ∃ e1, clearChildren fuel a e = some e1
      ∧ Destroys (fun x => (e.world.sprites x).mId)
          (fun x => IsDescendant (parentOf e.world) x a) (clearList a e) e1 :=
  clearSpec_all e.world hinv hac k fuel hf a e hk (fun _ _ => rfl) rfl hreg

/-- C23: in a tree (parent pointers and child lists agree, no sprite is its own ancestor, the
descendants of `a` are at most `k` steps below it) `clearChildren` on `a` and `delete a`
return. After `clearChildren` the child list of `a` is empty, every former descendant of `a`
is deleted, has an empty child list, appears in no child list of its former parent and its
identifier is not found in the registry, and exactly the descendants are deleted. After
`delete a` the same holds with `a` included: `a` is deleted, its identifier is not found and
`a` is not in the child list of its former parent. -/
theorem destruction_releases_subtree (e : Process F) (k n fuel : Nat) (a : Addr)
    (hinv : TreeInv (parentOf e.world) (childrenOf e.world))
    (hac : ∀ x, ¬ OwnAncestor (parentOf e.world) x)
    (hk : ∀ x j, ancestorAt (parentOf e.world) j x = some a → j ≤ k)
    (hreg : RegistryValid e.world) (hn : ParentsBelow n e.world)
    (hf : k + 3 ≤ fuel) (hf2 : n + 5 ≤ fuel) :
    (∃ e1, clearChildren fuel a e = some e1
      ∧ (e1.world.sprites a).mChildren = []
      ∧ (∀ x, IsDescendant (parentOf e.world) x a →
          x ∈ e1.deleted ∧ findSprite e1.world (e.world.sprites x).mId = none
          ∧ (e1.world.sprites x).mChildren = []
          ∧ ∀ p, parentOf e.world x = some p → x ∉ (e1.world.sprites p).mChildren)
      ∧ (∀ x, x ∈ e1.deleted → x ∈ e.deleted ∨ IsDescendant (parentOf e.world) x a))
    ∧ (∃ e2, deleteObject fuel a e = some e2
      ∧ (e2.world.sprites a).mChildren = []
      ∧ (∀ x, x = a ∨ IsDescendant (parentOf e.world) x a →
          x ∈ e2.deleted ∧ findSprite e2.world (e.world.sprites x).mId = none
          ∧ (e2.world.sprites x).mChildren = []
          ∧ ∀ p, parentOf e.world x = some p → x ∉ (e2.world.sprites p).mChildren)
      ∧ (∀ x, x ∈ e2.deleted →
          x ∈ e.deleted ∨ x = a ∨ IsDescendant (parentOf e.world) x a)) := by
  obtain ⟨e1, h1, fr, dl, st, rg, pd⟩ := clearChildren_tree e k fuel a hinv hac hk hreg hf
  have hself : ¬ IsDescendant (parentOf e.world) a a := not_isDescendant_self _ hac a
  have ha1 : e1.world.sprites a = { e.world.sprites a with mChildren := [] } := by
    rw [fr a hself]
    simp [clearList]
  -- the child lists of the former parents after `clearChildren`
  have hparent1 : ∀ x, IsDescendant (parentOf e.world) x a →
      ∀ p, parentOf e.world x = some p → (e1.world.sprites p).mChildren = [] := by
    intro x hx p hp
    rcases parent_of_descendant _ hx hp with rfl | hpa
    · rw [ha1]
    · exact (st p hpa).1
  constructor
  · refine ⟨e1, h1, by rw [ha1], ?_, ?_⟩
    · intro x hx
      refine ⟨(dl x).mpr (Or.inr hx), (st x hx).2.2, (st x hx).1, ?_⟩
      intro p hp
      rw [hparent1 x hx p hp]
      simp
    · intro x hx
      exact (dl x).mp hx
  · -- `delete a`: the descendants, then the parent, then the identifier
    have hn1 : ParentsBelow n e1.world := by
      intro b hb
      by_cases hd : IsDescendant (parentOf e.world) b a
      · exact (st b hd).2.1
      · rw [fr b hd]
        by_cases hba : b = a
        · subst hba
          simp only [clearList, modify_sprites_same]
          exact hn b hb
        · simp only [clearList, modify_sprites_ne _ _ hba]
          exact hn b hb
    obtain ⟨w2, h2⟩ := removeParent_total a hn1 hf2
    obtain ⟨hP2, hC2, hS2⟩ := removeParent_spec h2
    have hT2 := (tree_treeOnly fuel).2.2.2 a e1.world w2 h2
    have hp2 : (w2.sprites a).mParent = none := by
      show parentOf w2 a = none
      rw [hP2, Function.update_same]
    have hpa1 : parentOf e1.world a = parentOf e.world a := by
      show (e1.world.sprites a).mParent = (e.world.sprites a).mParent
      rw [ha1]
    have hch2 : (w2.sprites a).mChildren = [] := by
      show childrenOf w2 a = []
      rw [hC2]
      unfold childrenWithout
      cases hq : parentOf e1.world a with
      | none =>
        show (e1.world.sprites a).mChildren = []
        rw [ha1]
      | some q =>
        simp only
        have hqa : a ≠ q := by
          intro h
          rw [hpa1] at hq
          exact (parent_not_below_child _ hac hq).1 h.symm
        rw [Function.update_noteq hqa]
        show (e1.world.sprites a).mChildren = []
        rw [ha1]
    have hid2 : (w2.sprites a).mId = (e.world.sprites a).mId := by
      rw [hT2.mId_eq a, ha1]
    have hreg1 : RegistryValid e1.world := registryValid_of_sublist _ _ rg hreg
    have hreg2 : RegistryValid w2 := by
      intro x hx
      rw [hS2] at hx
      exact hreg1 x hx
    obtain ⟨f, rfl⟩ : ∃ f, fuel = f + 1 := ⟨fuel - 1, by omega⟩
    have hL := deleteSprite_leaf_destroys (fun x => (e.world.sprites x).mId) a
      { e1 with world := w2 } hch2 hp2 hid2 hreg2
    have hrun : deleteObject (f + 1) a e
        = some { e1 with
            world := if (w2.sprites a).mId = 0 then w2
              else (unregisterSprite a w2).modify a (fun s =>
                { s with mId := 0, mDirty := s.mDirty.or ID_DIRTY }),
            deleted := a :: e1.deleted } := by
      simp only [deleteObject, deleteSprite, destructor, remove, h1, Process.onWorld, h2,
        setSpriteId_zero_eq (f + 1) a w2 hp2]
    obtain ⟨fr3, dl3, st3, rg3, pd3⟩ := hL
    have hsub : List.Sublist
        (if (w2.sprites a).mId = 0 then w2
          else (unregisterSprite a w2).modify a (fun s =>
            { s with mId := 0, mDirty := s.mDirty.or ID_DIRTY })).mSprites e1.world.mSprites := by
      have := rg3
      simp only at this
      rw [hS2] at this
      exact this
    -- the child lists of the descendants after `delete a`
    have hdesc3 : ∀ y, IsDescendant (parentOf e.world) y a →
        ((if (w2.sprites a).mId = 0 then w2
          else (unregisterSprite a w2).modify a (fun s =>
            { s with mId := 0, mDirty := s.mDirty.or ID_DIRTY })).sprites y).mChildren = [] := by
      intro y hy
      have hya : y ≠ a := fun h => hself (h ▸ hy)
      have h3 := fr3 y hya
      simp only at h3
      rw [h3]
      show childrenOf w2 y = []
      rw [hC2]
      unfold childrenWithout
      cases hq : parentOf e1.world a with
      | none => exact (st y hy).1
      | some q =>
        simp only
        by_cases hyq : y = q
        · subst hyq
          rw [Function.update_same]
          show List.filter _ (e1.world.sprites y).mChildren = []
          rw [(st y hy).1]
          rfl
        · rw [Function.update_noteq hyq]
          exact (st y hy).1
    refine ⟨_, hrun, ?_, ?_, ?_⟩
    · exact (st3 a rfl).1
    · intro x hx
      rcases hx with rfl | hx
      · refine ⟨(dl3 x).mpr (Or.inr rfl), (st3 x rfl).2.2, (st3 x rfl).1, ?_⟩
        intro p hp
        have hpx : p ≠ x := (parent_not_below_child _ hac hp).1
        have h3 := fr3 p hpx
        simp only at h3
        rw [h3]
        show x ∉ childrenOf w2 p
        rw [hC2]
        unfold childrenWithout
        rw [hpa1, hp]
        simp only [Function.update_same]
        exact not_mem_filter_ne _ x
      · have hxa : x ≠ a := fun h => hself (h ▸ hx)
        refine ⟨(dl3 x).mpr (Or.inl ((dl x).mpr (Or.inr hx))),
          findSprite_none_of_sublist _ _ hsub _ (st x hx).2.2, hdesc3 x hx, ?_⟩
        intro p hp
        rcases parent_of_descendant _ hx hp with rfl | hpa
        · rw [(st3 p rfl).1]
          simp
        · rw [hdesc3 p hpa]
          simp
    · intro x hx
      rcases (dl3 x).mp hx with h | h
      · rcases (dl x).mp h with h | h
        · exact Or.inl h
        · exact Or.inr (Or.inr h)
      · exact Or.inr (Or.inl h)

/-- In a state where every chain of parents has ended after `n` steps no sprite is its own
ancestor, and an ancestor is met after less than `n` steps. -/
theorem depth_bound (P : Addr → Option Addr) (n : Nat) (h : ∀ x, ancestorAt P n x = none) :
    (∀ x, ¬ OwnAncestor P x) ∧ (∀ a x j, ancestorAt P j x = some a → j < n) := by
  have hmono : ∀ d x, ancestorAt P (n + d) x = none := by
    intro d
    induction d with
    | zero => exact h
    | succ d ih => exact fun x => ancestorAt_none_succ P _ x (ih x)
  constructor
  · intro x hx
    exact ownAncestor_not_acyclic P x hx (fun a => ⟨n, h a⟩)
  · intro a x j hj
    by_contra hlt
    have := hmono (j - n) x
    rw [Nat.add_sub_cancel' (Nat.le_of_not_lt hlt), hj] at this
    simp at this

end Destruction

/-- The tree of `dirtyPair`: parent pointers and child lists agree and every chain of
parents has ended after two steps. -/
theorem dirtyPair_tree :
    TreeInv (parentOf dirtyPair) (childrenOf dirtyPair)
    ∧ (∀ x, ancestorAt (parentOf dirtyPair) 2 x = none)
    ∧ ParentsBelow 2 dirtyPair ∧ RegistryValid dirtyPair := by
  have hrec : ∀ b, b ≠ 0 → b ≠ 1 → dirtyPair.sprites b = Sprite.uninit := by
    intro b h0 h1
    simp [dirtyPair, h0, h1]
  refine ⟨?_, ?_, ?_, ?_⟩
  · intro s p
    by_cases hp : p = 0
    · subst hp
      have hc : childrenOf dirtyPair 0 = [1] := rfl
      rw [hc]
      by_cases hs0 : s = 0
      · subst hs0; decide
      · by_cases hs1 : s = 1
        · subst hs1; decide
        · have : parentOf dirtyPair s = none := by
            unfold parentOf; rw [hrec s hs0 hs1]; rfl
          rw [this]
          simp [hs1, List.count_cons]
    · have hc : childrenOf dirtyPair p = [] := by
        unfold childrenOf
        by_cases hp1 : p = 1
        · subst hp1; rfl
        · rw [hrec p hp hp1]; rfl
      rw [hc]
      simp only [List.count_nil, Nat.zero_le, List.not_mem_nil, false_iff, true_and]
      by_cases hs0 : s = 0
      · subst hs0
        have : parentOf dirtyPair 0 = none := rfl
        rw [this]
        simp
      · by_cases hs1 : s = 1
        · subst hs1
          have : parentOf dirtyPair 1 = some 0 := rfl
          rw [this]
          simp only [Option.some.injEq]
          exact fun h => hp h.symm
        · have : parentOf dirtyPair s = none := by
            unfold parentOf; rw [hrec s hs0 hs1]; rfl
          rw [this]
          simp
  · intro x
    by_cases h0 : x = 0
    · subst h0; rfl
    · by_cases h1 : x = 1
      · subst h1; rfl
      · have : parentOf dirtyPair x = none := by
          unfold parentOf; rw [hrec x h0 h1]; rfl
        simp [ancestorAt, this]
  · intro b hb
    have h0 : b ≠ 0 := by omega
    have h1 : b ≠ 1 := by omega
    rw [hrec b h0 h1]
    rfl
  · intro x hx
    simp only [dirtyPair, List.mem_cons, List.mem_singleton, List.not_mem_nil, or_false] at hx
    rcases hx with rfl | rfl <;> decide

/-- C23, at the tree of `dirtyPair`, a root (identifier 1) with one child (identifier 2):
after `clearChildren` on the root its child list is empty, the child is deleted and the
identifier 2 is not found; after `delete` of the child the child is not in the list of the
root. -/
theorem destruction_releases_subtree_witness :
    (∃ e1, clearChildren 7 0 ⟨dirtyPair, [], []⟩ = some e1
      ∧ (e1.world.sprites 0).mChildren = [] ∧ 1 ∈ e1.deleted
      ∧ findSprite e1.world 2 = none)
    ∧ (∃ e2, deleteObject 7 1 ⟨dirtyPair, [], []⟩ = some e2
      ∧ 1 ∈ e2.deleted ∧ findSprite e2.world 2 = none
      ∧ 1 ∉ (e2.world.sprites 0).mChildren) := by
  obtain ⟨hinv, hdepth, hn, hreg⟩ := dirtyPair_tree
  obtain ⟨hac, hk⟩ := depth_bound _ 2 hdepth
  have h0 := destruction_releases_subtree ⟨dirtyPair, [], []⟩ 1 2 7 0 hinv hac
    (fun x j hj => Nat.lt_succ_iff.mp (hk 0 x j hj)) hreg hn (by decide) (by decide)
  have h1 := destruction_releases_subtree ⟨dirtyPair, [], []⟩ 1 2 7 1 hinv hac
    (fun x j hj => Nat.lt_succ_iff.mp (hk 1 x j hj)) hreg hn (by decide) (by decide)
  obtain ⟨e1, hr1, hc1, hd1, _⟩ := h0.1
  obtain ⟨e2, hr2, _, hd2, _⟩ := h1.2
  have hdesc : IsDescendant (parentOf dirtyPair) 1 0 := ⟨0, rfl⟩
  refine ⟨⟨e1, hr1, hc1, (hd1 1 hdesc).1, (hd1 1 hdesc).2.1⟩, e2, hr2, ?_, ?_, ?_⟩
  · exact (hd2 1 (Or.inl rfl)).1
  · exact (hd2 1 (Or.inl rfl)).2.1
  · exact (hd2 1 (Or.inl rfl)).2.2.2 0 rfl




/-- The chain G, P, C built by the interface: `clearChildren` on G deletes P and C, empties
the child list of G and leaves only the identifier of G in the registry. -/
theorem chainProcess_clear :
    (chainProcess.bind (clearChildren 6 0)).map
      (fun e => (e.deleted, (e.world.sprites 0).mChildren, findSprite e.world 1,
        findSprite e.world 2, findSprite e.world 3))
      = some ([1, 2], [], some 0, none, none) := by
  decide!

/-- The chain G, P, C built by the interface: `delete P` deletes P and C and takes P out of
the child list of G. -/
theorem chainProcess_delete :
    (chainProcess.bind (deleteObject 9 1)).map
      (fun e => (e.deleted, (e.world.sprites 0).mChildren, findSprite e.world 1,
        findSprite e.world 2, findSprite e.world 3))
      = some ([1, 2], [], some 0, none, none) := by
  decide!

/-! ### Deferred delete (claim C24) -/


section Deferred

variable {F : Type} [LinearOrderedCommRing F]

/-- The state after `delete a` in a tree, field by field: the sprite and its descendants have
no parent, no children and their identifiers are not found; every other sprite keeps its
parent and its identifier and its child list without `a`; `removeAndDelete` gives the same
state. -/
theorem deleteObject_tree (e : Process F) (n fuel : Nat) (a : Addr)
    (hgood : GoodTree n e.world) (hf : n + 5 ≤ fuel) :
    ∃ e2, deleteObject fuel a e = some e2 ∧ removeAndDelete fuel a e = some e2
      ∧ (∀ x, (x = a ∨ IsDescendant (parentOf e.world) x a) →
          parentOf e2.world x = none ∧ childrenOf e2.world x = []
          ∧ findSprite e2.world (e.world.sprites x).mId = none)
      ∧ (∀ x, ¬ (x = a ∨ IsDescendant (parentOf e.world) x a) →
          parentOf e2.world x = parentOf e.world x
          ∧ childrenOf e2.world x = (childrenOf e.world x).filter (fun y => y != a)
          ∧ (e2.world.sprites x).mId = (e.world.sprites x).mId)
      ∧ List.Sublist e2.world.mSprites e.world.mSprites
      ∧ e2.mRequestDelete = e.mRequestDelete
      ∧ (∀ x, x ∈ e2.deleted ↔
          x ∈ e.deleted ∨ x = a ∨ IsDescendant (parentOf e.world) x a) := by
  obtain ⟨hinv, hdepth, hn, hreg, _⟩ := hgood
  obtain ⟨hac, hk⟩ := depth_bound _ n hdepth
  obtain ⟨e1, h1, fr, dl, st, rg, pd⟩ := clearChildren_tree e n fuel a hinv hac
    (fun x j hj => Nat.le_of_lt (hk a x j hj)) hreg (by omega)
  have hself : ¬ IsDescendant (parentOf e.world) a a := not_isDescendant_self _ hac a
  have ha1 : e1.world.sprites a = { e.world.sprites a with mChildren := [] } := by
    rw [fr a hself]
    simp [clearList]
  have hother1 : ∀ x, ¬ (x = a ∨ IsDescendant (parentOf e.world) x a) →
      e1.world.sprites x = e.world.sprites x := by
    intro x hx
    rw [fr x (fun h => hx (Or.inr h))]
    simp only [clearList, modify_sprites_ne _ _ (fun h => hx (Or.inl h))]
  have hn1 : ParentsBelow n e1.world := by
    intro b hb
    by_cases hd : IsDescendant (parentOf e.world) b a
    · exact (st b hd).2.1
    · rw [fr b hd]
      by_cases hba : b = a
      · subst hba
        simp only [clearList, modify_sprites_same]
        exact hn b hb
      · simp only [clearList, modify_sprites_ne _ _ hba]
        exact hn b hb
  obtain ⟨w2, h2⟩ := removeParent_total a hn1 (by omega : n + 5 ≤ fuel)
  obtain ⟨hP2, hC2, hS2⟩ := removeParent_spec h2
  have hT2 := (tree_treeOnly fuel).2.2.2 a e1.world w2 h2
  have hp2 : (w2.sprites a).mParent = none := by
    show parentOf w2 a = none
    rw [hP2, Function.update_same]
  have hpa1 : parentOf e1.world a = parentOf e.world a := by
    show (e1.world.sprites a).mParent = (e.world.sprites a).mParent
    rw [ha1]
  -- the child lists after `removeParent`
  have hC2x : ∀ x, childrenOf w2 x = (childrenOf e1.world x).filter (fun y => y != a) := by
    intro x
    rw [hC2]
    unfold childrenWithout
    have hnot : ∀ y, parentOf e.world a ≠ some y → a ∉ childrenOf e1.world y := by
      intro y hy hmem
      by_cases hd : y = a ∨ IsDescendant (parentOf e.world) y a
      · rcases hd with rfl | hd
        · have : childrenOf e1.world y = [] := by
            show (e1.world.sprites y).mChildren = []
            rw [ha1]
          rw [this] at hmem
          simp at hmem
        · have : childrenOf e1.world y = [] := (st y hd).1
          rw [this] at hmem
          simp at hmem
      · have : childrenOf e1.world y = childrenOf e.world y := by
          show (e1.world.sprites y).mChildren = (e.world.sprites y).mChildren
          rw [hother1 y hd]
        rw [this] at hmem
        exact hy ((hinv a y).2.mp hmem)
    cases hq : parentOf e1.world a with
    | none =>
      simp only
      rw [filter_ne_of_not_mem]
      apply hnot
      rw [← hpa1, hq]
      simp
    | some q =>
      simp only
      by_cases hxq : x = q
      · subst hxq
        rw [Function.update_same]
      · rw [Function.update_noteq hxq, filter_ne_of_not_mem]
        apply hnot
        rw [← hpa1, hq]
        simp only [ne_eq, Option.some.injEq]
        exact fun h => hxq h.symm
  have hch2 : (w2.sprites a).mChildren = [] := by
    show childrenOf w2 a = []
    rw [hC2x]
    have : childrenOf e1.world a = [] := by
      show (e1.world.sprites a).mChildren = []
      rw [ha1]
    rw [this]
    rfl
  have hid2 : (w2.sprites a).mId = (e.world.sprites a).mId := by
    rw [hT2.mId_eq a, ha1]
  have hreg1 : RegistryValid e1.world := registryValid_of_sublist _ _ rg hreg
  have hreg2 : RegistryValid w2 := by
    intro x hx
    rw [hS2] at hx
    exact hreg1 x hx
  obtain ⟨f, rfl⟩ : ∃ f, fuel = f + 1 := ⟨fuel - 1, by omega⟩
  have hL := deleteSprite_leaf_destroys (fun x => (e.world.sprites x).mId) a
    { e1 with world := w2 } hch2 hp2 hid2 hreg2
  have hleaf := deleteSprite_leaf f a { e1 with world := w2 } hch2 hp2
  have hrun : deleteObject (f + 1) a e
      = some { e1 with
          world := if (w2.sprites a).mId = 0 then w2
            else (unregisterSprite a w2).modify a (fun s =>
              { s with mId := 0, mDirty := s.mDirty.or ID_DIRTY }),
          deleted := a :: e1.deleted } := by
    simp only [deleteObject, deleteSprite, destructor, remove, h1, Process.onWorld, h2,
      setSpriteId_zero_eq (f + 1) a w2 hp2]
  have hrun2 : removeAndDelete (f + 1) a e
      = some { e1 with
          world := if (w2.sprites a).mId = 0 then w2
            else (unregisterSprite a w2).modify a (fun s =>
              { s with mId := 0, mDirty := s.mDirty.or ID_DIRTY }),
          deleted := a :: e1.deleted } := by
    simp only [removeAndDelete, remove, h1, Process.onWorld, h2, deleteObject]
    exact hleaf
  obtain ⟨fr3, dl3, st3, rg3, pd3⟩ := hL
  have hsub : List.Sublist
      (if (w2.sprites a).mId = 0 then w2
        else (unregisterSprite a w2).modify a (fun s =>
          { s with mId := 0, mDirty := s.mDirty.or ID_DIRTY })).mSprites e1.world.mSprites := by
    have := rg3
    simp only at this
    rw [hS2] at this
    exact this
  refine ⟨_, hrun, hrun2, ?_, ?_, hsub.trans rg, pd, ?_⟩
  · intro x hx
    rcases hx with rfl | hx
    · exact ⟨(st3 x rfl).2.1, (st3 x rfl).1, (st3 x rfl).2.2⟩
    · have hxa : x ≠ a := fun h => hself (h ▸ hx)
      have h3 := fr3 x hxa
      simp only at h3
      refine ⟨?_, ?_, findSprite_none_of_sublist _ _ hsub _ (st x hx).2.2⟩
      · show (_ : Sprite F).mParent = none
        rw [h3]
        show parentOf w2 x = none
        rw [hP2, Function.update_noteq hxa]
        exact (st x hx).2.1
      · show (_ : Sprite F).mChildren = []
        rw [h3]
        show childrenOf w2 x = []
        rw [hC2x]
        have : childrenOf e1.world x = [] := (st x hx).1
        rw [this]
        rfl
  · intro x hx
    have hxa : x ≠ a := fun h => hx (Or.inl h)
    have h3 := fr3 x hxa
    simp only at h3
    refine ⟨?_, ?_, ?_⟩
    · show (_ : Sprite F).mParent = _
      rw [h3]
      show parentOf w2 x = _
      rw [hP2, Function.update_noteq hxa]
      show (e1.world.sprites x).mParent = _
      rw [hother1 x hx]
      rfl
    · show (_ : Sprite F).mChildren = _
      rw [h3]
      show childrenOf w2 x = _
      rw [hC2x]
      have : childrenOf e1.world x = childrenOf e.world x := by
        show (e1.world.sprites x).mChildren = (e.world.sprites x).mChildren
        rw [hother1 x hx]
      rw [this]
    · show (_ : Sprite F).mId = _
      rw [h3, hT2.mId_eq x, hother1 x hx]
  · intro x
    rw [dl3]
    simp only
    rw [dl]
    simp only [clearList]
    tauto

/-- Chains of parents end no later when parent pointers are cleared. -/
theorem ancestorAt_none_of_cut (P Q : Addr → Option Addr)
    (hQ : ∀ x, Q x = P x ∨ Q x = none) :
    ∀ (k : Nat) (x : Addr), ancestorAt P k x = none → ancestorAt Q k x = none := by
  intro k
  induction k with
  | zero => intro x hx; simp [ancestorAt] at hx
  | succ k ih =>
    intro x hx
    rw [ancestorAt] at hx ⊢
    rcases hQ x with h | h
    · rw [h]
      cases hq : P x with
      | none => rfl
      | some q =>
        rw [hq] at hx
        exact ih q hx
    · rw [h]

/-- What is found in the registry is an entry of it. -/
theorem findSprite_some_mem (w : World F) (id : sprite_id_t) (s : Addr)
    (h : findSprite w id = some s) : (id, s) ∈ w.mSprites := by
  rw [findSprite_eq] at h
  cases hf : w.mSprites.find? (fun e => e.1 == id) with
  | none => rw [hf] at h; simp at h
  | some en =>
    rw [hf] at h
    simp only [Option.map_some', Option.some.injEq] at h
    have hm := List.mem_of_find?_eq_some hf
    have hk := List.find?_some hf
    simp only [beq_iff_eq] at hk
    have : en = (id, s) := Prod.ext hk h
    rw [← this]
    exact hm

/-- An identifier that is not found has no entry. -/
theorem not_mem_of_findSprite_none (w : World F) (id : sprite_id_t) (s : Addr)
    (h : findSprite w id = none) : (id, s) ∉ w.mSprites := by
  rw [findSprite_eq] at h
  simp only [Option.map_eq_none', List.find?_eq_none] at h
  intro hm
  have := h (id, s) hm
  simp at this

/-- The state after `delete a` in a forest with a sound registry is again one. -/
theorem deleteObject_goodTree (e e2 : Process F) (n : Nat) (a : Addr)
    (hgood : GoodTree n e.world)
    (hD : ∀ x, (x = a ∨ IsDescendant (parentOf e.world) x a) →
        parentOf e2.world x = none ∧ childrenOf e2.world x = []
        ∧ findSprite e2.world (e.world.sprites x).mId = none)
    (hO : ∀ x, ¬ (x = a ∨ IsDescendant (parentOf e.world) x a) →
        parentOf e2.world x = parentOf e.world x
        ∧ childrenOf e2.world x = (childrenOf e.world x).filter (fun y => y != a)
        ∧ (e2.world.sprites x).mId = (e.world.sprites x).mId)
    (hS : List.Sublist e2.world.mSprites e.world.mSprites) :
    GoodTree n e2.world := by
  obtain ⟨hinv, hdepth, hn, hreg, hex⟩ := hgood
  have hcut : ∀ x, parentOf e2.world x = parentOf e.world x ∨ parentOf e2.world x = none := by
    intro x
    by_cases hx : x = a ∨ IsDescendant (parentOf e.world) x a
    · exact Or.inr (hD x hx).1
    · exact Or.inl (hO x hx).1
  -- a child of a destroyed sprite is destroyed
  have hdown : ∀ s p, parentOf e.world s = some p →
      (p = a ∨ IsDescendant (parentOf e.world) p a) →
      (s = a ∨ IsDescendant (parentOf e.world) s a) := by
    intro s p hsp hp
    right
    rcases hp with rfl | hp
    · exact isDescendant_child _ hsp
    · exact isDescendant_trans _ (isDescendant_child _ hsp) hp
  refine ⟨?_, ?_, ?_, registryValid_of_sublist _ _ hS hreg, ?_⟩
  · intro s p
    by_cases hp : p = a ∨ IsDescendant (parentOf e.world) p a
    · rw [(hD p hp).2.1]
      simp only [List.count_nil, Nat.zero_le, List.not_mem_nil, false_iff, true_and]
      by_cases hs : s = a ∨ IsDescendant (parentOf e.world) s a
      · rw [(hD s hs).1]
        simp
      · rw [(hO s hs).1]
        intro hsp
        exact hs (hdown s p hsp hp)
    · rw [(hO p hp).2.1]
      constructor
      · exact le_trans ((List.filter_sublist _).count_le s) (hinv s p).1
      · by_cases hs : s = a ∨ IsDescendant (parentOf e.world) s a
        · rw [(hD s hs).1]
          simp only [List.mem_filter, bne_iff_ne, ne_eq, reduceCtorEq, iff_false, not_and,
            not_not]
          intro hmem
          have hsp : parentOf e.world s = some p := (hinv s p).2.mp hmem
          rcases hs with h | h
          · exact h
          · exfalso
            rcases parent_of_descendant _ h hsp with h2 | h2
            · exact hp (Or.inl h2)
            · exact hp (Or.inr h2)
        · rw [(hO s hs).1]
          simp only [List.mem_filter, bne_iff_ne, ne_eq]
          rw [(hinv s p).2]
          constructor
          · exact fun h => h.1
          · exact fun h => ⟨h, fun hsa => hs (Or.inl hsa)⟩
  · exact fun x => ancestorAt_none_of_cut _ _ hcut n x (hdepth x)
  · intro b hb
    rcases hcut b with h | h
    · show parentOf e2.world b = none
      rw [h]
      exact hn b hb
    · exact h
  · intro en hen
    have hen0 := hex en (hS.subset hen)
    by_cases hs : en.2 = a ∨ IsDescendant (parentOf e.world) en.2 a
    · exfalso
      have hnone := (hD en.2 hs).2.2
      rw [hen0] at hnone
      exact not_mem_of_findSprite_none _ _ en.2 hnone hen
    · rw [(hO en.2 hs).2.2]
      exact hen0

/-- The loop of `deleteRequestedSprites` in a forest with a sound registry: it returns, the
state is again such a forest, and none of the identifiers is found afterwards. -/
theorem deleteRequestedLoop_spec (n fuel : Nat) (hf : n + 5 ≤ fuel) :
    ∀ (ids : List sprite_id_t) (e : Process F), GoodTree n e.world →
    ∃ e1, deleteRequestedLoop fuel ids e = some e1
      ∧ GoodTree n e1.world
      ∧ List.Sublist e1.world.mSprites e.world.mSprites
      ∧ (∀ id ∈ ids, findSprite e1.world id = none)
      ∧ e1.mRequestDelete = e.mRequestDelete
  | [], e, hgood => ⟨e, rfl, hgood, List.Sublist.refl _, fun _ h => by simp at h, rfl⟩
  | id :: ids, e, hgood => by
    cases hfind : findSprite e.world id with
    | none =>
      obtain ⟨e1, h1, g1, s1, n1, p1⟩ := deleteRequestedLoop_spec n fuel hf ids e hgood
      refine ⟨e1, ?_, g1, s1, ?_, p1⟩
      · simp only [deleteRequestedLoop, hfind]
        exact h1
      · intro i hi
        rcases List.mem_cons.mp hi with rfl | hi
        · exact findSprite_none_of_sublist _ _ s1 _ hfind
        · exact n1 i hi
    | some s =>
      obtain ⟨e2, _, h2, hD, hO, hS, hp, _⟩ := deleteObject_tree e n fuel s hgood hf
      have g2 := deleteObject_goodTree e e2 n s hgood hD hO hS
      obtain ⟨e1, h1, g1, s1, n1, p1⟩ := deleteRequestedLoop_spec n fuel hf ids e2 g2
      have hid : (e.world.sprites s).mId = id :=
        hgood.2.2.2.2 (id, s) (findSprite_some_mem _ _ _ hfind)
      refine ⟨e1, ?_, g1, s1.trans hS, ?_, p1.trans hp⟩
      · simp only [deleteRequestedLoop, hfind, h2]
        exact h1
      · intro i hi
        rcases List.mem_cons.mp hi with rfl | hi
        · apply findSprite_none_of_sublist _ _ s1
          rw [← hid]
          exact (hD s (Or.inl rfl)).2.2
        · exact n1 i hi

end Deferred

/-- The state `dirtyPair` is a forest of depth below 2 with a sound registry. -/
theorem dirtyPair_goodTree : GoodTree 2 dirtyPair := by
  obtain ⟨hinv, hdepth, hn, hreg⟩ := dirtyPair_tree
  refine ⟨hinv, hdepth, hn, hreg, ?_⟩
  intro en hen
  simp only [dirtyPair, List.mem_cons, List.mem_singleton, List.not_mem_nil, or_false] at hen
  rcases hen with rfl | rfl <;> rfl

/-- The chain G, P, C built by the interface with the identifiers of P, of C and of P again
pending: `deleteRequestedSprites` deletes P and C, skips the two identifiers that are no
longer registered and leaves the pending list empty. -/
theorem chainProcess_deferred :
    ((chainProcess.map (fun e =>
        requestDeleteSprite 1 (requestDeleteSprite 2 (requestDeleteSprite 1 e)))).bind
      (deleteRequestedSprites 9)).map
      (fun e => (e.mRequestDelete, e.deleted, (e.world.sprites 0).mChildren,
        findSprite e.world 2, findSprite e.world 3))
      = some ([], [1, 2], [], none, none) := by
  decide!

/-! ### No dirty sprite is skipped by a write cycle (claim C25) -/




section DirtySync

variable {F : Type} [LinearOrderedCommRing F]

/-- A dirty set with the child bit is not empty. -/
theorem isEmpty_false_of_has {d o : DirtyState} (h : d.has o = true) : d.isEmpty = false := by
  simp only [DirtyState.has, bne_iff_ne, ne_eq] at h
  simp only [DirtyState.isEmpty, beq_eq_false_iff_ne, ne_eq]
  intro h0
  apply h
  rw [h0]
  exact Nat.zero_and _

/-- The child bit is in a dirty set after it has been added. -/
theorem has_child_or (d : DirtyState) : (d.or CHILD_DIRTY).has CHILD_DIRTY = true := by
  simp only [DirtyState.has, DirtyState.or, CHILD_DIRTY, bne_iff_ne, ne_eq]
  intro h0
  have := congrArg (fun x => x.testBit 2) h0
  have h4 : Nat.testBit 4 2 = true := by decide
  simp [Nat.testBit_and, Nat.testBit_or, h4] at this

/-- Adding bits keeps the bits that are there. -/
theorem has_or_of_has {d o b : DirtyState} (h : d.has b = true) : (d.or o).has b = true := by
  simp only [DirtyState.has, DirtyState.or, bne_iff_ne, ne_eq] at h ⊢
  intro h0
  apply h
  apply Nat.eq_of_testBit_eq
  intro i
  have := congrArg (fun x => x.testBit i) h0
  simp only [Nat.testBit_and, Nat.testBit_or, Nat.zero_testBit] at this ⊢
  cases hd : d.mValue.testBit i <;> cases hb : b.mValue.testBit i <;> simp_all

/-- Adding bits to a non-empty dirty set leaves it non-empty. -/
theorem isEmpty_or_false {d o : DirtyState} (h : d.isEmpty = false) :
    (d.or o).isEmpty = false := by
  simp only [DirtyState.isEmpty, DirtyState.or, beq_eq_false_iff_ne, ne_eq] at h ⊢
  intro h0
  apply h
  apply Nat.eq_of_testBit_eq
  intro i
  have := congrArg (fun x => x.testBit i) h0
  simp only [Nat.testBit_or, Nat.zero_testBit, Bool.or_eq_false_iff] at this ⊢
  exact this.1

/-- The loop of markAsDirty restores `Sync`. -/
theorem markAsDirtyLoop_sync :
    ∀ (fuel : Nat) (q : Option Addr) (w w1 : World F),
      markAsDirtyLoop fuel q w = some w1 → SyncUpTo q w → Sync w1 := by
  intro fuel
  induction fuel with
  | zero =>
    intro q w w1 h hs
    cases q with
    | none =>
      simp only [markAsDirtyLoop, Option.some.injEq] at h
      subst h
      intro x p hx hp
      rcases hs x p hx hp with h1 | h1
      · exact h1
      · exact absurd h1 (by simp)
    | some p => simp [markAsDirtyLoop] at h
  | succ fuel ih =>
    intro q w w1 h hs
    cases q with
    | none =>
      simp only [markAsDirtyLoop, Option.some.injEq] at h
      subst h
      intro x p hx hp
      rcases hs x p hx hp with h1 | h1
      · exact h1
      · exact absurd h1 (by simp)
    | some p =>
      rw [markAsDirtyLoop] at h
      by_cases hc : (w.sprites p).mDirty.has CHILD_DIRTY = true
      · rw [if_pos hc] at h
        simp only [Option.some.injEq] at h
        subst h
        intro x p1 hx hp
        rcases hs x p1 hx hp with h1 | h1
        · exact h1
        · simp only [Option.some.injEq] at h1
          rw [← h1]; exact hc
      · rw [if_neg hc] at h
        refine ih _ _ _ h ?_
        intro x p1 hx hp
        by_cases hxp : x = p
        · subst hxp
          right
          simp only [modify_sprites_same] at hp ⊢
          exact hp
        · rw [modify_sprites_ne _ _ hxp] at hx hp
          left
          by_cases hpp : p1 = p
          · subst hpp
            simp only [modify_sprites_same]
            exact has_child_or _
          · rw [modify_sprites_ne _ _ hpp]
            rcases hs x p1 hx hp with h1 | h1
            · exact h1
            · simp only [Option.some.injEq] at h1
              exact absurd h1.symm hpp

/-- The function markAsDirty restores `Sync` when it is called on the one sprite that may be
out of step. -/
theorem markAsDirty_sync {fuel : Nat} {a : Addr} {dirty : DirtyState} {w w1 : World F}
    (h : markAsDirty fuel a dirty w = some w1) (hs : SyncBut a w) : Sync w1 := by
  refine markAsDirtyLoop_sync _ _ _ _ h ?_
  intro x p hx hp
  by_cases hxa : x = a
  · subst hxa
    right
    simp only [modify_sprites_same] at hp ⊢
    exact hp
  · rw [modify_sprites_ne _ _ hxa] at hx hp
    left
    have h1 := hs x p hxa hx hp
    by_cases hpa : p = a
    · subst hpa
      simp only [modify_sprites_same]
      exact has_or_of_has h1
    · rw [modify_sprites_ne _ _ hpa]; exact h1

/-- A state in step is in step but for any sprite. -/
theorem Sync.syncBut {w : World F} (h : Sync w) (a : Addr) : SyncBut a w :=
  fun x p _ hx hp => h x p hx hp

/-- The loop of markAsDirty marks sprites below `n` only. -/
theorem markAsDirtyLoop_dirtyBelow (n : Nat) :
    ∀ (fuel : Nat) (q : Option Addr) (w w1 : World F),
      markAsDirtyLoop fuel q w = some w1 → ParentTargetsBelow n w → (∀ p, q = some p → p < n) →
      DirtyBelow n w → DirtyBelow n w1 := by
  intro fuel
  induction fuel with
  | zero =>
    intro q w w1 h _ _ hd
    cases q with
    | none =>
      simp only [markAsDirtyLoop, Option.some.injEq] at h
      subst h; exact hd
    | some p => simp [markAsDirtyLoop] at h
  | succ fuel ih =>
    intro q w w1 h ht hq hd
    cases q with
    | none =>
      simp only [markAsDirtyLoop, Option.some.injEq] at h
      subst h; exact hd
    | some p =>
      rw [markAsDirtyLoop] at h
      by_cases hc : (w.sprites p).mDirty.has CHILD_DIRTY = true
      · rw [if_pos hc] at h
        simp only [Option.some.injEq] at h
        subst h; exact hd
      · rw [if_neg hc] at h
        have hpn : p < n := hq p rfl
        refine ih _ _ _ h ?_ ?_ ?_
        · intro x p1 hp
          by_cases hxp : x = p
          · subst hxp
            simp only [modify_sprites_same] at hp
            exact ht _ _ hp
          · rw [modify_sprites_ne _ _ hxp] at hp
            exact ht _ _ hp
        · intro p1 hp1
          simp only [modify_sprites_same] at hp1
          exact ht _ _ hp1
        · intro b hb
          have hbp : b ≠ p := fun e => absurd hpn (Nat.not_lt.mpr (e ▸ hb))
          rw [modify_sprites_ne _ _ hbp]
          exact hd b hb

/-- The function markAsDirty on a sprite below `n` marks sprites below `n` only. -/
theorem markAsDirty_dirtyBelow {n fuel : Nat} {a : Addr} {dirty : DirtyState} {w w1 : World F}
    (h : markAsDirty fuel a dirty w = some w1) (ha : a < n) (ht : ParentTargetsBelow n w)
    (hd : DirtyBelow n w) : DirtyBelow n w1 := by
  refine markAsDirtyLoop_dirtyBelow n _ _ _ _ h ?_ ?_ ?_
  · intro x p1 hp
    by_cases hxp : x = a
    · subst hxp
      simp only [modify_sprites_same] at hp
      exact ht _ _ hp
    · rw [modify_sprites_ne _ _ hxp] at hp
      exact ht _ _ hp
  · intro p1 hp1
    simp only [modify_sprites_same] at hp1
    exact ht _ _ hp1
  · intro b hb
    have hbp : b ≠ a := fun e => absurd ha (Nat.not_lt.mpr (e ▸ hb))
    rw [modify_sprites_ne _ _ hbp]
    exact hd b hb

/-- The function markAsDirty keeps the targets of the parent pointers. -/
theorem markAsDirty_parentTargets {n fuel : Nat} {a : Addr} {dirty : DirtyState}
    {w w1 : World F} (h : markAsDirty fuel a dirty w = some w1) (ht : ParentTargetsBelow n w) :
    ParentTargetsBelow n w1 := by
  intro x p hp
  have e := congrFun (markAsDirty_parentOf h) x
  simp only [parentOf] at e
  rw [e] at hp
  exact ht x p hp

/-- A step that keeps the parent pointers and the dirty sets keeps what is known of them. -/
theorem dirty_frame {n : Nat} {w w1 : World F}
    (h : ∀ b, (w1.sprites b).mParent = (w.sprites b).mParent
      ∧ (w1.sprites b).mDirty = (w.sprites b).mDirty) :
    (ParentTargetsBelow n w → ParentTargetsBelow n w1)
    ∧ (DirtyBelow n w → DirtyBelow n w1)
    ∧ (∀ a, SyncBut a w → SyncBut a w1)
    ∧ (Sync w → Sync w1) := by
  refine ⟨?_, ?_, ?_, ?_⟩
  · intro ht x p hp
    rw [(h x).1] at hp
    exact ht x p hp
  · intro hd b hb
    rw [(h b).2]
    exact hd b hb
  · intro a hs x p hxa hx hp
    rw [(h x).2] at hx
    rw [(h x).1] at hp
    rw [(h p).2]
    exact hs x p hxa hx hp
  · intro hs x p hx hp
    rw [(h x).2] at hx
    rw [(h x).1] at hp
    rw [(h p).2]
    exact hs x p hx hp

/-- The replacement of a sprite by one with the same parent pointer and dirty set. -/
theorem modify_keeps (w : World F) (a : Addr) (f : Sprite F → Sprite F)
    (hf : ∀ s, (f s).mParent = s.mParent ∧ (f s).mDirty = s.mDirty) :
    ∀ b, ((w.modify a f).sprites b).mParent = (w.sprites b).mParent
      ∧ ((w.modify a f).sprites b).mDirty = (w.sprites b).mDirty := by
  intro b
  by_cases hb : b = a
  · subst hb
    simp only [modify_sprites_same]
    exact hf _
  · rw [modify_sprites_ne _ _ hb]
    exact ⟨rfl, rfl⟩

/-- Setting the parent pointer of `a` keeps what is known of the other sprites. -/
theorem setParentField_frame {n : Nat} (w : World F) (a : Addr) (parent : Option Addr)
    (hp : ∀ p, parent = some p → p < n)
    (ht : ParentTargetsBelow n w) (hd : DirtyBelow n w) (hs : SyncBut a w) :
    ParentTargetsBelow n (w.modify a (fun s => { s with mParent := parent }))
    ∧ DirtyBelow n (w.modify a (fun s => { s with mParent := parent }))
    ∧ SyncBut a (w.modify a (fun s => { s with mParent := parent })) := by
  refine ⟨?_, ?_, ?_⟩
  · intro x p hxp
    by_cases hxa : x = a
    · subst hxa
      simp only [modify_sprites_same] at hxp
      exact hp p hxp
    · rw [modify_sprites_ne _ _ hxa] at hxp
      exact ht x p hxp
  · intro b hb
    by_cases hba : b = a
    · subst hba
      simp only [modify_sprites_same]
      exact hd b hb
    · rw [modify_sprites_ne _ _ hba]
      exact hd b hb
  · intro x p hxa hx hxp
    rw [modify_sprites_ne _ _ hxa] at hx hxp
    have h1 := hs x p hxa hx hxp
    by_cases hpa : p = a
    · subst hpa
      simp only [modify_sprites_same]
      exact h1
    · rw [modify_sprites_ne _ _ hpa]
      exact h1

/-- The four tree functions, called with sprites below `n`, mark sprites below `n` only and
leave the dirty sets in step with the tree; `addChild` and `removeChild` may return at once
and then keep the state. -/
theorem tree_sync (n : Nat) : ∀ (f : Nat),
    (∀ (p c : Addr) (w w1 : World F), addChild f p c w = some w1 → p < n → c < n →
      ParentTargetsBelow n w → DirtyBelow n w → SyncBut c w →
      ParentTargetsBelow n w1 ∧ DirtyBelow n w1 ∧ SyncBut c w1 ∧ (Sync w → Sync w1))
    ∧ (∀ (p c : Addr) (w w1 : World F), removeChild f p c w = some w1 → c < n →
      ParentTargetsBelow n w → DirtyBelow n w → SyncBut c w →
      ParentTargetsBelow n w1 ∧ DirtyBelow n w1 ∧ SyncBut c w1 ∧ (Sync w → Sync w1))
    ∧ (∀ (a : Addr) (parent : Option Addr) (w w1 : World F),
      setParent f a parent w = some w1 → a < n → (∀ p, parent = some p → p < n) →
      ParentTargetsBelow n w → DirtyBelow n w → SyncBut a w →
      ParentTargetsBelow n w1 ∧ DirtyBelow n w1 ∧ Sync w1)
    ∧ (∀ (a : Addr) (w w1 : World F), removeParent f a w = some w1 → a < n →
      ParentTargetsBelow n w → DirtyBelow n w → SyncBut a w →
      ParentTargetsBelow n w1 ∧ DirtyBelow n w1 ∧ Sync w1) := by
  intro f
  induction f with
  | zero =>
    refine ⟨?_, ?_, ?_, ?_⟩
    · intro p c w w1 h; simp [addChild] at h
    · intro p c w w1 h; simp [removeChild] at h
    · intro a parent w w1 h; simp [setParent] at h
    · intro a w w1 h; simp [removeParent] at h
  | succ f ih =>
    obtain ⟨ihA, ihR, ihS, ihP⟩ := ih
    refine ⟨?_, ?_, ?_, ?_⟩
    · intro p c w w1 h hpn hcn ht hd hs
      rw [addChild] at h
      split at h
      · simp only [Option.some.injEq] at h
        subst h
        exact ⟨ht, hd, hs, fun h => h⟩
      · have fr := dirty_frame (n := n) (modify_keeps w p
          (fun s => { s with mChildren := s.mChildren ++ [c] }) (fun s => ⟨rfl, rfl⟩))
        obtain ⟨t1, d1, s1⟩ := ihS _ _ _ _ h hcn (fun q hq => by
          simp only [Option.some.injEq] at hq; rw [← hq]; exact hpn)
          (fr.1 ht) (fr.2.1 hd) (fr.2.2.1 c hs)
        exact ⟨t1, d1, s1.syncBut c, fun _ => s1⟩
    · intro p c w w1 h hcn ht hd hs
      rw [removeChild] at h
      split at h
      · simp only [Option.some.injEq] at h
        subst h
        exact ⟨ht, hd, hs, fun h => h⟩
      · have fr := dirty_frame (n := n) (modify_keeps w p
          (fun s => { s with mChildren := s.mChildren.filter (fun x => x != c) })
          (fun s => ⟨rfl, rfl⟩))
        obtain ⟨t1, d1, s1⟩ := ihS _ _ _ _ h hcn (fun q hq => by simp at hq)
          (fr.1 ht) (fr.2.1 hd) (fr.2.2.1 c hs)
        exact ⟨t1, d1, s1.syncBut c, fun _ => s1⟩
    · intro a parent w w1 h han hpar ht hd hs
      rw [setParent] at h
      cases hr : removeParent f a w with
      | none => rw [hr] at h; simp at h
      | some w2 =>
        rw [hr] at h
        simp only at h
        obtain ⟨t2, d2, s2⟩ := ihP _ _ _ hr han ht hd hs
        obtain ⟨t3, d3, s3⟩ := setParentField_frame w2 a parent hpar t2 d2 (s2.syncBut a)
        cases parent with
        | none =>
          simp only [modify_sprites_same] at h
          exact ⟨markAsDirty_parentTargets h t3, markAsDirty_dirtyBelow h han t3 d3,
            markAsDirty_sync h s3⟩
        | some p =>
          simp only [modify_sprites_same] at h
          cases ha : addChild f p a (w2.modify a (fun s => { s with mParent := some p })) with
          | none => rw [ha] at h; simp at h
          | some w3 =>
            rw [ha] at h
            simp only at h
            obtain ⟨t4, d4, s4, _⟩ := ihA _ _ _ _ ha (hpar p rfl) han t3 d3 s3
            exact ⟨markAsDirty_parentTargets h t4, markAsDirty_dirtyBelow h han t4 d4,
              markAsDirty_sync h s4⟩
    · intro a w w1 h han ht hd hs
      rw [removeParent] at h
      cases hp : (w.sprites a).mParent with
      | none =>
        rw [hp] at h
        simp only [Option.some.injEq] at h
        subst h
        refine ⟨ht, hd, ?_⟩
        intro x p hx hxp
        by_cases hxa : x = a
        · subst hxa
          rw [hp] at hxp
          exact absurd hxp (by simp)
        · exact hs x p hxa hx hxp
      | some p =>
        rw [hp] at h
        simp only at h
        cases hr : removeChild f p a w with
        | none => rw [hr] at h; simp at h
        | some w2 =>
          rw [hr] at h
          simp only at h
          obtain ⟨t2, d2, s2, _⟩ := ihR _ _ _ _ hr han ht hd hs
          obtain ⟨t3, d3, s3⟩ := setParentField_frame w2 a none (fun q hq => by simp at hq)
            t2 d2 s2
          exact ⟨markAsDirty_parentTargets h t3, markAsDirty_dirtyBelow h han t3 d3,
            markAsDirty_sync h s3⟩

end DirtySync

section WriteCycle

variable {F : Type} [LinearOrderedCommRing F]

/-- Clearing dirty sets keeps every identifier. -/
theorem Cleared.cleared_mId {w w1 : World F} (h : Cleared w w1) (b : Addr) :
    (w1.sprites b).mId = (w.sprites b).mId := by
  rcases h.2 b with e | e <;> rw [e]

/-- Clearing dirty sets keeps every child list. -/
theorem Cleared.cleared_mChildren {w w1 : World F} (h : Cleared w w1) (b : Addr) :
    (w1.sprites b).mChildren = (w.sprites b).mChildren := by
  rcases h.2 b with e | e <;> rw [e]

/-- Clearing dirty sets keeps every parent pointer. -/
theorem Cleared.cleared_mParent {w w1 : World F} (h : Cleared w w1) (b : Addr) :
    (w1.sprites b).mParent = (w.sprites b).mParent := by
  rcases h.2 b with e | e <;> rw [e]

/-- A sprite that is still dirty is as it was. -/
theorem Cleared.eq_of_dirty {w w1 : World F} (h : Cleared w w1) (b : Addr)
    (hb : (w1.sprites b).mDirty.isEmpty = false) : w1.sprites b = w.sprites b := by
  rcases h.2 b with e | e
  · exact e
  · rw [e] at hb
    exact absurd hb (by simp [DirtyState.clear, DirtyState.isEmpty])

/-- A sprite that is still dirty was dirty. -/
theorem Cleared.dirty_before {w w1 : World F} (h : Cleared w w1) (b : Addr)
    (hb : (w1.sprites b).mDirty.isEmpty = false) : (w.sprites b).mDirty.isEmpty = false := by
  rw [← h.eq_of_dirty b hb]; exact hb

/-- The block of a sprite depends on the sprite and on the identifiers only. -/
theorem specSpriteBlock_congr {w w1 : World F} (x : Addr) (h1 : w1.sprites x = w.sprites x)
    (h2 : ∀ b, (w1.sprites b).mId = (w.sprites b).mId) :
    specSpriteBlock x w1 = specSpriteBlock x w := by
  simp only [specSpriteBlock, specAttributeRecords, parentIdOf, h1]
  cases (w.sprites x).mParent with
  | none => rfl
  | some p => simp only [h2]

/-- Nothing is emitted by a call that clears nothing. -/
theorem Emitted.emitted_nothing (w : World F) : Emitted w w [] := by
  intro x hx hx1
  rw [hx] at hx1
  exact absurd hx1 (by simp)

/-- Two calls of writeTo in a row. -/
theorem Emitted.emitted_andThen {w w1 w2 : World F} {b1 b2 : DataBuffer F} (c1 : Cleared w w1)
    (c2 : Cleared w1 w2) (e1 : Emitted w w1 b1) (e2 : Emitted w1 w2 b2) :
    Emitted w w2 (b1 ++ b2) := by
  intro x hx hx2
  by_cases hx1 : (w1.sprites x).mDirty.isEmpty = true
  · obtain ⟨i1, k1⟩ := e1 x hx hx1
    refine ⟨List.IsInfix.trans i1 (List.prefix_append b1 b2).isInfix, ?_⟩
    intro c hc
    exact c2.isEmpty_of_isEmpty c (k1 c hc)
  · have hx1f : (w1.sprites x).mDirty.isEmpty = false := by simpa using hx1
    obtain ⟨i2, k2⟩ := e2 x hx1f hx2
    have hsame := c1.eq_of_dirty x hx1f
    rw [specSpriteBlock_congr x hsame (fun b => c1.cleared_mId b)] at i2
    refine ⟨List.IsInfix.trans i2 (List.suffix_append b1 b2).isInfix, ?_⟩
    intro c hc
    rw [← hsame] at hc
    exact k2 c hc

/-- The function writeTo on a dirty sprite with a valid identifier: the block of the sprite,
then the children. -/
theorem writeTo_dirty_eq (fuel : Nat) (a : Addr) (w : World F) (buf : DataBuffer F)
    (hid : (w.sprites a).mId ≠ EMPTY_SPRITE_ID) (hdirty : (w.sprites a).mDirty.isEmpty = false) :
    writeTo (fuel + 1) a w buf
      = (w.sprites a).mChildren.foldlM (fun st c => writeTo fuel c st.1 st.2)
          (w.modify a (fun s => { s with mDirty := s.mDirty.clear }),
            buf ++ specSpriteBlock a w) := by
  simp only [writeTo, hdirty, hid, if_false, Bool.false_eq_true, writeAttributesTo_eq,
    modify_sprites_same, DataBuffer.add, specSpriteBlock, List.append_assoc,
    List.singleton_append, List.cons_append, List.nil_append]

/-- The loop of writeTo over a list of children: every child is clean afterwards, and what
was cleared has been emitted. -/
theorem writeTo_children_emits (f : Nat)
    (ih : ∀ (a : Addr) (w : World F) (buf : DataBuffer F) (w1 : World F) (buf1 : DataBuffer F),
      (∀ x, (w.sprites x).mDirty.isEmpty = false → (w.sprites x).mId ≠ EMPTY_SPRITE_ID) →
      writeTo f a w buf = some (w1, buf1) →
      Cleared w w1 ∧ (w1.sprites a).mDirty.isEmpty = true
        ∧ ∃ blocks, buf1 = buf ++ blocks ∧ Emitted w w1 blocks) :
    ∀ (cs : List Addr) (w : World F) (buf : DataBuffer F) (w1 : World F) (buf1 : DataBuffer F),
      (∀ x, (w.sprites x).mDirty.isEmpty = false → (w.sprites x).mId ≠ EMPTY_SPRITE_ID) →
      cs.foldlM (fun st c => writeTo f c st.1 st.2) (w, buf) = some (w1, buf1) →
      Cleared w w1 ∧ (∀ c ∈ cs, (w1.sprites c).mDirty.isEmpty = true)
        ∧ ∃ blocks, buf1 = buf ++ blocks ∧ Emitted w w1 blocks := by
  intro cs
  induction cs with
  | nil =>
    intro w buf w1 buf1 _ h
    simp only [List.foldlM_nil, pure, Option.some.injEq, Prod.mk.injEq] at h
    obtain ⟨hw, hb⟩ := h
    subst hw; subst hb
    exact ⟨Cleared.cleared_refl w, fun c hc => absurd hc (List.not_mem_nil c), [],
      (List.append_nil buf).symm, Emitted.emitted_nothing w⟩
  | cons c cs ihc =>
    intro w buf w1 buf1 hv h
    rw [List.foldlM_cons] at h
    cases hc : writeTo f c w buf with
    | none => rw [hc] at h; simp at h
    | some r =>
      obtain ⟨w2, buf2⟩ := r
      rw [hc] at h
      simp only [Option.bind_eq_bind, Option.some_bind] at h
      obtain ⟨c1, k1, b1, e1, m1⟩ := ih c w buf w2 buf2 hv hc
      have hv2 : ∀ x, (w2.sprites x).mDirty.isEmpty = false →
          (w2.sprites x).mId ≠ EMPTY_SPRITE_ID := by
        intro x hx
        rw [c1.cleared_mId x]
        exact hv x (c1.dirty_before x hx)
      obtain ⟨c2, k2, b2, e2, m2⟩ := ihc w2 buf2 w1 buf1 hv2 h
      refine ⟨c1.cleared_trans c2, ?_, b1 ++ b2, ?_, Emitted.emitted_andThen c1 c2 m1 m2⟩
      · intro y hy
        rcases List.mem_cons.mp hy with hy | hy
        · subst hy
          exact c2.isEmpty_of_isEmpty y k1
        · exact k2 y hy
      · rw [e2, e1, List.append_assoc]

/-- The function writeTo clears dirty sets only; the sprite it is called on is clean
afterwards, and for every sprite that it has cleared it has appended the block of the sprite
and left the children of the sprite clean. -/
theorem writeTo_emits : ∀ (f : Nat) (a : Addr) (w : World F) (buf : DataBuffer F)
    (w1 : World F) (buf1 : DataBuffer F),
    (∀ x, (w.sprites x).mDirty.isEmpty = false → (w.sprites x).mId ≠ EMPTY_SPRITE_ID) →
    writeTo f a w buf = some (w1, buf1) →
    Cleared w w1 ∧ (w1.sprites a).mDirty.isEmpty = true
      ∧ ∃ blocks, buf1 = buf ++ blocks ∧ Emitted w w1 blocks := by
  intro f
  induction f with
  | zero => intro a w buf w1 buf1 _ h; simp [writeTo] at h
  | succ f ih =>
    intro a w buf w1 buf1 hv h
    by_cases hd : (w.sprites a).mDirty.isEmpty = true
    · simp only [writeTo, hd, if_true, Option.some.injEq, Prod.mk.injEq] at h
      obtain ⟨hw, hb⟩ := h
      subst hw; subst hb
      exact ⟨Cleared.cleared_refl w, hd, [], (List.append_nil buf).symm, Emitted.emitted_nothing w⟩
    · have hd1 : (w.sprites a).mDirty.isEmpty = false := by simpa using hd
      have hid := hv a hd1
      rw [writeTo_dirty_eq f a w buf hid hd1] at h
      have c0 := Cleared.modify_clear w a
      have hv0 : ∀ x, ((w.modify a (fun s => { s with mDirty := s.mDirty.clear })).sprites
          x).mDirty.isEmpty = false →
          ((w.modify a (fun s => { s with mDirty := s.mDirty.clear })).sprites x).mId
            ≠ EMPTY_SPRITE_ID := by
        intro x hx
        rw [c0.cleared_mId x]
        exact hv x (c0.dirty_before x hx)
      obtain ⟨c1, k1, b1, e1, m1⟩ := writeTo_children_emits f ih _ _ _ _ _ hv0 h
      have ha0 : ((w.modify a (fun s => { s with mDirty := s.mDirty.clear })).sprites
          a).mDirty.isEmpty = true := by
        simp [DirtyState.clear, DirtyState.isEmpty]
      refine ⟨c0.cleared_trans c1, c1.isEmpty_of_isEmpty a ha0, specSpriteBlock a w ++ b1, ?_, ?_⟩
      · rw [e1, List.append_assoc]
      · intro x hx hx1
        by_cases hxa : x = a
        · subst hxa
          exact ⟨(List.prefix_append _ _).isInfix, k1⟩
        · have hsame : (w.modify a (fun s => { s with mDirty := s.mDirty.clear })).sprites x
              = w.sprites x := modify_sprites_ne _ _ hxa
          obtain ⟨i2, k2⟩ := m1 x (by rw [hsame]; exact hx) hx1
          rw [specSpriteBlock_congr x hsame (fun b => c0.cleared_mId b)] at i2
          rw [hsame] at k2
          exact ⟨List.IsInfix.trans i2 (List.suffix_append _ _).isInfix, k2⟩

/-- The function writeTo keeps the dirty sets in step with the tree. -/
theorem writeTo_sync {f : Nat} {a : Addr} {w w1 : World F} {buf buf1 : DataBuffer F}
    (hinv : TreeInv (parentOf w) (childrenOf w))
    (hv : ∀ x, (w.sprites x).mDirty.isEmpty = false → (w.sprites x).mId ≠ EMPTY_SPRITE_ID)
    (hs : Sync w) (h : writeTo f a w buf = some (w1, buf1)) : Sync w1 := by
  obtain ⟨c1, _, b1, _, m1⟩ := writeTo_emits f a w buf w1 buf1 hv h
  intro x p hx hp
  have hx0 := c1.dirty_before x hx
  rw [c1.cleared_mParent x] at hp
  have hp0 := hs x p hx0 hp
  by_cases hp1 : (w1.sprites p).mDirty.isEmpty = true
  · have hmem : x ∈ (w.sprites p).mChildren := ((hinv x p).2).mpr hp
    have := (m1 p (isEmpty_false_of_has hp0) hp1).2 x hmem
    rw [this] at hx
    exact absurd hx (by simp)
  · have hp1f : (w1.sprites p).mDirty.isEmpty = false := by simpa using hp1
    rw [c1.eq_of_dirty p hp1f]
    exact hp0

/-- In a state that is in step with the tree, writeTo leaves no sprite below the sprite it
is called on dirty. -/
theorem writeTo_reaches {f : Nat} {a : Addr} {w w1 : World F} {buf buf1 : DataBuffer F}
    (hinv : TreeInv (parentOf w) (childrenOf w))
    (hv : ∀ x, (w.sprites x).mDirty.isEmpty = false → (w.sprites x).mId ≠ EMPTY_SPRITE_ID)
    (hs : Sync w) (h : writeTo f a w buf = some (w1, buf1)) :
    ∀ (j : Nat) (x : Addr), ancestorAt (parentOf w) j x = some a →
      (w1.sprites x).mDirty.isEmpty = true := by
  obtain ⟨c1, k1, b1, _, m1⟩ := writeTo_emits f a w buf w1 buf1 hv h
  intro j
  induction j with
  | zero =>
    intro x hx
    simp only [ancestorAt, Option.some.injEq] at hx
    subst hx
    exact k1
  | succ j ih =>
    intro x hx
    rw [ancestorAt] at hx
    cases hp : parentOf w x with
    | none => rw [hp] at hx; simp at hx
    | some q =>
      rw [hp] at hx
      simp only at hx
      have hq1 := ih q hx
      by_cases hx0 : (w.sprites x).mDirty.isEmpty = true
      · exact c1.isEmpty_of_isEmpty x hx0
      · have hx0f : (w.sprites x).mDirty.isEmpty = false := by simpa using hx0
        have hq0 := hs x q hx0f hp
        have hmem : x ∈ (w.sprites q).mChildren := ((hinv x q).2).mpr hp
        exact (m1 q (isEmpty_false_of_has hq0) hq1).2 x hmem

end WriteCycle

section WriteInvariant

variable {F : Type} [LinearOrderedCommRing F]

/-- Freshly constructed sprites satisfy the invariant. -/
theorem FreshSprites.writeInv {n : Nat} {w : World F} (h : FreshSprites n w) : WriteInv n w := by
  refine ⟨?_, ?_, ?_, ?_, ?_, ?_⟩
  · intro s p
    simp only [parentOf, childrenOf, (h p).2.1, (h s).1, List.count_nil, Nat.zero_le,
      List.not_mem_nil, false_iff, true_and]
    simp
  · intro b _; exact (h b).1
  · intro b hb; exact (h b).2.2.2 hb
  · intro x p hp
    rw [(h x).1] at hp
    exact absurd hp (by simp)
  · intro x hx; exact (h x).2.2.1 hx
  · intro x p _ hp
    rw [(h x).1] at hp
    exact absurd hp (by simp)

/-- The invariant depends on the parent pointers, child lists, dirty sets and identifiers
only. -/
theorem WriteInv.of_fields {n : Nat} {w w1 : World F} (h : WriteInv n w)
    (hf : ∀ b, (w1.sprites b).mParent = (w.sprites b).mParent
      ∧ (w1.sprites b).mChildren = (w.sprites b).mChildren
      ∧ (w1.sprites b).mDirty = (w.sprites b).mDirty
      ∧ (w1.sprites b).mId = (w.sprites b).mId) : WriteInv n w1 := by
  obtain ⟨hinv, hpb, hdb, hpt, hid, hs⟩ := h
  have hP : parentOf w1 = parentOf w := funext (fun b => (hf b).1)
  have hC : childrenOf w1 = childrenOf w := funext (fun b => (hf b).2.1)
  have fr : (ParentTargetsBelow n w → ParentTargetsBelow n w1)
      ∧ (DirtyBelow n w → DirtyBelow n w1)
      ∧ (∀ a, SyncBut a w → SyncBut a w1)
      ∧ (Sync w → Sync w1) := dirty_frame (fun b => ⟨(hf b).1, (hf b).2.2.1⟩)
  refine ⟨?_, ?_, fr.2.1 hdb, fr.1 hpt, ?_, fr.2.2.2 hs⟩
  · rw [hP, hC]; exact hinv
  · intro b hb
    rw [(hf b).1]; exact hpb b hb
  · intro x hx
    rw [(hf x).2.2.2]; exact hid x hx

/-- The invariant after a change of fields that the tree and the diff do not read. -/
theorem WriteInv.modify_other {n : Nat} {w : World F} (h : WriteInv n w) (a : Addr)
    (f : Sprite F → Sprite F)
    (hf : ∀ s, (f s).mParent = s.mParent ∧ (f s).mChildren = s.mChildren
      ∧ (f s).mDirty = s.mDirty ∧ (f s).mId = s.mId) : WriteInv n (w.modify a f) := by
  refine h.of_fields ?_
  intro b
  by_cases hb : b = a
  · subst hb
    simp only [modify_sprites_same]
    exact hf _
  · rw [modify_sprites_ne _ _ hb]
    exact ⟨rfl, rfl, rfl, rfl⟩

/-- A dirty sprite of a state with the invariant has a valid identifier. -/
theorem WriteInv.dirty_named {n : Nat} {w : World F} (h : WriteInv n w) :
    ∀ x, (w.sprites x).mDirty.isEmpty = false → (w.sprites x).mId ≠ EMPTY_SPRITE_ID := by
  intro x hx
  apply h.2.2.2.2.1 x
  by_contra hge
  have := h.2.2.1 x (Nat.le_of_not_lt hge)
  rw [this] at hx
  exact absurd hx (by simp)

/-- The function markAsDirty on a sprite below `n` returns and keeps the invariant. -/
theorem markAsDirty_writeInv {n fuel : Nat} (a : Addr) (dirty : DirtyState) {w : World F}
    (h : WriteInv n w) (ha : a < n) (hfuel : n < fuel) :
    ∃ w1, markAsDirty fuel a dirty w = some w1 ∧ WriteInv n w1 := by
  obtain ⟨hinv, hpb, hdb, hpt, hid, hs⟩ := h
  obtain ⟨w1, h1⟩ := markAsDirty_total a dirty hpb hfuel
  refine ⟨w1, h1, ?_, ?_, markAsDirty_dirtyBelow h1 ha hpt hdb, markAsDirty_parentTargets h1 hpt,
    ?_, markAsDirty_sync h1 (hs.syncBut a)⟩
  · rw [markAsDirty_parentOf h1, markAsDirty_childrenOf h1]; exact hinv
  · intro b hb
    have e := congrFun (markAsDirty_parentOf h1) b
    simp only [parentOf] at e
    rw [e]; exact hpb b hb
  · intro x hx
    rw [(markAsDirty_treeOnly h1).mId_eq x]; exact hid x hx

/-- The function setFlag on a sprite below `n` returns and keeps the invariant. -/
theorem setFlag_writeInv {n fuel : Nat} (a : Addr) (newBit : Nat) (isOn : Bool)
    (dirty : DirtyState) {w : World F} (h : WriteInv n w) (ha : a < n) (hfuel : n < fuel) :
    ∃ w1, setFlag fuel a newBit isOn dirty w = some w1 ∧ WriteInv n w1 := by
  unfold setFlag
  cases isOn with
  | true =>
    simp only [if_true]
    split
    · exact ⟨w, rfl, h⟩
    · exact markAsDirty_writeInv a dirty
        (h.modify_other a _ (fun s => ⟨rfl, rfl, rfl, rfl⟩)) ha hfuel
  | false =>
    simp only [Bool.false_eq_true, if_false]
    split
    · exact ⟨w, rfl, h⟩
    · exact markAsDirty_writeInv a dirty
        (h.modify_other a _ (fun s => ⟨rfl, rfl, rfl, rfl⟩)) ha hfuel

/-- The number of sprites to write is at most the number of sprites. -/
theorem pendingWrites_le_bound (n : Nat) (w : World F) : pendingWrites n w ≤ n := by
  unfold pendingWrites
  exact le_trans (Finset.card_filter_le _ _) (le_of_eq (Finset.card_range n))

/-- The function writeTo returns and keeps the invariant. -/
theorem writeTo_writeInv {n fuel : Nat} (a : Addr) (buf : DataBuffer F) {w : World F}
    (h : WriteInv n w) (hfuel : n < fuel) :
    ∃ w1 buf1, writeTo fuel a w buf = some (w1, buf1) ∧ WriteInv n w1 := by
  obtain ⟨w1, buf1, h1, c1⟩ := writeTo_total n fuel a w buf h.2.2.1
    (lt_of_le_of_lt (pendingWrites_le_bound n w) hfuel)
  have hs := writeTo_sync h.1 h.dirty_named h.2.2.2.2.2 h1
  obtain ⟨hinv, hpb, hdb, hpt, hid, _⟩ := h
  have hP : parentOf w1 = parentOf w := funext (fun b => c1.cleared_mParent b)
  have hC : childrenOf w1 = childrenOf w := funext (fun b => c1.cleared_mChildren b)
  refine ⟨w1, buf1, h1, ?_, ?_, c1.dirtyBelow hdb, ?_, ?_, hs⟩
  · rw [hP, hC]; exact hinv
  · intro b hb
    rw [c1.cleared_mParent b]; exact hpb b hb
  · intro x p hp
    rw [c1.cleared_mParent x] at hp
    exact hpt x p hp
  · intro x hx
    rw [c1.cleared_mId x]; exact hid x hx

/-- The functions addChild and removeChild on sprites below `n` return and keep the
invariant. -/
theorem treeCall_writeInv {n fuel : Nat} (p c : Addr) {w : World F}
    (h : WriteInv n w) (hp : p < n) (hc : c < n) (hfuel : n + 7 ≤ fuel) :
    (∃ w1, addChild fuel p c w = some w1 ∧ WriteInv n w1)
    ∧ (∃ w1, removeChild fuel p c w = some w1 ∧ WriteInv n w1) := by
  obtain ⟨hinv, hpb, hdb, hpt, hid, hs⟩ := h
  obtain ⟨hA, hR, _, _⟩ := tree_sync (F := F) n fuel
  obtain ⟨tA, tR, _, _⟩ := tree_treeOnly (F := F) fuel
  constructor
  · have ht : ∃ w1, runCall fuel (TreeCall.addChild p c) w = some w1 ∧ ParentsBelow n w1 :=
      runCall_total hinv hpb rfl ⟨hp, hc⟩ hfuel
    obtain ⟨w1, h1, hpb1⟩ := ht
    have hinv1 : TreeInv (parentOf w1) (childrenOf w1) := runCall_treeInv hinv h1
    simp only [runCall] at h1
    obtain ⟨t1, d1, _, s1⟩ := hA p c w w1 h1 hp hc hpt hdb (hs.syncBut c)
    refine ⟨w1, h1, hinv1, hpb1, d1, t1, ?_, s1 hs⟩
    intro x hx
    rw [(tA p c w w1 h1).mId_eq x]; exact hid x hx
  · have ht : ∃ w1, runCall fuel (TreeCall.removeChild p c) w = some w1 ∧ ParentsBelow n w1 :=
      runCall_total hinv hpb rfl ⟨hp, hc⟩ hfuel
    obtain ⟨w1, h1, hpb1⟩ := ht
    have hinv1 : TreeInv (parentOf w1) (childrenOf w1) := runCall_treeInv hinv h1
    simp only [runCall] at h1
    obtain ⟨t1, d1, _, s1⟩ := hR p c w w1 h1 hc hpt hdb (hs.syncBut c)
    refine ⟨w1, h1, hinv1, hpb1, d1, t1, ?_, s1 hs⟩
    intro x hx
    rw [(tR p c w w1 h1).mId_eq x]; exact hid x hx

/-- Every call on sprites below `n` returns and keeps the invariant. -/
theorem runWriteCall_writeInv (env : MathEnv F) {n fuel : Nat} (call : WriteCall F)
    {w : World F} (h : WriteInv n w) (hc : call.named n) (hfuel : n + 7 ≤ fuel) :
    ∃ w1, runWriteCall env fuel call w = some w1 ∧ WriteInv n w1 := by
  have hlt : n < fuel := by omega
  cases call with
  | setPosition a pos =>
    simp only [runWriteCall, setPosition]
    split
    · exact ⟨w, rfl, h⟩
    · exact markAsDirty_writeInv a _ (h.modify_other a _ (fun s => ⟨rfl, rfl, rfl, rfl⟩)) hc hlt
  | setScale a scale =>
    simp only [runWriteCall, setScale]
    split
    · exact ⟨w, rfl, h⟩
    · exact markAsDirty_writeInv a _ (h.modify_other a _ (fun s => ⟨rfl, rfl, rfl, rfl⟩)) hc hlt
  | setCenter a center =>
    exact ⟨_, rfl, h.modify_other a _ (fun s => ⟨rfl, rfl, rfl, rfl⟩)⟩
  | setRotationZ a rotZ =>
    refine ⟨_, rfl, ?_⟩
    unfold setRotationZ
    split
    · exact h
    · exact h.modify_other a _ (fun s => ⟨rfl, rfl, rfl, rfl⟩)
  | setRotation a rot =>
    refine ⟨_, rfl, ?_⟩
    unfold setRotation
    split
    · exact h
    · exact h.modify_other a _ (fun s => ⟨rfl, rfl, rfl, rfl⟩)
  | setZLevel a zlevel =>
    exact ⟨_, rfl, h.modify_other a _ (fun s => ⟨rfl, rfl, rfl, rfl⟩)⟩
  | move a delta =>
    exact ⟨_, rfl, h.modify_other a _ (fun s => ⟨rfl, rfl, rfl, rfl⟩)⟩
  | setSize a width height depth =>
    simp only [runWriteCall, setSize]
    split
    · exact ⟨w, rfl, h⟩
    · exact markAsDirty_writeInv a _ (h.modify_other a _ (fun s => ⟨rfl, rfl, rfl, rfl⟩)) hc hlt
  | setSize2 a width height =>
    simp only [runWriteCall, setSize2, setSize]
    split
    · exact ⟨w, rfl, h⟩
    · exact markAsDirty_writeInv a _ (h.modify_other a _ (fun s => ⟨rfl, rfl, rfl, rfl⟩)) hc hlt
  | setColor a color =>
    simp only [runWriteCall, setColor]
    split
    · exact ⟨w, rfl, h⟩
    · exact markAsDirty_writeInv a _ (h.modify_other a _ (fun s => ⟨rfl, rfl, rfl, rfl⟩)) hc hlt
  | setOpacity a opacity =>
    simp only [runWriteCall, setOpacity]
    split
    · exact ⟨w, rfl, h⟩
    · exact markAsDirty_writeInv a _ (h.modify_other a _ (fun s => ⟨rfl, rfl, rfl, rfl⟩)) hc hlt
  | setDrawSorted a flag => exact setFlag_writeInv a _ _ _ h hc hlt
  | setTransparent a flag => exact setFlag_writeInv a _ _ _ h hc hlt
  | showSprite a => exact setFlag_writeInv a _ _ _ h hc hlt
  | hide a => exact setFlag_writeInv a _ _ _ h hc hlt
  | enable a flag => exact setFlag_writeInv a _ _ _ h hc hlt
  | setCheckBounds a flag =>
    exact ⟨_, rfl, h.modify_other a _ (fun s => ⟨rfl, rfl, rfl, rfl⟩)⟩
  | addChild p c => exact (treeCall_writeInv p c h hc.1 hc.2 hfuel).1
  | removeChild p c => exact (treeCall_writeInv p c h hc.1 hc.2 hfuel).2
  | writeTo a =>
    obtain ⟨w1, buf1, h1, hi⟩ := writeTo_writeInv a [] h hlt
    exact ⟨w1, by simp [runWriteCall, h1], hi⟩

/-- Every sequence of calls on sprites below `n` returns and keeps the invariant. -/
theorem runWriteCalls_writeInv (env : MathEnv F) {n fuel : Nat} :
    ∀ (calls : List (WriteCall F)) (w : World F), WriteInv n w →
      (∀ c ∈ calls, c.named n) → n + 7 ≤ fuel →
      ∃ w1, runWriteCalls env fuel calls w = some w1 ∧ WriteInv n w1 := by
  intro calls
  induction calls with
  | nil => intro w h _ _; exact ⟨w, rfl, h⟩
  | cons call calls ih =>
    intro w h hc hfuel
    obtain ⟨w1, h1, i1⟩ := runWriteCall_writeInv env call h (hc call (List.mem_cons_self _ _))
      hfuel
    obtain ⟨w2, h2, i2⟩ := ih w1 i1 (fun c hm => hc c (List.mem_cons_of_mem _ hm)) hfuel
    refine ⟨w2, ?_, i2⟩
    simp only [runWriteCalls, h1]
    exact h2

end WriteInvariant

section WriteCycleClaim

variable {F : Type} [LinearOrderedCommRing F]

/-- The function registerSprite keeps the sprites. -/
theorem registerSprite_sprites (c : Addr) (w : World F) :
    (registerSprite c w).sprites = w.sprites := by
  unfold registerSprite
  split
  · rfl
  · rfl

/-- The constructor builds a sprite without parent and without children that has the given
identifier, and leaves the other sprites as they are. -/
theorem newSprite_run (fuel : Nat) (blobType : Int) (a : Addr) (id : sprite_id_t) (w : World F)
    (hid : id ≠ EMPTY_SPRITE_ID) :
    ∃ w1, newSprite fuel blobType a id w = some w1
      ∧ (∀ b, b ≠ a → w1.sprites b = w.sprites b)
      ∧ (w1.sprites a).mParent = none ∧ (w1.sprites a).mChildren = []
      ∧ (w1.sprites a).mId = id := by
  have hne : ¬ (EMPTY_SPRITE_ID = id) := fun h => hid h.symm
  unfold newSprite init setSpriteId
  simp only [modify_sprites_same, Sprite.uninit, hne, if_false, ne_eq, not_true_eq_false,
    hid, not_false_eq_true, if_true]
  unfold markAsDirty
  simp only [modify_sprites_same, registerSprite_sprites, markAsDirtyLoop_none]
  refine ⟨_, rfl, ?_, ?_, ?_, ?_⟩
  · intro b hb
    simp only [modify_sprites_ne _ _ hb, registerSprite_sprites]
  · simp only [modify_sprites_same, registerSprite_sprites]
  · simp only [modify_sprites_same, registerSprite_sprites]
  · simp only [modify_sprites_same, registerSprite_sprites]

/-- No sprite is in use in the empty process. -/
theorem empty_fresh : FreshSprites 0 (World.empty : World F) := by
  intro x
  exact ⟨rfl, rfl, fun h => absurd h (Nat.not_lt_zero x), fun _ => rfl⟩

/-- Constructing a sprite with a valid identifier at the next address gives freshly
constructed sprites again. -/
theorem newSprite_fresh (fuel : Nat) (blobType : Int) (n : Nat) (id : sprite_id_t)
    (w : World F) (h : FreshSprites n w) (hid : id ≠ EMPTY_SPRITE_ID) :
    ∃ w1, newSprite fuel blobType n id w = some w1 ∧ FreshSprites (n + 1) w1 := by
  obtain ⟨w1, h1, ho, hp, hc, hi⟩ := newSprite_run fuel blobType n id w hid
  refine ⟨w1, h1, ?_⟩
  intro x
  by_cases hx : x = n
  · subst hx
    refine ⟨hp, hc, fun _ => by rw [hi]; exact hid, fun hge => ?_⟩
    exact absurd hge (Nat.not_succ_le_self x)
  · rw [ho x hx]
    refine ⟨(h x).1, (h x).2.1, fun hlt => ?_, fun hge => ?_⟩
    · exact (h x).2.2.1 (lt_of_le_of_ne (Nat.lt_succ_iff.mp hlt) hx)
    · exact (h x).2.2.2 (Nat.le_of_succ_le hge)

/-- C25: no dirty sprite is skipped by a write cycle. From freshly constructed sprites with
valid identifiers (the sprites below `n`), every sequence of attribute setters, `addChild`,
`removeChild` and `writeTo` calls on them returns, and in the state `w` that it leaves every
sprite with a non-empty dirty set has a parent, if any, whose dirty set contains the child
bit. Consequently `writeTo` on any sprite `root` of that state, although it returns at once
on an empty dirty set, returns with the block of every sprite of the subtree of `root` whose
dirty set was non-empty appended to the buffer, and with these dirty sets cleared. -/
theorem no_dirty_sprite_is_skipped (env : MathEnv F) (n fuel : Nat)
    (calls : List (WriteCall F)) (w0 : World F) (hfresh : FreshSprites n w0)
    (hnamed : ∀ c ∈ calls, c.named n) (hfuel : n + 7 ≤ fuel) :
    ∃ w, runWriteCalls env fuel calls w0 = some w
      ∧ (∀ x p, isDirty x w = true → getParent x w = some p →
          (w.sprites p).mDirty.has CHILD_DIRTY = true)
      ∧ ∀ (root : Addr) (buf : DataBuffer F),
          ∃ w1 blocks, writeTo fuel root w buf = some (w1, buf ++ blocks)
            ∧ ∀ x, (x = root ∨ IsDescendant (parentOf w) x root) → isDirty x w = true →
                List.IsInfix (specSpriteBlock x w) blocks ∧ isDirty x w1 = false := by
  obtain ⟨w, hrun, hw⟩ := runWriteCalls_writeInv env calls w0 hfresh.writeInv hnamed hfuel
  refine ⟨w, hrun, ?_, ?_⟩
  · intro x p hx hp
    simp only [isDirty, Bool.not_eq_true', getParent] at hx hp
    exact hw.2.2.2.2.2 x p hx hp
  · intro root buf
    have hlt : n < fuel := by omega
    obtain ⟨w1, buf1, h1, _⟩ := writeTo_writeInv root buf hw hlt
    obtain ⟨_, _, blocks, hb, hem⟩ := writeTo_emits fuel root w buf w1 buf1 hw.dirty_named h1
    have hreach := writeTo_reaches hw.1 hw.dirty_named hw.2.2.2.2.2 h1
    refine ⟨w1, blocks, by rw [h1, hb], ?_⟩
    intro x hx hd
    simp only [isDirty, Bool.not_eq_true'] at hd
    have hclean : (w1.sprites x).mDirty.isEmpty = true := by
      rcases hx with hx | ⟨j, hj⟩
      · exact hreach 0 x (by rw [hx]; rfl)
      · exact hreach (j + 1) x hj
    refine ⟨(hem x hd hclean).1, ?_⟩
    simp only [isDirty, hclean, Bool.not_true]

end WriteCycleClaim

/-- The two sprites of `freshPair` are freshly constructed. -/
theorem freshPair_fresh : FreshSprites 2 freshPair := by
  obtain ⟨w1, h1, f1⟩ := newSprite_fresh 4 exampleBlobType 0 1 (World.empty : World ℤ)
    empty_fresh (by decide)
  obtain ⟨w2, h2, f2⟩ := newSprite_fresh 4 exampleBlobType 1 2 w1 f1 (by decide)
  have e : freshPair = w2 := by
    simp only [freshPair, h1, Option.some_bind, h2, Option.getD_some]
  rw [e]
  exact f2

/-- C25, at two constructed sprites and the calls of `frameCalls`: the calls return, the
dirty sets are in step with the tree afterwards, and `writeTo` on the root returns with the
blocks of the dirty sprites. -/
theorem no_dirty_sprite_is_skipped_witness :
    FreshSprites 2 freshPair
    ∧ ∃ w, runWriteCalls exampleEnv 9 frameCalls freshPair = some w
      ∧ (∀ x p, isDirty x w = true → getParent x w = some p →
          (w.sprites p).mDirty.has CHILD_DIRTY = true)
      ∧ ∀ (root : Addr) (buf : DataBuffer ℤ),
          ∃ w1 blocks, writeTo 9 root w buf = some (w1, buf ++ blocks)
            ∧ ∀ x, (x = root ∨ IsDescendant (parentOf w) x root) → isDirty x w = true →
                List.IsInfix (specSpriteBlock x w) blocks ∧ isDirty x w1 = false :=
  ⟨freshPair_fresh,
    no_dirty_sprite_is_skipped exampleEnv 2 9 frameCalls freshPair freshPair_fresh
      (by simp [frameCalls, WriteCall.named]) (by decide)⟩

/-- The calls of `frameCalls` evaluated: the frame written in the middle has cleared both
sprites; the later calls leave the child dirty (flags, parent, opacity) and the root with the
child bit, and `writeTo` on the root then writes the block of the root and the block of the
child. -/
theorem frameCalls_write :
    ((runWriteCalls exampleEnv 9 frameCalls freshPair).bind fun w =>
        (writeTo 9 0 w []).map fun r =>
          ((w.sprites 0).mDirty, (w.sprites 1).mDirty, r.2,
            (r.1.sprites 0).mDirty, (r.1.sprites 1).mDirty))
      = some (⟨4⟩, ⟨266⟩,
          [Item.char 9, Item.char 1, Item.spriteId 1, Item.char 0,
            Item.char 9, Item.char 1, Item.spriteId 2, Item.char 2, Item.spriteId 1,
            Item.char 4, Item.int 2, Item.char 8, Item.float 0, Item.char 0],
          ⟨0⟩, ⟨0⟩) := by
  decide!

/-! ### The hit test is a sound and complete search (claim C26) -/



section Scene

variable {F : Type} [LinearOrderedCommRing F]

/-- Two states with the same scene agree on every field of a sprite that is not a transform
cache, and on the effective local transform. -/
theorem sceneOf_fields (env : MathEnv F) {w w1 : World F} (h : sceneOf env w = sceneOf env w1)
    (b : Addr) :
    (w.sprites b).mParent = (w1.sprites b).mParent
    ∧ (w.sprites b).mChildren = (w1.sprites b).mChildren
    ∧ (w.sprites b).mWidth = (w1.sprites b).mWidth
    ∧ (w.sprites b).mHeight = (w1.sprites b).mHeight
    ∧ (w.sprites b).mSpriteFlags = (w1.sprites b).mSpriteFlags
    ∧ (w.sprites b).mZLevel = (w1.sprites b).mZLevel
    ∧ effectiveTransform env (w.sprites b) = effectiveTransform env (w1.sprites b) := by
  have hb : sceneSprite env (w.sprites b) = sceneSprite env (w1.sprites b) :=
    congrFun (congrArg World.sprites h) b
  have h1 := congrArg Sprite.mParent hb
  have h2 := congrArg Sprite.mChildren hb
  have h3 := congrArg Sprite.mWidth hb
  have h4 := congrArg Sprite.mHeight hb
  have h5 := congrArg Sprite.mSpriteFlags hb
  have h6 := congrArg Sprite.mZLevel hb
  have h7 := congrArg Sprite.mTransformation hb
  exact ⟨h1, h2, h3, h4, h5, h6, h7⟩

/-- The scene after the replacement of one sprite by a sprite with the same scene. -/
theorem sceneOf_modify (env : MathEnv F) (w : World F) (a : Addr) (f : Sprite F → Sprite F)
    (hf : sceneSprite env (f (w.sprites a)) = sceneSprite env (w.sprites a)) :
    sceneOf env (w.modify a f) = sceneOf env w := by
  unfold sceneOf
  have : (fun b => sceneSprite env ((w.modify a f).sprites b))
      = fun b => sceneSprite env (w.sprites b) := by
    funext b
    by_cases hb : b = a
    · subst hb
      simp only [modify_sprites_same]
      exact hf
    · rw [modify_sprites_ne _ _ hb]
  rw [this]
  rfl

/-- The function buildTransform keeps the scene. -/
theorem buildTransform_scene (env : MathEnv F) (a : Addr) (w : World F) :
    sceneOf env (buildTransform env a w) = sceneOf env w := by
  unfold buildTransform
  split
  · rfl
  · rename_i hu
    apply sceneOf_modify
    have hu1 : (w.sprites a).mUpdateTransform = true := by simpa using hu
    simp only [sceneSprite, effectiveTransform, hu1, if_true, Bool.true_eq_false, if_false]

/-- After buildTransform the local cache of the sprite holds its effective transform. -/
theorem buildTransform_effective (env : MathEnv F) (a : Addr) (w : World F) :
    ((buildTransform env a w).sprites a).mTransformation
      = effectiveTransform env (w.sprites a) := by
  unfold buildTransform effectiveTransform
  by_cases hu : (w.sprites a).mUpdateTransform = false
  · rw [if_pos hu, if_pos hu]
  · rw [if_neg hu, if_neg hu]
    simp only [modify_sprites_same]

/-- A write to the global cache keeps the scene. -/
theorem sceneOf_modify_global (env : MathEnv F) (w : World F) (a : Addr)
    (g : Sprite F → Matrix44 F) :
    sceneOf env (w.modify a (fun s => { s with mGlobalTransform := g s })) = sceneOf env w := by
  apply sceneOf_modify
  rfl

/-- The function buildGlobalTransform and its loop keep the scene. -/
theorem buildGlobalTransform_scene_aux (env : MathEnv F) : ∀ (fuel : Nat),
    (∀ (a : Addr) (w w1 : World F), buildGlobalTransform env fuel a w = some w1 →
      sceneOf env w1 = sceneOf env w)
    ∧ (∀ (a : Addr) (q : Option Addr) (w w1 : World F),
      buildGlobalTransformLoop env fuel a q w = some w1 → sceneOf env w1 = sceneOf env w) := by
  intro fuel
  induction fuel with
  | zero =>
    refine ⟨?_, ?_⟩
    · intro a w w1 h; simp [buildGlobalTransform] at h
    · intro a q w w1 h
      cases q with
      | none =>
        simp only [buildGlobalTransformLoop, Option.some.injEq] at h
        rw [← h]
      | some p => simp [buildGlobalTransformLoop] at h
  | succ fuel ih =>
    obtain ⟨ihb, ihl⟩ := ih
    refine ⟨?_, ?_⟩
    · intro a w w1 h
      simp only [buildGlobalTransform] at h
      rw [ihl _ _ _ _ h, sceneOf_modify_global, buildTransform_scene]
    · intro a q w w1 h
      cases q with
      | none =>
        simp only [buildGlobalTransformLoop, Option.some.injEq] at h
        rw [← h]
      | some p =>
        simp only [buildGlobalTransformLoop] at h
        cases hb : buildGlobalTransform env fuel p w with
        | none => rw [hb] at h; simp at h
        | some w2 =>
          rw [hb] at h
          simp only at h
          rw [ihl _ _ _ _ h, sceneOf_modify_global, ihb _ _ _ hb]

/-- The function buildGlobalTransform keeps the scene. -/
theorem buildGlobalTransform_scene (env : MathEnv F) {fuel : Nat} {a : Addr} {w w1 : World F}
    (h : buildGlobalTransform env fuel a w = some w1) : sceneOf env w1 = sceneOf env w :=
  (buildGlobalTransform_scene_aux env fuel).1 a w w1 h

/-- Two runs of buildGlobalTransform on the same sprite in two states with the same scene,
with whatever fuel: the global caches that agreed before agree afterwards, and the global
cache of the sprite agrees afterwards. The same for the loop over the ancestors when the
global cache of the sprite agrees before. -/
theorem buildGlobalTransform_agree_aux (env : MathEnv F) : ∀ (fuel : Nat),
    (∀ (fuel1 : Nat) (a : Addr) (w v w1 v1 : World F), sceneOf env w = sceneOf env v →
      buildGlobalTransform env fuel a w = some w1 →
      buildGlobalTransform env fuel1 a v = some v1 →
      (∀ b, (w.sprites b).mGlobalTransform = (v.sprites b).mGlobalTransform →
        (w1.sprites b).mGlobalTransform = (v1.sprites b).mGlobalTransform)
      ∧ (w1.sprites a).mGlobalTransform = (v1.sprites a).mGlobalTransform)
    ∧ (∀ (fuel1 : Nat) (a : Addr) (q : Option Addr) (w v w1 v1 : World F),
      sceneOf env w = sceneOf env v →
      buildGlobalTransformLoop env fuel a q w = some w1 →
      buildGlobalTransformLoop env fuel1 a q v = some v1 →
      (∀ b, (w.sprites b).mGlobalTransform = (v.sprites b).mGlobalTransform →
        (w1.sprites b).mGlobalTransform = (v1.sprites b).mGlobalTransform)) := by
  intro fuel
  induction fuel with
  | zero =>
    refine ⟨?_, ?_⟩
    · intro fuel1 a w v w1 v1 _ h; simp [buildGlobalTransform] at h
    · intro fuel1 a q w v w1 v1 _ h h1
      cases q with
      | none =>
        rw [buildGlobalTransformLoop_none] at h h1
        simp only [Option.some.injEq] at h h1
        subst h; subst h1
        exact fun b hb => hb
      | some p => simp [buildGlobalTransformLoop] at h
  | succ fuel ih =>
    obtain ⟨ihb, ihl⟩ := ih
    refine ⟨?_, ?_⟩
    · intro fuel1 a w v w1 v1 hs h h1
      cases fuel1 with
      | zero => simp [buildGlobalTransform] at h1
      | succ fuel1 =>
        simp only [buildGlobalTransform, modify_sprites_same, buildTransform_mParent] at h h1
        have hpar : (w.sprites a).mParent = (v.sprites a).mParent := (sceneOf_fields env hs a).1
        rw [hpar] at h
        have hs2 : sceneOf env ((buildTransform env a w).modify a
              (fun s => { s with mGlobalTransform := s.mTransformation }))
            = sceneOf env ((buildTransform env a v).modify a
              (fun s => { s with mGlobalTransform := s.mTransformation })) := by
          rw [sceneOf_modify_global, sceneOf_modify_global, buildTransform_scene,
            buildTransform_scene, hs]
        have hloop := ihl fuel1 a _ _ _ _ _ hs2 h h1
        have ha : (((buildTransform env a w).modify a
              (fun s => { s with mGlobalTransform := s.mTransformation })).sprites
              a).mGlobalTransform
            = (((buildTransform env a v).modify a
              (fun s => { s with mGlobalTransform := s.mTransformation })).sprites
              a).mGlobalTransform := by
          simp only [modify_sprites_same, buildTransform_effective]
          exact (sceneOf_fields env hs a).2.2.2.2.2.2
        refine ⟨?_, hloop a ha⟩
        intro b hb
        by_cases hba : b = a
        · subst hba
          exact hloop b ha
        · apply hloop b
          rw [modify_sprites_ne _ _ hba, modify_sprites_ne _ _ hba]
          have e1 : ((buildTransform env a w).sprites b).mGlobalTransform
              = (w.sprites b).mGlobalTransform := by
            unfold buildTransform
            split
            · rfl
            · rw [modify_sprites_ne _ _ hba]
          have e2 : ((buildTransform env a v).sprites b).mGlobalTransform
              = (v.sprites b).mGlobalTransform := by
            unfold buildTransform
            split
            · rfl
            · rw [modify_sprites_ne _ _ hba]
          rw [e1, e2]; exact hb
    · intro fuel1 a q w v w1 v1 hs h h1
      cases q with
      | none =>
        rw [buildGlobalTransformLoop_none] at h h1
        simp only [Option.some.injEq] at h h1
        subst h; subst h1
        exact fun b hb => hb
      | some p =>
        cases fuel1 with
        | zero => simp [buildGlobalTransformLoop] at h1
        | succ fuel1 =>
          simp only [buildGlobalTransformLoop] at h h1
          cases hb : buildGlobalTransform env fuel p w with
          | none => rw [hb] at h; simp at h
          | some w2 =>
            cases hb1 : buildGlobalTransform env fuel1 p v with
            | none => rw [hb1] at h1; simp at h1
            | some v2 =>
              rw [hb] at h
              rw [hb1] at h1
              simp only [modify_sprites_same] at h h1
              obtain ⟨keep, hp⟩ := ihb fuel1 p w v w2 v2 hs hb hb1
              have hs2 : sceneOf env w2 = sceneOf env v2 := by
                rw [buildGlobalTransform_scene env hb, buildGlobalTransform_scene env hb1, hs]
              have hs3 : sceneOf env (w2.modify a (fun s =>
                    { s with mGlobalTransform :=
                        (w2.sprites p).mGlobalTransform * s.mGlobalTransform }))
                  = sceneOf env (v2.modify a (fun s =>
                    { s with mGlobalTransform :=
                        (v2.sprites p).mGlobalTransform * s.mGlobalTransform })) := by
                rw [sceneOf_modify_global, sceneOf_modify_global, hs2]
              have hq : ((w2.modify a (fun s =>
                    { s with mGlobalTransform :=
                        (w2.sprites p).mGlobalTransform * s.mGlobalTransform })).sprites p).mParent
                  = ((v2.modify a (fun s =>
                    { s with mGlobalTransform :=
                        (v2.sprites p).mGlobalTransform * s.mGlobalTransform })).sprites
                      p).mParent := (sceneOf_fields env hs3 p).1
              rw [hq] at h
              have hloop := ihl fuel1 a _ _ _ _ _ hs3 h h1
              intro b hbb
              apply hloop b
              by_cases hba : b = a
              · subst hba
                simp only [modify_sprites_same]
                rw [hp, keep b hbb]
              · rw [modify_sprites_ne _ _ hba, modify_sprites_ne _ _ hba]
                exact keep b hbb

end Scene

section HitSearch

variable {F : Type} [LinearOrderedCommRing F]

/-- The function contains keeps the scene. -/
theorem contains_scene (env : MathEnv F) {fuel : Nat} {a : Addr} {point : Vec3 F}
    {w w1 : World F} {b : Bool} (h : contains env fuel a point w = some (w1, b)) :
    sceneOf env w1 = sceneOf env w := by
  unfold contains at h
  cases hb : buildGlobalTransform env fuel a w with
  | none => rw [hb] at h; simp at h
  | some w2 =>
    rw [hb] at h
    simp only [Option.some.injEq, Prod.mk.injEq] at h
    rw [← h.1]
    exact buildGlobalTransform_scene env hb

/-- Two calls of contains on the same sprite in two states with the same scene, with
whatever fuel, give the same answer. -/
theorem contains_agree (env : MathEnv F) {fuel fuel1 : Nat} {a : Addr} {point : Vec3 F}
    {w v w1 v1 : World F} {b b1 : Bool} (hs : sceneOf env w = sceneOf env v)
    (h : contains env fuel a point w = some (w1, b))
    (h1 : contains env fuel1 a point v = some (v1, b1)) : b = b1 := by
  unfold contains at h h1
  cases hb : buildGlobalTransform env fuel a w with
  | none => rw [hb] at h; simp at h
  | some w2 =>
    cases hb1 : buildGlobalTransform env fuel1 a v with
    | none => rw [hb1] at h1; simp at h1
    | some v2 =>
      rw [hb] at h
      rw [hb1] at h1
      simp only [Option.some.injEq, Prod.mk.injEq] at h h1
      have hg := ((buildGlobalTransform_agree_aux env fuel).1 fuel1 a w v w2 v2 hs hb hb1).2
      have hs2 : sceneOf env w2 = sceneOf env v2 := by
        rw [buildGlobalTransform_scene env hb, buildGlobalTransform_scene env hb1, hs]
      have hf := sceneOf_fields env hs2 a
      rw [← h.2, ← h1.2, hg, hf.2.2.1, hf.2.2.2.1]

/-- In a state where the chain of parents of a sprite has ended after `n + 1` steps contains
returns with fuel `2 * n + 1`. -/
theorem contains_total (env : MathEnv F) (n fuel : Nat) (a : Addr) (point : Vec3 F)
    (w : World F) (ha : ancestorAt (parentOf w) (n + 1) a = none) (hf : 2 * n + 1 ≤ fuel) :
    ∃ w1 b, contains env fuel a point w = some (w1, b) := by
  obtain ⟨w1, h1⟩ := buildGlobalTransform_total env n fuel a w ha hf
  unfold contains
  rw [h1]
  exact ⟨_, _, rfl⟩

/-- Two states with the same scene have the same parent pointers. -/
theorem sceneOf_parentOf (env : MathEnv F) {w w1 : World F}
    (h : sceneOf env w = sceneOf env w1) : parentOf w = parentOf w1 :=
  funext (fun b => (sceneOf_fields env h b).1)

/-- Two states with the same scene agree on which sprites are enabled. -/
theorem sceneOf_isEnabled (env : MathEnv F) {w w1 : World F}
    (h : sceneOf env w = sceneOf env w1) (b : Addr) : isEnabled b w = isEnabled b w1 := by
  unfold isEnabled
  rw [(sceneOf_fields env h b).2.2.2.2.1]

/-- Two states with the same scene test the children of a sprite in the same order. -/
theorem sceneOf_hitOrder (env : MathEnv F) {w w1 : World F}
    (h : sceneOf env w = sceneOf env w1) (a : Addr) : hitOrder a w = hitOrder a w1 := by
  unfold hitOrder getZLevel
  rw [(sceneOf_fields env h a).2.2.2.2.1, (sceneOf_fields env h a).2.1]
  have hz : (fun i j : Addr => (w.sprites i).mZLevel ≤ (w.sprites j).mZLevel)
      = fun i j : Addr => (w1.sprites i).mZLevel ≤ (w1.sprites j).mZLevel := by
    funext i j
    rw [(sceneOf_fields env h i).2.2.2.2.2.1, (sceneOf_fields env h j).2.2.2.2.2.1]
  split
  · rfl
  · congr 1

/-- The sprites that getHit tests in its loop are the children of the sprite. -/
theorem mem_hitOrder (a c : Addr) (w : World F) :
    c ∈ hitOrder a w ↔ c ∈ (w.sprites a).mChildren := by
  unfold hitOrder
  split
  · exact List.mem_reverse
  · exact (List.perm_insertionSort _ _).mem_iff

/-- The subtree of a sprite is the sprite and the subtrees of its children. -/
theorem inSubtree_iff {w : World F} (hinv : TreeInv (parentOf w) (childrenOf w)) (x a : Addr) :
    InSubtree w x a ↔ x = a ∨ ∃ c, c ∈ (w.sprites a).mChildren ∧ InSubtree w x c := by
  constructor
  · intro h
    rcases h with h | h
    · exact Or.inl h
    · obtain ⟨c, hc, hx⟩ := isDescendant_cases _ h
      exact Or.inr ⟨c, ((hinv c a).2).mpr hc, hx⟩
  · intro h
    rcases h with h | ⟨c, hc, hx⟩
    · exact Or.inl h
    · have hpc : parentOf w c = some a := ((hinv c a).2).mp hc
      rcases hx with hx | hx
      · rw [hx]; exact Or.inr (isDescendant_child _ hpc)
      · exact Or.inr (isDescendant_trans _ hx (isDescendant_child _ hpc))

/-- The test of one sprite inside getHit, run in a state with the scene of `w0`: contains
returns, keeps the scene, and the sprite is enabled and contained exactly when it is hit in
`w0`. -/
theorem hit_test (env : MathEnv F) (n fuel0 fuel : Nat) (point : Vec3 F) (w0 w : World F)
    (hdepth : ∀ x, ancestorAt (parentOf w0) n x = none) (hs : sceneOf env w = sceneOf env w0)
    (hf0 : 2 * n + 1 ≤ fuel0) (hf : 2 * n + 1 ≤ fuel) (c : Addr) :
    ∃ w1 b, contains env fuel c point w = some (w1, b) ∧ sceneOf env w1 = sceneOf env w0
      ∧ ((isEnabled c w = true ∧ b = true) ↔ IsHit env fuel0 point w0 c) := by
  have hd0 : ancestorAt (parentOf w0) (n + 1) c = none := ancestorAt_none_succ _ _ _ (hdepth c)
  have hd : ancestorAt (parentOf w) (n + 1) c = none := by
    rw [sceneOf_parentOf env hs]; exact hd0
  obtain ⟨w1, b, h1⟩ := contains_total env n fuel c point w hd hf
  obtain ⟨v1, b0, h0⟩ := contains_total env n fuel0 c point w0 hd0 hf0
  have hb := contains_agree env hs h1 h0
  refine ⟨w1, b, h1, (contains_scene env h1).trans hs, ?_⟩
  unfold IsHit
  rw [h0, sceneOf_isEnabled env hs c, hb]
  simp

/-- The body of the loops of getHit for one child, given that getHit on the child is
right. -/
theorem hitChild_spec (env : MathEnv F) (n fuel0 fuel : Nat) (point : Vec3 F) (w0 : World F)
    (hdepth : ∀ x, ancestorAt (parentOf w0) n x = none)
    (hf0 : 2 * n + 1 ≤ fuel0) (hf : 2 * n + 1 ≤ fuel) (c : Addr)
    (hrec : ∀ w, sceneOf env w = sceneOf env w0 →
      ∃ w1 r, getHit env fuel c point w = some (w1, r) ∧ sceneOf env w1 = sceneOf env w0
        ∧ HitResult env fuel0 point w0 c r)
    (w : World F) (hs : sceneOf env w = sceneOf env w0) :
    ∃ w1 r, hitChild env fuel point (fun c w0 => getHit env fuel c point w0) c w = some (w1, r)
      ∧ sceneOf env w1 = sceneOf env w0 ∧ HitResult env fuel0 point w0 c r := by
  obtain ⟨w1, b, h1, s1, hb⟩ := hit_test env n fuel0 fuel point w0 w hdepth hs hf0 hf c
  unfold hitChild
  by_cases he : isEnabled c w = true
  · rw [if_pos he, h1]
    cases b with
    | true =>
      have hhit : IsHit env fuel0 point w0 c := hb.mp ⟨he, rfl⟩
      refine ⟨w1, some c, rfl, s1, ?_, ?_⟩
      · constructor
        · intro h; exact absurd h (by simp)
        · intro h; exact absurd hhit (h c (Or.inl rfl))
      · intro y hy
        simp only [Option.some.injEq] at hy
        rw [← hy]
        exact ⟨Or.inl rfl, hhit⟩
    | false => exact hrec w1 s1
  · rw [if_neg he]
    exact hrec w hs

/-- The loop of getHit over a list of sprites, given that the body is right for each of
them: the answer is null exactly when no sprite of their subtrees is hit, and a sprite that
it names is in one of the subtrees and is hit. -/
theorem firstHit_spec (env : MathEnv F) (fuel0 : Nat) (point : Vec3 F) (w0 : World F)
    (test : Addr → World F → Option (World F × Option Addr)) :
    ∀ (cs : List Addr),
      (∀ c ∈ cs, ∀ w, sceneOf env w = sceneOf env w0 →
        ∃ w1 r, test c w = some (w1, r) ∧ sceneOf env w1 = sceneOf env w0
          ∧ HitResult env fuel0 point w0 c r) →
      ∀ w, sceneOf env w = sceneOf env w0 →
        ∃ w1 r, firstHit test cs w = some (w1, r) ∧ sceneOf env w1 = sceneOf env w0
          ∧ (r = none ↔ ∀ c ∈ cs, ∀ x, InSubtree w0 x c → ¬ IsHit env fuel0 point w0 x)
          ∧ (∀ y, r = some y → ∃ c ∈ cs, InSubtree w0 y c ∧ IsHit env fuel0 point w0 y) := by
  intro cs
  induction cs with
  | nil =>
    intro _ w hs
    refine ⟨w, none, rfl, hs, ?_, ?_⟩
    · constructor
      · intro _ c hc; exact absurd hc (List.not_mem_nil c)
      · intro _; rfl
    · intro y hy; exact absurd hy (by simp)
  | cons c cs ih =>
    intro htest w hs
    obtain ⟨w1, r, h1, s1, hr⟩ := htest c (List.mem_cons_self _ _) w hs
    cases r with
    | some y =>
      refine ⟨w1, some y, by simp only [firstHit, h1], s1, ?_, ?_⟩
      · constructor
        · intro h; exact absurd h (by simp)
        · intro h
          have hy := hr.2 y rfl
          exact absurd hy.2 (h c (List.mem_cons_self _ _) y hy.1)
      · intro z hz
        simp only [Option.some.injEq] at hz
        rw [← hz]
        exact ⟨c, List.mem_cons_self _ _, hr.2 y rfl⟩
    | none =>
      obtain ⟨w2, r2, h2, s2, hn2, hy2⟩ := ih
        (fun d hd => htest d (List.mem_cons_of_mem _ hd)) w1 s1
      refine ⟨w2, r2, by simp only [firstHit, h1]; exact h2, s2, ?_, ?_⟩
      · constructor
        · intro h d hd x hx
          rcases List.mem_cons.mp hd with hd | hd
          · rw [hd] at hx
            exact (hr.1.mp rfl) x hx
          · exact (hn2.mp h) d hd x hx
        · intro h
          exact hn2.mpr (fun d hd => h d (List.mem_cons_of_mem _ hd))
      · intro y hy
        obtain ⟨d, hd, hyd⟩ := hy2 y hy
        exact ⟨d, List.mem_cons_of_mem _ hd, hyd⟩

/-- The function getHit on a sprite, given that getHit is right on each of its children. -/
theorem getHit_node (env : MathEnv F) (n fuel0 fuel : Nat) (point : Vec3 F) (w0 : World F)
    (hinv : TreeInv (parentOf w0) (childrenOf w0))
    (hdepth : ∀ x, ancestorAt (parentOf w0) n x = none)
    (hf0 : 2 * n + 1 ≤ fuel0) (hf : 2 * n + 1 ≤ fuel) (a : Addr)
    (hrec : ∀ c ∈ (w0.sprites a).mChildren, ∀ w, sceneOf env w = sceneOf env w0 →
      ∃ w1 r, getHit env fuel c point w = some (w1, r) ∧ sceneOf env w1 = sceneOf env w0
        ∧ HitResult env fuel0 point w0 c r)
    (w : World F) (hs : sceneOf env w = sceneOf env w0) :
    ∃ w1 r, getHit env (fuel + 1) a point w = some (w1, r) ∧ sceneOf env w1 = sceneOf env w0
      ∧ HitResult env fuel0 point w0 a r := by
  have hloop := firstHit_spec env fuel0 point w0
    (hitChild env fuel point (fun c w0 => getHit env fuel c point w0)) (hitOrder a w)
    (fun c hc => hitChild_spec env n fuel0 fuel point w0 hdepth hf0 hf c
      (hrec c (by
        rw [sceneOf_hitOrder env hs a] at hc
        exact (mem_hitOrder a c w0).mp hc))) w hs
  obtain ⟨w1, r, h1, s1, hn1, hy1⟩ := hloop
  have hmem : ∀ c, c ∈ hitOrder a w ↔ c ∈ (w0.sprites a).mChildren := by
    intro c
    rw [sceneOf_hitOrder env hs a]
    exact mem_hitOrder a c w0
  cases r with
  | some y =>
    refine ⟨w1, some y, by simp only [getHit, h1], s1, ?_, ?_⟩
    · obtain ⟨c, hc, hyc, hhit⟩ := hy1 y rfl
      have hya : InSubtree w0 y a :=
        (inSubtree_iff hinv y a).mpr (Or.inr ⟨c, (hmem c).mp hc, hyc⟩)
      constructor
      · intro h; exact absurd h (by simp)
      · intro h; exact absurd hhit (h y hya)
    · intro z hz
      simp only [Option.some.injEq] at hz
      rw [← hz]
      obtain ⟨c, hc, hyc, hhit⟩ := hy1 y rfl
      exact ⟨(inSubtree_iff hinv y a).mpr (Or.inr ⟨c, (hmem c).mp hc, hyc⟩), hhit⟩
  | none =>
    have hnone := hn1.mp rfl
    have hbelow : ∀ x, InSubtree w0 x a → x ≠ a → ¬ IsHit env fuel0 point w0 x := by
      intro x hx hxa
      rcases (inSubtree_iff hinv x a).mp hx with h | ⟨c, hc, hxc⟩
      · exact absurd h hxa
      · exact hnone c ((hmem c).mpr hc) x hxc
    obtain ⟨w2, b, h2, s2, hb⟩ := hit_test env n fuel0 fuel point w0 w1 hdepth s1 hf0 hf a
    by_cases he : isEnabled a w1 = true
    · cases b with
      | true =>
        have hhit : IsHit env fuel0 point w0 a := hb.mp ⟨he, rfl⟩
        refine ⟨w2, some a, by simp only [getHit, h1, he, if_true, h2], s2, ?_, ?_⟩
        · constructor
          · intro h; exact absurd h (by simp)
          · intro h; exact absurd hhit (h a (Or.inl rfl))
        · intro z hz
          simp only [Option.some.injEq] at hz
          rw [← hz]
          exact ⟨Or.inl rfl, hhit⟩
      | false =>
        refine ⟨w2, none, by simp only [getHit, h1, he, if_true, h2], s2, ?_, ?_⟩
        · constructor
          · intro _ x hx
            by_cases hxa : x = a
            · rw [hxa]
              intro hhit
              have := (hb.mpr hhit).2
              exact absurd this (by simp)
            · exact hbelow x hx hxa
          · intro _; rfl
        · intro z hz; exact absurd hz (by simp)
    · refine ⟨w1, none, by simp only [getHit, h1, he, if_false, Bool.false_eq_true], s1, ?_, ?_⟩
      · constructor
        · intro _ x hx
          by_cases hxa : x = a
          · rw [hxa]
            intro hhit
            exact he (hb.mpr hhit).1
          · exact hbelow x hx hxa
        · intro _; rfl
      · intro z hz; exact absurd hz (by simp)

/-- The function getHit on a sprite whose descendants are at most `h` steps below it: it
returns, keeps the scene, and its answer is right. -/
theorem getHit_spec_height (env : MathEnv F) (n fuel0 : Nat) (point : Vec3 F) (w0 : World F)
    (hinv : TreeInv (parentOf w0) (childrenOf w0))
    (hdepth : ∀ x, ancestorAt (parentOf w0) n x = none) (hf0 : 2 * n + 1 ≤ fuel0) :
    ∀ (h : Nat) (a : Addr) (fuel : Nat),
      (∀ x j, ancestorAt (parentOf w0) j x = some a → j ≤ h) → 2 * n + 2 + h ≤ fuel →
      ∀ w, sceneOf env w = sceneOf env w0 →
        ∃ w1 r, getHit env fuel a point w = some (w1, r) ∧ sceneOf env w1 = sceneOf env w0
          ∧ HitResult env fuel0 point w0 a r := by
  intro h
  induction h with
  | zero =>
    intro a fuel hh hf w hs
    obtain ⟨f, rfl⟩ : ∃ f, fuel = f + 1 := ⟨fuel - 1, by omega⟩
    refine getHit_node env n fuel0 f point w0 hinv hdepth hf0 (by omega) a ?_ w hs
    intro c hc
    have hpc : parentOf w0 c = some a := ((hinv c a).2).mp hc
    have h1 : ancestorAt (parentOf w0) 1 c = some a := by
      simp [ancestorAt, hpc]
    exact absurd (hh c 1 h1) (by omega)
  | succ h ih =>
    intro a fuel hh hf w hs
    obtain ⟨f, rfl⟩ : ∃ f, fuel = f + 1 := ⟨fuel - 1, by omega⟩
    refine getHit_node env n fuel0 f point w0 hinv hdepth hf0 (by omega) a ?_ w hs
    intro c hc
    have hpc : parentOf w0 c = some a := ((hinv c a).2).mp hc
    apply ih c f
    · intro x j hj
      have h1 : ancestorAt (parentOf w0) (j + 1) x = some a := by
        rw [ancestorAt_succ_of _ j x c hj]; exact hpc
      have := hh x (j + 1) h1
      omega
    · omega

end HitSearch

section HitSearchClaim

variable {F : Type} [LinearOrderedCommRing F]

/-- A state in which only the sprites below `k` are in use is a finite tree when the sprites
below `k` pass the checks: each child list without repetition and in agreement with the
parent pointers, children and parents below `k`, and every chain of parents ended after `n`
steps. -/
theorem tree_of_bounded (k n : Nat) (w : World F)
    (hout : ∀ b, k ≤ b → (w.sprites b).mParent = none ∧ (w.sprites b).mChildren = [])
    (hin : ∀ p, p < k → ∀ s, s < k → ((w.sprites p).mChildren.count s ≤ 1
      ∧ (s ∈ (w.sprites p).mChildren ↔ (w.sprites s).mParent = some p)))
    (hch : ∀ p, p < k → ∀ s ∈ (w.sprites p).mChildren, s < k)
    (hpar : ∀ s, s < k → (w.sprites s).mParent.all (fun p => decide (p < k)) = true)
    (hdepth : ∀ x, x < k → ancestorAt (parentOf w) (n + 1) x = none) :
    TreeInv (parentOf w) (childrenOf w) ∧ ∀ x, ancestorAt (parentOf w) (n + 1) x = none := by
  have hparent : ∀ s p, (w.sprites s).mParent = some p → s < k ∧ p < k := by
    intro s p hsp
    by_cases hs : s < k
    · have := hpar s hs
      rw [hsp] at this
      simp only [Option.all_some, decide_eq_true_eq] at this
      exact ⟨hs, this⟩
    · rw [(hout s (Nat.le_of_not_lt hs)).1] at hsp
      exact absurd hsp (by simp)
  refine ⟨?_, ?_⟩
  · intro s p
    simp only [parentOf, childrenOf]
    by_cases hp : p < k
    · by_cases hs : s < k
      · exact hin p hp s hs
      · have hnot : s ∉ (w.sprites p).mChildren := fun h => hs (hch p hp s h)
        refine ⟨by rw [List.count_eq_zero_of_not_mem hnot]; exact Nat.zero_le 1, ?_⟩
        constructor
        · intro h; exact absurd h hnot
        · intro h; exact absurd (hparent s p h).1 hs
    · rw [(hout p (Nat.le_of_not_lt hp)).2]
      refine ⟨by simp, ?_⟩
      constructor
      · intro h; exact absurd h (List.not_mem_nil s)
      · intro h; exact absurd (hparent s p h).2 hp
  · intro x
    by_cases hx : x < k
    · exact hdepth x hx
    · rw [ancestorAt]
      have : parentOf w x = none := (hout x (Nat.le_of_not_lt hx)).1
      rw [this]

/-- C26: getHit is a sound and complete search. In every finite sprite tree (parent pointers
and child lists agree, and every chain of parents has ended after `n` steps), for every
sprite `a` and every point, `a.getHit(point)` returns; it changes transform caches only; it
returns null exactly when no sprite of the subtree of `a`, `a` included, is both enabled and
contains the point (a call of `contains` on it returns true); and a sprite that it returns is
in that subtree, is enabled and contains the point. -/
theorem getHit_sound_and_complete (env : MathEnv F) (n fuel : Nat) (a : Addr) (point : Vec3 F)
    (w : World F) (hinv : TreeInv (parentOf w) (childrenOf w))
    (hdepth : ∀ x, ancestorAt (parentOf w) n x = none) (hfuel : 3 * n + 2 ≤ fuel) :
    ∃ w1 r, getHit env fuel a point w = some (w1, r) ∧ CacheOnly w w1
      ∧ (r = none ↔ ∀ x, InSubtree w x a →
          ¬ (isEnabled x w = true
            ∧ (contains env fuel x point w).map (fun c => c.2) = some true))
      ∧ (∀ y, r = some y → InSubtree w y a ∧ isEnabled y w = true
          ∧ (contains env fuel y point w).map (fun c => c.2) = some true) := by
  have hheight : ∀ x j, ancestorAt (parentOf w) j x = some a → j ≤ n :=
    fun x j hj => Nat.le_of_lt ((depth_bound _ n hdepth).2 a x j hj)
  obtain ⟨w1, r, h1, _, hr⟩ := getHit_spec_height env n fuel point w hinv hdepth (by omega)
    n a fuel hheight (by omega) w rfl
  exact ⟨w1, r, h1, getHit_cacheOnly env point fuel a w w1 r h1, hr.1, hr.2⟩

end HitSearchClaim

/-- The state `hitSiblings` is a finite tree: every chain of parents has ended after two
steps. -/
theorem hitSiblings_tree :
    TreeInv (parentOf hitSiblings) (childrenOf hitSiblings)
    ∧ ∀ x, ancestorAt (parentOf hitSiblings) 2 x = none := by
  apply tree_of_bounded 3 1 hitSiblings
  · intro b hb
    have h0 : b ≠ 0 := fun e => absurd hb (by rw [e]; decide)
    have h1 : b ≠ 1 := fun e => absurd hb (by rw [e]; decide)
    have h2 : b ≠ 2 := fun e => absurd hb (by rw [e]; decide)
    simp [hitSiblings, h0, h1, h2, Sprite.uninit]
  · decide
  · decide
  · decide
  · decide

/-- C26, at the root of `hitSiblings` and the point (50,25): the search returns, and its
answer is null exactly when no sprite of the tree is enabled and contains the point. -/
theorem getHit_sound_and_complete_witness :
    ∃ w1 r, getHit exampleEnv 8 0 ⟨50, 25, 0⟩ hitSiblings = some (w1, r)
      ∧ CacheOnly hitSiblings w1
      ∧ (r = none ↔ ∀ x, InSubtree hitSiblings x 0 →
          ¬ (isEnabled x hitSiblings = true
            ∧ (contains exampleEnv 8 x ⟨50, 25, 0⟩ hitSiblings).map (fun c => c.2)
                = some true))
      ∧ (∀ y, r = some y → InSubtree hitSiblings y 0 ∧ isEnabled y hitSiblings = true
          ∧ (contains exampleEnv 8 y ⟨50, 25, 0⟩ hitSiblings).map (fun c => c.2)
              = some true) :=
  getHit_sound_and_complete exampleEnv 2 8 0 ⟨50, 25, 0⟩ hitSiblings hitSiblings_tree.1
    hitSiblings_tree.2 (by decide)

/-- The searches of `hitSiblings` evaluated: at (50,25) the root returns the child added
last, which is enabled and contains the point; at (500,25) the root is not enabled, no child
contains the point, and the root returns null. -/
theorem hitSiblings_search :
    (getHit exampleEnv 8 0 ⟨50, 25, 0⟩ hitSiblings).map (fun c => c.2) = some (some 2)
    ∧ isEnabled 2 hitSiblings = true
    ∧ (contains exampleEnv 8 2 ⟨50, 25, 0⟩ hitSiblings).map (fun c => c.2) = some true
    ∧ (getHit exampleEnv 8 0 ⟨500, 25, 0⟩ hitSiblings).map (fun c => c.2) = some none
    ∧ isEnabled 0 hitSiblings = false
    ∧ (contains exampleEnv 8 1 ⟨500, 25, 0⟩ hitSiblings).map (fun c => c.2) = some false
    ∧ (contains exampleEnv 8 2 ⟨500, 25, 0⟩ hitSiblings).map (fun c => c.2) = some false := by
  decide!

/-! ### Deferred delete: exactly the requested sprites are deleted (claim C24) -/



section RegistryKept

variable {F : Type} [LinearOrderedCommRing F]

/-- Nothing is lost when nothing happens. -/
theorem RegKeeps.keeps_refl {e : Process F} (h : RegInv e) : RegKeeps e e :=
  ⟨h, fun _ hx => hx, fun _ _ => rfl, fun _ hen _ => hen⟩

/-- Two steps in a row. -/
theorem RegKeeps.keeps_trans {e e1 e2 : Process F} (h1 : RegKeeps e e1) (h2 : RegKeeps e1 e2) :
    RegKeeps e e2 := by
  obtain ⟨_, m1, f1, k1⟩ := h1
  obtain ⟨i2, m2, f2, k2⟩ := h2
  refine ⟨i2, fun x hx => m2 x (m1 x hx), ?_, ?_⟩
  · intro x hx
    have hx1 : x ∉ e1.deleted := fun h => hx (m2 x h)
    rw [f2 x hx, f1 x hx1]
  · intro en hen hd
    have hd1 : en.2 ∉ e1.deleted := fun h => hd (m2 _ h)
    exact k2 en (k1 en hen hd1) hd

/-- A step on the tree fields of the heap loses nothing. -/
theorem RegKeeps.of_treeOnly {e : Process F} {w1 : World F} (h : RegInv e)
    (ht : TreeOnly e.world w1) : RegKeeps e { e with world := w1 } := by
  obtain ⟨hent, huniq, hz⟩ := h
  have hid : ∀ b, (w1.sprites b).mId = (e.world.sprites b).mId := fun b => ht.mId_eq b
  refine ⟨⟨?_, ?_, ?_⟩, fun _ hx => hx, fun x _ => hid x, ?_⟩
  · intro en hen
    rw [hid]
    exact hent en (by rw [← ht.1]; exact hen)
  · intro x y hxy hx
    rw [hid x] at hxy hx
    rw [hid y] at hxy
    exact huniq x y hxy hx
  · intro x hx
    rw [hid]
    exact hz x hx
  · intro en hen _
    show en ∈ w1.mSprites
    rw [ht.1]; exact hen

/-- A function of the tree run on the heap of the process loses nothing. -/
theorem RegKeeps.onWorld_tree {e e1 : Process F} {f : World F → Option (World F)}
    (h : RegInv e) (hf : ∀ w1, f e.world = some w1 → TreeOnly e.world w1)
    (hr : e.onWorld f = some e1) : RegKeeps e e1 := by
  unfold Process.onWorld at hr
  cases hw : f e.world with
  | none => rw [hw] at hr; simp at hr
  | some w1 =>
    rw [hw] at hr
    simp only [Option.some.injEq] at hr
    rw [← hr]
    exact RegKeeps.of_treeOnly h (hf w1 hw)

/-- The call `setSpriteId(0)`: the sprite has the identifier 0, the other sprites have their
identifiers, and the registry has lost exactly the entries of the former identifier of the
sprite. -/
theorem setSpriteId_zero_registry {fuel : Nat} {a : Addr} {w w1 : World F}
    (h : setSpriteId fuel a 0 w = some w1) :
    (w1.sprites a).mId = 0
    ∧ (∀ x, x ≠ a → (w1.sprites x).mId = (w.sprites x).mId)
    ∧ List.Sublist w1.mSprites w.mSprites
    ∧ (∀ en ∈ w.mSprites, en.1 ≠ (w.sprites a).mId ∨ (w.sprites a).mId = 0 → en ∈ w1.mSprites)
    ∧ (∀ en ∈ w1.mSprites, (w.sprites a).mId ≠ 0 → en.1 ≠ (w.sprites a).mId) := by
  unfold setSpriteId at h
  by_cases h0 : (w.sprites a).mId = 0
  · rw [if_pos h0] at h
    simp only [Option.some.injEq] at h
    subst h
    exact ⟨h0, fun _ _ => rfl, List.Sublist.refl _, fun _ hen _ => hen,
      fun _ _ hne => absurd h0 hne⟩
  · rw [if_neg h0] at h
    simp only [EMPTY_SPRITE_ID, ne_eq, h0, not_false_eq_true, if_true, modify_sprites_same,
      not_true_eq_false, if_false] at h
    have ht := markAsDirty_treeOnly h
    have hs : w1.mSprites = (unregisterSprite a w).mSprites := by
      rw [ht.1]; rfl
    refine ⟨?_, ?_, ?_, ?_, ?_⟩
    · rw [ht.mId_eq a]
      simp only [modify_sprites_same]
    · intro x hx
      rw [ht.mId_eq x, modify_sprites_ne _ _ hx, unregisterSprite_sprites]
    · rw [hs]; exact unregisterSprite_sublist a w
    · intro en hen hk
      have hk1 : en.1 ≠ (w.sprites a).mId := hk.resolve_right h0
      rw [hs]
      unfold unregisterSprite
      split
      · exact hen
      · split
        · exact hen
        · simp only [List.mem_filter, Bool.not_eq_true', beq_eq_false_iff_ne, ne_eq]
          exact ⟨hen, hk1⟩
    · intro en hen _
      rw [hs] at hen
      unfold unregisterSprite at hen
      split at hen
      · rename_i hemp
        rw [List.isEmpty_iff.mp hemp] at hen
        exact absurd hen (List.not_mem_nil en)
      · split at hen
        · rename_i hz
          exact absurd hz h0
        · simp only [List.mem_filter, Bool.not_eq_true', beq_eq_false_iff_ne, ne_eq] at hen
          exact hen.2

/-- The end of `delete a`: `setSpriteId(0)` and the object is gone. -/
theorem RegKeeps.zero_and_delete {fuel : Nat} {a : Addr} {e e1 : Process F} (h : RegInv e)
    (hr : e.onWorld (setSpriteId fuel a 0) = some e1) :
    RegKeeps e { e1 with deleted := a :: e1.deleted } := by
  unfold Process.onWorld at hr
  cases hw : setSpriteId fuel a 0 e.world with
  | none => rw [hw] at hr; simp at hr
  | some w1 =>
    rw [hw] at hr
    simp only [Option.some.injEq] at hr
    subst hr
    obtain ⟨hent, huniq, hz⟩ := h
    obtain ⟨ha, ho, hsub, hkeep, hgone⟩ := setSpriteId_zero_registry hw
    have hid : ∀ x, (w1.sprites x).mId = (e.world.sprites x).mId ∨ (w1.sprites x).mId = 0 := by
      intro x
      by_cases hx : x = a
      · right; rw [hx]; exact ha
      · left; exact ho x hx
    refine ⟨⟨?_, ?_, ?_⟩, ?_, ?_, ?_⟩
    · intro en hen
      have hen0 : en ∈ e.world.mSprites := hsub.subset hen
      show (w1.sprites en.2).mId = en.1
      by_cases hx : en.2 = a
      · have hk : en.1 = (e.world.sprites a).mId := by rw [← hx]; exact (hent en hen0).symm
        by_cases h0 : (e.world.sprites a).mId = 0
        · rw [hx, ha, hk, h0]
        · exact absurd hk (hgone en hen h0)
      · rw [ho _ hx]; exact hent en hen0
    · intro x y hxy hx
      show x = y
      have hx1 : (w1.sprites x).mId ≠ EMPTY_SPRITE_ID := hx
      have hxy1 : (w1.sprites x).mId = (w1.sprites y).mId := hxy
      rcases hid x with e1 | e1
      · rcases hid y with e2 | e2
        · rw [e1] at hx1
          rw [e1, e2] at hxy1
          exact huniq x y hxy1 hx1
        · exfalso
          rw [e2] at hxy1
          exact hx1 hxy1
      · exact absurd e1 hx1
    · intro x hx
      show (w1.sprites x).mId = EMPTY_SPRITE_ID
      rcases List.mem_cons.mp hx with hx | hx
      · rw [hx]; exact ha
      · by_cases hxa : x = a
        · rw [hxa]; exact ha
        · rw [ho x hxa]; exact hz x hx
    · intro x hx
      exact List.mem_cons_of_mem _ hx
    · intro x hx
      have hxa : x ≠ a := fun h => hx (by rw [h]; exact List.mem_cons_self _ _)
      exact ho x hxa
    · intro en hen hd
      have hxa : en.2 ≠ a := fun h => hd (by rw [h]; exact List.mem_cons_self _ _)
      apply hkeep en hen
      by_cases h0 : (e.world.sprites a).mId = 0
      · exact Or.inr h0
      · left
        intro hk
        apply hxa
        apply huniq en.2 a
        · rw [hent en hen]; exact hk
        · rw [hent en hen, hk]; exact h0

/-- The step `removeParent()` on the heap of the process loses nothing. -/
theorem RegKeeps.removeParent_step {fuel : Nat} {a : Addr} {e e1 : Process F} (h : RegInv e)
    (hr : e.onWorld (removeParent fuel a) = some e1) : RegKeeps e e1 :=
  RegKeeps.onWorld_tree h (fun w1 hw => (tree_treeOnly fuel).2.2.2 a e.world w1 hw) hr

/-- A loop over sprites loses no more than its rounds. -/
theorem forEachSprite_keeps (body : Addr → Process F → Option (Process F))
    (hbody : ∀ c e e1, RegInv e → body c e = some e1 → RegKeeps e e1) :
    ∀ (cs : List Addr) (e e1 : Process F), RegInv e → forEachSprite body cs e = some e1 →
      RegKeeps e e1 := by
  intro cs
  induction cs with
  | nil =>
    intro e e1 h hr
    simp only [forEachSprite, Option.some.injEq] at hr
    rw [← hr]
    exact RegKeeps.keeps_refl h
  | cons c cs ih =>
    intro e e1 h hr
    simp only [forEachSprite] at hr
    cases hb : body c e with
    | none => rw [hb] at hr; simp at hr
    | some e2 =>
      rw [hb] at hr
      have k1 := hbody c e e2 h hb
      exact k1.keeps_trans (ih e2 e1 k1.1 hr)

/-- The expression `delete a` loses the entries of deleted sprites only, when `clear` does. -/
theorem deleteSprite_keeps (clear : Addr → Process F → Option (Process F))
    (hclear : ∀ x e e1, RegInv e → clear x e = some e1 → RegKeeps e e1)
    (fuel : Nat) (a : Addr) (e e1 : Process F) (h : RegInv e)
    (hr : deleteSprite clear fuel a e = some e1) : RegKeeps e e1 := by
  unfold deleteSprite destructor remove at hr
  cases hc : clear a e with
  | none => rw [hc] at hr; simp at hr
  | some ea =>
    rw [hc] at hr
    simp only at hr
    have k1 := hclear a e ea h hc
    cases hp : ea.onWorld (removeParent fuel a) with
    | none => rw [hp] at hr; simp at hr
    | some eb =>
      rw [hp] at hr
      simp only at hr
      have k2 := RegKeeps.removeParent_step k1.1 hp
      cases hz : eb.onWorld (setSpriteId fuel a 0) with
      | none => rw [hz] at hr; simp at hr
      | some ec =>
        rw [hz] at hr
        simp only [Option.some.injEq] at hr
        rw [← hr]
        exact k1.keeps_trans (k2.keeps_trans (RegKeeps.zero_and_delete k2.1 hz))

/-- The function `clearChildren` loses the entries of deleted sprites only. -/
theorem clearChildren_keeps : ∀ (fuel : Nat) (a : Addr) (e e1 : Process F), RegInv e →
    clearChildren fuel a e = some e1 → RegKeeps e e1 := by
  intro fuel
  induction fuel with
  | zero => intro a e e1 _ hr; simp [clearChildren] at hr
  | succ fuel ih =>
    intro a e e1 h hr
    rw [clearChildren] at hr
    have k0 : RegKeeps e
        { e with world := e.world.modify a (fun s => { s with mChildren := [] }) } :=
      RegKeeps.of_treeOnly h
        (TreeOnly.modify_tree e.world a _ (fun s => ⟨s.mParent, [], s.mDirty, rfl⟩))
    refine k0.keeps_trans (forEachSprite_keeps _ ?_ _ _ _ k0.1 hr)
    intro c e0 e4 h0 hb
    simp only at hb
    cases hp : e0.onWorld (removeParent fuel c) with
    | none => rw [hp] at hb; simp at hb
    | some e2 =>
      rw [hp] at hb
      simp only at hb
      have k1 := RegKeeps.removeParent_step h0 hp
      cases hc : clearChildren fuel c e2 with
      | none => rw [hc] at hb; simp at hb
      | some e3 =>
        rw [hc] at hb
        simp only at hb
        have k2 := ih c e2 e3 k1.1 hc
        have k3 := deleteSprite_keeps (fun x e4 => clearChildren fuel x e4)
          (fun x ex ey hx hxr => ih x ex ey hx hxr) fuel c e3 e4 k2.1 hb
        exact k1.keeps_trans (k2.keeps_trans k3)

/-- The function `removeAndDelete` loses the entries of deleted sprites only. -/
theorem removeAndDelete_keeps (fuel : Nat) (a : Addr) (e e1 : Process F) (h : RegInv e)
    (hr : removeAndDelete fuel a e = some e1) : RegKeeps e e1 := by
  unfold removeAndDelete remove at hr
  cases hc : clearChildren fuel a e with
  | none => simp only [hc] at hr; simp at hr
  | some ea =>
    simp only [hc] at hr
    have k1 := clearChildren_keeps fuel a e ea h hc
    cases hp : ea.onWorld (removeParent fuel a) with
    | none => rw [hp] at hr; simp at hr
    | some eb =>
      rw [hp] at hr
      simp only at hr
      have k2 := RegKeeps.removeParent_step k1.1 hp
      have k3 := deleteSprite_keeps (fun x e4 => clearChildren fuel x e4)
        (fun x ex ey hx hxr => clearChildren_keeps fuel x ex ey hx hxr) fuel a eb e1 k2.1 hr
      exact k1.keeps_trans (k2.keeps_trans k3)

end RegistryKept

section DeferredExact

variable {F : Type} [LinearOrderedCommRing F]

/-- In a sound registry an entry is what the lookup of its identifier finds. -/
theorem findSprite_of_mem (w : World F) (hent : ∀ en ∈ w.mSprites, (w.sprites en.2).mId = en.1)
    (huniq : UniqueIds w) (hreg : RegistryValid w) (id : sprite_id_t) (a : Addr)
    (h : (id, a) ∈ w.mSprites) : findSprite w id = some a := by
  rw [findSprite_eq]
  cases hf : w.mSprites.find? (fun e => e.1 == id) with
  | none =>
    have := List.find?_eq_none.mp hf (id, a) h
    simp at this
  | some en =>
    have hk : en.1 = id := by
      have := List.find?_some hf
      simpa using this
    have hm : en ∈ w.mSprites := List.mem_of_find?_eq_some hf
    have h1 : (w.sprites en.2).mId = (w.sprites a).mId := by
      rw [hent en hm, hent (id, a) h, hk]
    have h2 : (w.sprites en.2).mId ≠ EMPTY_SPRITE_ID := by
      rw [hent en hm]; exact hreg en hm
    simp only [Option.map_some', Option.some.injEq]
    exact huniq en.2 a h1 h2

/-- A chain of parents in a state where parent pointers have been cleared is a chain of the
state before. -/
theorem ancestorAt_some_of_cut (P Q : Addr → Option Addr)
    (hQ : ∀ x, Q x = P x ∨ Q x = none) :
    ∀ (k : Nat) (x a : Addr), ancestorAt Q k x = some a → ancestorAt P k x = some a := by
  intro k
  induction k with
  | zero => intro x a h; exact h
  | succ k ih =>
    intro x a h
    rw [ancestorAt] at h ⊢
    rcases hQ x with hx | hx
    · rw [hx] at h
      cases hp : P x with
      | none => rw [hp] at h; simp at h
      | some q =>
        rw [hp] at h
        exact ih q a h
    · rw [hx] at h
      simp at h

/-- A chain of parents is kept when the parent pointers along it are. -/
theorem ancestorAt_of_kept (P Q : Addr → Option Addr) :
    ∀ (j : Nat) (x a : Addr), ancestorAt P j x = some a →
      (∀ i y, i < j → ancestorAt P i x = some y → Q y = P y) → ancestorAt Q j x = some a := by
  intro j
  induction j with
  | zero => intro x a h _; exact h
  | succ j ih =>
    intro x a h hk
    have hx : Q x = P x := hk 0 x (Nat.succ_pos j) rfl
    rw [ancestorAt] at h ⊢
    rw [hx]
    cases hp : P x with
    | none => rw [hp] at h; simp at h
    | some q =>
      rw [hp] at h
      simp only at h ⊢
      apply ih q a h
      intro i y hi hy
      apply hk (i + 1) y (Nat.succ_lt_succ hi)
      rw [ancestorAt, hp]
      exact hy

/-- A sprite below a sprite of the subtree of `s` is in the subtree of `s`. -/
theorem inSubtree_trans (w : World F) {x a s : Addr} (h1 : InSubtree w x a)
    (h2 : InSubtree w a s) : InSubtree w x s := by
  rcases h1 with h1 | h1
  · rw [h1]; exact h2
  · rcases h2 with h2 | h2
    · rw [← h2]; exact Or.inr h1
    · exact Or.inr (isDescendant_trans _ h1 h2)

/-- The state after `removeAndDelete` of a registered sprite `s` of a sound process: it
returns; the process is sound again; exactly the sprites of the subtree of `s` are deleted,
they have no parent, no children and are not found; every other sprite keeps its parent, its
identifier, and its child list without `s`; the registry has lost exactly the entries of the
subtree; the pending list is as before. -/
theorem removeAndDelete_exact (n fuel : Nat) (e : Process F) (s : Addr)
    (hsound : SoundProcess n e) (hf : n + 5 ≤ fuel) :
    ∃ e2, removeAndDelete fuel s e = some e2
      ∧ SoundProcess n e2
      ∧ e2.mRequestDelete = e.mRequestDelete
      ∧ (∀ x, x ∈ e2.deleted ↔ x ∈ e.deleted ∨ InSubtree e.world x s)
      ∧ (∀ x, InSubtree e.world x s →
          parentOf e2.world x = none ∧ childrenOf e2.world x = []
          ∧ findSprite e2.world (e.world.sprites x).mId = none)
      ∧ (∀ x, ¬ InSubtree e.world x s →
          parentOf e2.world x = parentOf e.world x
          ∧ childrenOf e2.world x = (childrenOf e.world x).filter (fun y => y != s)
          ∧ (e2.world.sprites x).mId = (e.world.sprites x).mId)
      ∧ (∀ en, en ∈ e2.world.mSprites ↔ en ∈ e.world.mSprites ∧ ¬ InSubtree e.world en.2 s)
      ∧ List.Sublist e2.world.mSprites e.world.mSprites := by
  obtain ⟨hgood, huniq, hz⟩ := hsound
  obtain ⟨e2, _, h2, hD, hO, hS, hp, hdel⟩ := deleteObject_tree e n fuel s hgood hf
  have g2 := deleteObject_goodTree e e2 n s hgood hD hO hS
  have hinv : RegInv e := ⟨hgood.2.2.2.2, huniq, hz⟩
  obtain ⟨i2, _, _, k2⟩ := removeAndDelete_keeps fuel s e e2 hinv h2
  refine ⟨e2, h2, ⟨g2, i2.2.1, i2.2.2⟩, hp, hdel, hD, hO, ?_, hS⟩
  intro en
  constructor
  · intro hen
    refine ⟨hS.subset hen, ?_⟩
    intro hsub
    have hnone := (hD en.2 hsub).2.2
    rw [hgood.2.2.2.2 en (hS.subset hen)] at hnone
    exact not_mem_of_findSprite_none _ _ en.2 hnone hen
  · intro ⟨hen, hsub⟩
    apply k2 en hen
    intro hd
    rcases (hdel en.2).mp hd with hd0 | hd0
    · have h0 := hz en.2 hd0
      rw [hgood.2.2.2.2 en hen] at h0
      exact hgood.2.2.2.1 en hen h0
    · exact hsub hd0

/-- After `removeAndDelete` of the sprite `s` found under `id`, the sprites requested by
`id :: ids` in the state before are the subtree of `s` and the sprites requested by `ids` in
the state after. -/
theorem requestedBy_cons_found (n : Nat) (e e2 : Process F) (id : sprite_id_t)
    (ids : List sprite_id_t) (s : Addr) (hsound : SoundProcess n e) (hsound2 : SoundProcess n e2)
    (hfind : findSprite e.world id = some s)
    (hD : ∀ x, InSubtree e.world x s → parentOf e2.world x = none)
    (hO : ∀ x, ¬ InSubtree e.world x s → parentOf e2.world x = parentOf e.world x)
    (hR : ∀ en, en ∈ e2.world.mSprites ↔ en ∈ e.world.mSprites ∧ ¬ InSubtree e.world en.2 s)
    (x : Addr) :
    RequestedBy (id :: ids) e.world x ↔ InSubtree e.world x s ∨ RequestedBy ids e2.world x := by
  obtain ⟨hgood, huniq, hz⟩ := hsound
  obtain ⟨hgood2, huniq2, _⟩ := hsound2
  have hcut : ∀ y, parentOf e2.world y = parentOf e.world y ∨ parentOf e2.world y = none := by
    intro y
    by_cases hy : InSubtree e.world y s
    · exact Or.inr (hD y hy)
    · exact Or.inl (hO y hy)
  constructor
  · intro ⟨i, hi, a, hia, hxa⟩
    by_cases hxs : InSubtree e.world x s
    · exact Or.inl hxs
    · right
      rcases List.mem_cons.mp hi with h | h
      · exfalso
        rw [h, hfind] at hia
        simp only [Option.some.injEq] at hia
        rw [← hia] at hxa
        exact hxs hxa
      · have has : ¬ InSubtree e.world a s := fun h => hxs (inSubtree_trans _ hxa h)
        have hmem : (i, a) ∈ e2.world.mSprites :=
          (hR (i, a)).mpr ⟨findSprite_some_mem _ _ _ hia, has⟩
        refine ⟨i, h, a, findSprite_of_mem _ hgood2.2.2.2.2 huniq2 hgood2.2.2.2.1 i a hmem, ?_⟩
        rcases hxa with hxa | ⟨j, hj⟩
        · exact Or.inl hxa
        · right
          refine ⟨j, ancestorAt_of_kept _ _ (j + 1) x a hj ?_⟩
          intro k y hk hy
          apply hO y
          intro hys
          apply hxs
          -- `x` is `y` or below `y`, and `y` is in the subtree of `s`
          cases k with
          | zero =>
            simp only [ancestorAt, Option.some.injEq] at hy
            rw [hy]; exact hys
          | succ k => exact inSubtree_trans _ (Or.inr ⟨k, hy⟩) hys
  · intro h
    rcases h with h | ⟨i, hi, a, hia, hxa⟩
    · exact ⟨id, List.mem_cons_self _ _, s, hfind, h⟩
    · have hmem : (i, a) ∈ e.world.mSprites :=
        ((hR (i, a)).mp (findSprite_some_mem _ _ _ hia)).1
      refine ⟨i, List.mem_cons_of_mem _ hi, a,
        findSprite_of_mem _ hgood.2.2.2.2 huniq hgood.2.2.2.1 i a hmem, ?_⟩
      rcases hxa with hxa | ⟨j, hj⟩
      · exact Or.inl hxa
      · exact Or.inr ⟨j, ancestorAt_some_of_cut _ _ hcut (j + 1) x a hj⟩

/-- The loop of `deleteRequestedSprites` in a sound process: it returns, the process is sound
again, the pending list is untouched, and exactly the requested sprites have been
deleted. -/
theorem deleteRequestedLoop_exact (n fuel : Nat) (hf : n + 5 ≤ fuel) :
    ∀ (ids : List sprite_id_t) (e : Process F), SoundProcess n e →
    ∃ e1, deleteRequestedLoop fuel ids e = some e1
      ∧ SoundProcess n e1
      ∧ e1.mRequestDelete = e.mRequestDelete
      ∧ DeletesRequested ids e e1 := by
  intro ids
  induction ids with
  | nil =>
    intro e hsound
    have hno : ∀ x, ¬ RequestedBy [] e.world x := by
      intro x ⟨i, hi, _⟩
      exact absurd hi (List.not_mem_nil i)
    refine ⟨e, rfl, hsound, rfl, ?_, ?_, ?_, ?_, List.Sublist.refl _⟩
    · intro x
      exact ⟨fun h => Or.inl h, fun h => h.resolve_right (hno x)⟩
    · intro x hx; exact absurd hx (hno x)
    · intro x _
      exact ⟨rfl, rfl, List.Sublist.refl _, fun y => ⟨fun h => ⟨h, hno y⟩, fun h => h.1⟩⟩
    · intro en
      exact ⟨fun h => ⟨h, hno en.2⟩, fun h => h.1⟩
  | cons id ids ih =>
    intro e hsound
    cases hfind : findSprite e.world id with
    | none =>
      obtain ⟨e1, h1, s1, p1, d1⟩ := ih e hsound
      have hreq : ∀ x, RequestedBy (id :: ids) e.world x ↔ RequestedBy ids e.world x := by
        intro x
        constructor
        · intro ⟨i, hi, a, hia, hxa⟩
          rcases List.mem_cons.mp hi with h | h
          · rw [h, hfind] at hia
            simp at hia
          · exact ⟨i, h, a, hia, hxa⟩
        · intro ⟨i, hi, a, hia, hxa⟩
          exact ⟨i, List.mem_cons_of_mem _ hi, a, hia, hxa⟩
      refine ⟨e1, by simp only [deleteRequestedLoop, hfind]; exact h1, s1, p1, ?_⟩
      unfold DeletesRequested
      simp only [hreq]
      exact d1
    | some s =>
      obtain ⟨e2, h2, s2, p2, hdel, hD, hO, hR, hS⟩ := removeAndDelete_exact n fuel e s hsound hf
      obtain ⟨e1, h1, s1, p1, dA, dB, dC, dE, dS⟩ := ih e2 s2
      have hkey := requestedBy_cons_found n e e2 id ids s hsound s2 hfind
        (fun x hx => (hD x hx).1) (fun x hx => (hO x hx).1) hR
      have hinv := hsound.1.1
      refine ⟨e1, by simp only [deleteRequestedLoop, hfind, h2]; exact h1, s1, p1.trans p2,
        ?_, ?_, ?_, ?_, dS.trans hS⟩
      · intro x
        rw [dA x, hdel x, hkey x, or_assoc]
      · intro x hx
        have hfindx : findSprite e1.world (e.world.sprites x).mId = none := by
          by_cases hxs : InSubtree e.world x s
          · exact findSprite_none_of_sublist _ _ dS _ (hD x hxs).2.2
          · have hx2 : RequestedBy ids e2.world x := ((hkey x).mp hx).resolve_left hxs
            rw [← (hO x hxs).2.2]
            exact (dB x hx2).2.2
        by_cases hx2 : RequestedBy ids e2.world x
        · exact ⟨(dB x hx2).1, (dB x hx2).2.1, hfindx⟩
        · have hxs : InSubtree e.world x s := ((hkey x).mp hx).resolve_right hx2
          obtain ⟨c1, _, _, c4⟩ := dC x hx2
          refine ⟨by rw [c1]; exact (hD x hxs).1, ?_, hfindx⟩
          apply List.eq_nil_iff_forall_not_mem.mpr
          intro y hy
          have := ((c4 y).mp hy).1
          rw [(hD x hxs).2.1] at this
          exact absurd this (List.not_mem_nil y)
      · intro x hx
        have hxs : ¬ InSubtree e.world x s := fun h => hx ((hkey x).mpr (Or.inl h))
        have hx2 : ¬ RequestedBy ids e2.world x := fun h => hx ((hkey x).mpr (Or.inr h))
        obtain ⟨c1, c2, c3, c4⟩ := dC x hx2
        obtain ⟨o1, o2, o3⟩ := hO x hxs
        refine ⟨c1.trans o1, c2.trans o3, ?_, ?_⟩
        · refine c3.trans ?_
          rw [o2]
          exact List.filter_sublist _
        · intro y
          rw [c4 y, o2, hkey y]
          simp only [List.mem_filter, bne_iff_ne, ne_eq, decide_not, Bool.not_eq_true',
            decide_eq_false_iff_not, not_or]
          constructor
          · intro ⟨⟨hy, hys⟩, hy2⟩
            refine ⟨hy, ?_, hy2⟩
            intro hsub
            rcases hsub with h | h
            · exact hys h
            · have hpy : parentOf e.world y = some x := ((hinv y x).2).mp hy
              rcases parent_of_descendant _ h hpy with h3 | h3
              · exact hxs (Or.inl h3)
              · exact hxs (Or.inr h3)
          · intro ⟨hy, hys, hy2⟩
            exact ⟨⟨hy, fun h => hys (Or.inl h)⟩, hy2⟩
      · intro en
        rw [dE en, hR en, hkey en.2, not_or, and_assoc]

end DeferredExact

section PendingList

variable {F : Type} [LinearOrderedCommRing F]

/-- A function of the tree does not read the pending list. -/
theorem onWorld_withPending (f : World F → Option (World F)) (l : List sprite_id_t)
    (e : Process F) :
    (e.withPending l).onWorld f = (e.onWorld f).map (Process.withPending l) := by
  unfold Process.onWorld Process.withPending
  cases f e.world <;> rfl

/-- A loop over sprites does not read the pending list when its body does not. -/
theorem forEachSprite_withPending (body : Addr → Process F → Option (Process F))
    (l : List sprite_id_t)
    (hbody : ∀ c e, body c (e.withPending l) = (body c e).map (Process.withPending l)) :
    ∀ (cs : List Addr) (e : Process F),
      forEachSprite body cs (e.withPending l)
        = (forEachSprite body cs e).map (Process.withPending l) := by
  intro cs
  induction cs with
  | nil => intro e; rfl
  | cons c cs ih =>
    intro e
    simp only [forEachSprite, hbody]
    cases body c e with
    | none => rfl
    | some e1 => exact ih e1

/-- The expression `delete a` does not read the pending list when `clear` does not. -/
theorem deleteSprite_withPending (clear : Addr → Process F → Option (Process F))
    (l : List sprite_id_t)
    (hclear : ∀ x e, clear x (e.withPending l) = (clear x e).map (Process.withPending l))
    (fuel : Nat) (a : Addr) (e : Process F) :
    deleteSprite clear fuel a (e.withPending l)
      = (deleteSprite clear fuel a e).map (Process.withPending l) := by
  unfold deleteSprite destructor remove
  rw [hclear]
  cases clear a e with
  | none => rfl
  | some ea =>
    simp only [Option.map_some', onWorld_withPending]
    cases ea.onWorld (removeParent fuel a) with
    | none => rfl
    | some eb =>
      simp only [Option.map_some', onWorld_withPending]
      cases eb.onWorld (setSpriteId fuel a 0) with
      | none => rfl
      | some ec => rfl

/-- The function `clearChildren` does not read the pending list. -/
theorem clearChildren_withPending (l : List sprite_id_t) : ∀ (fuel : Nat) (a : Addr)
    (e : Process F),
    clearChildren fuel a (e.withPending l)
      = (clearChildren fuel a e).map (Process.withPending l) := by
  intro fuel
  induction fuel with
  | zero => intro a e; rfl
  | succ fuel ih =>
    intro a e
    rw [clearChildren_eq, clearChildren_eq]
    have hbody : ∀ c (e0 : Process F), clearChild fuel c (e0.withPending l)
        = (clearChild fuel c e0).map (Process.withPending l) := by
      intro c e0
      unfold clearChild
      rw [onWorld_withPending]
      cases e0.onWorld (removeParent fuel c) with
      | none => rfl
      | some e2 =>
        simp only [Option.map_some', ih]
        cases clearChildren fuel c e2 with
        | none => rfl
        | some e3 =>
          simp only [Option.map_some']
          exact deleteSprite_withPending _ l (fun x ex => ih x ex) fuel c e3
    exact forEachSprite_withPending (clearChild fuel) l hbody (e.world.sprites a).mChildren
      (clearList a e)

/-- The function `removeAndDelete` does not read the pending list. -/
theorem removeAndDelete_withPending (l : List sprite_id_t) (fuel : Nat) (a : Addr)
    (e : Process F) :
    removeAndDelete fuel a (e.withPending l)
      = (removeAndDelete fuel a e).map (Process.withPending l) := by
  unfold removeAndDelete remove deleteObject
  simp only [clearChildren_withPending]
  cases clearChildren fuel a e with
  | none => rfl
  | some ea =>
    simp only [Option.map_some', onWorld_withPending]
    cases ea.onWorld (removeParent fuel a) with
    | none => rfl
    | some eb =>
      simp only [Option.map_some']
      exact deleteSprite_withPending _ l (fun x ex => clearChildren_withPending l fuel x ex)
        fuel a eb

/-- The loop of `deleteRequestedSprites` reads the identifiers that it is given, not the
pending list of the process. -/
theorem deleteRequestedLoop_withPending (l : List sprite_id_t) (fuel : Nat) :
    ∀ (ids : List sprite_id_t) (e : Process F),
      deleteRequestedLoop fuel ids (e.withPending l)
        = (deleteRequestedLoop fuel ids e).map (Process.withPending l) := by
  intro ids
  induction ids with
  | nil => intro e; rfl
  | cons id ids ih =>
    intro e
    have hw : (e.withPending l).world = e.world := rfl
    simp only [deleteRequestedLoop, hw]
    cases findSprite e.world id with
    | none => exact ih e
    | some s =>
      simp only [removeAndDelete_withPending]
      cases removeAndDelete fuel s e with
      | none => rfl
      | some e1 => exact ih e1

/-- The loop over two lists in a row. -/
theorem deleteRequestedLoop_append (fuel : Nat) (post : List sprite_id_t) :
    ∀ (pre : List sprite_id_t) (e : Process F),
      deleteRequestedLoop fuel (pre ++ post) e
        = (deleteRequestedLoop fuel pre e).bind (deleteRequestedLoop fuel post) := by
  intro pre
  induction pre with
  | nil => intro e; rfl
  | cons id pre ih =>
    intro e
    rw [List.cons_append]
    cases hfind : findSprite e.world id with
    | none =>
      simp only [deleteRequestedLoop, hfind]
      exact ih e
    | some s =>
      cases hr : removeAndDelete fuel s e with
      | none => simp only [deleteRequestedLoop, hfind, hr, Option.none_bind]
      | some e1 =>
        simp only [deleteRequestedLoop, hfind, hr]
        exact ih e1

end PendingList

section DeferredClaim

variable {F : Type} [LinearOrderedCommRing F]

/-- C24: deferred delete, in a sound process (a forest of depth below `n`, a registry whose
entries hold the identifiers of their sprites, process-unique identifiers).
`requestDeleteSprite` appends the identifier of the sprite to the pending list and changes
nothing else: the heap with all parents and child lists and the registry are as before.
`deleteRequestedSprites` returns with an empty pending list and a sound process in which
exactly the requested sprites (the subtrees of the sprites registered under a pending
identifier) are deleted: a requested sprite is deleted, has no parent, no children and its
identifier is not found; no other sprite is deleted, and every other sprite keeps its parent
and its identifier, stays registered, and its child list has lost exactly the requested
sprites; no
pending identifier is found afterwards. A pending identifier that is not in the registry when
its turn comes (it was never registered, or it is a duplicate or belongs to a descendant of a
sprite requested before it) is skipped: the call gives what it gives without that
identifier. -/
theorem deferred_delete (n fuel : Nat) (e : Process F) (a : Addr)
    (hsound : SoundProcess n e) (hf : n + 5 ≤ fuel) :
    ((requestDeleteSprite a e).world = e.world
      ∧ (requestDeleteSprite a e).deleted = e.deleted
      ∧ (requestDeleteSprite a e).mRequestDelete
          = e.mRequestDelete ++ [(e.world.sprites a).mId])
    ∧ (∃ e1, deleteRequestedSprites fuel e = some e1
        ∧ e1.mRequestDelete = []
        ∧ SoundProcess n e1
        ∧ (∀ x, x ∈ e1.deleted ↔ x ∈ e.deleted ∨ RequestedBy e.mRequestDelete e.world x)
        ∧ (∀ x, RequestedBy e.mRequestDelete e.world x →
            parentOf e1.world x = none ∧ childrenOf e1.world x = []
            ∧ findSprite e1.world (e.world.sprites x).mId = none)
        ∧ (∀ x, ¬ RequestedBy e.mRequestDelete e.world x →
            parentOf e1.world x = parentOf e.world x
            ∧ (e1.world.sprites x).mId = (e.world.sprites x).mId
            ∧ List.Sublist (childrenOf e1.world x) (childrenOf e.world x)
            ∧ ∀ y, y ∈ childrenOf e1.world x ↔
                y ∈ childrenOf e.world x ∧ ¬ RequestedBy e.mRequestDelete e.world y)
        ∧ (∀ id s, findSprite e1.world id = some s ↔
            findSprite e.world id = some s ∧ ¬ RequestedBy e.mRequestDelete e.world s)
        ∧ (∀ id ∈ e.mRequestDelete, findSprite e1.world id = none))
    ∧ (∀ (pre : List sprite_id_t) (id : sprite_id_t) (post : List sprite_id_t),
        e.mRequestDelete = pre ++ id :: post →
        (findSprite e.world id = none
          ∨ ∃ s, findSprite e.world id = some s ∧ RequestedBy pre e.world s) →
        deleteRequestedSprites fuel e
          = deleteRequestedSprites fuel (e.withPending (pre ++ post))) := by
  refine ⟨⟨rfl, rfl, rfl⟩, ?_, ?_⟩
  · obtain ⟨e1, h1, s1, _, dA, dB, dC, dE, _⟩ :=
      deleteRequestedLoop_exact n fuel hf e.mRequestDelete e hsound
    have hlook : ∀ id s, findSprite e1.world id = some s ↔
        findSprite e.world id = some s ∧ ¬ RequestedBy e.mRequestDelete e.world s := by
      intro id s
      constructor
      · intro h
        obtain ⟨hm, hn⟩ := (dE (id, s)).mp (findSprite_some_mem _ _ _ h)
        exact ⟨findSprite_of_mem _ hsound.1.2.2.2.2 hsound.2.1 hsound.1.2.2.2.1 id s hm, hn⟩
      · intro ⟨h, hn⟩
        have hm := (dE (id, s)).mpr ⟨findSprite_some_mem _ _ _ h, hn⟩
        exact findSprite_of_mem _ s1.1.2.2.2.2 s1.2.1 s1.1.2.2.2.1 id s hm
    refine ⟨{ e1 with mRequestDelete := [] }, ?_, rfl, s1, dA, dB, dC, hlook, ?_⟩
    · simp only [deleteRequestedSprites, h1]
    · intro id hid
      show findSprite e1.world id = none
      cases hfe : findSprite e1.world id with
      | none => rfl
      | some s =>
        exfalso
        obtain ⟨h0, hn⟩ := (hlook id s).mp hfe
        exact hn ⟨id, hid, s, h0, Or.inl rfl⟩
  · intro pre id post hpending hskip
    obtain ⟨ep, hp, sp, _, _, dB, _, _, dS⟩ := deleteRequestedLoop_exact n fuel hf pre e hsound
    have hnone : findSprite ep.world id = none := by
      rcases hskip with h | ⟨s, hs, hreq⟩
      · exact findSprite_none_of_sublist _ _ dS _ h
      · have hid : (e.world.sprites s).mId = id :=
          hsound.1.2.2.2.2 (id, s) (findSprite_some_mem _ _ _ hs)
        rw [← hid]
        exact (dB s hreq).2.2
    have hloop : deleteRequestedLoop fuel (pre ++ id :: post) e
        = deleteRequestedLoop fuel (pre ++ post) e := by
      rw [deleteRequestedLoop_append, deleteRequestedLoop_append, hp]
      simp only [Option.some_bind, deleteRequestedLoop, hnone]
    have hw : (e.withPending (pre ++ post)).mRequestDelete = pre ++ post := rfl
    unfold deleteRequestedSprites
    rw [hpending, hloop, hw, deleteRequestedLoop_withPending]
    cases deleteRequestedLoop fuel (pre ++ post) e with
    | none => rfl
    | some e1 => rfl

end DeferredClaim

/-- A process with the heap `dirtyPair`, any pending list and nothing deleted is sound. -/
theorem dirtyPair_sound (l : List sprite_id_t) : SoundProcess 2 ⟨dirtyPair, l, []⟩ := by
  refine ⟨dirtyPair_goodTree, ?_, fun x hx => absurd hx (List.not_mem_nil x)⟩
  have hrec : ∀ b, b ≠ 0 → b ≠ 1 → (dirtyPair.sprites b).mId = EMPTY_SPRITE_ID := by
    intro b h0 h1
    simp [dirtyPair, h0, h1, Sprite.uninit]
  have h0 : (dirtyPair.sprites 0).mId = 1 := rfl
  have h1 : (dirtyPair.sprites 1).mId = 2 := rfl
  intro x y hxy hx
  by_cases hx0 : x = 0
  · by_cases hy0 : y = 0
    · rw [hx0, hy0]
    · by_cases hy1 : y = 1
      · rw [hx0, hy1, h0, h1] at hxy
        exact absurd hxy (by decide)
      · rw [hx0, h0, hrec y hy0 hy1] at hxy
        exact absurd hxy (by decide)
  · by_cases hx1 : x = 1
    · by_cases hy0 : y = 0
      · rw [hx1, hy0, h0, h1] at hxy
        exact absurd hxy (by decide)
      · by_cases hy1 : y = 1
        · rw [hx1, hy1]
        · rw [hx1, h1, hrec y hy0 hy1] at hxy
          exact absurd hxy (by decide)
    · exact absurd (hrec x hx0 hx1) hx

/-- C24, at the tree of `dirtyPair`: the child (identifier 2) is requested twice; the
requests leave the heap as it is; `deleteRequestedSprites` returns with an empty pending
list; the child is deleted, is out of the child list of the root and is not found; the root
is not deleted and is still found; the second request is skipped. -/
theorem deferred_delete_witness :
    (requestDeleteSprite 1 (requestDeleteSprite 1 ⟨dirtyPair, [], []⟩)).mRequestDelete = [2, 2]
    ∧ (requestDeleteSprite 1 ⟨dirtyPair, [], []⟩).world = dirtyPair
    ∧ (∃ e1, deleteRequestedSprites 7 ⟨dirtyPair, [2, 2], []⟩ = some e1
        ∧ e1.mRequestDelete = []
        ∧ 1 ∈ e1.deleted ∧ 0 ∉ e1.deleted
        ∧ 1 ∉ childrenOf e1.world 0
        ∧ findSprite e1.world 2 = none ∧ findSprite e1.world 1 = some 0)
    ∧ deleteRequestedSprites 7 ⟨dirtyPair, [2, 2], []⟩
        = deleteRequestedSprites 7 ⟨dirtyPair, [2], []⟩ := by
  have h := deferred_delete 2 7 ⟨dirtyPair, [2, 2], []⟩ 1 (dirtyPair_sound [2, 2]) (by decide)
  have hreq1 : RequestedBy [2, 2] dirtyPair 1 :=
    ⟨2, List.mem_cons_self _ _, 1, by decide, Or.inl rfl⟩
  have hreq0 : ¬ RequestedBy [2, 2] dirtyPair 0 := by
    intro ⟨i, hi, a, hia, hxa⟩
    have hi2 : i = 2 := by
      simp only [List.mem_cons, List.mem_singleton, List.not_mem_nil, or_false, or_self] at hi
      exact hi
    rw [hi2] at hia
    have ha : a = 1 := by
      have h2 : findSprite dirtyPair 2 = some 1 := by decide
      rw [h2] at hia
      exact (Option.some.inj hia).symm
    rw [ha] at hxa
    rcases hxa with hx | ⟨j, hj⟩
    · exact absurd hx (by decide)
    · rw [ancestorAt] at hj
      have hp : parentOf dirtyPair 0 = none := rfl
      rw [hp] at hj
      simp at hj
  obtain ⟨e1, hr, hp, _, dA, dB, dC, hlook, hn⟩ := h.2.1
  refine ⟨rfl, rfl, ⟨e1, hr, hp, (dA 1).mpr (Or.inr hreq1), ?_, ?_, hn 2 (by decide), ?_⟩, ?_⟩
  · intro h0
    rcases (dA 0).mp h0 with h0 | h0
    · exact absurd h0 (List.not_mem_nil 0)
    · exact hreq0 h0
  · intro hm
    exact (((dC 0 hreq0).2.2.2 1).mp hm).2 hreq1
  · exact (hlook 1 0).mpr ⟨by decide, hreq0⟩
  · exact h.2.2 [2] 2 [] rfl (Or.inr ⟨1, by decide, 2, List.mem_singleton.mpr rfl, 1,
      by decide, Or.inl rfl⟩)

end DsCinder
